import Mathlib

/-! Verification of the `method` numeric library.

A shallow embedding of the Go sources (`ml/ols`, `numpy/npCorr`, `timeSeries/acf`,
`timeSeries/adfuller`, `propagator/metaorder/hist`, `quant/market/fundingratemodel/fastinv`)
together with machine-checked statements about them.

Conventions of the embedding.

* `float64` values are exact rationals (`ℚ`): all results are statements about exact
  arithmetic.  Where the source produces or can produce a non-finite value that a statement
  talks about (the autocorrelation outputs), the value is an `F64`, which adds `NaN` and `±Inf`.
  The FFT-based autocorrelation needs the complex roots of unity and is computed in `ℝ`.
* A Go function returning `(T, error)` returns a pair whose second component is
  `Option GoError`; a run-time panic is the value `none` of an outer `Option`.
* Routines of third-party libraries (`math`, `gonum`) that have no exact rational
  counterpart are fields of the parameter `NumLib`.
-/

set_option autoImplicit false

namespace Method

/-! ## Errors -/

/-- The two codes of package `errCode` used by the sources. -/
inductive errCode where
  | EMPTY_VALUE
  | INVALID_VALUE
  deriving DecidableEq, Repr

/-- A Go `error`: a structured `errorx` value built by `errorx.New(code, msg)` (only the code
is kept), or an unstructured error built by `fmt.Errorf(msg)`, which carries no code. -/
inductive GoError where
  | errorx (code : errCode)
  | plain (msg : String)
  deriving DecidableEq, Repr

/-- The code of an error, when it has one. -/
def GoError.code? : GoError → Option errCode
  | .errorx c => some c
  | .plain _ => none

/-! ## External numeric routines -/

/-- Result of a thin singular value decomposition of a square matrix (`mat.SVD` after
`UTo`, `VTo` and `Values`). -/
structure SVD (k : ℕ) where
  U : Matrix (Fin k) (Fin k) ℚ
  Values : Fin k → ℚ
  V : Matrix (Fin k) (Fin k) ℚ

/-- Third-party numeric routines used by the sources: `math.Sqrt`, `math.Log`, `math.Pi`,
the survival function of `distuv.StudentsT` with location 0, scale 1 and `Nu` degrees of
freedom, and `mat.SVD.Factorize` (which reports failure by returning `false`, here `none`). -/
structure NumLib where
  Sqrt : ℚ → ℚ
  Log : ℚ → ℚ
  Pi : ℚ
  StudentsTSurvival : ℚ → ℚ → ℚ
  SVDFactorize : (k : ℕ) → Matrix (Fin k) (Fin k) ℚ → Option (SVD k)

/-- Modelled from the spec: `mat.Dense.Inverse` of gonum is not part of the sources; the
spec says "Attempt to invert `G`. On failure, compute `G⁺`".  In exact arithmetic the attempt
fails exactly when the matrix is singular, and otherwise yields the inverse. -/
def Inverse {k : ℕ} (A : Matrix (Fin k) (Fin k) ℚ) : Option (Matrix (Fin k) (Fin k) ℚ) :=
  if A.det = 0 then none else some (A.det⁻¹ • A.adjugate)

/-! ## `ml/ols/multi_regr.go` -/

/-- The record `MultiLinearModel`. -/
structure MultiLinearModel where
  Coeffs : List ℚ
  SE : List ℚ
  TStats : List ℚ
  PValues : List ℚ
  Resids : List ℚ
  AIC : ℚ
  BIC : ℚ
  Sigma2 : ℚ
  RSquared : ℚ
  AdjRSquared : ℚ
  deriving DecidableEq, Repr

/-- The Go zero value `MultiLinearModel{}`: nil slices and zero numbers. -/
def MultiLinearModel.zero : MultiLinearModel :=
  { Coeffs := [], SE := [], TStats := [], PValues := [], Resids := [],
    AIC := 0, BIC := 0, Sigma2 := 0, RSquared := 0, AdjRSquared := 0 }

/-- The constant `tol := 1e-12` of `pseudoInverse`. -/
def pinvTol : ℚ := 1 / 10 ^ 12

/-- Function `pseudoInverse` (multi_regr.go 263-297) for the square matrix it is called on:
`V * Σ⁺ * Uᵀ`, where `Σ⁺` holds `1/σ_i` on the diagonal for every singular value above the
tolerance `1e-12` and zero elsewhere.  A failed factorisation is an `INVALID_VALUE` error. -/
def pseudoInverse (lib : NumLib) {k : ℕ} (A : Matrix (Fin k) (Fin k) ℚ) :
    Except GoError (Matrix (Fin k) (Fin k) ℚ) :=
  match lib.SVDFactorize k A with
  | none => .error (.errorx .INVALID_VALUE)
  | some svd =>
    let sInv : Matrix (Fin k) (Fin k) ℚ :=
      Matrix.of fun i j => if i = j ∧ pinvTol < svd.Values i then 1 / svd.Values i else 0
    .ok ((svd.V * sInv) * svd.U.transpose)

/-- Function `addConstantColumn` (multi_regr.go 300-316): every row becomes a row of `k + 1` entries,
`k` the length of the first row: a leading `1` followed by a copy of the row (truncated or
zero-padded to `k` entries, as `copy` into a slice of length `k` does). -/
def addConstantColumn (X : List (List ℚ)) : List (List ℚ) :=
  let k := (X.headD []).length
  X.map fun row => 1 :: (List.range k).map fun j => row.getD j 0

/-- The dense `n × k` matrix built by `copy(dataX[i*k:(i+1)*k], X[i])` and `mat.NewDense`:
entry `(i, j)` is `X[i][j]`, or `0` where row `i` is shorter than `k`. -/
def toDense (n k : ℕ) (X : List (List ℚ)) : Matrix (Fin n) (Fin k) ℚ :=
  Matrix.of fun i j => (X.getD i.val []).getD j.val 0

/-- The vector `mat.NewVecDense(n, Y)`. -/
def toVecDense (n : ℕ) (Y : List ℚ) : Fin n → ℚ :=
  fun i => Y.getD i.val 0

/-- Function `MultiRegressionMat` (multi_regr.go 27-132), in exact arithmetic.  Division is
the total division of `ℚ`; statements about a quotient assume its divisor is non-zero. -/
def MultiRegressionMat (lib : NumLib) {n k : ℕ} (matX : Matrix (Fin n) (Fin k) ℚ)
    (matY : Fin n → ℚ) : MultiLinearModel × Option GoError :=
  let XT := matX.transpose
  let XTX := XT * matX
  -- (X'X)^(-1), with the pseudo-inverse as fallback
  let inv? : Except GoError (Matrix (Fin k) (Fin k) ℚ) :=
    match Inverse XTX with
    | some inv => .ok inv
    | none => pseudoInverse lib XTX
  match inv? with
  | .error errSVD => (MultiLinearModel.zero, some errSVD)
  | .ok invXTX =>
    let XTY := XT.mulVec matY
    let beta := invXTX.mulVec XTY
    let Yhat := matX.mulVec beta
    let resid := matY - Yhat
    let RSS := Matrix.dotProduct resid resid
    let df : ℚ := (((n : ℤ) - (k : ℤ) : ℤ) : ℚ)
    let sigma2 := RSS / df
    let SE : Fin k → ℚ := fun i => lib.Sqrt (sigma2 * invXTX i i)
    let tStats : Fin k → ℚ := fun i => beta i / SE i
    if df ≤ 0 then (MultiLinearModel.zero, some (.errorx .INVALID_VALUE)) else
    let pValues : Fin k → ℚ := fun i => 2 * lib.StudentsTSurvival df |tStats i|
    let Ymean := (∑ i, matY i) / (n : ℚ)
    let TSS := ∑ i, (matY i - Ymean) * (matY i - Ymean)
    let RSq := 1 - RSS / TSS
    let AdjRSq := 1 - (1 - RSq) * (((n : ℤ) - 1 : ℤ) : ℚ) / df
    let logLik := -(1 / 2) * (n : ℚ) * (1 + lib.Log (2 * lib.Pi * RSS / (n : ℚ)))
    let AIC := -2 * logLik + 2 * (k : ℚ)
    let BIC := -2 * logLik + (k : ℚ) * lib.Log (n : ℚ)
    ({ Coeffs := List.ofFn beta, SE := List.ofFn SE, TStats := List.ofFn tStats,
       PValues := List.ofFn pValues, Resids := List.ofFn resid, AIC := AIC, BIC := BIC,
       Sigma2 := sigma2, RSquared := RSq, AdjRSquared := AdjRSq }, none)

/-- Function `MultiRegression` (multi_regr.go 134-260).  Lines 157-259 of the source repeat the body
of `MultiRegressionMat` verbatim (apart from a log line), so the embedding calls it on the
matrix built at lines 150-155.  `mat.NewDense` panics on a zero column count, which is the
outer `none`. -/
def MultiRegression (lib : NumLib) (X : List (List ℚ)) (Y : List ℚ) (withConst : Bool) :
    Option (MultiLinearModel × Option GoError) :=
  let n := Y.length
  if n = 0 ∨ X.length = 0 then some (MultiLinearModel.zero, some (.errorx .EMPTY_VALUE)) else
  let X1 := if withConst then addConstantColumn X else X
  let k := (X1.headD []).length
  if n ≠ X1.length then some (MultiLinearModel.zero, some (.errorx .INVALID_VALUE)) else
  if k = 0 then none else
  some (MultiRegressionMat lib (toDense n k X1) (toVecDense n Y))

/-! ## Floating-point results that may be non-finite -/

/-- A `float64` result that may be non-finite: a finite value, `NaN`, `+Inf` or `-Inf`. -/
inductive F64 (K : Type) where
  | fin (x : K)
  | nan
  | posInf
  | negInf
  deriving DecidableEq, Repr

/-- Change of the carrier of the finite values. -/
def F64.map {K K2 : Type} (f : K → K2) : F64 K → F64 K2
  | .fin x => .fin (f x)
  | .nan => .nan
  | .posInf => .posInf
  | .negInf => .negInf

/-- IEEE division of two finite numbers: `0/0` is `NaN`, `x/0` is `±Inf` with the sign of
`x` (the divisors of the sources are non-negative, so a zero divisor is `+0`). -/
def fdiv {K : Type} [LinearOrderedField K] [DecidableEq K] [DecidableRel (α := K) (· < ·)]
    (a b : K) : F64 K :=
  if b = 0 then (if a = 0 then .nan else if 0 < a then .posInf else .negInf)
  else .fin (a / b)

/-! ## `numpy/npCorr/np_corrlate.go` -/

/-- The type `CORRELATE_MODE` is a Go `uint`; its three named values are `iota` constants. -/
abbrev CORRELATE_MODE := ℕ

def FULL_MODE : CORRELATE_MODE := 0

def VALID_MODE : CORRELATE_MODE := 1

def SAME_MODE : CORRELATE_MODE := 2

/-- Function `Correlate` (np_corrlate.go 8-49).  Lengths and indices are Go `int`s (here `ℤ`);
`make` with a negative length panics (the outer `none`).  Entry `i` of the output is the
sum over `j < m` of `a[i + start - j] * v[j]` for the indices inside `a`. -/
def Correlate (a v : List ℚ) (mode : CORRELATE_MODE) :
    Option (Option (List ℚ) × Option GoError) :=
  let n : ℤ := a.length
  let m : ℤ := v.length
  if n ≤ 2 ∨ m ≤ 2 then some (none, some (.errorx .INVALID_VALUE)) else
  if mode ≠ FULL_MODE ∧ mode ≠ VALID_MODE ∧ mode ≠ SAME_MODE then
    some (none, some (.errorx .INVALID_VALUE)) else
  if mode = VALID_MODE ∧ m > n then some (some [], some (.errorx .INVALID_VALUE)) else
  let outLen : ℤ :=
    if mode = FULL_MODE then n + m - 1
    else if mode = VALID_MODE then n
    else n - m + 1
  if outLen < 0 then none else
  let start : ℤ :=
    if mode = SAME_MODE then (m - 1) / 2
    else if mode = VALID_MODE then m - 1
    else 0
  let out : List ℚ := (List.range outLen.toNat).map fun i =>
    (List.range v.length).foldl (fun (sum : ℚ) (j : ℕ) =>
      let ai : ℤ := (i : ℤ) + start - (j : ℤ)
      if 0 ≤ ai ∧ ai < n then sum + a.getD ai.toNat 0 * v.getD j 0 else sum) 0
  some (some out, none)

/-! ## `timeSeries/acf` -/

/-- Modelled from the spec: `myTools.ArrMean` is not part of the sources; the spec computes
`u = s − mean(s)` with the arithmetic mean. -/
def ArrMean (x : List ℚ) : ℚ :=
  x.sum / (x.length : ℚ)

/-- Modelled from the spec: `myTools.WelfordVariancePopulation` is not part of the sources;
the spec says it returns the population variance (divide by `n`). -/
def WelfordVariancePopulation (x : List ℚ) : ℚ :=
  (x.map fun v => (v - ArrMean x) * (v - ArrMean x)).sum / (x.length : ℚ)

/-- Function `AutoCorrSingeSegment` (acf_base.go 11-53). -/
def AutoCorrSingeSegment (series : List ℚ) (maxLag : ℤ) :
    Option (Option (List (F64 ℚ)) × Option GoError) :=
  let n := series.length
  if n = 0 then some (none, some (.errorx .EMPTY_VALUE)) else
  if maxLag ≤ 0 then some (none, some (.errorx .INVALID_VALUE)) else
  let mean := ArrMean series
  -- subtract mean
  let u := series.map fun x => x - mean
  -- full correlate
  match Correlate u u FULL_MODE with
  | none => none
  | some (_, some err) => some (none, some err)
  | some (acfFull, none) =>
    -- take positive lags: acf[n-1:]
    let acf := (acfFull.getD []).drop (n - 1)
    let acf := if (acf.length : ℤ) > maxLag then acf.take maxLag.toNat else acf
    -- compute variance
    let v2 := u.foldl (fun s x => s + x * x) 0
    let varValue := v2 / (n : ℚ)
    -- normalize: acf[k] /= var * (n-k)
    some (some ((List.range acf.length).map fun k =>
      fdiv (acf.getD k 0) (varValue * (((n : ℤ) - (k : ℤ) : ℤ) : ℚ))), none)

/-- The record `MultiSegments`. -/
structure MultiSegments where
  eps : List (List ℚ)
  totalN : ℤ
  mean : ℚ
  variance : ℚ
  deriving DecidableEq, Repr

/-- Function `NewMultiSeg` (acf_mutli_base.go 28-51); a nil pointer is `none`. -/
def NewMultiSeg (epsSegments : List (List ℚ)) : Option MultiSegments × Option GoError :=
  if epsSegments.length = 0 then (none, some (.errorx .EMPTY_VALUE)) else
  let N : ℤ := epsSegments.foldl (fun N seg => N + (seg.length : ℤ)) 0
  let allSegments : List ℚ := epsSegments.foldl (fun all seg => all ++ seg) []
  if N = 0 then (none, some (.errorx .EMPTY_VALUE)) else
  let meanValue := ArrMean allSegments
  let varValue := WelfordVariancePopulation allSegments
  if varValue = 0 then (none, some (.errorx .INVALID_VALUE)) else
  (some { eps := epsSegments, totalN := N, mean := meanValue, variance := varValue }, none)

/-- The two inner loops shared by `AutoCorrSegments` (lines 66-90) and the worker of
`AutoCorrSegmentsParallel` (lines 128-146): the numerator `num` and the pair count `cnt` of
lag `k`, accumulated over the segments longer than `k`. -/
def lagAccum (mean : ℚ) (eps : List (List ℚ)) (k : ℕ) : ℚ × ℤ :=
  eps.foldl (fun acc seg =>
    let n : ℤ := seg.length
    let nk : ℤ := n - (k : ℤ)
    if nk ≤ 0 then acc else
    let segk := seg.drop k
    let seg0 := seg.take nk.toNat
    ((List.range nk.toNat).foldl (fun num i =>
        let dx := seg0.getD i 0 - mean
        let dy := segk.getD i 0 - mean
        num + dx * dy) acc.1,
     acc.2 + nk)) (0, 0)

/-- The lag loop of `AutoCorrSegments` (lines 66-100) from lag `k` on, `rem` lags left:
at the first lag without pairs the rest of the output is `NaN` and the loop stops. -/
def acfLoop (s : MultiSegments) : ℕ → ℕ → List (F64 ℚ)
  | 0, _ => []
  | rem + 1, k =>
    let nc := lagAccum s.mean s.eps k
    if nc.2 = 0 then List.replicate (rem + 1) F64.nan
    else fdiv nc.1 (s.variance * (nc.2 : ℚ)) :: acfLoop s rem (k + 1)

/-- Function `AutoCorrSegments` (acf_mutli_base.go 54-103). -/
def AutoCorrSegments (s : MultiSegments) (maxLag : ℤ) :
    Option (List (F64 ℚ)) × Option GoError :=
  if maxLag ≤ 0 then (none, some (.errorx .INVALID_VALUE)) else
  (some (acfLoop s maxLag.toNat 0), none)

/-- The body of a worker of `AutoCorrSegmentsParallel` for the lag `k` it pulled from the
task channel (lines 127-153): the value it stores in `results[k]`. -/
def parallelWorker (s : MultiSegments) (k : ℕ) : F64 ℚ :=
  let nc := lagAccum s.mean s.eps k
  if nc.2 = 0 then F64.nan else fdiv nc.1 (s.variance * (nc.2 : ℚ))

/-- Function `AutoCorrSegmentsParallel` (acf_mutli_base.go 105-173).  The workers take the lags
`0 .. maxLag-1` from the channel, each lag once, and store into `results[k]`; `order` is the
order in which the stores happen.  The error for `maxLag ≤ 0` is built by `fmt.Errorf`. -/
def AutoCorrSegmentsParallel (s : MultiSegments) (maxLag : ℤ) (order : List ℕ) :
    Option (List (F64 ℚ)) × Option GoError :=
  if maxLag ≤ 0 then (none, some (.plain "maxLag must be > 0")) else
  let results : List (F64 ℚ) := List.replicate maxLag.toNat (F64.fin 0)
  (some (order.foldl (fun res k => res.set k (parallelWorker s k)) results), none)

/-! ## `timeSeries/acf/acf_multi_convolve.go` -/

/-- The loop of `nextPow2` (acf_multi_convolve.go 102-108): double `p` while `p < n`. -/
def nextPow2Loop (n p : ℕ) (hp : 0 < p) : ℕ :=
  if h : p < n then nextPow2Loop n (p * 2) (by omega) else p
termination_by n - p
decreasing_by omega

/-- Function `nextPow2` (acf_multi_convolve.go 102-108). -/
def nextPow2 (n : ℕ) : ℕ :=
  nextPow2Loop n 1 (by decide)

/-- The primitive `L`-th root of unity `exp(2πi/L)`. -/
noncomputable def fftRoot (L : ℕ) : ℂ :=
  Complex.exp (2 * Real.pi * Complex.I / L)

/-- The discrete Fourier coefficient `X_f = Σ_{t<L} x_t · exp(−2πi·f·t/L)`. -/
noncomputable def dftCoeff (L : ℕ) (x : ℕ → ℝ) (f : ℕ) : ℂ :=
  ∑ t in Finset.range L, (x t : ℂ) * (fftRoot L)⁻¹ ^ (f * t)

/-- Modelled from the spec: `fourier.FFT.Coefficients` of gonum is not part of the sources;
the spec calls it the real FFT of the sequence.  For a real sequence of length `L` it
returns the `L/2 + 1` coefficients `X_0 .. X_{L/2}` of the exact discrete Fourier
transform. -/
noncomputable def fftCoefficients (seq : List ℝ) : List ℂ :=
  (List.range (seq.length / 2 + 1)).map fun f =>
    dftCoeff seq.length (fun t => seq.getD t 0) f

/-- Modelled from the spec: `fourier.FFT.Sequence` of gonum is not part of the sources; the
spec calls it the unnormalised inverse FFT (forward followed by inverse multiplies by `L`).
From the `L/2 + 1` coefficients it rebuilds the real sequence of length `L` whose spectrum
is their Hermitian extension `C_f = conj C_{L−f}`: `x_t = Re Σ_{f<L} C_f · exp(2πi·f·t/L)`. -/
noncomputable def fftSequence (L : ℕ) (coeff : List ℂ) : List ℝ :=
  (List.range L).map fun t =>
    (∑ f in Finset.range L,
      (if 2 * f ≤ L then coeff.getD f 0 else (starRingEnd ℂ) (coeff.getD (L - f) 0))
        * fftRoot L ^ (f * t)).re

/-- The body of the segment loop of `AutoCorrSegmentsFFT` (lines 41-83): the update of
`numerator` and `pairCnt` (both of length `maxLag`) by one segment. -/
noncomputable def fftSegment (mean : ℚ) (maxLag : ℕ) (acc : List ℝ × List ℤ)
    (seg : List ℚ) : List ℝ × List ℤ :=
  let T := seg.length
  if T = 0 then acc else
  -- zero-padded, mean-subtracted copy of length L
  let L := nextPow2 (2 * T)
  let seq : List ℝ := (List.range L).map fun i =>
    if i < T then ((seg.getD i 0 - mean : ℚ) : ℝ) else 0
  let coeff := fftCoefficients seq
  -- c * conj(c) = re^2 + im^2
  let coeff := coeff.map fun c => ((c.re * c.re + c.im * c.im : ℝ) : ℂ)
  let acTime := fftSequence L coeff
  let scale : ℝ := 1 / (L : ℝ)
  let maxK := if maxLag > T then T else maxLag
  ((List.range maxLag).map fun k =>
      if k < maxK then acc.1.getD k 0 + acTime.getD k 0 * scale else acc.1.getD k 0,
   (List.range maxLag).map fun k =>
      if k < maxK then acc.2.getD k 0 + ((T : ℤ) - (k : ℤ)) else acc.2.getD k 0)

/-- The normalisation loop of `AutoCorrSegmentsFFT` (lines 88-98) from lag `k` on, `rem`
lags left. -/
noncomputable def fftFinal (variance : ℝ) (numerator : List ℝ) (pairCnt : List ℤ) :
    ℕ → ℕ → List (F64 ℝ)
  | 0, _ => []
  | rem + 1, k =>
    if pairCnt.getD k 0 = 0 then List.replicate (rem + 1) F64.nan
    else fdiv (numerator.getD k 0) (variance * ((pairCnt.getD k 0 : ℤ) : ℝ))
      :: fftFinal variance numerator pairCnt rem (k + 1)

/-- Function `AutoCorrSegmentsFFT` (acf_multi_convolve.go 25-100), in exact real arithmetic. -/
noncomputable def AutoCorrSegmentsFFT (s : MultiSegments) (maxLag : ℤ) :
    Option (List (F64 ℝ)) × Option GoError :=
  if maxLag ≤ 0 then (none, some (.errorx .INVALID_VALUE)) else
  let acc := s.eps.foldl (fftSegment s.mean maxLag.toNat)
    (List.replicate maxLag.toNat 0, List.replicate maxLag.toNat 0)
  (some (fftFinal (s.variance : ℝ) acc.1 acc.2 maxLag.toNat 0), none)

/-! ### A concrete instance of the numeric routines -/

/-- A factorisation that succeeds on diagonal matrices with non-negative, non-increasing
diagonal (`U = V = 1`, the singular values are the diagonal) and reports failure otherwise. -/
def diagSVD (k : ℕ) (A : Matrix (Fin k) (Fin k) ℚ) : Option (SVD k) :=
  if (∀ i j, i ≠ j → A i j = 0) ∧ (∀ i, 0 ≤ A i i) ∧ (∀ i j, i ≤ j → A j j ≤ A i i) then
    some { U := 1, Values := fun i => A i i, V := 1 }
  else none

/-- An exact rational instance of `NumLib` on which the embedding can be evaluated: the
rational square root (exact on squares), a first-order logarithm, `22/7` and a rational
survival curve. -/
def ratLib : NumLib where
  Sqrt := Rat.sqrt
  Log := fun q => q - 1
  Pi := 22 / 7
  StudentsTSurvival := fun _ t => 1 / (2 * (1 + |t|))
  SVDFactorize := diagSVD

/-! ## Definitions used to state the properties -/

/-- The exact inverse returned by `Inverse` on a non-singular matrix. -/
def exactInv {k : ℕ} (A : Matrix (Fin k) (Fin k) ℚ) : Matrix (Fin k) (Fin k) ℚ :=
  A.det⁻¹ • A.adjugate

/-- The coefficient vector `(XᵀX)⁻¹ Xᵀ y`. -/
def olsBeta {n k : ℕ} (M : Matrix (Fin n) (Fin k) ℚ) (y : Fin n → ℚ) : Fin k → ℚ :=
  (exactInv (M.transpose * M)).mulVec (M.transpose.mulVec y)

/-- The residual vector `y − Xβ` of the coefficient vector `olsBeta`. -/
def olsResid {n k : ℕ} (M : Matrix (Fin n) (Fin k) ℚ) (y : Fin n → ℚ) : Fin n → ℚ :=
  y - M.mulVec (olsBeta M y)

/-- The total sum of squares `Σ (y_i − ȳ)²`. -/
def olsTSS {n : ℕ} (y : Fin n → ℚ) : ℚ :=
  ∑ i, (y i - (∑ i, y i) / (n : ℚ)) * (y i - (∑ i, y i) / (n : ℚ))

/-- The record assembled by `MultiRegressionMat` (lines 53-131) once the matrix `invXTX` is
known and the degrees of freedom are positive. -/
def olsModel {n k : ℕ} (lib : NumLib) (M : Matrix (Fin n) (Fin k) ℚ) (y : Fin n → ℚ)
    (invXTX : Matrix (Fin k) (Fin k) ℚ) : MultiLinearModel :=
  let beta := invXTX.mulVec (M.transpose.mulVec y)
  let resid := y - M.mulVec beta
  let RSS := Matrix.dotProduct resid resid
  let df : ℚ := (((n : ℤ) - (k : ℤ) : ℤ) : ℚ)
  let sigma2 := RSS / df
  let SE : Fin k → ℚ := fun i => lib.Sqrt (sigma2 * invXTX i i)
  let tStats : Fin k → ℚ := fun i => beta i / SE i
  let RSq := 1 - RSS / olsTSS y
  let logLik := -(1 / 2) * (n : ℚ) * (1 + lib.Log (2 * lib.Pi * RSS / (n : ℚ)))
  { Coeffs := List.ofFn beta, SE := List.ofFn SE, TStats := List.ofFn tStats,
    PValues := List.ofFn fun i => 2 * lib.StudentsTSurvival df |tStats i|,
    Resids := List.ofFn resid, AIC := -2 * logLik + 2 * (k : ℚ),
    BIC := -2 * logLik + (k : ℚ) * lib.Log (n : ℚ), Sigma2 := sigma2, RSquared := RSq,
    AdjRSquared := 1 - (1 - RSq) * (((n : ℤ) - 1 : ℤ) : ℚ) / df }

/-- The design matrix handed to the solver: the input, with a constant column in front when
`withConst` is set (multi_regr.go 140-142). -/
def design (X : List (List ℚ)) (withConst : Bool) : List (List ℚ) :=
  if withConst then addConstantColumn X else X

/-- The matrix `V * Σ⁺ * Uᵀ` assembled by `pseudoInverse` from a factorisation. -/
def pinvOf {k : ℕ} (svd : SVD k) : Matrix (Fin k) (Fin k) ℚ :=
  (svd.V * Matrix.of fun i j => if i = j ∧ pinvTol < svd.Values i then 1 / svd.Values i else 0)
    * svd.U.transpose

/-- The pair count of lag `k`: `Σ_j max(0, n_j − k)`. -/
def pairsK (eps : List (List ℚ)) (k : ℕ) : ℕ :=
  (eps.map fun seg => seg.length - k).sum

/-- The numerator of lag `k`: `Σ_j Σ_{t < n_j − k} (s_t − μ)(s_{t+k} − μ)`. -/
def numK (mean : ℚ) (eps : List (List ℚ)) (k : ℕ) : ℚ :=
  (eps.map fun seg => ((List.range (seg.length - k)).map fun t =>
    (seg.getD t 0 - mean) * (seg.getD (t + k) 0 - mean)).sum).sum

/-- The length of the longest segment. -/
def maxSegLen (eps : List (List ℚ)) : ℕ :=
  (eps.map List.length).foldr max 0

/-- The numerator contributed by one segment at lag `k`. -/
def segNum (mean : ℚ) (seg : List ℚ) (k : ℕ) : ℚ :=
  ((List.range (seg.length - k)).map fun t =>
    (seg.getD t 0 - mean) * (seg.getD (t + k) 0 - mean)).sum

/-! ## `timeSeries/adfuller` -/

/-- The tail tag `LEFT_TAIL` (adf_const.go). -/
def LEFT_TAIL : String := "left_tail"

/-- The tail tag `RIGHT_TAIL` (adf_const.go). -/
def RIGHT_TAIL : String := "right_tail"

/-- The type `LagMode` is a Go `int`; its named values are `iota` constants. -/
abbrev LagMode := ℤ

def LAG_MODE_AIC : LagMode := 0

def LAG_MODE_BIC : LagMode := 1

def LAG_MODE_TSTAT : LagMode := 2

def LAG_MODE_ERROR : LagMode := 3

/-- The record `ADFResult`.  `AIC` and `BIC` start at `+Inf`, so they are `F64` values; the
map `Criticals` is an association list (a nil or empty map is `[]`). -/
structure ADFResult where
  Gamma : ℚ
  TStat : ℚ
  PValue : ℚ
  UsedLag : ℤ
  NObs : ℤ
  AIC : F64 ℚ
  BIC : F64 ℚ
  Method : LagMode
  Trend : String
  Criticals : List (String × ℚ)
  Tail : String
  Resid : List ℚ
  Coeffs : List ℚ
  deriving DecidableEq, Repr

/-- The table `adfLeftTailCriticalValues`; an unknown trend tag reads a nil map. -/
def adfLeftTailCriticalValues (regr : String) : List (String × ℚ) :=
  if regr = "n" then [("1%", -258 / 100), ("5%", -195 / 100), ("10%", -162 / 100)]
  else if regr = "c" then [("1%", -343 / 100), ("5%", -286 / 100), ("10%", -257 / 100)]
  else if regr = "ct" then [("1%", -396 / 100), ("5%", -341 / 100), ("10%", -313 / 100)]
  else []

/-- The table `adfRightTailCriticalValues`; an unknown trend tag reads a nil map. -/
def adfRightTailCriticalValues (regr : String) : List (String × ℚ) :=
  if regr = "n" then [("1%", 258 / 100), ("5%", 195 / 100), ("10%", 162 / 100)]
  else if regr = "c" then [("1%", 343 / 100), ("5%", 286 / 100), ("10%", 257 / 100)]
  else if regr = "ct" then [("1%", 396 / 100), ("5%", 341 / 100), ("10%", 313 / 100)]
  else []

/-- Function `diff` (adf_base.go 46-52): `d[i-1] = x[i] - x[i-1]`.  On an empty slice
`make([]float64, -1)` panics (`none`). -/
def diff (x : List ℚ) : Option (List ℚ) :=
  if x.length = 0 then none
  else some ((List.range (x.length - 1)).map fun i => x.getD (i + 1) 0 - x.getD i 0)

/-- The number of columns `nCol` chosen at adf_base.go 119-125: `lag + 2` for `"c"` and
`"n"`, `lag + 3` for `"ct"`, and the zero value for every other tag. -/
def adfNCol (regr : String) (lag : ℕ) : ℕ :=
  let nCol := if regr = "c" ∨ regr = "n" then lag + 2 else 0
  if regr = "ct" then lag + 3 else nCol

/-- The entries written into the flat buffer `X` for row `i` (adf_base.go 129-146): the
level `ylag1[i]`, then `1` unless the tag is `"n"`, then `i + 1` when the tag is `"ct"`, then
`dy[maxLag-j : len(dy)-j][i]` for `j = lag, lag-1, .., 1`. -/
def adfRow (dy ylag1 : List ℚ) (regr : String) (maxLag lag i : ℕ) : List ℚ :=
  [ylag1.getD i 0]
    ++ (if regr ≠ "n" then [1] else [])
    ++ (if regr = "ct" then [((i + 1 : ℕ) : ℚ)] else [])
    ++ (List.range lag).map fun t => dy.getD (maxLag - (lag - t) + i) 0

/-- The flat buffer `X` of length `nRow * nCol` after the row loop (adf_base.go 126-147):
the rows are written one after the other from position `0`, the rest keeps the zero of
`make`.  Writing past the end of the buffer panics (`none`). -/
def adfBuffer (dy ylag1 : List ℚ) (regr : String) (maxLag lag nRow nCol : ℕ) :
    Option (List ℚ) :=
  let written := (List.range nRow).flatMap fun i => adfRow dy ylag1 regr maxLag lag i
  if nRow * nCol < written.length then none
  else some (written ++ List.replicate (nRow * nCol - written.length) 0)

/-- The dense matrix `mat.NewDense(r, c, data)` over a row-major buffer. -/
def denseOfFlat (r c : ℕ) (data : List ℚ) : Matrix (Fin r) (Fin c) ℚ :=
  Matrix.of fun i j => data.getD (i.val * c + j.val) 0

/-- The candidate regression of one pass of the lag loop of `AdfTest` (adf_base.go 111-159):
`none` is a panic (slicing `dy[maxLag:]` past its length, or writing past the buffer),
`some none` is a `continue` (fewer than 10 rows, or an error from `MultiRegressionMat`),
otherwise the fitted model and `nRow`. -/
def adfOLS (lib : NumLib) (dy ylag : List ℚ) (regr : String) (maxLag lag : ℕ) :
    Option (Option (MultiLinearModel × ℕ)) :=
  if dy.length < maxLag then none else
  let dy1 := dy.drop maxLag
  if dy1.length < 10 then some none else
  let ylag1 := ylag.take (ylag.length - maxLag)
  let nRow := dy1.length
  let nCol := adfNCol regr lag
  match adfBuffer dy ylag1 regr maxLag lag nRow nCol with
  | none => none
  | some X =>
    if nCol = 0 then none else
    let res := MultiRegressionMat lib (denseOfFlat nRow nCol X) (toVecDense nRow dy1)
    match res.2 with
    | some _ => some none
    | none => some (some (res.1, nRow))

/-- The nine assignments made when a candidate replaces the stored result
(adf_base.go 163-171). -/
def adfUpdate (result : ADFResult) (lag : ℕ) (model : MultiLinearModel) (nobs : ℕ) :
    ADFResult :=
  { result with
    Gamma := model.Coeffs.getD 0 0
    TStat := model.TStats.getD 0 0
    AIC := F64.fin model.AIC
    BIC := F64.fin model.BIC
    UsedLag := (lag : ℤ)
    NObs := (nobs : ℤ)
    Resid := model.Resids
    PValue := model.PValues.getD 0 0
    Coeffs := model.Coeffs }

/-- The comparison `a < b` of a finite `a` with a stored value `b` that may be `+Inf`. -/
def finLt (a : ℚ) : F64 ℚ → Bool
  | .fin b => decide (a < b)
  | .posInf => true
  | .nan => false
  | .negInf => false

/-- The selection `switch autolag` (adf_base.go 160-199). -/
def adfSelect (autolag : LagMode) (result : ADFResult) (lag : ℕ) (model : MultiLinearModel)
    (nobs : ℕ) : ADFResult :=
  if autolag = LAG_MODE_AIC then
    if finLt model.AIC result.AIC then adfUpdate result lag model nobs else result
  else if autolag = LAG_MODE_BIC then
    if finLt model.BIC result.BIC then adfUpdate result lag model nobs else result
  else if autolag = LAG_MODE_TSTAT then
    if model.TStats.getD 0 0 < result.TStat ∨ result.TStat = 0 then
      adfUpdate result lag model nobs
    else result
  else result

/-- One pass of the lag loop of `AdfTest`. -/
def adfStep (lib : NumLib) (dy ylag : List ℚ) (regr : String) (maxLag : ℕ)
    (autolag : LagMode) (result : ADFResult) (lag : ℕ) : Option ADFResult :=
  match adfOLS lib dy ylag regr maxLag lag with
  | none => none
  | some none => some result
  | some (some (model, nobs)) => some (adfSelect autolag result lag model nobs)

/-- The lag loop `for lag := 0; lag <= maxLag; lag++` over the list of its lags; a panic in
a pass ends the run. -/
def adfLoop (step : ADFResult → ℕ → Option ADFResult) : List ℕ → ADFResult → Option ADFResult
  | [], r => some r
  | lag :: rest, r =>
    match step r lag with
    | none => none
    | some r' => adfLoop step rest r'

/-- Function `AdfTest` (adf_base.go 92-298).  The two branches of `switch tail` repeat the
same loop and differ in the table of critical values only; any other tail tag skips the
loop.  A failed test returns the record built so far together with the error. -/
def AdfTest (lib : NumLib) (logPrice : List ℚ) (regr : String) (maxLag : ℤ)
    (autolag : LagMode) (tail : String) : Option (ADFResult × Option GoError) :=
  let result : ADFResult :=
    { Gamma := 0, TStat := 0, PValue := 0, UsedLag := 0, NObs := 0, AIC := F64.posInf,
      BIC := F64.posInf, Method := autolag, Trend := regr, Criticals := [], Tail := tail,
      Resid := [], Coeffs := [] }
  match diff logPrice with
  | none => none
  | some dy =>
    let ylag := logPrice.take (logPrice.length - 1)
    let lags := List.range (maxLag + 1).toNat
    let looped : Option ADFResult :=
      if tail = LEFT_TAIL then
        adfLoop (adfStep lib dy ylag regr maxLag.toNat autolag) lags
          { result with Criticals := adfLeftTailCriticalValues regr }
      else if tail = RIGHT_TAIL then
        adfLoop (adfStep lib dy ylag regr maxLag.toNat autolag) lags
          { result with Criticals := adfRightTailCriticalValues regr }
      else some result
    match looped with
    | none => none
    | some result =>
      if result.AIC = F64.posInf ∨ result.BIC = F64.posInf ∨ result.TStat = 0 then
        some (result, some (.errorx .INVALID_VALUE))
      else some (result, none)

/-! ### Ljung-Box -/

/-- Function `LjungBoxTest` (adf_base.go 453-486).  `chi2CDF k x` is the distribution
function of `distuv.ChiSquared` with `K = k`.  `make` with a negative length panics. -/
def LjungBoxTest (chi2CDF : ℚ → ℚ → ℚ) (resid : List ℚ) (lags : ℤ) (alpha : ℚ) :
    Option ((Bool × ℚ × ℚ) × Option GoError) :=
  let n : ℚ := (resid.length : ℚ)
  if n ≤ (lags : ℚ) then some ((false, 0, 0), some (.errorx .INVALID_VALUE)) else
  if lags + 1 < 0 then none else
  let rmean := ArrMean resid
  let denom := resid.foldl (fun d v => d + (v - rmean) * (v - rmean)) 0
  -- r[k] is filled for k = 10 .. lags only; the other entries keep the zero of `make`
  let r : ℕ → ℚ := fun k =>
    if 10 ≤ k ∧ (k : ℤ) ≤ lags then
      ((List.range (resid.length - k)).foldl (fun num i =>
        num + (resid.getD (i + k) 0 - rmean) * (resid.getD i 0 - rmean)) 0) / denom
    else 0
  let Q0 := (List.range lags.toNat).foldl (fun Q i =>
    Q + r (i + 1) * r (i + 1) / (n - ((i + 1 : ℕ) : ℚ))) 0
  let Q := n * (n + 2) * Q0
  let pValue := 1 - chi2CDF (lags : ℚ) Q
  some ((decide (pValue < alpha), Q, pValue), none)


/-! ### Definitions used to state the properties of `AdfTest` -/

/-- The successful fit of candidate lag `lag` in a run of `AdfTest`: the model returned by
`MultiRegressionMat` and the number of rows, when the pass reaches the selection. -/
def adfCandidate (lib : NumLib) (logPrice : List ℚ) (regr : String) (maxLag : ℤ) (lag : ℕ) :
    Option (MultiLinearModel × ℕ) :=
  match diff logPrice with
  | none => none
  | some dy =>
    (adfOLS lib dy (logPrice.take (logPrice.length - 1)) regr maxLag.toNat lag).join

/-- The criterion compared by the selection: `AIC` in AIC mode, `BIC` in BIC mode, the
t-statistic of the lagged level otherwise. -/
def adfCrit (autolag : LagMode) (m : MultiLinearModel) : ℚ :=
  if autolag = LAG_MODE_AIC then m.AIC
  else if autolag = LAG_MODE_BIC then m.BIC
  else m.TStats.getD 0 0

/-- A new candidate against the stored one: it replaces the stored one only when its
criterion is strictly smaller (or when nothing is stored). -/
def selNew (crit : MultiLinearModel → ℚ) (s : Option (ℕ × MultiLinearModel × ℕ)) (lag : ℕ)
    (m : MultiLinearModel) (nobs : ℕ) : Option (ℕ × MultiLinearModel × ℕ) :=
  match s with
  | none => some (lag, m, nobs)
  | some (L, m0, n0) => if crit m < crit m0 then some (lag, m, nobs) else some (L, m0, n0)

/-- The first candidate with the smallest criterion among the lags seen so far. -/
def selStep (crit : MultiLinearModel → ℚ) (cand : ℕ → Option (MultiLinearModel × ℕ))
    (s : Option (ℕ × MultiLinearModel × ℕ)) (lag : ℕ) : Option (ℕ × MultiLinearModel × ℕ) :=
  match cand lag with
  | none => s
  | some (m, nobs) => selNew crit s lag m nobs

/-- The record holding a selection: the initial record when nothing is selected. -/
def reprRes (r0 : ADFResult) : Option (ℕ × MultiLinearModel × ℕ) → ADFResult
  | none => r0
  | some (L, m, nobs) => adfUpdate r0 L m nobs

/-- The condition under which the stored record tracks the first minimal candidate: in AIC
and BIC mode the start value `+Inf`; in t-stat mode the start value `0` and no candidate
with a t-statistic equal to that sentinel. -/
def selTracks (autolag : LagMode) (r0 : ADFResult)
    (cand : ℕ → Option (MultiLinearModel × ℕ)) (N : ℕ) : Prop :=
  (autolag = LAG_MODE_AIC ∧ r0.AIC = F64.posInf) ∨
  (autolag = LAG_MODE_BIC ∧ r0.BIC = F64.posInf) ∨
  (autolag = LAG_MODE_TSTAT ∧ r0.TStat = 0 ∧
    ∀ L m n, L < N → cand L = some (m, n) → m.TStats.getD 0 0 ≠ 0)

/-- The record `result` with which `AdfTest` starts (adf_base.go 94-102). -/
def adfStart (regr : String) (autolag : LagMode) (tail : String)
    (criticals : List (String × ℚ)) : ADFResult :=
  { Gamma := 0, TStat := 0, PValue := 0, UsedLag := 0, NObs := 0, AIC := F64.posInf,
    BIC := F64.posInf, Method := autolag, Trend := regr, Criticals := criticals, Tail := tail,
    Resid := [], Coeffs := [] }

/-- The fit of candidate lag `lag` in a run of `AdfTest` (the zero record when the pass
does not reach the selection). -/
def adfFit (lib : NumLib) (logPrice : List ℚ) (regr : String) (maxLag : ℤ) (lag : ℕ) :
    MultiLinearModel :=
  match adfCandidate lib logPrice regr maxLag lag with
  | none => MultiLinearModel.zero
  | some (m, _) => m

/-- Claim-side design of the standalone regression of `Δy_t` on
`[y_{t−1}, 1, Δy_{t−1}, …, Δy_{t−L}]` over the `n` responses `Δy_t = y[t+1] − y[t]`,
`t = maxLag, …, maxLag + n − 1` (the observations `dy[maxLag:]` of `AdfTest`): row `i` holds
the level `y[maxLag + i]` that immediately precedes the response, the constant `1`, and the
differences `y[t − j + 1] − y[t − j]` for `j = 1, …, L`. -/
def specAdfDesign (y : List ℚ) (maxLag L n : ℕ) : Matrix (Fin n) (Fin (L + 2)) ℚ :=
  Matrix.of fun i j =>
    if j.val = 0 then y.getD (maxLag + i.val) 0
    else if j.val = 1 then 1
    else y.getD (maxLag + i.val - (j.val - 1) + 1) 0 - y.getD (maxLag + i.val - (j.val - 1)) 0

/-- Claim-side response of the standalone regression: `Δy_t = y[t+1] − y[t]` for
`t = maxLag + i`. -/
def specAdfResponse (y : List ℚ) (maxLag n : ℕ) : Fin n → ℚ :=
  fun i => y.getD (maxLag + i.val + 1) 0 - y.getD (maxLag + i.val) 0

/-- Claim-side standalone fit: `MultiRegressionMat` on the design `specAdfDesign`. -/
def specAdfFit (lib : NumLib) (y : List ℚ) (maxLag L n : ℕ) : MultiLinearModel :=
  (MultiRegressionMat lib (specAdfDesign y maxLag L n) (specAdfResponse y maxLag n)).1

/-- A series of twelve levels on which the candidate at lag 0 has a negative and the
candidate at lag 1 a positive coefficient of the level. -/
def adfSeriesB : List ℚ := [1, 0, 0, -1, -1, -1, -1, -1, 0, 1, 1, 2]

/-- A series of twelve levels whose candidate at lag 0 has the coefficient `0` of the level
(the level column is orthogonal to the response). -/
def adfSeriesA : List ℚ := [-3, -2, -3, -3, -3, -3, -3, -3, -2, -2, 3, -2]

/-- Claim-side autocorrelation of lag `k`:
`ρ_k = Σ_{t=k}^{n−1} (r_t − r̄)(r_{t−k} − r̄) / Σ_t (r_t − r̄)²`. -/
def specLjungBoxRho (r : List ℚ) (k : ℕ) : ℚ :=
  (∑ t ∈ Finset.Ico k r.length,
      (r.getD t 0 - r.sum / (r.length : ℚ)) * (r.getD (t - k) 0 - r.sum / (r.length : ℚ)))
    / ∑ t ∈ Finset.range r.length,
        (r.getD t 0 - r.sum / (r.length : ℚ)) * (r.getD t 0 - r.sum / (r.length : ℚ))

/-- Claim-side Ljung-Box statistic: `Q = n(n+2)·Σ_{k=1}^{L} ρ_k²/(n−k)`. -/
def specLjungBoxQ (r : List ℚ) (L : ℕ) : ℚ :=
  (r.length : ℚ) * ((r.length : ℚ) + 2)
    * ∑ k ∈ Finset.Icc 1 L,
        specLjungBoxRho r k * specLjungBoxRho r k / ((r.length : ℚ) - (k : ℚ))

/-! ## `ml/ols/lasso_regr.go`

A `*mat.Dense` has at least one row and one column (`mat.NewDense` panics otherwise); the
statements about this file assume `0 < n`.  The working slice `beta` of the solvers is the
function of its entries. -/

/-- Third-party routines used by the logistic variant only: `math.Exp` and `math.Log1p`. -/
structure LogitLib where
  Exp : ℚ → ℚ
  Log1p : ℚ → ℚ

/-- Function `softThreshold` (lasso_regr.go 28-36). -/
def softThreshold (z a : ℚ) : ℚ :=
  if z > a then z - a
  else if z < -a then z + a
  else 0

/-- Function `addInterceptColumnDense` (lasso_regr.go 39-49): column `0` is `1`, column
`j + 1` is column `j` of the input. -/
def addInterceptColumnDense {n p : ℕ} (X : Matrix (Fin n) (Fin p) ℚ) :
    Matrix (Fin n) (Fin (p + 1)) ℚ :=
  Matrix.of fun i j => if h : j.val = 0 then 1 else X i ⟨j.val - 1, by omega⟩

/-- Function `standardizeExceptIntercept` (lasso_regr.go 52-86), in exact arithmetic.  The
source overwrites `X` and returns `(means, stds)`; the embedding returns the overwritten
matrix as the first component.  Columns from `start` on are centred by their mean and
divided by their population standard deviation, with `1` in place of a standard deviation
equal to `0`.  The mean and the variance are exact here, so the test `std == 0` holds on
every constant column (given `Sqrt 0 = 0`); in `float64` the rounded mean of a constant
column can differ from its entries, and the test then fails. -/
def standardizeExceptIntercept (lib : NumLib) {n p : ℕ} (X : Matrix (Fin n) (Fin p) ℚ)
    (withIntercept : Bool) : Matrix (Fin n) (Fin p) ℚ × (Fin p → ℚ) × (Fin p → ℚ) :=
  let start : ℕ := if withIntercept then 1 else 0
  let mu : Fin p → ℚ := fun j => (∑ i, X i j) / (n : ℚ)
  let sd : Fin p → ℚ := fun j =>
    let std := lib.Sqrt ((∑ i, (X i j - mu j) * (X i j - mu j)) / (n : ℚ))
    if std = 0 then 1 else std
  (Matrix.of fun i j => if start ≤ j.val then (X i j - mu j) / sd j else X i j,
   fun j => if start ≤ j.val then mu j else 0,
   fun j => if start ≤ j.val then sd j else 1)

/-- Function `destandardizeBeta` (lasso_regr.go 89-110) on a slice `beta` of length `p`. -/
def destandardizeBeta (p : ℕ) (beta : ℕ → ℚ) (means stds : Fin p → ℚ)
    (withIntercept : Bool) : List ℚ :=
  let start : ℕ := if withIntercept then 1 else 0
  let adj : ℚ := ∑ j : Fin p, if 1 ≤ j.val then means j / stds j * beta j.val else 0
  List.ofFn fun j : Fin p =>
    if withIntercept ∧ j.val = 0 then beta 0 - adj
    else if start ≤ j.val then beta j.val / stds j
    else beta j.val

/-- Function `computePred` (lasso_regr.go 113-124): `yhat = Xβ`. -/
def computePred {n p : ℕ} (X : Matrix (Fin n) (Fin p) ℚ) (beta : List ℚ) : Fin n → ℚ :=
  fun i => ∑ j : Fin p, X i j * beta.getD j.val 0

/-- The column weights `gj` of `lassoLinearCD` (lasso_regr.go 142-153):
`(1/n)·‖X_j‖²`, with `1e-8` in place of `0`. -/
def gj {n p : ℕ} (X : Matrix (Fin n) (Fin p) ℚ) (j : Fin p) : ℚ :=
  let g := (∑ i, X i j * X i j) / (n : ℚ)
  if g = 0 then 1 / 10 ^ 8 else g

/-- The intercept update of one sweep of `lassoLinearCD` (lasso_regr.go 158-171), on the
pair of `beta` and `maxChange`. -/
def cdIntercept {n p : ℕ} (X : Matrix (Fin n) (Fin p) ℚ) (Y : Fin n → ℚ)
    (st : (ℕ → ℚ) × ℚ) : (ℕ → ℚ) × ℚ :=
  let sumRes := ∑ i, (Y i - ∑ j : Fin p, if 1 ≤ j.val then X i j * st.1 j.val else 0)
  let newB0 := sumRes / (n : ℚ)
  (Function.update st.1 0 newB0, max st.2 |newB0 - st.1 0|)

/-- The update of coordinate `j` in one sweep of `lassoLinearCD` (lasso_regr.go 178-195), in
exact arithmetic (`ρ_j` and the comparison with the threshold carry no rounding error).
The weight `gj` is never `0`, so the quotient is finite and the `NaN`/`Inf` guard is idle. -/
def cdCoord {n p : ℕ} (X : Matrix (Fin n) (Fin p) ℚ) (Y : Fin n → ℚ) (alpha : ℚ)
    (start : ℕ) (st : (ℕ → ℚ) × ℚ) (j : Fin p) : (ℕ → ℚ) × ℚ :=
  let rho := (∑ i, X i j *
    (Y i - (st.1 0 + ∑ k : Fin p, if start ≤ k.val then X i k * st.1 k.val else 0)
      + X i j * st.1 j.val)) / (n : ℚ)
  let newBj := softThreshold rho alpha / gj X j
  (Function.update st.1 j.val newBj, max st.2 |newBj - st.1 j.val|)

/-- One pass of the loop `for it` of `lassoLinearCD` (lasso_regr.go 156-196): the new `beta`
and `maxChange`. -/
def cdSweep {n p : ℕ} (X : Matrix (Fin n) (Fin p) ℚ) (Y : Fin n → ℚ) (alpha : ℚ)
    (withIntercept : Bool) (beta : ℕ → ℚ) : (ℕ → ℚ) × ℚ :=
  let start : ℕ := if withIntercept then 1 else 0
  let st1 := if withIntercept then cdIntercept X Y (beta, 0) else (beta, 0)
  (List.finRange p).foldl
    (fun st j => if start ≤ j.val then cdCoord X Y alpha start st j else st) st1

/-- The loop `for it := 0; it < maxIter; it++` of `lassoLinearCD` with its `break`
(lasso_regr.go 155-200). -/
def cdLoop {n p : ℕ} (X : Matrix (Fin n) (Fin p) ℚ) (Y : Fin n → ℚ) (alpha : ℚ)
    (withIntercept : Bool) (tol : ℚ) : ℕ → (ℕ → ℚ) → (ℕ → ℚ)
  | 0, beta => beta
  | it + 1, beta =>
    let st := cdSweep X Y alpha withIntercept beta
    if st.2 < tol then st.1 else cdLoop X Y alpha withIntercept tol it st.1

/-- Lines 137-203 of `lassoLinearCD`, on the design `X` with or without its intercept
column: standardise, iterate from `beta = 0`, de-standardise. -/
def lassoLinearCDOn (lib : NumLib) {n p : ℕ} (X : Matrix (Fin n) (Fin p) ℚ) (Y : Fin n → ℚ)
    (alpha : ℚ) (withIntercept : Bool) (tol : ℚ) (maxIter : ℤ) : List ℚ :=
  let s := standardizeExceptIntercept lib X withIntercept
  let beta := cdLoop s.1 Y alpha withIntercept tol maxIter.toNat (fun _ => 0)
  destandardizeBeta p beta s.2.1 s.2.2 withIntercept

/-- Function `lassoLinearCD` (lasso_regr.go 128-204).  The error is always `nil`. -/
def lassoLinearCD (lib : NumLib) {n p : ℕ} (matX : Matrix (Fin n) (Fin p) ℚ)
    (matY : Fin n → ℚ) (alpha : ℚ) (withIntercept : Bool) (tol : ℚ) (maxIter : ℤ) :
    List ℚ × Option GoError :=
  match withIntercept with
  | true => (lassoLinearCDOn lib (addInterceptColumnDense matX) matY alpha true tol maxIter, none)
  | false => (lassoLinearCDOn lib matX matY alpha false tol maxIter, none)

/-- Function `logisticL1Objective` (lasso_regr.go 308-335). -/
def logisticL1Objective (elib : LogitLib) {n p : ℕ} (X : Matrix (Fin n) (Fin p) ℚ)
    (Y : Fin n → ℚ) (beta : ℕ → ℚ) (alpha : ℚ) : ℚ :=
  let loss := (∑ i,
    let s := ∑ j : Fin p, X i j * beta j.val
    if s > 20 then s - Y i * s
    else if s < -20 then 0 - Y i * s
    else elib.Log1p (elib.Exp s) - Y i * s) / (n : ℚ)
  let start : ℕ :=
    if h : 0 < n ∧ 0 < p then
      if |X ⟨0, h.1⟩ ⟨0, h.2⟩ - 1| > 1 / 10 ^ 12 then 0 else 1
    else 1
  let l1 := ∑ j : Fin p, if start ≤ j.val then |beta j.val| else 0
  loss + alpha * l1

/-- The candidate `newBeta` of one pass of `lassoLogisticISTA` for a step size
(lasso_regr.go 264-275 and 284-289). -/
def istaNewBeta (p : ℕ) (beta g : ℕ → ℚ) (alpha : ℚ) (withIntercept : Bool) (step : ℚ) :
    ℕ → ℚ :=
  fun j =>
    if p ≤ j then 0
    else if withIntercept ∧ j = 0 then beta 0 - step * g 0
    else softThreshold (beta j - step * g j) (step * alpha)

/-- The backtracking loop `for bt := 0; bt < 10; bt++` of `lassoLogisticISTA`
(lasso_regr.go 278-290): the accepted `newBeta` and the step size. -/
def istaBacktrack (obj : (ℕ → ℚ) → ℚ) (newBeta : ℚ → ℕ → ℚ) (oldObj : ℚ) :
    ℕ → ℚ → (ℕ → ℚ) × ℚ
  | 0, step => (newBeta step, step)
  | bt + 1, step =>
    if obj (newBeta step) ≤ oldObj then (newBeta step, step)
    else istaBacktrack obj newBeta oldObj bt (step * (1 / 2))

/-- One pass of the loop `for it` of `lassoLogisticISTA` (lasso_regr.go 239-298): the new
`beta`, the step size and `maxChange`. -/
def istaPass (elib : LogitLib) {n p : ℕ} (X : Matrix (Fin n) (Fin p) ℚ) (Y : Fin n → ℚ)
    (alpha : ℚ) (withIntercept : Bool) (beta : ℕ → ℚ) (step : ℚ) : (ℕ → ℚ) × ℚ × ℚ :=
  let pvec : Fin n → ℚ := fun i =>
    let s := ∑ j : Fin p, X i j * beta j.val
    if s > 20 then 1 else if s < -20 then 0 else 1 / (1 + elib.Exp (-s))
  let g : ℕ → ℚ := fun j =>
    if h : j < p then (∑ i, X i ⟨j, h⟩ * (pvec i - Y i)) / (n : ℚ) else 0
  let bt := istaBacktrack (fun b => logisticL1Objective elib X Y b alpha)
    (istaNewBeta p beta g alpha withIntercept) (logisticL1Objective elib X Y beta alpha) 10 step
  let maxChange := (List.range p).foldl
    (fun mc j => if |bt.1 j - beta j| > mc then |bt.1 j - beta j| else mc) 0
  (bt.1, bt.2, maxChange)

/-- The loop `for it := 0; it < maxIter; it++` of `lassoLogisticISTA` with its `break`
(lasso_regr.go 238-302). -/
def istaLoop (elib : LogitLib) {n p : ℕ} (X : Matrix (Fin n) (Fin p) ℚ) (Y : Fin n → ℚ)
    (alpha : ℚ) (withIntercept : Bool) (tol : ℚ) : ℕ → (ℕ → ℚ) → ℚ → (ℕ → ℚ)
  | 0, beta, _ => beta
  | it + 1, beta, step =>
    let st := istaPass elib X Y alpha withIntercept beta step
    if st.2.2 < tol then st.1 else istaLoop elib X Y alpha withIntercept tol it st.1 st.2.1

/-- Lines 216-303 of `lassoLogisticISTA`, on the design `X` with or without its intercept
column. -/
def lassoLogisticISTAOn (lib : NumLib) (elib : LogitLib) {n p : ℕ}
    (X : Matrix (Fin n) (Fin p) ℚ) (Y : Fin n → ℚ) (alpha : ℚ) (withIntercept : Bool)
    (tol : ℚ) (maxIter : ℤ) : List ℚ :=
  let s := standardizeExceptIntercept lib X withIntercept
  let maxColSq := (List.finRange p).foldl
    (fun mx j => if (∑ i, s.1 i j * s.1 i j) > mx then ∑ i, s.1 i j * s.1 i j else mx) 0
  let L0 := maxColSq / (n : ℚ) * (1 / 4)
  let L := if L0 ≤ 0 then 1 else L0
  let beta := istaLoop elib s.1 Y alpha withIntercept tol maxIter.toNat (fun _ => 0) (1 / L)
  destandardizeBeta p beta s.2.1 s.2.2 withIntercept

/-- Function `lassoLogisticISTA` (lasso_regr.go 209-305).  The error is always `nil`. -/
def lassoLogisticISTA (lib : NumLib) (elib : LogitLib) {n p : ℕ}
    (matX : Matrix (Fin n) (Fin p) ℚ) (matY : Fin n → ℚ) (alpha : ℚ) (withIntercept : Bool)
    (tol : ℚ) (maxIter : ℤ) : List ℚ × Option GoError :=
  match withIntercept with
  | true =>
    (lassoLogisticISTAOn lib elib (addInterceptColumnDense matX) matY alpha true tol maxIter,
      none)
  | false => (lassoLogisticISTAOn lib elib matX matY alpha false tol maxIter, none)

/-- Function `MultiRegressionLasso` (lasso_regr.go 342-445).  `SE`, `TStats` and `PValues`
keep the zeros of `make`; `AdjRSquared` keeps `0`. -/
def MultiRegressionLasso (lib : NumLib) (elib : LogitLib) {n p : ℕ}
    (matX : Matrix (Fin n) (Fin p) ℚ) (matY : List ℚ) (alpha : ℚ)
    (useLogistic withIntercept : Bool) : MultiLinearModel × Option GoError :=
  if matY.length ≠ n then (MultiLinearModel.zero, some (.errorx .INVALID_VALUE)) else
  let Y := toVecDense n matY
  let alphaEff := alpha / (n : ℚ)
  let tol : ℚ := 1 / 10 ^ 5
  let maxIter : ℤ := 10000
  let fit :=
    if useLogistic then lassoLogisticISTA lib elib matX Y alphaEff withIntercept tol maxIter
    else lassoLinearCD lib matX Y alphaEff withIntercept tol maxIter
  match fit.2 with
  | some err => (MultiLinearModel.zero, some err)
  | none =>
    let beta := fit.1
    let yhat : Fin n → ℚ :=
      match withIntercept with
      | true => computePred (addInterceptColumnDense matX) beta
      | false => computePred matX beta
    let k := beta.length
    let resids : Fin n → ℚ := fun i => Y i - yhat i
    if useLogistic then
      let logLik := ∑ i,
        let pr := if yhat i < 1 / 10 ^ 12 then 1 / 10 ^ 12
          else if yhat i > 1 - 1 / 10 ^ 12 then 1 - 1 / 10 ^ 12 else yhat i
        Y i * lib.Log pr + (1 - Y i) * lib.Log (1 - pr)
      let ybar := (∑ i, Y i) / (n : ℚ)
      let llNull := (n : ℚ) * (ybar * lib.Log (ybar + 1 / 10 ^ 12)
        + (1 - ybar) * lib.Log (1 - ybar + 1 / 10 ^ 12))
      ({ Coeffs := beta, SE := List.replicate k 0, TStats := List.replicate k 0,
         PValues := List.replicate k 0, Resids := List.ofFn resids,
         AIC := -2 * logLik + 2 * (k : ℚ), BIC := -2 * logLik + (k : ℚ) * lib.Log (n : ℚ),
         Sigma2 := 0, RSquared := if llNull ≠ 0 then 1 - logLik / llNull else 0,
         AdjRSquared := 0 }, none)
    else
      let RSS := ∑ i, resids i * resids i
      let yMean := (∑ i, Y i) / (n : ℚ)
      let TSS := ∑ i, (Y i - yMean) * (Y i - yMean)
      let logLik := -(1 / 2) * (n : ℚ) * (1 + lib.Log (2 * lib.Pi * RSS / (n : ℚ)))
      ({ Coeffs := beta, SE := List.replicate k 0, TStats := List.replicate k 0,
         PValues := List.replicate k 0, Resids := List.ofFn resids,
         AIC := if k < n then -2 * logLik + 2 * (k : ℚ) else 0,
         BIC := if k < n then -2 * logLik + (k : ℚ) * lib.Log (n : ℚ) else 0,
         Sigma2 := RSS / (((n : ℤ) - (k : ℤ) : ℤ) : ℚ),
         RSquared := if TSS > 0 then 1 - RSS / TSS else 0,
         AdjRSquared := 0 }, none)

/-- An instance of `LogitLib` on which the embedding can be evaluated (first-order
approximations). -/
def ratLogit : LogitLib where
  Exp := fun x => 1 + x
  Log1p := fun x => x

/-- The standardised design on which `lassoLinearCD` iterates when the intercept is
enabled: the input with its intercept column, after `standardizeExceptIntercept`. -/
def lassoStdDesign (lib : NumLib) {n p : ℕ} (matX : Matrix (Fin n) (Fin p) ℚ) :
    Matrix (Fin n) (Fin (p + 1)) ℚ :=
  (standardizeExceptIntercept lib (addInterceptColumnDense matX) true).1

/-- The standardised coefficients at which the loop of `lassoLinearCD` stops, as
`MultiRegressionLasso` runs it with the intercept enabled and `alpha = 0`
(`tol = 1e-5`, `maxIter = 10000`). -/
def lassoStdBeta (lib : NumLib) {n p : ℕ} (matX : Matrix (Fin n) (Fin p) ℚ)
    (Y : Fin n → ℚ) : ℕ → ℚ :=
  cdLoop (lassoStdDesign lib matX) Y 0 true (1 / 10 ^ 5) 10000 (fun _ => 0)


/-! ## `numpy/npCorr/np_convolve.go` -/

/-- Modelled from the spec: `myTools.ReverseSliceF64` belongs to the package
`strategyCrypto/pkg/utils/myTools`, which is not part of the sources; the spec writes the
kernel handed to `Correlate` as `reverse(v)`. -/
def ReverseSliceF64 (v : List ℚ) : List ℚ :=
  v.reverse

/-- Function `Convolve` (np_convolve.go 9-20). -/
def Convolve (a v : List ℚ) (mode : CORRELATE_MODE) :
    Option (Option (List ℚ) × Option GoError) :=
  let n : ℤ := a.length
  let m : ℤ := v.length
  if n ≤ 2 ∨ m ≤ 2 then some (none, some (.errorx .INVALID_VALUE)) else
  let vRev := ReverseSliceF64 v
  Correlate a vRev mode

/-! ## `propagator/metaorder/hist/histogram.go` -/

/-- The record `HistogramBin`. -/
structure HistogramBin where
  From : ℚ
  To : ℚ
  Count : ℤ

/-- The first loop of `Hist` (histogram.go 19-27): the running minimum and maximum, started
at `data[0]`. -/
def histMinMax (data : List ℚ) : ℚ × ℚ :=
  data.foldl
    (fun mm v => (if v < mm.1 then v else mm.1, if v > mm.2 then v else mm.2))
    (data.headD 0, data.headD 0)

/-- The bucket index of a value (histogram.go 49-52): `int(math.Floor((v - minV) / width))`,
with `bins` replaced by `bins - 1`.  The quotient is exact here; the `float64` quotient is
rounded (it is `NaN` when `width` is `0`), which this definition does not show. -/
def histIndex (minV width : ℚ) (bins : ℤ) (v : ℚ) : ℤ :=
  let idx : ℤ := Int.floor ((v - minV) / width)
  if idx = bins then bins - 1 else idx

/-- The counting loop of `Hist` (histogram.go 48-54).  `result[idx]` panics on an index
outside the slice, which is `none`. -/
def histCount (minV width : ℚ) (bins : ℤ) :
    List HistogramBin → List ℚ → Option (List HistogramBin)
  | result, [] => some result
  | result, v :: rest =>
    let idx := histIndex minV width bins v
    if 0 ≤ idx ∧ idx < result.length then
      histCount minV width bins
        (result.modify (fun b => { b with Count := b.Count + 1 }) idx.toNat) rest
    else none

/-- Function `Hist` (histogram.go 13-57), in exact arithmetic.  The inner `none` is the
`nil` slice, the outer `none` a panic.  In exact arithmetic `minV + 1e-9` exceeds `minV`, so
`width` is never `0`; in `float64` a common value of magnitude `2^24` or more absorbs the
`1e-9`, `width` is `0` and the index is `int(NaN)`: the statements about `Hist` do not cover
that run. -/
def Hist (data : List ℚ) (bins : ℤ) : Option (Option (List HistogramBin)) :=
  if data.length = 0 ∨ bins ≤ 0 then some none else
  let mm := histMinMax data
  let minV := mm.1
  let maxV := if mm.2 = mm.1 then mm.1 + 1 / 10 ^ 9 else mm.2
  let width := (maxV - minV) / (bins : ℚ)
  let result : List HistogramBin := (List.range bins.toNat).map fun (i : ℕ) =>
    { From := minV + (i : ℚ) * width, To := minV + ((i + 1 : ℕ) : ℚ) * width, Count := 0 }
  (histCount minV width bins result data).map some

/-! ## `timeSeries/acf/acf_multi_fitrange.go` and `acf_multi_regr.go` -/

/-- The test `c > 0` on a `float64` that may be non-finite (`NaN > 0` is false, so the
conjunct `!math.IsNaN(c)` of `FitLogACF` adds nothing). -/
def acfPos : F64 ℚ → Bool
  | .fin x => decide (0 < x)
  | .posInf => true
  | _ => false

/-- The slice `valid` of `AutoFitRange` (acf_multi_fitrange.go 8-13): the lags from `2` on
with a positive entry, in increasing order. -/
def validLags (acf : List (F64 ℚ)) : List ℕ :=
  (List.range' 2 (acf.length - 2)).filter fun lag => acfPos (acf.getD lag .nan)

/-- Function `AutoFitRange` (acf_multi_fitrange.go 4-32).  `int(float64(m) * 0.2)` is the
floor of `m / 5` in exact arithmetic; both indices are below `len(valid)`, so reading
`valid` does not panic. -/
def AutoFitRange (acf : List (F64 ℚ)) : ℤ × ℤ :=
  let n : ℤ := acf.length
  let valid := validLags acf
  if valid.length < 20 then (2, Int.floor ((n : ℚ) * (3 / 10))) else
  let s : ℤ := valid.getD (Int.floor ((valid.length : ℚ) * (2 / 10))).toNat 0
  let e : ℤ := valid.getD (Int.floor ((valid.length : ℚ) * (8 / 10))).toNat 0
  let e := if e ≤ s + 5 then s + 5 else e
  let e := if e ≥ n then n - 1 else e
  (s, e)

/-- The logarithm taken by `FitLogACF` of an entry of the positive run.  `math.Log(+Inf)`
is `+Inf`, which the carrier of the regression lacks: the embedding covers the sequences
whose positive entries are finite (the value `0` stands for the others). -/
def acfLog (lib : NumLib) : F64 ℚ → ℚ
  | .fin c => lib.Log c
  | _ => 0

/-- Function `FitLogACF` (acf_multi_regr.go 12-83).  The results are
`(gamma, intercept, r2, model, err)`; the three numbers are `NaN` on every failure.  The
run `[start, end)` is the longest stretch of positive entries from the first positive
index `start ≥ 1` on. -/
def FitLogACF (lib : NumLib) (acf : List (F64 ℚ)) (minPoints : ℤ) :
    Option (F64 ℚ × F64 ℚ × F64 ℚ × MultiLinearModel × Option GoError) :=
  let fail : Option (F64 ℚ × F64 ℚ × F64 ℚ × MultiLinearModel × Option GoError) :=
    some (.nan, .nan, .nan, MultiLinearModel.zero, some (.errorx .INVALID_VALUE))
  let n := acf.length
  if n < 3 then fail else
  match (List.range' 1 (n - 1)).find? fun i => acfPos (acf.getD i .nan) with
  | none => fail
  | some start =>
    let stop := start + ((acf.drop start).takeWhile acfPos).length
    let length : ℤ := (stop : ℤ) - (start : ℤ)
    if length < minPoints then fail else
    let lags := (List.range' start (stop - start)).filter fun lag => acfPos (acf.getD lag .nan)
    let X : List (List ℚ) := lags.map fun (lag : ℕ) => [lib.Log (lag : ℚ)]
    let Y : List ℚ := lags.map fun lag => acfLog lib (acf.getD lag .nan)
    if (X.length : ℤ) < minPoints then fail else
    match MultiRegression lib X Y true with
    | none => none
    | some (_, some _) => fail
    | some (model, none) =>
      if model.Coeffs.length < 2 then fail else
      some (.fin (-(model.Coeffs.getD 1 0)), .fin (model.Coeffs.getD 0 0),
        .fin model.RSquared, model, none)

/-! ## `SimulateWhiteNoise` (adf_base.go 423-444) -/

/-- The type `whiteNoiseSampleMethod` is a Go `int`; its three named values are `iota`
constants. -/
abbrev whiteNoiseSampleMethod := ℤ

def PARAMETIC_BOOTSTRAP : whiteNoiseSampleMethod := 0

def NONPARAMETIC_BOOTSTRAP : whiteNoiseSampleMethod := 1

def WILD_BOOTSTRAP : whiteNoiseSampleMethod := 2

/-- Function `SimulateWhiteNoise` (adf_base.go 423-444).  The random source is the
parameter `draw`: pass `i` of the loop reads `resid[pos]` with `pos = r.Intn(len(resid))`,
a number below `len(resid)`, here `draw i % len(resid)`.  `make` with a negative length
and `Intn(0)` panic (the outer `none`). -/
def SimulateWhiteNoise (draw : ℕ → ℕ) (resid : List ℚ) (length : ℤ)
    (method : whiteNoiseSampleMethod) : Option (Option (List ℚ) × Option GoError) :=
  if method = PARAMETIC_BOOTSTRAP then some (none, some (.errorx .INVALID_VALUE))
  else if method = NONPARAMETIC_BOOTSTRAP then
    if length < 0 then none
    else if 0 < length ∧ resid.length = 0 then none
    else
      some (some ((List.range length.toNat).map fun i =>
        resid.getD (draw i % resid.length) 0), none)
  else if method = WILD_BOOTSTRAP then some (none, some (.errorx .INVALID_VALUE))
  else some (none, some (.errorx .INVALID_VALUE))

/-! ## `quant/market/fundingratemodel/fastinv/benchmark_fastinv_test.go`

The four formulas are stated over an arbitrary field, so that they can be read over `ℚ`
and over `ℝ`. -/

section FastInv

variable {K : Type} [Field K]

/-- Function `OriginalFormula` (benchmark_fastinv_test.go 16-18). -/
def OriginalFormula (imn B C D : K) : K :=
  imn / ((imn - B) / C + D)

/-- Function `Simplified` (benchmark_fastinv_test.go 27-30). -/
def Simplified (imn B C D : K) : K :=
  let den := imn - B + D * C
  imn * C / den

/-- Function `YourVersion` (benchmark_fastinv_test.go 39-43). -/
def YourVersion (imn B C D : K) : K :=
  let invC := 1 / C
  let k := D - B * invC
  1 / (invC + k / imn)

/-- Function `newtonInv` (benchmark_fastinv_test.go 57-64): a quotient followed by two
Newton steps. -/
def newtonInv (x : K) : K :=
  let y := 1 / x
  let y := y * (2 - x * y)
  let y := y * (2 - x * y)
  y

/-- Function `FastInverse` (benchmark_fastinv_test.go 66-70). -/
def FastInverse (imn B C D : K) : K :=
  let den := imn - B + D * C
  let inv := newtonInv den
  imn * C * inv

end FastInv

/-! ## Definitions used to state the properties of the logistic fit -/

/-- The logistic function `σ(s) = 1 / (1 + e^{-s})`. -/
def specSigmoid (elib : LogitLib) (s : ℚ) : ℚ :=
  1 / (1 + elib.Exp (-s))

/-- The clamp of a probability into `[1e-12, 1 - 1e-12]`. -/
def specClamp (q : ℚ) : ℚ :=
  if q < 1 / 10 ^ 12 then 1 / 10 ^ 12
  else if q > 1 - 1 / 10 ^ 12 then 1 - 1 / 10 ^ 12 else q

/-- The Bernoulli log-likelihood `Σ_i [y_i·log p_i + (1 − y_i)·log(1 − p_i)]` of the
probabilities `p`. -/
def specBernoulliLogLik (lib : NumLib) {n : ℕ} (Y p : Fin n → ℚ) : ℚ :=
  ∑ i, (Y i * lib.Log (p i) + (1 - Y i) * lib.Log (1 - p i))

/-! ## Definitions used to state the properties of the logistic objective -/

/-- The mean logistic loss `(1/n)·Σ_i [log(1 + e^{s_i}) − y_i·s_i]`, `s_i = x_iᵀβ`, with the
saturation of `logisticL1Objective` outside `[-20, 20]`. -/
def specLogisticLoss (elib : LogitLib) {n p : ℕ} (X : Matrix (Fin n) (Fin p) ℚ)
    (Y : Fin n → ℚ) (beta : ℕ → ℚ) : ℚ :=
  (∑ i,
    if (∑ j : Fin p, X i j * beta j.val) > 20 then
      (∑ j : Fin p, X i j * beta j.val) - Y i * (∑ j : Fin p, X i j * beta j.val)
    else if (∑ j : Fin p, X i j * beta j.val) < -20 then
      0 - Y i * (∑ j : Fin p, X i j * beta j.val)
    else elib.Log1p (elib.Exp (∑ j : Fin p, X i j * beta j.val))
      - Y i * (∑ j : Fin p, X i j * beta j.val)) / (n : ℚ)

/-- The objective with the intercept flag passed explicitly: the mean logistic loss plus
`α·Σ_{j ≥ start} |β_j|`, `start = 1` with an intercept column and `0` without. -/
def specLogisticObjective (elib : LogitLib) {n p : ℕ} (X : Matrix (Fin n) (Fin p) ℚ)
    (Y : Fin n → ℚ) (beta : ℕ → ℚ) (alpha : ℚ) (withIntercept : Bool) : ℚ :=
  specLogisticLoss elib X Y beta
    + alpha * ∑ j : Fin p, if (if withIntercept then 1 else 0) ≤ j.val then |beta j.val| else 0

/-- Function `standardizeExceptIntercept` (lasso_regr.go 52-86) over an arbitrary field with
a square-root routine: the same translation as `standardizeExceptIntercept`, which is its
instance over `ℚ` with `lib.Sqrt`; over `ℝ` with `Real.sqrt` it is the function in exact
real arithmetic. -/
def standardizeExceptInterceptOver {K : Type} [Field K] [DecidableEq K] (sqrt : K → K)
    {n p : ℕ} (X : Matrix (Fin n) (Fin p) K) (withIntercept : Bool) :
    Matrix (Fin n) (Fin p) K × (Fin p → K) × (Fin p → K) :=
  let start : ℕ := if withIntercept then 1 else 0
  let mu : Fin p → K := fun j => (∑ i, X i j) / (n : K)
  let sd : Fin p → K := fun j =>
    let std := sqrt ((∑ i, (X i j - mu j) * (X i j - mu j)) / (n : K))
    if std = 0 then 1 else std
  (Matrix.of fun i j => if start ≤ j.val then (X i j - mu j) / sd j else X i j,
   fun j => if start ≤ j.val then mu j else 0,
   fun j => if start ≤ j.val then sd j else 1)

/-! ## Definitions used to state the accuracy of the coordinate descent -/

/-- The residual of observation `i` at the coefficients `β` of the standardised fit with
intercept: `y_i − (β_0 + Σ_{k ≥ 1} X_ik·β_k)`. -/
def cdResid {n p : ℕ} (X : Matrix (Fin n) (Fin p) ℚ) (Y : Fin n → ℚ) (β : ℕ → ℚ)
    (i : Fin n) : ℚ :=
  Y i - (β 0 + ∑ k : Fin p, if 1 ≤ k.val then X i k * β k.val else 0)

/-- The conditioning constant of coefficient `j` for the coordinate descent with intercept:
`K_j = Σ_m |(AᵀA)⁻¹_{jm}|·|σ_m|·Σ_{l > m} |X̃_mᵀX̃_l|`, with `A` the design with its
intercept column, `X̃` its standardised copy and `σ` the recorded standard deviations. -/
def cdGap (lib : NumLib) {n p : ℕ} (matX : Matrix (Fin n) (Fin p) ℚ) (j : Fin (p + 1)) : ℚ :=
  ∑ m : Fin (p + 1),
    |exactInv ((addInterceptColumnDense matX).transpose * addInterceptColumnDense matX) j m|
      * (|(standardizeExceptIntercept lib (addInterceptColumnDense matX) true).2.2 m|
        * ∑ l : Fin (p + 1),
            if m.val < l.val then
              |∑ i, lassoStdDesign lib matX i m * lassoStdDesign lib matX i l|
            else 0)

/-! ## Statements about `ml/ols/multi_regr.go` -/

section OLS

variable {n k : ℕ}

theorem Inverse_of_det_ne_zero (A : Matrix (Fin k) (Fin k) ℚ) (h : A.det ≠ 0) :
    Inverse A = some (exactInv A) := by
  simp [Inverse, exactInv, h]

theorem Inverse_of_det_eq_zero (A : Matrix (Fin k) (Fin k) ℚ) (h : A.det = 0) :
    Inverse A = none := by
  simp [Inverse, h]

theorem exactInv_mul (A : Matrix (Fin k) (Fin k) ℚ) (h : A.det ≠ 0) :
    exactInv A * A = 1 := by
  rw [exactInv, Matrix.smul_mul, Matrix.adjugate_mul, smul_smul, inv_mul_cancel₀ h, one_smul]

theorem df_pos (h : k < n) : ¬ ((((n : ℤ) - (k : ℤ) : ℤ) : ℚ) ≤ 0) := by
  have h1 : (0 : ℤ) < (n : ℤ) - (k : ℤ) := by omega
  have h2 : (0 : ℚ) < (((n : ℤ) - (k : ℤ) : ℤ) : ℚ) := by exact_mod_cast h1
  exact not_le.mpr h2

theorem df_nonpos (h : n ≤ k) : (((n : ℤ) - (k : ℤ) : ℤ) : ℚ) ≤ 0 := by
  have h1 : (n : ℤ) - (k : ℤ) ≤ 0 := by omega
  exact_mod_cast h1

/-- On a non-singular normal-equation matrix with `k < n` the regression succeeds with the
record built from the exact inverse. -/
theorem MultiRegressionMat_of_inv (lib : NumLib) (M : Matrix (Fin n) (Fin k) ℚ)
    (y : Fin n → ℚ) (hnk : k < n) (hdet : (M.transpose * M).det ≠ 0) :
    MultiRegressionMat lib M y = (olsModel lib M y (exactInv (M.transpose * M)), none) := by
  unfold MultiRegressionMat
  simp only [Inverse_of_det_ne_zero _ hdet, if_neg (df_pos hnk)]
  rfl

/-- On a singular normal-equation matrix with `k < n` and a successful factorisation the
regression succeeds with the record built from the pseudo-inverse. -/
theorem MultiRegressionMat_of_pinv (lib : NumLib) (M : Matrix (Fin n) (Fin k) ℚ)
    (y : Fin n → ℚ) (hnk : k < n) (hdet : (M.transpose * M).det = 0)
    (P : Matrix (Fin k) (Fin k) ℚ) (hP : pseudoInverse lib (M.transpose * M) = .ok P) :
    MultiRegressionMat lib M y = (olsModel lib M y P, none) := by
  unfold MultiRegressionMat
  simp only [Inverse_of_det_eq_zero _ hdet, hP, if_neg (df_pos hnk)]
  rfl

/-- With `n ≤ k` the regression fails with `INVALID_VALUE` and the zero record, whatever
the inversion and the factorisation do. -/
theorem MultiRegressionMat_of_le (lib : NumLib) (M : Matrix (Fin n) (Fin k) ℚ)
    (y : Fin n → ℚ) (hnk : n ≤ k) :
    MultiRegressionMat lib M y = (MultiLinearModel.zero, some (.errorx .INVALID_VALUE)) := by
  unfold MultiRegressionMat
  simp only [if_pos (df_nonpos hnk)]
  cases hI : Inverse (M.transpose * M) with
  | some inv => rfl
  | none =>
    unfold pseudoInverse
    cases hS : lib.SVDFactorize k (M.transpose * M) with
    | none => rfl
    | some svd => rfl

/-- The normal equations `Xᵀ(y − Xβ) = 0`. -/
theorem normal_equations (M : Matrix (Fin n) (Fin k) ℚ) (y : Fin n → ℚ)
    (hdet : (M.transpose * M).det ≠ 0) :
    M.transpose.mulVec (olsResid M y) = 0 := by
  have h1 : M.transpose.mulVec (M.mulVec (olsBeta M y)) = M.transpose.mulVec y := by
    rw [olsBeta, Matrix.mulVec_mulVec, Matrix.mulVec_mulVec]
    have h2 : M.transpose * M * exactInv (M.transpose * M) = 1 :=
      Matrix.mul_eq_one_comm.mp (exactInv_mul _ hdet)
    rw [h2, Matrix.one_mulVec]
  rw [olsResid, Matrix.mulVec_sub, h1, sub_self]

end OLS

/-- A rectangular input: reading the first row gives the common row length. -/
theorem headD_length_of_rect (X : List (List ℚ)) (k : ℕ) (hX : X ≠ [])
    (hk : ∀ row ∈ X, row.length = k) : (X.headD []).length = k := by
  cases X with
  | nil => exact absurd rfl hX
  | cons r rs => exact hk r (List.mem_cons_self r rs)

theorem addConstantColumn_length (X : List (List ℚ)) :
    (addConstantColumn X).length = X.length := by
  simp [addConstantColumn]

theorem design_length (X : List (List ℚ)) (withConst : Bool) :
    (design X withConst).length = X.length := by
  cases withConst
  · rfl
  · exact addConstantColumn_length X

/-- On an input with as many rows as responses and at least one column, `MultiRegression`
is `MultiRegressionMat` on the dense copy of the design. -/
theorem MultiRegression_eq_Mat (lib : NumLib) (X : List (List ℚ)) (Y : List ℚ)
    (withConst : Bool) (n k : ℕ) (hn : X.length = n) (hY : Y.length = n) (hn0 : 0 < n)
    (hk : ((design X withConst).headD []).length = k) (hk0 : 0 < k) :
    MultiRegression lib X Y withConst
      = some (MultiRegressionMat lib (toDense n k (design X withConst)) (toVecDense n Y)) := by
  subst hY
  subst hk
  have hl := design_length X withConst
  have e1 : ¬ (Y.length = 0 ∨ X.length = 0) := by omega
  have e2 : ¬ (Y.length ≠ (design X withConst).length) := by omega
  have e3 : ¬ (((design X withConst).headD []).length = 0) := by omega
  unfold MultiRegression
  dsimp only
  rw [if_neg e1]
  unfold design at e2 e3 ⊢
  rw [if_neg e2, if_neg e3]

theorem ofFn_getD {k : ℕ} (f : Fin k → ℚ) (j : Fin k) : (List.ofFn f).getD j.val 0 = f j := by
  simp [List.getD_eq_getElem?_getD]

/-- C1: for a design matrix `X` with `n` rows and `k ≥ 1` columns, `n > k`, whose
normal-equation matrix `XᵀX` is invertible, and a response `Y` of length `n`,
`MultiRegression X Y false` and `MultiRegressionMat` on the same matrix return the same
record without error; its `k` coefficients `β` satisfy the normal equations
`Xᵀ(y − Xβ) = 0` and its `n` residuals are `y − Xβ`. -/
theorem C1_normal_equations (lib : NumLib) (X : List (List ℚ)) (Y : List ℚ) (n k : ℕ)
    (hn : X.length = n) (hk : ∀ row ∈ X, row.length = k) (hY : Y.length = n)
    (hk0 : 0 < k) (hnk : k < n)
    (hdet : ((toDense n k X).transpose * toDense n k X).det ≠ 0) :
    ∃ m : MultiLinearModel,
      MultiRegression lib X Y false = some (m, none) ∧
      MultiRegressionMat lib (toDense n k X) (toVecDense n Y) = (m, none) ∧
      m.Coeffs.length = k ∧ m.Resids.length = n ∧
      (toDense n k X).transpose.mulVec
        (toVecDense n Y - (toDense n k X).mulVec (fun j => m.Coeffs.getD j.val 0)) = 0 ∧
      ∀ i : Fin n, m.Resids.getD i.val 0 =
        toVecDense n Y i - (toDense n k X).mulVec (fun j => m.Coeffs.getD j.val 0) i := by
  have hmat := MultiRegressionMat_of_inv lib (toDense n k X) (toVecDense n Y) hnk hdet
  refine ⟨_, ?_, hmat, ?_, ?_, ?_, ?_⟩
  · rw [MultiRegression_eq_Mat lib X Y false n k hn hY (by omega)
      (headD_length_of_rect X k (by intro h; rw [h] at hn; simp at hn; omega) hk) hk0]
    exact congrArg some hmat
  · simp [olsModel]
  · simp [olsModel]
  · have hβ : (fun j : Fin k => (olsModel lib (toDense n k X) (toVecDense n Y)
        (exactInv ((toDense n k X).transpose * toDense n k X))).Coeffs.getD j.val 0)
        = olsBeta (toDense n k X) (toVecDense n Y) := by
      funext j
      simp only [olsModel]
      rw [ofFn_getD]
      rfl
    rw [hβ]
    exact normal_equations _ _ hdet
  · intro i
    have hβ : (fun j : Fin k => (olsModel lib (toDense n k X) (toVecDense n Y)
        (exactInv ((toDense n k X).transpose * toDense n k X))).Coeffs.getD j.val 0)
        = olsBeta (toDense n k X) (toVecDense n Y) := by
      funext j
      simp only [olsModel]
      rw [ofFn_getD]
      rfl
    rw [hβ]
    simp only [olsModel]
    rw [ofFn_getD]
    rfl

/-- Instance of C1 on the design `[[1,1],[1,2],[1,3],[1,4]]` with response `[2,4,6,9]`. -/
theorem C1_normal_equations_witness :
    ∃ m : MultiLinearModel,
      MultiRegression ratLib [[1, 1], [1, 2], [1, 3], [1, 4]] [2, 4, 6, 9] false
        = some (m, none) ∧
      MultiRegressionMat ratLib (toDense 4 2 [[1, 1], [1, 2], [1, 3], [1, 4]])
        (toVecDense 4 [2, 4, 6, 9]) = (m, none) ∧
      m.Coeffs.length = 2 ∧ m.Resids.length = 4 ∧
      (toDense 4 2 [[1, 1], [1, 2], [1, 3], [1, 4]]).transpose.mulVec
        (toVecDense 4 [2, 4, 6, 9] - (toDense 4 2 [[1, 1], [1, 2], [1, 3], [1, 4]]).mulVec
          (fun j => m.Coeffs.getD j.val 0)) = 0 ∧
      ∀ i : Fin 4, m.Resids.getD i.val 0 =
        toVecDense 4 [2, 4, 6, 9] i - (toDense 4 2 [[1, 1], [1, 2], [1, 3], [1, 4]]).mulVec
          (fun j => m.Coeffs.getD j.val 0) i :=
  C1_normal_equations ratLib [[1, 1], [1, 2], [1, 3], [1, 4]] [2, 4, 6, 9] 4 2 rfl
    (by simp) rfl (by decide) (by decide)
    (by
      simp [Matrix.det_fin_two, Matrix.mul_apply, Fin.sum_univ_succ, toDense]
      norm_num)

theorem ofFn_getD_self (b : List ℚ) (k : ℕ) (hb : b.length = k) :
    List.ofFn (fun j : Fin k => b.getD j.val 0) = b := by
  subst hb
  apply List.ext_getElem
  · simp
  · intro i h1 h2
    simp [List.getD_eq_getElem?_getD, h2]

theorem olsModel_Coeffs {n k : ℕ} (lib : NumLib) (M : Matrix (Fin n) (Fin k) ℚ)
    (y : Fin n → ℚ) :
    (olsModel lib M y (exactInv (M.transpose * M))).Coeffs = List.ofFn (olsBeta M y) := rfl

theorem olsModel_RSquared {n k : ℕ} (lib : NumLib) (M : Matrix (Fin n) (Fin k) ℚ)
    (y : Fin n → ℚ) :
    (olsModel lib M y (exactInv (M.transpose * M))).RSquared =
      1 - Matrix.dotProduct (olsResid M y) (olsResid M y) / olsTSS y := rfl

theorem pseudoInverse_of_some (lib : NumLib) {k : ℕ} (A : Matrix (Fin k) (Fin k) ℚ)
    (svd : SVD k) (h : lib.SVDFactorize k A = some svd) :
    pseudoInverse lib A = .ok (pinvOf svd) := by
  unfold pseudoInverse
  rw [h]
  rfl

/-- C3 (counterexample): in the scenario of the claim the design with intercept has
`n = k = 3`; its normal-equation matrix is singular, and whatever the factorisation does,
`MultiRegression` returns the zero record with an `INVALID_VALUE` error, not a result. -/
theorem C3_counterexample :
    ((toDense 3 3 (design [[1, 1], [2, 2], [3, 3]] true)).transpose
        * toDense 3 3 (design [[1, 1], [2, 2], [3, 3]] true)).det = 0 ∧
    ∀ lib : NumLib, MultiRegression lib [[1, 1], [2, 2], [3, 3]] [1, 2, 3] true
      = some (MultiLinearModel.zero, some (.errorx .INVALID_VALUE)) := by
  constructor
  · simp [Matrix.det_fin_three, Matrix.mul_apply, Fin.sum_univ_succ, toDense, design,
      addConstantColumn]
  · intro lib
    rw [MultiRegression_eq_Mat lib [[1, 1], [2, 2], [3, 3]] [1, 2, 3] true 3 3 rfl rfl
      (by decide) rfl (by decide)]
    exact congrArg some (MultiRegressionMat_of_le lib _ _ (le_refl 3))

/-- C3 (amended): for every design with `k ≥ 1` columns and `n > k` rows whose
normal-equation matrix is singular, `MultiRegression` falls back to `pseudoInverse`, and when
the factorisation succeeds it returns a result without error whose `k` coefficients are
`pinv(XᵀX)·Xᵀy`. -/
theorem C3_pinv_fallback (lib : NumLib) (X : List (List ℚ)) (Y : List ℚ) (withConst : Bool)
    (n k : ℕ) (hn : X.length = n) (hY : Y.length = n)
    (hk : ((design X withConst).headD []).length = k) (hk0 : 0 < k) (hnk : k < n)
    (hdet : ((toDense n k (design X withConst)).transpose
      * toDense n k (design X withConst)).det = 0)
    (svd : SVD k)
    (hsvd : lib.SVDFactorize k ((toDense n k (design X withConst)).transpose
      * toDense n k (design X withConst)) = some svd) :
    ∃ m : MultiLinearModel,
      MultiRegression lib X Y withConst = some (m, none) ∧
      m.Coeffs.length = k ∧
      m.Coeffs = List.ofFn ((pinvOf svd).mulVec
        ((toDense n k (design X withConst)).transpose.mulVec (toVecDense n Y))) := by
  refine ⟨olsModel lib (toDense n k (design X withConst)) (toVecDense n Y) (pinvOf svd),
    ?_, ?_, rfl⟩
  · rw [MultiRegression_eq_Mat lib X Y withConst n k hn hY (by omega) hk hk0]
    exact congrArg some (MultiRegressionMat_of_pinv lib _ _ hnk hdet _
      (pseudoInverse_of_some lib _ svd hsvd))
  · simp [olsModel]

/-- Instance of the amended C3 on the rank-one design `[[1,0],[2,0],[3,0]]`, whose
normal-equation matrix `diag(14, 0)` is singular and factorised by `diagSVD`. -/
theorem C3_pinv_fallback_witness :
    ∃ m : MultiLinearModel,
      MultiRegression ratLib [[1, 0], [2, 0], [3, 0]] [1, 2, 4] false = some (m, none) ∧
      m.Coeffs.length = 2 ∧
      m.Coeffs = List.ofFn ((pinvOf
          { U := 1, Values := fun i => ((toDense 3 2 [[1, 0], [2, 0], [3, 0]]).transpose
              * toDense 3 2 [[1, 0], [2, 0], [3, 0]]) i i, V := 1 }).mulVec
        ((toDense 3 2 (design [[1, 0], [2, 0], [3, 0]] false)).transpose.mulVec
          (toVecDense 3 [1, 2, 4]))) :=
  C3_pinv_fallback ratLib [[1, 0], [2, 0], [3, 0]] [1, 2, 4] false 3 2 rfl rfl rfl
    (by decide) (by decide)
    (by
      simp [Matrix.det_fin_two, Matrix.mul_apply, Fin.sum_univ_succ, toDense, design])
    _
    (by
      show diagSVD 2 _ = _
      unfold diagSVD
      rw [if_pos]
      · rfl
      · refine ⟨?_, ?_, ?_⟩
        · intro i j
          fin_cases i <;> fin_cases j <;>
            simp [Matrix.mul_apply, Fin.sum_univ_succ, toDense, design]
        · intro i
          fin_cases i
          · simp [Matrix.mul_apply, Fin.sum_univ_succ, toDense, design]
            norm_num
          · simp [Matrix.mul_apply, Fin.sum_univ_succ, toDense, design]
        · intro i j
          fin_cases i <;> fin_cases j <;>
            first
            | (simp [Matrix.mul_apply, Fin.sum_univ_succ, toDense, design]; norm_num)
            | simp [Matrix.mul_apply, Fin.sum_univ_succ, toDense, design])

/-- C4: `MultiRegression` returns the zero record with `EMPTY_VALUE` when `Y` is empty or `X`
has no rows; otherwise with `INVALID_VALUE` when the row count of `X` differs from the length
of `Y`; otherwise with `INVALID_VALUE` when the number of observations does not exceed the
number of columns of the design (the constant column included when `withConst` is set). -/
theorem C4_error_classification (lib : NumLib) (X : List (List ℚ)) (Y : List ℚ)
    (withConst : Bool) :
    ((Y = [] ∨ X = []) → MultiRegression lib X Y withConst
      = some (MultiLinearModel.zero, some (.errorx .EMPTY_VALUE))) ∧
    (Y ≠ [] → X ≠ [] → X.length ≠ Y.length → MultiRegression lib X Y withConst
      = some (MultiLinearModel.zero, some (.errorx .INVALID_VALUE))) ∧
    (Y ≠ [] → X ≠ [] → X.length = Y.length →
      Y.length ≤ ((design X withConst).headD []).length →
      MultiRegression lib X Y withConst
        = some (MultiLinearModel.zero, some (.errorx .INVALID_VALUE))) := by
  refine ⟨?_, ?_, ?_⟩
  · intro h
    have e1 : Y.length = 0 ∨ X.length = 0 := by
      rcases h with h | h
      · left; rw [h]; rfl
      · right; rw [h]; rfl
    unfold MultiRegression
    dsimp only
    rw [if_pos e1]
  · intro hY hX hne
    have hY0 : Y.length ≠ 0 := fun h => hY (List.length_eq_zero.mp h)
    have hX0 : X.length ≠ 0 := fun h => hX (List.length_eq_zero.mp h)
    have hl := design_length X withConst
    have e1 : ¬ (Y.length = 0 ∨ X.length = 0) := by omega
    have e2 : Y.length ≠ (design X withConst).length := by omega
    unfold MultiRegression
    dsimp only
    rw [if_neg e1]
    unfold design at e2
    rw [if_pos e2]
  · intro hY hX he hle
    have hY0 : Y.length ≠ 0 := fun h => hY (List.length_eq_zero.mp h)
    rw [MultiRegression_eq_Mat lib X Y withConst Y.length _ he rfl (by omega) rfl (by omega)]
    exact congrArg some (MultiRegressionMat_of_le lib _ _ hle)

/-- Instances of C4: an empty response, a row-count mismatch, and `n = k = 2`. -/
theorem C4_error_classification_witness :
    MultiRegression ratLib [[1, 2]] [] false
      = some (MultiLinearModel.zero, some (.errorx .EMPTY_VALUE)) ∧
    MultiRegression ratLib [[1, 2], [3, 4]] [1, 2, 3] true
      = some (MultiLinearModel.zero, some (.errorx .INVALID_VALUE)) ∧
    MultiRegression ratLib [[1, 2], [3, 4]] [1, 2] false
      = some (MultiLinearModel.zero, some (.errorx .INVALID_VALUE)) :=
  ⟨(C4_error_classification ratLib [[1, 2]] [] false).1 (Or.inl rfl),
   (C4_error_classification ratLib [[1, 2], [3, 4]] [1, 2, 3] true).2.1
     (by simp) (by simp) (by decide),
   (C4_error_classification ratLib [[1, 2], [3, 4]] [1, 2] false).2.2
     (by simp) (by simp) rfl (by decide)⟩

section OLS2
variable {n k : ℕ}

/-- The OLS residual is orthogonal to the column space. -/
theorem olsResid_orthogonal (M : Matrix (Fin n) (Fin k) ℚ) (y : Fin n → ℚ)
    (hdet : (M.transpose * M).det ≠ 0) (d : Fin k → ℚ) :
    Matrix.dotProduct (olsResid M y) (M.mulVec d) = 0 := by
  rw [Matrix.dotProduct_mulVec, ← Matrix.mulVec_transpose, normal_equations M y hdet,
    Matrix.zero_dotProduct]

/-- The OLS residual sum of squares is minimal among all coefficient vectors. -/
theorem olsRSS_le (M : Matrix (Fin n) (Fin k) ℚ) (y : Fin n → ℚ)
    (hdet : (M.transpose * M).det ≠ 0) (b : Fin k → ℚ) :
    Matrix.dotProduct (olsResid M y) (olsResid M y)
      ≤ Matrix.dotProduct (y - M.mulVec b) (y - M.mulVec b) := by
  have hsplit : y - M.mulVec b = olsResid M y + M.mulVec (olsBeta M y - b) := by
    rw [olsResid, Matrix.mulVec_sub]
    abel
  have h0 := olsResid_orthogonal M y hdet (olsBeta M y - b)
  rw [hsplit, Matrix.add_dotProduct, Matrix.dotProduct_add, Matrix.dotProduct_add, h0,
    Matrix.dotProduct_comm (M.mulVec (olsBeta M y - b)) (olsResid M y), h0]
  have hsq : 0 ≤ Matrix.dotProduct (M.mulVec (olsBeta M y - b)) (M.mulVec (olsBeta M y - b)) :=
    Finset.sum_nonneg fun _ _ => mul_self_nonneg _
  linarith

theorem dotProduct_self_nonneg (v : Fin n → ℚ) : 0 ≤ Matrix.dotProduct v v :=
  Finset.sum_nonneg fun _ _ => mul_self_nonneg _

/-- With a constant-one column the constant vector is in the column space. -/
theorem mulVec_single_of_ones (M : Matrix (Fin n) (Fin k) ℚ) (c : Fin k)
    (hc : ∀ i, M i c = 1) (μ : ℚ) : M.mulVec (Pi.single c μ) = fun _ => μ := by
  funext i
  simp [Matrix.mulVec, Matrix.dotProduct, Pi.single_apply, hc]

theorem olsTSS_eq (y : Fin n → ℚ) :
    olsTSS y = Matrix.dotProduct (y - fun _ => (∑ i, y i) / (n : ℚ))
      (y - fun _ => (∑ i, y i) / (n : ℚ)) := rfl

theorem olsRSS_le_TSS (M : Matrix (Fin n) (Fin k) ℚ) (y : Fin n → ℚ)
    (hdet : (M.transpose * M).det ≠ 0) (c : Fin k) (hc : ∀ i, M i c = 1) :
    Matrix.dotProduct (olsResid M y) (olsResid M y) ≤ olsTSS y := by
  have h := olsRSS_le M y hdet (Pi.single c ((∑ i, y i) / (n : ℚ)))
  rw [mulVec_single_of_ones M c hc] at h
  exact h

theorem olsTSS_pos (y : Fin n → ℚ) (hy : ∃ i j, y i ≠ y j) : 0 < olsTSS y := by
  obtain ⟨i, j, hij⟩ := hy
  have hnn : ∀ l ∈ Finset.univ, 0 ≤ (y l - (∑ i, y i) / (n : ℚ)) * (y l - (∑ i, y i) / (n : ℚ)) :=
    fun l _ => mul_self_nonneg _
  by_contra hpos
  have hz : olsTSS y = 0 := le_antisymm (not_lt.mp hpos) (Finset.sum_nonneg hnn)
  have hall := (Finset.sum_eq_zero_iff_of_nonneg hnn).mp hz
  have hi := mul_self_eq_zero.mp (hall i (Finset.mem_univ i))
  have hj := mul_self_eq_zero.mp (hall j (Finset.mem_univ j))
  apply hij
  linarith
end OLS2

theorem addConstantColumn_getD_zero (X : List (List ℚ)) (i : ℕ) (hi : i < X.length) :
    ((addConstantColumn X).getD i []).getD 0 0 = 1 := by
  simp [addConstantColumn, List.getD_eq_getElem?_getD, hi]

theorem addConstantColumn_headD_length_pos (X : List (List ℚ)) (hX : X ≠ []) :
    0 < ((addConstantColumn X).headD []).length := by
  cases X with
  | nil => exact absurd rfl hX
  | cons r rs => simp [addConstantColumn]

theorem toVecDense_not_const (Y : List ℚ) (n : ℕ) (hY : Y.length = n)
    (hy : ∃ a ∈ Y, ∃ b ∈ Y, a ≠ b) : ∃ i j, toVecDense n Y i ≠ toVecDense n Y j := by
  obtain ⟨a, ha, b, hb, hab⟩ := hy
  obtain ⟨i, hi, rfl⟩ := List.mem_iff_getElem.mp ha
  obtain ⟨j, hj, rfl⟩ := List.mem_iff_getElem.mp hb
  refine ⟨⟨i, hY ▸ hi⟩, ⟨j, hY ▸ hj⟩, ?_⟩
  simpa [toVecDense, List.getD_eq_getElem?_getD, hi, hj] using hab

/-- C5: for every design with `n > k` rows, invertible `XᵀX` and an intercept (`withConst`
set, or a constant-one column in `X`), and every response that is not constant,
`MultiRegression` succeeds and its `RSquared` lies in `[0, 1]`. -/
theorem C5_rsquared_range (lib : NumLib) (X : List (List ℚ)) (Y : List ℚ) (withConst : Bool)
    (n k : ℕ) (hn : X.length = n) (hY : Y.length = n)
    (hk : ((design X withConst).headD []).length = k) (hnk : k < n)
    (hdet : ((toDense n k (design X withConst)).transpose
      * toDense n k (design X withConst)).det ≠ 0)
    (hint : withConst = true ∨ ∃ c, c < k ∧ ∀ i, i < n → (X.getD i []).getD c 0 = 1)
    (hy : ∃ a ∈ Y, ∃ b ∈ Y, a ≠ b) :
    ∃ m : MultiLinearModel,
      MultiRegression lib X Y withConst = some (m, none) ∧
      0 ≤ m.RSquared ∧ m.RSquared ≤ 1 := by
  have hX : X ≠ [] := by
    intro h
    rw [h] at hn
    simp at hn
    omega
  have hk0 : 0 < k := by
    rcases hint with h | ⟨c, hc, _⟩
    · subst h
      rw [← hk]
      exact addConstantColumn_headD_length_pos X hX
    · omega
  have hcol : ∃ c : Fin k, ∀ i, toDense n k (design X withConst) i c = 1 := by
    rcases hint with h | ⟨c, hc, hones⟩
    · subst h
      refine ⟨⟨0, hk0⟩, fun i => ?_⟩
      exact addConstantColumn_getD_zero X i.val (hn ▸ i.isLt)
    · cases withConst with
      | true =>
        refine ⟨⟨0, hk0⟩, fun i => ?_⟩
        exact addConstantColumn_getD_zero X i.val (hn ▸ i.isLt)
      | false => exact ⟨⟨c, hc⟩, fun i => hones i.val i.isLt⟩
  obtain ⟨c, hc⟩ := hcol
  have hTSS := olsTSS_pos (toVecDense n Y) (toVecDense_not_const Y n hY hy)
  have hle := olsRSS_le_TSS (toDense n k (design X withConst)) (toVecDense n Y) hdet c hc
  have h0 := dotProduct_self_nonneg (olsResid (toDense n k (design X withConst))
    (toVecDense n Y))
  refine ⟨olsModel lib (toDense n k (design X withConst)) (toVecDense n Y)
    (exactInv ((toDense n k (design X withConst)).transpose
      * toDense n k (design X withConst))), ?_, ?_, ?_⟩
  · rw [MultiRegression_eq_Mat lib X Y withConst n k hn hY (by omega) hk hk0]
    exact congrArg some (MultiRegressionMat_of_inv lib _ _ hnk hdet)
  · rw [olsModel_RSquared, sub_nonneg, div_le_one hTSS]
    exact hle
  · rw [olsModel_RSquared, sub_le_self_iff]
    exact div_nonneg h0 hTSS.le

/-- Instance of C5 on `X = [[1],[2],[3]]` with intercept and response `[1,2,4]`. -/
theorem C5_rsquared_range_witness :
    ∃ m : MultiLinearModel,
      MultiRegression ratLib [[1], [2], [3]] [1, 2, 4] true = some (m, none) ∧
      0 ≤ m.RSquared ∧ m.RSquared ≤ 1 :=
  C5_rsquared_range ratLib [[1], [2], [3]] [1, 2, 4] true 3 2 rfl rfl rfl (by decide)
    (by
      simp [Matrix.det_fin_two, Matrix.mul_apply, Fin.sum_univ_succ, toDense, design,
        addConstantColumn]
      norm_num)
    (Or.inl rfl) ⟨1, by simp, 2, by simp, by norm_num⟩

/-! ## Statements about `timeSeries/acf` -/

theorem foldl_add_eq_sum {α : Type} (f : α → ℚ) (l : List α) (init : ℚ) :
    l.foldl (fun acc x => acc + f x) init = init + (l.map f).sum := by
  induction l generalizing init with
  | nil => simp
  | cons a t ih => simp [ih, add_assoc]

theorem segLoop_eq (mean : ℚ) (seg : List ℚ) (k : ℕ) (init : ℚ) :
    (List.range (seg.length - k)).foldl (fun num i =>
        num + ((seg.take (seg.length - k)).getD i 0 - mean) * ((seg.drop k).getD i 0 - mean))
      init
      = init + ((List.range (seg.length - k)).map fun t =>
          (seg.getD t 0 - mean) * (seg.getD (t + k) 0 - mean)).sum := by
  rw [foldl_add_eq_sum]
  congr 2
  apply List.map_congr_left
  intro i hi
  have hi2 : i < seg.length - k := List.mem_range.mp hi
  have h1 : (seg.take (seg.length - k)).getD i 0 = seg.getD i 0 := by
    have hlt : i < seg.length := by omega
    simp [List.getD_eq_getElem?_getD, List.getElem?_take, hi2, hlt]
  have h2 : (seg.drop k).getD i 0 = seg.getD (i + k) 0 := by
    simp [List.getD_eq_getElem?_getD, List.getElem?_drop, add_comm]
  rw [h1, h2]

theorem lagAccum_foldl (mean : ℚ) (eps : List (List ℚ)) (k : ℕ) (acc : ℚ × ℤ) :
    eps.foldl (fun acc seg =>
      let n : ℤ := seg.length
      let nk : ℤ := n - (k : ℤ)
      if nk ≤ 0 then acc else
      let segk := seg.drop k
      let seg0 := seg.take nk.toNat
      ((List.range nk.toNat).foldl (fun num i =>
          let dx := seg0.getD i 0 - mean
          let dy := segk.getD i 0 - mean
          num + dx * dy) acc.1,
       acc.2 + nk)) acc
      = (acc.1 + numK mean eps k, acc.2 + (pairsK eps k : ℤ)) := by
  induction eps generalizing acc with
  | nil => simp [numK, pairsK]
  | cons seg rest ih =>
    rw [List.foldl_cons, ih]
    have hnum : numK mean (seg :: rest) k
        = ((List.range (seg.length - k)).map fun t =>
            (seg.getD t 0 - mean) * (seg.getD (t + k) 0 - mean)).sum + numK mean rest k := by
      simp [numK]
    have hcnt : pairsK (seg :: rest) k = (seg.length - k) + pairsK rest k := by
      simp [pairsK]
    rw [hnum, hcnt]
    by_cases hle : ((seg.length : ℤ) - (k : ℤ)) ≤ 0
    · have h0 : seg.length - k = 0 := by omega
      simp only [hle, if_true, h0]
      simp
    · have hpos : ((seg.length : ℤ) - (k : ℤ)).toNat = seg.length - k := by omega
      have hcast : ((seg.length - k : ℕ) : ℤ) = (seg.length : ℤ) - (k : ℤ) := by omega
      simp only [hle, if_false, hpos]
      rw [segLoop_eq]
      ext
      · simp only
        ring
      · simp only
        push_cast
        rw [hcast]
        ring

theorem lagAccum_eq (mean : ℚ) (eps : List (List ℚ)) (k : ℕ) :
    lagAccum mean eps k = (numK mean eps k, (pairsK eps k : ℤ)) := by
  unfold lagAccum
  rw [lagAccum_foldl]
  simp

theorem pairsK_eq_zero_iff (eps : List (List ℚ)) (k : ℕ) :
    pairsK eps k = 0 ↔ maxSegLen eps ≤ k := by
  induction eps with
  | nil => simp [pairsK, maxSegLen]
  | cons seg rest ih =>
    have h1 : pairsK (seg :: rest) k = (seg.length - k) + pairsK rest k := by simp [pairsK]
    have h2 : maxSegLen (seg :: rest) = max seg.length (maxSegLen rest) := by simp [maxSegLen]
    rw [h1, h2, Nat.add_eq_zero_iff, ih, max_le_iff]
    constructor
    · rintro ⟨h, h'⟩
      exact ⟨by omega, h'⟩
    · rintro ⟨h, h'⟩
      exact ⟨by omega, h'⟩

theorem pairsK_zero_mono (eps : List (List ℚ)) (k j : ℕ) (h : pairsK eps k = 0) :
    pairsK eps (k + j) = 0 := by
  rw [pairsK_eq_zero_iff] at h ⊢
  omega

theorem parallelWorker_eq (s : MultiSegments) (k : ℕ) :
    parallelWorker s k = if pairsK s.eps k = 0 then F64.nan
      else fdiv (numK s.mean s.eps k) (s.variance * (pairsK s.eps k : ℚ)) := by
  unfold parallelWorker
  simp only [lagAccum_eq]
  by_cases h : pairsK s.eps k = 0
  · simp [h]
  · have h2 : ¬ ((pairsK s.eps k : ℤ) = 0) := by exact_mod_cast h
    simp [h, h2]

/-- The lag loop with its early exit computes, at every lag, what a worker computes. -/
theorem acfLoop_eq_map (s : MultiSegments) (rem k : ℕ) :
    acfLoop s rem k = (List.range rem).map fun j => parallelWorker s (k + j) := by
  induction rem generalizing k with
  | zero => simp [acfLoop]
  | succ rem ih =>
    unfold acfLoop
    simp only [lagAccum_eq]
    by_cases h : pairsK s.eps k = 0
    · have h2 : ((pairsK s.eps k : ℤ) = 0) := by exact_mod_cast h
      rw [if_pos h2]
      apply List.ext_getElem
      · simp
      · intro i h1 h3
        simp [parallelWorker_eq, pairsK_zero_mono s.eps k i h]
    · have h2 : ¬ ((pairsK s.eps k : ℤ) = 0) := by exact_mod_cast h
      rw [if_neg h2, ih, List.range_succ_eq_map, List.map_cons, List.map_map]
      congr 1
      · simp [parallelWorker_eq, h]
      · apply List.map_congr_left
        intro j _
        simp [Nat.add_comm, Nat.add_left_comm]

/-- C6 (failing input): on the series `[1, 2, 3]` with `maxLag = 1` the lag-0 value returned
by `AutoCorrSingeSegment` is `-1`, not `1`: entry `n-1` of `Correlate u u FULL_MODE` is
`Σ_j u[n-1-j]·u[j]`, which is `-2` for `u = [-1, 0, 1]`, while `Σ u² = 2`. -/
theorem C6_lag0_failing_input :
    AutoCorrSingeSegment [1, 2, 3] 1 = some (some [F64.fin (-1)], none) ∧
    Correlate [-1, 0, 1] [-1, 0, 1] FULL_MODE = some (some [1, 0, -2, 0, 1], none) := by
  constructor
  · simp [AutoCorrSingeSegment, Correlate, ArrMean, FULL_MODE, VALID_MODE, SAME_MODE, fdiv,
      List.range, List.range.loop]
    norm_num
  · simp [Correlate, FULL_MODE, VALID_MODE, SAME_MODE, List.range, List.range.loop]
    norm_num

theorem foldl_set_spec (w : ℕ → F64 ℚ) (order : List ℕ) (init : List (F64 ℚ)) :
    (order.foldl (fun res k => res.set k (w k)) init).length = init.length ∧
    ∀ i, i < init.length →
      (order.foldl (fun res k => res.set k (w k)) init)[i]?
        = some (if i ∈ order then w i else init.getD i (F64.fin 0)) := by
  induction order generalizing init with
  | nil =>
    refine ⟨rfl, fun i hi => ?_⟩
    simp [List.getD_eq_getElem?_getD, hi]
  | cons a rest ih =>
    obtain ⟨hlen, hget⟩ := ih (init.set a (w a))
    rw [List.length_set] at hlen hget
    refine ⟨hlen, fun i hi => ?_⟩
    rw [List.foldl_cons, hget i hi]
    by_cases hr : i ∈ rest
    · simp [hr]
    · by_cases ha : i = a
      · subst ha
        simp [hr, List.getD_eq_getElem?_getD, hi]
      · have ha2 : ¬ a = i := fun h => ha h.symm
        simp [hr, ha, List.getD_eq_getElem?_getD, List.getElem?_set, ha2]

/-- C8: for every `MultiSegments` value, every `maxLag ≥ 1` and every order in which the
lags `0 .. maxLag-1` are processed, `AutoCorrSegmentsParallel` returns the same sequence as
`AutoCorrSegments`, entry by entry, `NaN` positions included. -/
theorem C8_parallel_eq_direct (s : MultiSegments) (maxLag : ℤ) (h : 1 ≤ maxLag)
    (order : List ℕ) (hperm : order.Perm (List.range maxLag.toNat)) :
    AutoCorrSegmentsParallel s maxLag order = AutoCorrSegments s maxLag := by
  have hpos : ¬ maxLag ≤ 0 := by omega
  unfold AutoCorrSegmentsParallel AutoCorrSegments
  rw [if_neg hpos, if_neg hpos]
  dsimp only
  congr 2
  obtain ⟨hlen, hget⟩ := foldl_set_spec (parallelWorker s) order
    (List.replicate maxLag.toNat (F64.fin 0))
  rw [acfLoop_eq_map]
  apply List.ext_getElem
  · rw [hlen]
    simp
  · intro i h1 h2
    have hi : i < maxLag.toNat := by simpa using h2
    have hmem : i ∈ order := hperm.mem_iff.mpr (List.mem_range.mpr hi)
    have h3 := hget i (by simpa using hi)
    rw [List.getElem?_eq_getElem h1] at h3
    rw [Option.some.inj h3]
    simp [hmem]

/-- Instance of C8 on the segments `[[1,2,3],[2,5],[]]` with the lags stored in the order
`3, 1, 0, 4, 2`. -/
theorem C8_parallel_eq_direct_witness :
    AutoCorrSegmentsParallel ⟨[[1, 2, 3], [2, 5], []], 5, 13 / 5, 46 / 25⟩ 5 [3, 1, 0, 4, 2]
      = AutoCorrSegments ⟨[[1, 2, 3], [2, 5], []], 5, 13 / 5, 46 / 25⟩ 5 :=
  C8_parallel_eq_direct _ 5 (by decide) [3, 1, 0, 4, 2] (by decide)

theorem fdiv_of_ne_zero (a b : ℚ) (hb : b ≠ 0) : fdiv a b = F64.fin (a / b) := by
  simp [fdiv, hb]

theorem fftRoot_isPrimitiveRoot (L : ℕ) (hL : L ≠ 0) : IsPrimitiveRoot (fftRoot L) L :=
  Complex.isPrimitiveRoot_exp L hL

theorem fftRoot_ne_zero (L : ℕ) : fftRoot L ≠ 0 := Complex.exp_ne_zero _

theorem fftRoot_pow (L : ℕ) (hL : L ≠ 0) : fftRoot L ^ L = 1 :=
  (fftRoot_isPrimitiveRoot L hL).pow_eq_one

theorem fftRoot_conj (L : ℕ) : (starRingEnd ℂ) (fftRoot L) = (fftRoot L)⁻¹ := by
  unfold fftRoot
  rw [← Complex.exp_conj, ← Complex.exp_neg]
  congr 1
  have h2 : (starRingEnd ℂ) (2 : ℂ) = 2 := Complex.conj_ofReal 2
  simp [Complex.conj_ofReal, h2]
  ring

/-- Orthogonality of the roots of unity: `Σ_{f<L} ζ^{d·f}` is `L` when `L ∣ d`, else `0`. -/
theorem root_sum (L : ℕ) (hL : L ≠ 0) (d : ℤ) :
    ∑ f in Finset.range L, (fftRoot L ^ d) ^ f = if (L : ℤ) ∣ d then (L : ℂ) else 0 := by
  have hprim := fftRoot_isPrimitiveRoot L hL
  by_cases hd : (L : ℤ) ∣ d
  · have h1 : fftRoot L ^ d = 1 := (hprim.zpow_eq_one_iff_dvd d).mpr hd
    simp [h1, hd]
  · have h1 : fftRoot L ^ d ≠ 1 := fun h => hd ((hprim.zpow_eq_one_iff_dvd d).mp h)
    have h2 : (fftRoot L ^ d) ^ L = 1 := by
      rw [← zpow_natCast, ← zpow_mul, mul_comm, zpow_mul, zpow_natCast, fftRoot_pow L hL,
        one_zpow]
    rw [if_neg hd, geom_sum_eq h1, h2, sub_self, zero_div]

theorem dftCoeff_conj (L : ℕ) (x : ℕ → ℝ) (f : ℕ) :
    (starRingEnd ℂ) (dftCoeff L x f) = ∑ s in Finset.range L, (x s : ℂ) * fftRoot L ^ (f * s) := by
  unfold dftCoeff
  rw [map_sum]
  apply Finset.sum_congr rfl
  intro s _
  rw [map_mul, map_pow, map_inv₀, fftRoot_conj, inv_inv, Complex.conj_ofReal]

theorem root_term (L : ℕ) (f t s k : ℕ) :
    (fftRoot L)⁻¹ ^ (f * t) * fftRoot L ^ (f * s) * fftRoot L ^ (f * k)
      = (fftRoot L ^ ((s : ℤ) + (k : ℤ) - (t : ℤ))) ^ f := by
  have h0 := fftRoot_ne_zero L
  rw [← zpow_natCast (fftRoot L ^ ((s : ℤ) + (k : ℤ) - (t : ℤ))) f, ← zpow_mul]
  have e : ((s : ℤ) + (k : ℤ) - (t : ℤ)) * (f : ℤ)
      = ((f * s : ℕ) : ℤ) + ((f * k : ℕ) : ℤ) - ((f * t : ℕ) : ℤ) := by
    push_cast
    ring
  rw [e, zpow_sub₀ h0, zpow_add₀ h0, zpow_natCast, zpow_natCast, zpow_natCast, inv_pow]
  field_simp

/-- The inverse transform of the power spectrum of a zero-padded real sequence is `L` times
its linear autocorrelation (no wrap-around when `2T ≤ L`). -/
theorem power_spectrum_sum (L T : ℕ) (hL : 2 * T ≤ L) (x : ℕ → ℝ)
    (hx : ∀ t, T ≤ t → x t = 0) (k : ℕ) (hk : k < T) :
    ∑ f in Finset.range L,
        (dftCoeff L x f * (starRingEnd ℂ) (dftCoeff L x f)) * fftRoot L ^ (f * k)
      = (L : ℂ) * ((∑ s in Finset.range (T - k), x s * x (s + k) : ℝ) : ℂ) := by
  have hL0 : L ≠ 0 := by omega
  have step1 : ∀ f ∈ Finset.range L,
      (dftCoeff L x f * (starRingEnd ℂ) (dftCoeff L x f)) * fftRoot L ^ (f * k)
        = ∑ t in Finset.range L, ∑ s in Finset.range L,
            ((x t : ℂ) * (x s : ℂ)) * (fftRoot L ^ ((s : ℤ) + (k : ℤ) - (t : ℤ))) ^ f := by
    intro f _
    rw [dftCoeff_conj]
    unfold dftCoeff
    rw [Finset.sum_mul_sum, Finset.sum_mul]
    apply Finset.sum_congr rfl
    intro t _
    rw [Finset.sum_mul]
    apply Finset.sum_congr rfl
    intro s _
    rw [← root_term]
    ring
  rw [Finset.sum_congr rfl step1, Finset.sum_comm]
  have step2 : ∀ t ∈ Finset.range L,
      ∑ f in Finset.range L, ∑ s in Finset.range L,
          ((x t : ℂ) * (x s : ℂ)) * (fftRoot L ^ ((s : ℤ) + (k : ℤ) - (t : ℤ))) ^ f
        = ∑ s in Finset.range L, if t = s + k then (L : ℂ) * ((x s : ℂ) * (x (s + k) : ℂ))
            else 0 := by
    intro t ht
    rw [Finset.sum_comm]
    apply Finset.sum_congr rfl
    intro s hs
    rw [← Finset.mul_sum, root_sum L hL0]
    have ht' : t < L := Finset.mem_range.mp ht
    have hs' : s < L := Finset.mem_range.mp hs
    by_cases hts : t = s + k
    · subst hts
      have hd : ((s : ℤ) + (k : ℤ) - ((s + k : ℕ) : ℤ)) = 0 := by push_cast; ring
      rw [hd, if_pos (dvd_zero _), if_pos rfl]
      ring
    · rw [if_neg hts]
      by_cases htT : T ≤ t
      · rw [hx t htT]
        simp
      · by_cases hsT : T ≤ s
        · rw [hx s hsT]
          simp
        · have hnd : ¬ ((L : ℤ) ∣ (s : ℤ) + (k : ℤ) - (t : ℤ)) := by
            rintro ⟨c, hc⟩
            have hc1 : c = 0 := by
              by_contra hc0
              rcases lt_or_gt_of_ne hc0 with hneg | hpos
              · have : (L : ℤ) * c ≤ -(L : ℤ) := by nlinarith
                omega
              · have : (L : ℤ) ≤ (L : ℤ) * c := by nlinarith
                omega
            rw [hc1] at hc
            omega
          rw [if_neg hnd, mul_zero]
  rw [Finset.sum_congr rfl step2, Finset.sum_comm]
  have step3 : ∀ s ∈ Finset.range L,
      (∑ t in Finset.range L, if t = s + k then (L : ℂ) * ((x s : ℂ) * (x (s + k) : ℂ)) else 0)
        = (L : ℂ) * ((x s : ℂ) * (x (s + k) : ℂ)) := by
    intro s hs
    have hs' : s < L := Finset.mem_range.mp hs
    by_cases hsk : s + k < L
    · rw [Finset.sum_ite_eq' (Finset.range L) (s + k), if_pos (Finset.mem_range.mpr hsk)]
    · have h0 : x (s + k) = 0 := hx _ (by omega)
      rw [h0]
      simp
  rw [Finset.sum_congr rfl step3, ← Finset.mul_sum]
  congr 1
  have hsub : Finset.range (T - k) ⊆ Finset.range L := by
    intro a ha
    rw [Finset.mem_range] at ha ⊢
    omega
  rw [Complex.ofReal_sum, ← Finset.sum_subset hsub]
  · apply Finset.sum_congr rfl
    intro s _
    push_cast
    ring
  · intro s _ hs
    have h0 : x (s + k) = 0 := hx _ (by
      rw [Finset.mem_range] at hs
      omega)
    rw [h0]
    simp

theorem nextPow2Loop_ge (n p : ℕ) (hp : 0 < p) : n ≤ nextPow2Loop n p hp := by
  generalize h : n - p = d
  induction d using Nat.strong_induction_on generalizing p with
  | _ d ih =>
    unfold nextPow2Loop
    by_cases hlt : p < n
    · rw [dif_pos hlt]
      exact ih (n - p * 2) (by omega) (p * 2) (by omega) rfl
    · rw [dif_neg hlt]
      omega

theorem nextPow2_ge (n : ℕ) : n ≤ nextPow2 n :=
  nextPow2Loop_ge n 1 (by decide)

theorem dftCoeff_reflect (L : ℕ) (hL : L ≠ 0) (x : ℕ → ℝ) (f : ℕ) (hf : f ≤ L) :
    dftCoeff L x (L - f) = (starRingEnd ℂ) (dftCoeff L x f) := by
  rw [dftCoeff_conj]
  unfold dftCoeff
  apply Finset.sum_congr rfl
  intro s _
  congr 1
  have h0 := fftRoot_ne_zero L
  have h1 : (fftRoot L)⁻¹ ^ ((L - f) * s) * (fftRoot L)⁻¹ ^ (f * s) = 1 := by
    rw [← pow_add, ← Nat.add_mul, Nat.sub_add_cancel hf, inv_pow, pow_mul, fftRoot_pow L hL,
      one_pow, inv_one]
  have h2 : (fftRoot L)⁻¹ ^ (f * s) * fftRoot L ^ (f * s) = 1 := by
    rw [inv_pow, inv_mul_cancel₀ (pow_ne_zero _ h0)]
  have h3 : (fftRoot L)⁻¹ ^ (f * s) ≠ 0 := pow_ne_zero _ (inv_ne_zero h0)
  exact mul_right_cancel₀ h3 (by rw [h1, mul_comm, h2])

theorem normSq_as_mul (c : ℂ) :
    ((c.re * c.re + c.im * c.im : ℝ) : ℂ) = c * (starRingEnd ℂ) c := by
  rw [Complex.mul_conj, Complex.normSq_apply]

/-- The chain `Coefficients`, squared modulus, `Sequence`, scale by `1/L` of the source
computes the linear autocorrelation sums of the zero-padded sequence (Wiener-Khinchin). -/
theorem fft_autocorr (seq : List ℝ) (T : ℕ) (hL : 2 * T ≤ seq.length)
    (hx : ∀ t, T ≤ t → seq.getD t 0 = 0) (k : ℕ) (hk : k < T) :
    (fftSequence seq.length ((fftCoefficients seq).map fun c =>
        ((c.re * c.re + c.im * c.im : ℝ) : ℂ))).getD k 0 * (1 / (seq.length : ℝ))
      = ∑ s in Finset.range (T - k), seq.getD s 0 * seq.getD (s + k) 0 := by
  have hL0 : seq.length ≠ 0 := by omega
  have hkL : k < seq.length := by omega
  have hterm : ∀ f ∈ Finset.range seq.length,
      (if 2 * f ≤ seq.length then
          ((fftCoefficients seq).map fun c =>
            ((c.re * c.re + c.im * c.im : ℝ) : ℂ)).getD f 0
        else (starRingEnd ℂ) (((fftCoefficients seq).map fun c =>
            ((c.re * c.re + c.im * c.im : ℝ) : ℂ)).getD (seq.length - f) 0))
          * fftRoot seq.length ^ (f * k)
        = (dftCoeff seq.length (fun t => seq.getD t 0) f
            * (starRingEnd ℂ) (dftCoeff seq.length (fun t => seq.getD t 0) f))
          * fftRoot seq.length ^ (f * k) := by
    intro f hf
    have hf' : f < seq.length := Finset.mem_range.mp hf
    congr 1
    have hget : ∀ g, g < seq.length / 2 + 1 →
        ((fftCoefficients seq).map fun c =>
            ((c.re * c.re + c.im * c.im : ℝ) : ℂ)).getD g 0
          = dftCoeff seq.length (fun t => seq.getD t 0) g
            * (starRingEnd ℂ) (dftCoeff seq.length (fun t => seq.getD t 0) g) := by
      intro g hg
      rw [← normSq_as_mul]
      simp [fftCoefficients, List.getD_eq_getElem?_getD, hg]
    by_cases h2 : 2 * f ≤ seq.length
    · rw [if_pos h2, hget f (by omega)]
    · rw [if_neg h2, hget (seq.length - f) (by omega), dftCoeff_reflect _ hL0 _ f (by omega)]
      simp [mul_comm]
  have hsum := power_spectrum_sum seq.length T hL (fun t => seq.getD t 0) hx k hk
  have hentry : (fftSequence seq.length ((fftCoefficients seq).map fun c =>
        ((c.re * c.re + c.im * c.im : ℝ) : ℂ))).getD k 0
      = (seq.length : ℝ) * ∑ s in Finset.range (T - k), seq.getD s 0 * seq.getD (s + k) 0 := by
    unfold fftSequence
    rw [List.getD_eq_getElem?_getD, List.getElem?_map, List.getElem?_range hkL]
    simp only [Option.map_some', Option.getD_some]
    rw [Finset.sum_congr rfl hterm, hsum, ← Complex.ofReal_natCast, ← Complex.ofReal_mul,
      Complex.ofReal_re]
  rw [hentry]
  have hLr : (seq.length : ℝ) ≠ 0 := by exact_mod_cast hL0
  field_simp

theorem list_range_sum (f : ℕ → ℝ) (n : ℕ) :
    ((List.range n).map f).sum = ∑ i in Finset.range n, f i := by
  induction n with
  | zero => simp
  | succ n ih => simp [List.range_succ, Finset.sum_range_succ, ih]

theorem getD_map_range {α : Type} (f : ℕ → α) (n k : ℕ) (d : α) (hk : k < n) :
    ((List.range n).map f).getD k d = f k := by
  simp [List.getD_eq_getElem?_getD, hk]

theorem getD_map_range_ge {α : Type} (f : ℕ → α) (n k : ℕ) (d : α) (hk : n ≤ k) :
    ((List.range n).map f).getD k d = d := by
  have h : ((List.range n).map f)[k]? = none := by
    rw [List.getElem?_eq_none_iff]
    simpa using hk
  rw [List.getD_eq_getElem?_getD, h]
  rfl

theorem fftSegment_spec (mean : ℚ) (maxLag : ℕ) (a : ℕ → ℝ) (c : ℕ → ℤ) (seg : List ℚ) :
    fftSegment mean maxLag ((List.range maxLag).map a, (List.range maxLag).map c) seg
      = ((List.range maxLag).map (fun k => a k + ((segNum mean seg k : ℚ) : ℝ)),
         (List.range maxLag).map (fun k => c k + ((seg.length - k : ℕ) : ℤ))) := by
  unfold fftSegment
  by_cases hT : seg.length = 0
  · simp only [hT, if_true]
    ext1
    · apply List.map_congr_left
      intro k _
      simp [segNum, hT]
    · apply List.map_congr_left
      intro k _
      simp
  · simp only [hT, if_false]
    ext1
    · apply List.map_congr_left
      intro k hk
      have hk' : k < maxLag := List.mem_range.mp hk
      simp only [getD_map_range a maxLag k 0 hk']
      by_cases hkT : k < seg.length
      · have hmax : k < (if maxLag > seg.length then seg.length else maxLag) := by
          split_ifs <;> omega
        rw [if_pos hmax]
        congr 1
        have hL := nextPow2_ge (2 * seg.length)
        have hlen : ((List.range (nextPow2 (2 * seg.length))).map fun i =>
            if i < seg.length then ((seg.getD i 0 - mean : ℚ) : ℝ) else 0).length
            = nextPow2 (2 * seg.length) := by simp
        have hx : ∀ t, seg.length ≤ t →
            ((List.range (nextPow2 (2 * seg.length))).map fun i =>
              if i < seg.length then ((seg.getD i 0 - mean : ℚ) : ℝ) else 0).getD t 0 = 0 := by
          intro t ht
          by_cases htL : t < nextPow2 (2 * seg.length)
          · rw [getD_map_range _ _ _ _ htL, if_neg (by omega)]
          · rw [getD_map_range_ge _ _ _ _ (by omega)]
        have hval : ∀ t, t < seg.length →
            ((List.range (nextPow2 (2 * seg.length))).map fun i =>
              if i < seg.length then ((seg.getD i 0 - mean : ℚ) : ℝ) else 0).getD t 0
              = ((seg.getD t 0 - mean : ℚ) : ℝ) := by
          intro t ht
          rw [getD_map_range _ _ _ _ (by omega), if_pos ht]
        have hwk := fft_autocorr _ seg.length (by rw [hlen]; exact hL) hx k hkT
        rw [hlen] at hwk
        rw [hwk, segNum, Rat.cast_list_sum, List.map_map, list_range_sum]
        apply Finset.sum_congr rfl
        intro t ht
        have ht' : t < seg.length - k := Finset.mem_range.mp ht
        rw [hval t (by omega), hval (t + k) (by omega)]
        simp
      · have hmax : ¬ k < (if maxLag > seg.length then seg.length else maxLag) := by
          split_ifs <;> omega
        have h0 : seg.length - k = 0 := by omega
        rw [if_neg hmax]
        simp [segNum, h0]
    · apply List.map_congr_left
      intro k hk
      have hk' : k < maxLag := List.mem_range.mp hk
      simp only [getD_map_range c maxLag k 0 hk']
      by_cases hkT : k < seg.length
      · have hmax : k < (if maxLag > seg.length then seg.length else maxLag) := by
          split_ifs <;> omega
        rw [if_pos hmax]
        omega
      · have hmax : ¬ k < (if maxLag > seg.length then seg.length else maxLag) := by
          split_ifs <;> omega
        rw [if_neg hmax]
        omega

theorem numK_cons (mean : ℚ) (seg : List ℚ) (rest : List (List ℚ)) (k : ℕ) :
    numK mean (seg :: rest) k = segNum mean seg k + numK mean rest k := by
  simp [numK, segNum]

theorem pairsK_cons (seg : List ℚ) (rest : List (List ℚ)) (k : ℕ) :
    pairsK (seg :: rest) k = (seg.length - k) + pairsK rest k := by
  simp [pairsK]

theorem fftFold_spec (mean : ℚ) (maxLag : ℕ) (eps : List (List ℚ)) (a : ℕ → ℝ)
    (c : ℕ → ℤ) :
    eps.foldl (fftSegment mean maxLag) ((List.range maxLag).map a, (List.range maxLag).map c)
      = ((List.range maxLag).map (fun k => a k + ((numK mean eps k : ℚ) : ℝ)),
         (List.range maxLag).map (fun k => c k + (pairsK eps k : ℤ))) := by
  induction eps generalizing a c with
  | nil => simp [numK, pairsK]
  | cons seg rest ih =>
    rw [List.foldl_cons, fftSegment_spec, ih]
    ext1
    · apply List.map_congr_left
      intro k _
      simp only [numK_cons]
      push_cast
      ring
    · apply List.map_congr_left
      intro k _
      simp only [pairsK_cons]
      push_cast
      ring

theorem fdiv_cast (a b : ℚ) :
    fdiv ((a : ℚ) : ℝ) ((b : ℚ) : ℝ) = F64.map (fun q : ℚ => (q : ℝ)) (fdiv a b) := by
  unfold fdiv
  by_cases hb : b = 0
  · have hb' : ((b : ℚ) : ℝ) = 0 := by exact_mod_cast hb
    rw [if_pos hb, if_pos hb']
    by_cases ha : a = 0
    · have ha' : ((a : ℚ) : ℝ) = 0 := by exact_mod_cast ha
      rw [if_pos ha, if_pos ha']
      rfl
    · have ha' : ¬ ((a : ℚ) : ℝ) = 0 := by exact_mod_cast ha
      rw [if_neg ha, if_neg ha']
      by_cases hp : 0 < a
      · have hp' : (0 : ℝ) < ((a : ℚ) : ℝ) := by exact_mod_cast hp
        rw [if_pos hp, if_pos hp']
        rfl
      · have hp' : ¬ (0 : ℝ) < ((a : ℚ) : ℝ) := by exact_mod_cast hp
        rw [if_neg hp, if_neg hp']
        rfl
  · have hb' : ¬ ((b : ℚ) : ℝ) = 0 := by exact_mod_cast hb
    rw [if_neg hb, if_neg hb']
    simp [F64.map]

theorem fftFinal_eq (s : MultiSegments) (maxLag : ℕ) (num : List ℝ) (cnt : List ℤ)
    (hnum : ∀ k, k < maxLag → num.getD k 0 = ((numK s.mean s.eps k : ℚ) : ℝ))
    (hcnt : ∀ k, k < maxLag → cnt.getD k 0 = (pairsK s.eps k : ℤ)) (rem k : ℕ)
    (hk : k + rem ≤ maxLag) :
    fftFinal (s.variance : ℝ) num cnt rem k
      = (acfLoop s rem k).map (F64.map fun q : ℚ => (q : ℝ)) := by
  induction rem generalizing k with
  | zero => simp [fftFinal, acfLoop]
  | succ rem ih =>
    unfold fftFinal acfLoop
    simp only [lagAccum_eq]
    rw [hcnt k (by omega), hnum k (by omega)]
    by_cases h0 : (pairsK s.eps k : ℤ) = 0
    · rw [if_pos h0, if_pos h0]
      simp [F64.map]
    · rw [if_neg h0, if_neg h0, List.map_cons, ih (k + 1) (by omega), ← fdiv_cast]
      congr 2
      push_cast
      ring

theorem F64_map_eq_nan (x : F64 ℚ) :
    F64.map (fun q : ℚ => (q : ℝ)) x = F64.nan ↔ x = F64.nan := by
  cases x <;> simp [F64.map]

theorem replicate_zero_eq_map {α : Type} (z : α) (n : ℕ) :
    List.replicate n z = (List.range n).map fun _ => z := by
  apply List.ext_getElem
  · simp
  · intro i h1 h2
    simp

/-- C7: for every `MultiSegments` value and every `maxLag ≥ 1`, with the FFT taken as the
exact discrete Fourier transform, `AutoCorrSegmentsFFT` and `AutoCorrSegments` both return
sequences of length `maxLag`; at every lag the FFT entry is the direct entry (as a real
number), and the two are `NaN` at exactly the same lags. -/
theorem C7_fft_eq_direct (s : MultiSegments) (maxLag : ℤ) (h : 1 ≤ maxLag) :
    ∃ (acf : List (F64 ℚ)) (acfFFT : List (F64 ℝ)),
      AutoCorrSegments s maxLag = (some acf, none) ∧
      AutoCorrSegmentsFFT s maxLag = (some acfFFT, none) ∧
      (acf.length : ℤ) = maxLag ∧ (acfFFT.length : ℤ) = maxLag ∧
      (∀ k : ℕ, acfFFT[k]? = (acf[k]?).map (F64.map fun q : ℚ => (q : ℝ))) ∧
      (∀ k : ℕ, ∀ q : ℚ, acf[k]? = some (F64.fin q) →
        acfFFT[k]? = some (F64.fin (q : ℝ))) ∧
      (∀ k : ℕ, acfFFT[k]? = some F64.nan ↔ acf[k]? = some F64.nan) := by
  have hpos : ¬ maxLag ≤ 0 := by omega
  have hfold := fftFold_spec s.mean maxLag.toNat s.eps (fun _ => 0) (fun _ => 0)
  rw [← replicate_zero_eq_map, ← replicate_zero_eq_map] at hfold
  have hfft : AutoCorrSegmentsFFT s maxLag
      = (some ((acfLoop s maxLag.toNat 0).map (F64.map fun q : ℚ => (q : ℝ))), none) := by
    unfold AutoCorrSegmentsFFT
    rw [if_neg hpos]
    simp only [hfold]
    congr 2
    apply fftFinal_eq s maxLag.toNat
    · intro k hk
      rw [getD_map_range _ _ _ _ hk]
      simp
    · intro k hk
      rw [getD_map_range _ _ _ _ hk]
      simp
    · omega
  have hlen : ((acfLoop s maxLag.toNat 0).length : ℤ) = maxLag := by
    rw [acfLoop_eq_map]
    simp
    omega
  refine ⟨acfLoop s maxLag.toNat 0, _, ?_, hfft, hlen, ?_, ?_, ?_, ?_⟩
  · unfold AutoCorrSegments
    rw [if_neg hpos]
  · rw [List.length_map]
    exact hlen
  · intro k
    rw [List.getElem?_map]
  · intro k q hq
    rw [List.getElem?_map, hq]
    rfl
  · intro k
    rw [List.getElem?_map]
    cases hk : (acfLoop s maxLag.toNat 0)[k]? with
    | none => simp
    | some x => simp [F64_map_eq_nan]

/-- Instance of C7 on the value built by `NewMultiSeg` from `[[1,2,3],[2,5],[]]`. -/
theorem C7_fft_eq_direct_witness :
    ∃ (acf : List (F64 ℚ)) (acfFFT : List (F64 ℝ)),
      AutoCorrSegments ⟨[[1, 2, 3], [2, 5], []], 5, 13 / 5, 46 / 25⟩ 5 = (some acf, none) ∧
      AutoCorrSegmentsFFT ⟨[[1, 2, 3], [2, 5], []], 5, 13 / 5, 46 / 25⟩ 5
        = (some acfFFT, none) ∧
      (acf.length : ℤ) = 5 ∧ (acfFFT.length : ℤ) = 5 ∧
      (∀ k : ℕ, acfFFT[k]? = (acf[k]?).map (F64.map fun q : ℚ => (q : ℝ))) ∧
      (∀ k : ℕ, ∀ q : ℚ, acf[k]? = some (F64.fin q) →
        acfFFT[k]? = some (F64.fin (q : ℝ))) ∧
      (∀ k : ℕ, acfFFT[k]? = some F64.nan ↔ acf[k]? = some F64.nan) :=
  C7_fft_eq_direct ⟨[[1, 2, 3], [2, 5], []], 5, 13 / 5, 46 / 25⟩ 5 (by decide)

/-- C10 (failing input): with `maxLag = 0`, `AutoCorrSegmentsParallel` returns no sequence
and an error built by `fmt.Errorf`, which carries no code, while `AutoCorrSegments` and
`AutoCorrSegmentsFFT` return a structured error with code `INVALID_VALUE`. -/
theorem C10_parallel_error_has_no_code :
    AutoCorrSegmentsParallel ⟨[[1, 2, 3]], 3, 2, 2 / 3⟩ 0 []
      = (none, some (.plain "maxLag must be > 0")) ∧
    (GoError.plain "maxLag must be > 0").code? = none ∧
    AutoCorrSegments ⟨[[1, 2, 3]], 3, 2, 2 / 3⟩ 0 = (none, some (.errorx .INVALID_VALUE)) ∧
    AutoCorrSegmentsFFT ⟨[[1, 2, 3]], 3, 2, 2 / 3⟩ 0
      = (none, some (.errorx .INVALID_VALUE)) := by
  refine ⟨?_, rfl, ?_, ?_⟩
  · simp [AutoCorrSegmentsParallel]
  · simp [AutoCorrSegments]
  · simp [AutoCorrSegmentsFFT]

/-! ## Statements about `timeSeries/adfuller` -/

theorem adfLoop_append (step : ADFResult → ℕ → Option ADFResult) (l : List ℕ) (a : ℕ)
    (r : ADFResult) :
    adfLoop step (l ++ [a]) r = (adfLoop step l r).bind fun r1 => step r1 a := by
  induction l generalizing r with
  | nil =>
    cases h : step r a <;> simp [adfLoop, h]
  | cons b rest ih =>
    cases h : step r b with
    | none => simp [adfLoop, h]
    | some r1 => simpa [adfLoop, h] using ih r1

theorem adfUpdate_adfUpdate (r : ADFResult) (L L2 : ℕ) (m m2 : MultiLinearModel)
    (n n2 : ℕ) : adfUpdate (adfUpdate r L m n) L2 m2 n2 = adfUpdate r L2 m2 n2 := rfl

theorem selStep_none (crit : MultiLinearModel → ℚ)
    (cand : ℕ → Option (MultiLinearModel × ℕ)) (s : Option (ℕ × MultiLinearModel × ℕ))
    (lag : ℕ) (hc : cand lag = none) : selStep crit cand s lag = s := by
  simp only [selStep, hc]

theorem selStep_first (crit : MultiLinearModel → ℚ)
    (cand : ℕ → Option (MultiLinearModel × ℕ)) (lag : ℕ) (m : MultiLinearModel) (nobs : ℕ)
    (hc : cand lag = some (m, nobs)) : selStep crit cand none lag = some (lag, m, nobs) := by
  simp only [selStep, hc, selNew]

theorem selStep_some (crit : MultiLinearModel → ℚ)
    (cand : ℕ → Option (MultiLinearModel × ℕ)) (L : ℕ) (m0 : MultiLinearModel) (n0 : ℕ)
    (lag : ℕ) (m : MultiLinearModel) (nobs : ℕ) (hc : cand lag = some (m, nobs)) :
    selStep crit cand (some (L, m0, n0)) lag
      = if crit m < crit m0 then some (lag, m, nobs) else some (L, m0, n0) := by
  simp only [selStep, hc, selNew]

/-- The selection of the first minimal candidate over the lags `0 .. N-1`. -/
theorem selFold_spec (crit : MultiLinearModel → ℚ) (cand : ℕ → Option (MultiLinearModel × ℕ))
    (N : ℕ) :
    match (List.range N).foldl (selStep crit cand) none with
    | none => ∀ L, L < N → cand L = none
    | some (L, m, nobs) => L < N ∧ cand L = some (m, nobs) ∧
        ∀ L2 m2 n2, L2 < N → cand L2 = some (m2, n2) →
          crit m ≤ crit m2 ∧ (L2 < L → crit m < crit m2) := by
  induction N with
  | zero =>
    simp
  | succ N ih =>
    rw [List.range_succ, List.foldl_append, List.foldl_cons, List.foldl_nil]
    cases hs : (List.range N).foldl (selStep crit cand) none with
    | none =>
      rw [hs] at ih
      simp only at ih
      cases hc : cand N with
      | none =>
        rw [selStep_none crit cand none N hc]
        intro L hL
        rcases Nat.lt_succ_iff_lt_or_eq.mp hL with h | h
        · exact ih L h
        · rw [h]; exact hc
      | some p =>
        obtain ⟨m, nobs⟩ := p
        rw [selStep_first crit cand N m nobs hc]
        refine ⟨Nat.lt_succ_self N, hc, ?_⟩
        intro L2 m2 n2 hL2 hc2
        rcases Nat.lt_succ_iff_lt_or_eq.mp hL2 with h | h
        · rw [ih L2 h] at hc2
          exact absurd hc2 (by simp)
        · subst h
          rw [hc] at hc2
          obtain ⟨rfl, rfl⟩ := Prod.mk.inj (Option.some.inj hc2)
          exact ⟨le_refl _, fun h => absurd h (lt_irrefl _)⟩
    | some t =>
      obtain ⟨L, m, nobs⟩ := t
      rw [hs] at ih
      simp only at ih
      obtain ⟨hL, hcL, hmin⟩ := ih
      cases hc : cand N with
      | none =>
        rw [selStep_none crit cand _ N hc]
        refine ⟨Nat.lt_succ_of_lt hL, hcL, ?_⟩
        intro L2 m2 n2 hL2 hc2
        rcases Nat.lt_succ_iff_lt_or_eq.mp hL2 with h | h
        · exact hmin L2 m2 n2 h hc2
        · subst h
          rw [hc] at hc2
          exact absurd hc2 (by simp)
      | some p =>
        obtain ⟨mN, nN⟩ := p
        rw [selStep_some crit cand L m nobs N mN nN hc]
        by_cases hlt : crit mN < crit m
        · rw [if_pos hlt]
          refine ⟨Nat.lt_succ_self N, hc, ?_⟩
          intro L2 m2 n2 hL2 hc2
          rcases Nat.lt_succ_iff_lt_or_eq.mp hL2 with h | h
          · have := (hmin L2 m2 n2 h hc2).1
            exact ⟨by linarith, fun _ => by linarith⟩
          · subst h
            rw [hc] at hc2
            obtain ⟨rfl, rfl⟩ := Prod.mk.inj (Option.some.inj hc2)
            exact ⟨le_refl _, fun h => absurd h (lt_irrefl _)⟩
        · rw [if_neg hlt]
          refine ⟨Nat.lt_succ_of_lt hL, hcL, ?_⟩
          intro L2 m2 n2 hL2 hc2
          rcases Nat.lt_succ_iff_lt_or_eq.mp hL2 with h | h
          · exact hmin L2 m2 n2 h hc2
          · subst h
            rw [hc] at hc2
            obtain ⟨rfl, rfl⟩ := Prod.mk.inj (Option.some.inj hc2)
            exact ⟨not_lt.mp hlt, fun h => absurd h (by omega)⟩

theorem adfCrit_aic (m : MultiLinearModel) : adfCrit LAG_MODE_AIC m = m.AIC := by
  simp [adfCrit]

theorem adfCrit_bic (m : MultiLinearModel) : adfCrit LAG_MODE_BIC m = m.BIC := by
  simp [adfCrit, LAG_MODE_BIC, LAG_MODE_AIC]

theorem adfCrit_tstat (m : MultiLinearModel) :
    adfCrit LAG_MODE_TSTAT m = m.TStats.getD 0 0 := by
  simp [adfCrit, LAG_MODE_TSTAT, LAG_MODE_BIC, LAG_MODE_AIC]

/-- The selection of a new candidate over a stored selection, in AIC mode. -/
theorem adfSelect_aic (r0 : ADFResult) (h0 : r0.AIC = F64.posInf)
    (s : Option (ℕ × MultiLinearModel × ℕ)) (lag : ℕ) (m : MultiLinearModel) (nobs : ℕ) :
    adfSelect LAG_MODE_AIC (reprRes r0 s) lag m nobs
      = reprRes r0 (selNew (adfCrit LAG_MODE_AIC) s lag m nobs) := by
  unfold adfSelect
  rw [if_pos rfl]
  cases s with
  | none => simp [reprRes, h0, finLt, selNew]
  | some t =>
    obtain ⟨L, m0, n0⟩ := t
    simp only [adfCrit_aic, selNew]
    by_cases hlt : m.AIC < m0.AIC
    · simp [reprRes, adfUpdate, finLt, hlt]
    · simp [reprRes, adfUpdate, finLt, hlt]

/-- The selection of a new candidate over a stored selection, in BIC mode. -/
theorem adfSelect_bic (r0 : ADFResult) (h0 : r0.BIC = F64.posInf)
    (s : Option (ℕ × MultiLinearModel × ℕ)) (lag : ℕ) (m : MultiLinearModel) (nobs : ℕ) :
    adfSelect LAG_MODE_BIC (reprRes r0 s) lag m nobs
      = reprRes r0 (selNew (adfCrit LAG_MODE_BIC) s lag m nobs) := by
  unfold adfSelect
  rw [if_neg (by decide), if_pos rfl]
  cases s with
  | none => simp [reprRes, h0, finLt, selNew]
  | some t =>
    obtain ⟨L, m0, n0⟩ := t
    simp only [adfCrit_bic, selNew]
    by_cases hlt : m.BIC < m0.BIC
    · simp [reprRes, adfUpdate, finLt, hlt]
    · simp [reprRes, adfUpdate, finLt, hlt]

/-- The selection of a new candidate over a stored selection, in t-stat mode, when the
stored t-statistic is not the sentinel `0`. -/
theorem adfSelect_tstat (r0 : ADFResult) (h0 : r0.TStat = 0)
    (s : Option (ℕ × MultiLinearModel × ℕ))
    (hs : ∀ L m0 n0, s = some (L, m0, n0) → m0.TStats.getD 0 0 ≠ 0)
    (lag : ℕ) (m : MultiLinearModel) (nobs : ℕ) :
    adfSelect LAG_MODE_TSTAT (reprRes r0 s) lag m nobs
      = reprRes r0 (selNew (adfCrit LAG_MODE_TSTAT) s lag m nobs) := by
  unfold adfSelect
  rw [if_neg (by decide), if_neg (by decide), if_pos rfl]
  cases s with
  | none => simp [reprRes, h0, selNew]
  | some t =>
    obtain ⟨L, m0, n0⟩ := t
    have hne := hs L m0 n0 rfl
    have hT : (reprRes r0 (some (L, m0, n0))).TStat = m0.TStats.getD 0 0 := rfl
    simp only [adfCrit_tstat, selNew]
    rw [hT]
    by_cases hlt : m.TStats.getD 0 0 < m0.TStats.getD 0 0
    · rw [if_pos (Or.inl hlt), if_pos hlt]
      rfl
    · rw [if_neg (not_or.mpr ⟨hlt, hne⟩), if_neg hlt]

/-- One pass of the loop on a record that holds a selection: it does not panic exactly when
`adfOLS` does not, and then the record holds the updated selection. -/
theorem adfStep_repr (lib : NumLib) (dy ylag : List ℚ) (regr : String) (maxLag : ℕ)
    (autolag : LagMode) (r0 : ADFResult) (s : Option (ℕ × MultiLinearModel × ℕ)) (lag : ℕ)
    (hsel : ∀ m nobs, adfSelect autolag (reprRes r0 s) lag m nobs
      = reprRes r0 (selNew (adfCrit autolag) s lag m nobs))
    (r : ADFResult)
    (h : adfStep lib dy ylag regr maxLag autolag (reprRes r0 s) lag = some r) :
    r = reprRes r0 (selStep (adfCrit autolag)
      (fun l => (adfOLS lib dy ylag regr maxLag l).join) s lag) := by
  unfold adfStep at h
  cases ho : adfOLS lib dy ylag regr maxLag lag with
  | none => rw [ho] at h; exact absurd h (by simp)
  | some c =>
    cases c with
    | none =>
      rw [ho] at h
      simp only [Option.some.injEq] at h
      rw [selStep_none _ _ _ _ (by simp [ho])]
      exact h.symm
    | some p =>
      obtain ⟨m, nobs⟩ := p
      rw [ho] at h
      simp only [Option.some.injEq] at h
      rw [← h, hsel m nobs]
      simp [selStep, ho]

theorem selTracks_mono (autolag : LagMode) (r0 : ADFResult)
    (cand : ℕ → Option (MultiLinearModel × ℕ)) (N : ℕ)
    (h : selTracks autolag r0 cand (N + 1)) : selTracks autolag r0 cand N := by
  rcases h with h | h | ⟨h1, h2, h3⟩
  · exact Or.inl h
  · exact Or.inr (Or.inl h)
  · exact Or.inr (Or.inr ⟨h1, h2, fun L m n hL hc => h3 L m n (Nat.lt_succ_of_lt hL) hc⟩)

/-- The lag loop of `AdfTest`, when it does not panic, leaves the record of the first
candidate with the smallest criterion. -/
theorem adfLoop_repr (lib : NumLib) (dy ylag : List ℚ) (regr : String) (maxLag : ℕ)
    (autolag : LagMode) (r0 : ADFResult) (N : ℕ)
    (hmode : selTracks autolag r0 (fun l => (adfOLS lib dy ylag regr maxLag l).join) N)
    (r : ADFResult)
    (h : adfLoop (adfStep lib dy ylag regr maxLag autolag) (List.range N) r0 = some r) :
    r = reprRes r0 ((List.range N).foldl (selStep (adfCrit autolag)
      (fun l => (adfOLS lib dy ylag regr maxLag l).join)) none) := by
  induction N generalizing r with
  | zero =>
    simp only [List.range_zero, adfLoop, Option.some.injEq] at h
    simp [reprRes, h]
  | succ N ih =>
    rw [List.range_succ, adfLoop_append] at h
    cases h1 : adfLoop (adfStep lib dy ylag regr maxLag autolag) (List.range N) r0 with
    | none => rw [h1] at h; exact absurd h (by simp)
    | some r1 =>
      rw [h1] at h
      simp only [Option.some_bind] at h
      have hr1 := ih (selTracks_mono _ _ _ _ hmode) r1 h1
      rw [hr1] at h
      rw [List.range_succ, List.foldl_append, List.foldl_cons, List.foldl_nil]
      apply adfStep_repr lib dy ylag regr maxLag autolag r0 _ N _ r h
      intro m nobs
      rcases hmode with ⟨ha, h0⟩ | ⟨ha, h0⟩ | ⟨ha, h0, hne⟩
      · rw [ha]; exact adfSelect_aic r0 h0 _ N m nobs
      · rw [ha]; exact adfSelect_bic r0 h0 _ N m nobs
      · rw [ha]
        have hs2 : ∀ L m0 n0, (List.range N).foldl (selStep (adfCrit LAG_MODE_TSTAT)
            (fun l => (adfOLS lib dy ylag regr maxLag l).join)) none = some (L, m0, n0) →
            m0.TStats.getD 0 0 ≠ 0 := by
          intro L m0 n0 hs
          have hspec := selFold_spec (adfCrit LAG_MODE_TSTAT)
            (fun l => (adfOLS lib dy ylag regr maxLag l).join) N
          rw [hs] at hspec
          exact hne L m0 n0 (Nat.lt_succ_of_lt hspec.1) hspec.2.1
        exact adfSelect_tstat r0 h0 _ hs2 N m nobs

/-- A run of `AdfTest` that does not panic: the loop result, then the final check. -/
theorem AdfTest_of_diff (lib : NumLib) (y dy : List ℚ) (regr : String) (maxLag : ℤ)
    (autolag : LagMode) (tail : String) (hd : diff y = some dy) :
    AdfTest lib y regr maxLag autolag tail =
      match (if tail = LEFT_TAIL then
          adfLoop (adfStep lib dy (y.take (y.length - 1)) regr maxLag.toNat autolag)
            (List.range (maxLag + 1).toNat)
            (adfStart regr autolag tail (adfLeftTailCriticalValues regr))
        else if tail = RIGHT_TAIL then
          adfLoop (adfStep lib dy (y.take (y.length - 1)) regr maxLag.toNat autolag)
            (List.range (maxLag + 1).toNat)
            (adfStart regr autolag tail (adfRightTailCriticalValues regr))
        else some (adfStart regr autolag tail [])) with
      | none => none
      | some result =>
        if result.AIC = F64.posInf ∨ result.BIC = F64.posInf ∨ result.TStat = 0 then
          some (result, some (.errorx .INVALID_VALUE))
        else some (result, none) := by
  unfold AdfTest
  rw [hd]
  rfl

/-- A successful run of `AdfTest` returns the record of a selection made by its loop. -/
theorem AdfTest_success (lib : NumLib) (y : List ℚ) (regr : String) (maxLag : ℤ)
    (autolag : LagMode) (tail : String) (res : ADFResult)
    (h : AdfTest lib y regr maxLag autolag tail = some (res, none)) :
    ∃ dy crit, diff y = some dy ∧ (tail = LEFT_TAIL ∨ tail = RIGHT_TAIL) ∧
      adfLoop (adfStep lib dy (y.take (y.length - 1)) regr maxLag.toNat autolag)
        (List.range (maxLag + 1).toNat) (adfStart regr autolag tail crit) = some res ∧
      res.AIC ≠ F64.posInf ∧ res.TStat ≠ 0 := by
  cases hd : diff y with
  | none =>
    unfold AdfTest at h
    rw [hd] at h
    exact absurd h (by simp)
  | some dy =>
    rw [AdfTest_of_diff lib y dy regr maxLag autolag tail hd] at h
    have hfin : ∀ looped : Option ADFResult,
        (match looped with
          | none => none
          | some result =>
            if result.AIC = F64.posInf ∨ result.BIC = F64.posInf ∨ result.TStat = 0 then
              some (result, some (GoError.errorx errCode.INVALID_VALUE))
            else some (result, none)) = some (res, none) →
        looped = some res ∧ res.AIC ≠ F64.posInf ∧ res.TStat ≠ 0 := by
      intro looped hl
      cases looped with
      | none => exact absurd hl (by simp)
      | some result =>
        simp only at hl
        by_cases hc : result.AIC = F64.posInf ∨ result.BIC = F64.posInf ∨ result.TStat = 0
        · rw [if_pos hc] at hl
          exact absurd hl (by simp)
        · rw [if_neg hc] at hl
          have he : result = res := (Prod.mk.inj (Option.some.inj hl)).1
          subst he
          exact ⟨rfl, fun h1 => hc (Or.inl h1), fun h1 => hc (Or.inr (Or.inr h1))⟩
    obtain ⟨hl, hA, hT⟩ := hfin _ h
    by_cases hL : tail = LEFT_TAIL
    · rw [if_pos hL] at hl
      exact ⟨dy, _, rfl, Or.inl hL, hl, hA, hT⟩
    · rw [if_neg hL] at hl
      by_cases hR : tail = RIGHT_TAIL
      · rw [if_pos hR] at hl
        exact ⟨dy, _, rfl, Or.inr hR, hl, hA, hT⟩
      · rw [if_neg hR] at hl
        have he : adfStart regr autolag tail [] = res := Option.some.inj hl
        rw [← he] at hA
        exact absurd rfl hA

theorem adfCandidate_of_diff (lib : NumLib) (y dy : List ℚ) (regr : String) (maxLag : ℤ)
    (lag : ℕ) (hd : diff y = some dy) :
    adfCandidate lib y regr maxLag lag
      = (adfOLS lib dy (y.take (y.length - 1)) regr maxLag.toNat lag).join := by
  unfold adfCandidate
  rw [hd]

/-- A successful run of `AdfTest` returns the first candidate with the smallest criterion of
the mode: in AIC and BIC mode always, in t-stat mode when no candidate has a t-statistic equal
to the start value `0`. -/
theorem AdfTest_selected (lib : NumLib) (y : List ℚ) (regr : String) (maxLag : ℤ)
    (autolag : LagMode) (tail : String) (res : ADFResult)
    (h : AdfTest lib y regr maxLag autolag tail = some (res, none))
    (hmode : autolag = LAG_MODE_AIC ∨ autolag = LAG_MODE_BIC ∨
      (autolag = LAG_MODE_TSTAT ∧ ∀ (L : ℕ) (m : MultiLinearModel) (n : ℕ), (L : ℤ) ≤ maxLag →
        adfCandidate lib y regr maxLag L = some (m, n) → m.TStats.getD 0 0 ≠ 0)) :
    ∃ (L : ℕ) (m : MultiLinearModel) (nobs : ℕ) (r0 : ADFResult),
      (L : ℤ) ≤ maxLag ∧ adfCandidate lib y regr maxLag L = some (m, nobs) ∧
      res = adfUpdate r0 L m nobs ∧
      ∀ (L2 : ℕ) (m2 : MultiLinearModel) (n2 : ℕ), (L2 : ℤ) ≤ maxLag →
        adfCandidate lib y regr maxLag L2 = some (m2, n2) →
        adfCrit autolag m ≤ adfCrit autolag m2 ∧
          (L2 < L → adfCrit autolag m < adfCrit autolag m2) := by
  obtain ⟨dy, crit, hd, -, hloop, hA, -⟩ := AdfTest_success lib y regr maxLag autolag tail res h
  have hcand : ∀ l, adfCandidate lib y regr maxLag l
      = (fun l => (adfOLS lib dy (y.take (y.length - 1)) regr maxLag.toNat l).join) l :=
    fun l => adfCandidate_of_diff lib y dy regr maxLag l hd
  have hlt : ∀ L : ℕ, L < (maxLag + 1).toNat ↔ (L : ℤ) ≤ maxLag := by
    intro L
    omega
  have htr : selTracks autolag (adfStart regr autolag tail crit)
      (fun l => (adfOLS lib dy (y.take (y.length - 1)) regr maxLag.toNat l).join)
      (maxLag + 1).toNat := by
    rcases hmode with h1 | h1 | ⟨h1, h2⟩
    · exact Or.inl ⟨h1, rfl⟩
    · exact Or.inr (Or.inl ⟨h1, rfl⟩)
    · refine Or.inr (Or.inr ⟨h1, rfl, ?_⟩)
      intro L m n hL hc
      exact h2 L m n ((hlt L).mp hL) ((hcand L).trans hc)
  have hrep := adfLoop_repr lib dy (y.take (y.length - 1)) regr maxLag.toNat autolag
    (adfStart regr autolag tail crit) (maxLag + 1).toNat htr res hloop
  have hspec := selFold_spec (adfCrit autolag)
    (fun l => (adfOLS lib dy (y.take (y.length - 1)) regr maxLag.toNat l).join)
    (maxLag + 1).toNat
  revert hrep hspec
  generalize (List.range (maxLag + 1).toNat).foldl (selStep (adfCrit autolag)
    (fun l => (adfOLS lib dy (y.take (y.length - 1)) regr maxLag.toNat l).join)) none = s
  intro hrep hspec
  match s, hrep, hspec with
  | none, hrep, _ =>
    rw [hrep] at hA
    exact absurd rfl hA
  | some (L, m, nobs), hrep, hspec =>
    obtain ⟨hL, hc, hmin⟩ := hspec
    refine ⟨L, m, nobs, adfStart regr autolag tail crit, (hlt L).mp hL, (hcand L).trans hc,
      hrep, ?_⟩
    intro L2 m2 n2 hL2 hc2
    exact hmin L2 m2 n2 ((hlt L2).mpr hL2) ((hcand L2).symm.trans hc2)

/-- The rational square root is positive on positive numbers. -/
theorem ratSqrt_pos (q : ℚ) (hq : 0 < q) : 0 < Rat.sqrt q := by
  unfold Rat.sqrt
  have hn : 0 < q.num := Rat.num_pos.mpr hq
  have h1 : 0 < Int.sqrt q.num := by
    unfold Int.sqrt
    have : 0 < Nat.sqrt (Int.toNat q.num) := Nat.sqrt_pos.mpr (by omega)
    exact_mod_cast this
  have h2 : 0 < Nat.sqrt q.den := Nat.sqrt_pos.mpr q.den_pos
  rw [Rat.mkRat_eq_div]
  have h3 : (0 : ℚ) < ((Int.sqrt q.num : ℤ) : ℚ) := by exact_mod_cast h1
  have h4 : (0 : ℚ) < ((Nat.sqrt q.den : ℕ) : ℚ) := by exact_mod_cast h2
  exact div_pos h3 (by exact_mod_cast h4)

/-- Uniqueness of the solution of the normal equations. -/
theorem olsBeta_unique {n k : ℕ} (M : Matrix (Fin n) (Fin k) ℚ) (y : Fin n → ℚ)
    (b : Fin k → ℚ) (hdet : (M.transpose * M).det ≠ 0)
    (hb : (M.transpose * M).mulVec b = M.transpose.mulVec y) : olsBeta M y = b := by
  rw [olsBeta, ← hb, Matrix.mulVec_mulVec, exactInv_mul _ hdet, Matrix.one_mulVec]

/-- The candidate of one pass, once the sizes and the buffer are known. -/
theorem adfOLS_eq (lib : NumLib) (dy ylag : List ℚ) (regr : String) (maxLag lag r c : ℕ)
    (X : List ℚ) (hr : (dy.drop maxLag).length = r) (hml : maxLag ≤ dy.length)
    (h10 : 10 ≤ r) (hc : adfNCol regr lag = c) (hc0 : c ≠ 0)
    (hX : adfBuffer dy (ylag.take (ylag.length - maxLag)) regr maxLag lag r c = some X) :
    adfOLS lib dy ylag regr maxLag lag =
      match (MultiRegressionMat lib (denseOfFlat r c X) (toVecDense r (dy.drop maxLag))).2 with
      | some _ => some none
      | none => some (some
          ((MultiRegressionMat lib (denseOfFlat r c X) (toVecDense r (dy.drop maxLag))).1, r)) := by
  subst hr
  subst hc
  unfold adfOLS
  rw [if_neg (by omega), if_neg (by omega)]
  simp only []
  rw [hX]
  simp only []
  rw [if_neg hc0]

/-- The candidate of one pass on a non-singular design with more rows than columns. -/
theorem adfOLS_of_det (lib : NumLib) (dy ylag : List ℚ) (regr : String) (maxLag lag r c : ℕ)
    (X : List ℚ) (hr : (dy.drop maxLag).length = r) (hml : maxLag ≤ dy.length)
    (h10 : 10 ≤ r) (hc : adfNCol regr lag = c) (hc0 : c ≠ 0) (hcr : c < r)
    (hX : adfBuffer dy (ylag.take (ylag.length - maxLag)) regr maxLag lag r c = some X)
    (hdet : ((denseOfFlat r c X).transpose * denseOfFlat r c X).det ≠ 0) :
    adfOLS lib dy ylag regr maxLag lag =
      some (some (olsModel lib (denseOfFlat r c X) (toVecDense r (dy.drop maxLag))
        (exactInv ((denseOfFlat r c X).transpose * denseOfFlat r c X)), r)) := by
  rw [adfOLS_eq lib dy ylag regr maxLag lag r c X hr hml h10 hc hc0 hX,
    MultiRegressionMat_of_inv lib _ _ hcr hdet]

/-- The first coefficient, its t-statistic and the AIC of a fit on a non-singular design,
from the solution `b` of the normal equations, the residual sum of squares and the first
diagonal entry of the inverse. -/
theorem MultiRegressionMat_summary (lib : NumLib) {n k : ℕ}
    (M : Matrix (Fin n) (Fin (k + 1)) ℚ) (y : Fin n → ℚ) (b : Fin (k + 1) → ℚ) (rss v : ℚ)
    (hnk : k + 1 < n) (hdet : (M.transpose * M).det ≠ 0)
    (hb : (M.transpose * M).mulVec b = M.transpose.mulVec y)
    (hrss : Matrix.dotProduct (y - M.mulVec b) (y - M.mulVec b) = rss)
    (hv : exactInv (M.transpose * M) 0 0 = v) :
    ∃ m : MultiLinearModel, MultiRegressionMat lib M y = (m, none) ∧
      m.Coeffs.getD 0 0 = b 0 ∧
      m.TStats.getD 0 0
        = b 0 / lib.Sqrt (rss / (((n : ℤ) - ((k + 1 : ℕ) : ℤ) : ℤ) : ℚ) * v) ∧
      m.AIC = -2 * (-(1 / 2) * (n : ℚ) * (1 + lib.Log (2 * lib.Pi * rss / (n : ℚ))))
        + 2 * ((k + 1 : ℕ) : ℚ) := by
  have hβ : (exactInv (M.transpose * M)).mulVec (M.transpose.mulVec y) = b :=
    olsBeta_unique M y b hdet hb
  refine ⟨_, MultiRegressionMat_of_inv lib M y hnk hdet, ?_, ?_, ?_⟩
  · simp only [olsModel]
    rw [hβ]
    exact ofFn_getD b 0
  · simp only [olsModel]
    rw [hβ, hrss]
    refine (ofFn_getD (fun i : Fin (k + 1) => b i / lib.Sqrt
      (rss / (((n : ℤ) - ((k + 1 : ℕ) : ℤ) : ℤ) : ℚ) * exactInv (M.transpose * M) i i)) 0).trans ?_
    simp only [hv]
  · simp only [olsModel]
    rw [hβ, hrss]

/-- The summary of the candidate of one pass of the lag loop. -/
theorem adfOLS_summary (lib : NumLib) (dy ylag : List ℚ) (regr : String)
    (maxLag lag r k : ℕ) (X : List ℚ) (b : Fin (k + 1) → ℚ) (rss v : ℚ)
    (hr : (dy.drop maxLag).length = r) (hml : maxLag ≤ dy.length) (h10 : 10 ≤ r)
    (hc : adfNCol regr lag = k + 1) (hcr : k + 1 < r)
    (hX : adfBuffer dy (ylag.take (ylag.length - maxLag)) regr maxLag lag r (k + 1) = some X)
    (hdet : ((denseOfFlat r (k + 1) X).transpose * denseOfFlat r (k + 1) X).det ≠ 0)
    (hb : ((denseOfFlat r (k + 1) X).transpose * denseOfFlat r (k + 1) X).mulVec b
      = (denseOfFlat r (k + 1) X).transpose.mulVec (toVecDense r (dy.drop maxLag)))
    (hrss : Matrix.dotProduct
      (toVecDense r (dy.drop maxLag) - (denseOfFlat r (k + 1) X).mulVec b)
      (toVecDense r (dy.drop maxLag) - (denseOfFlat r (k + 1) X).mulVec b) = rss)
    (hv : exactInv ((denseOfFlat r (k + 1) X).transpose * denseOfFlat r (k + 1) X) 0 0 = v) :
    ∃ m : MultiLinearModel, adfOLS lib dy ylag regr maxLag lag = some (some (m, r)) ∧
      m.Coeffs.getD 0 0 = b 0 ∧
      m.TStats.getD 0 0
        = b 0 / lib.Sqrt (rss / (((r : ℤ) - ((k + 1 : ℕ) : ℤ) : ℤ) : ℚ) * v) ∧
      m.AIC = -2 * (-(1 / 2) * (r : ℚ) * (1 + lib.Log (2 * lib.Pi * rss / (r : ℚ))))
        + 2 * ((k + 1 : ℕ) : ℚ) := by
  obtain ⟨m, hm, h1, h2, h3⟩ := MultiRegressionMat_summary lib (denseOfFlat r (k + 1) X)
    (toVecDense r (dy.drop maxLag)) b rss v hcr hdet hb hrss hv
  refine ⟨m, ?_, h1, h2, h3⟩
  rw [adfOLS_eq lib dy ylag regr maxLag lag r (k + 1) X hr hml h10 hc (by omega) hX, hm]

/-- The run of `AdfTest` with `maxLag = 1` and the left tail, from its two candidates. -/
theorem AdfTest_maxLag_one (lib : NumLib) (y dy : List ℚ) (regr : String) (autolag : LagMode)
    (m0 m1 : MultiLinearModel) (n0 n1 : ℕ) (hd : diff y = some dy)
    (h0 : adfOLS lib dy (y.take (y.length - 1)) regr 1 0 = some (some (m0, n0)))
    (h1 : adfOLS lib dy (y.take (y.length - 1)) regr 1 1 = some (some (m1, n1))) :
    AdfTest lib y regr 1 autolag LEFT_TAIL =
      (fun r : ADFResult =>
        if r.AIC = F64.posInf ∨ r.BIC = F64.posInf ∨ r.TStat = 0 then
          some (r, some (GoError.errorx errCode.INVALID_VALUE))
        else some (r, none))
      (adfSelect autolag (adfSelect autolag
        (adfStart regr autolag LEFT_TAIL (adfLeftTailCriticalValues regr)) 0 m0 n0) 1 m1 n1) := by
  rw [AdfTest_of_diff lib y dy regr 1 autolag LEFT_TAIL hd, if_pos rfl]
  have hl : List.range ((1 : ℤ) + 1).toNat = [0, 1] := rfl
  have hn : ((1 : ℤ)).toNat = 1 := rfl
  rw [hl, hn]
  simp only [adfLoop, adfStep, h0, h1]

theorem adfSelect_tstat_start (r : ADFResult) (lag : ℕ) (m : MultiLinearModel) (nobs : ℕ)
    (h : r.TStat = 0) : adfSelect LAG_MODE_TSTAT r lag m nobs = adfUpdate r lag m nobs := by
  unfold adfSelect
  rw [if_neg (by decide), if_neg (by decide), if_pos rfl, if_pos (Or.inr h)]

theorem adfSelect_tstat_keep (r : ADFResult) (lag : ℕ) (m : MultiLinearModel) (nobs : ℕ)
    (h1 : ¬ m.TStats.getD 0 0 < r.TStat) (h2 : r.TStat ≠ 0) :
    adfSelect LAG_MODE_TSTAT r lag m nobs = r := by
  unfold adfSelect
  rw [if_neg (by decide), if_neg (by decide), if_pos rfl, if_neg (not_or.mpr ⟨h1, h2⟩)]

theorem adfSelect_aic_start (r : ADFResult) (lag : ℕ) (m : MultiLinearModel) (nobs : ℕ)
    (h : r.AIC = F64.posInf) : adfSelect LAG_MODE_AIC r lag m nobs = adfUpdate r lag m nobs := by
  unfold adfSelect
  rw [if_pos rfl, h]
  rfl

theorem adfSelect_aic_keep (r : ADFResult) (lag : ℕ) (m : MultiLinearModel) (nobs : ℕ)
    (a : ℚ) (h : r.AIC = F64.fin a) (h1 : ¬ m.AIC < a) :
    adfSelect LAG_MODE_AIC r lag m nobs = r := by
  unfold adfSelect
  rw [if_pos rfl, h]
  simp [finLt, h1]

theorem adfLoop_of_continue (step : ADFResult → ℕ → Option ADFResult)
    (hs : ∀ r lag, step r lag = some r) (l : List ℕ) (r : ADFResult) :
    adfLoop step l r = some r := by
  induction l with
  | nil => rfl
  | cons a l ih => simp only [adfLoop, hs r a, ih]

/-- With a non-empty series, `0 ≤ maxLag ≤ len(y) − 1` and fewer than 10 usable
observations every pass of the lag loop is skipped and `AdfTest` returns the
`INVALID_VALUE` error. -/
theorem AdfTest_few_rows (lib : NumLib) (y : List ℚ) (regr : String) (maxLag : ℤ)
    (autolag : LagMode) (tail : String) (hy : y ≠ []) (hm : maxLag.toNat ≤ y.length - 1)
    (h10 : y.length - 1 - maxLag.toNat < 10) :
    ∃ res, AdfTest lib y regr maxLag autolag tail
      = some (res, some (GoError.errorx errCode.INVALID_VALUE)) := by
  have hlen : y.length ≠ 0 := fun h => hy (List.length_eq_zero.mp h)
  have hd : diff y = some ((List.range (y.length - 1)).map
      fun i => y.getD (i + 1) 0 - y.getD i 0) := by
    unfold diff
    rw [if_neg hlen]
  have hstep : ∀ r lag, adfStep lib ((List.range (y.length - 1)).map
      fun i => y.getD (i + 1) 0 - y.getD i 0) (y.take (y.length - 1)) regr maxLag.toNat
      autolag r lag = some r := by
    intro r lag
    have ho : adfOLS lib ((List.range (y.length - 1)).map
        fun i => y.getD (i + 1) 0 - y.getD i 0) (y.take (y.length - 1)) regr maxLag.toNat lag
        = some none := by
      unfold adfOLS
      rw [if_neg (by simp; omega), if_pos (by simp; omega)]
    unfold adfStep
    rw [ho]
  rw [AdfTest_of_diff lib y _ regr maxLag autolag tail hd]
  by_cases hL : tail = LEFT_TAIL
  · rw [if_pos hL, adfLoop_of_continue _ hstep]
    exact ⟨_, if_pos (Or.inl rfl)⟩
  · rw [if_neg hL]
    by_cases hR : tail = RIGHT_TAIL
    · rw [if_pos hR, adfLoop_of_continue _ hstep]
      exact ⟨_, if_pos (Or.inl rfl)⟩
    · rw [if_neg hR]
      exact ⟨_, if_pos (Or.inl rfl)⟩

/-! ### Worked runs of `AdfTest` -/

theorem adfSeriesA_diff : diff adfSeriesA
    = some [1, -1, 0, 0, 0, 0, 0, 1, 0, 5, -5] := by
  simp [diff, adfSeriesA, List.range, List.range.loop]
  norm_num

theorem adfSeriesA_lag0_gram : (denseOfFlat 10 2
      [-3, 1, -2, 1, -3, 1, -3, 1, -3, 1, -3, 1, -3, 1, -3, 1, -2, 1, -2, 1]).transpose *
      denseOfFlat 10 2
      [-3, 1, -2, 1, -3, 1, -3, 1, -3, 1, -3, 1, -3, 1, -3, 1, -2, 1, -2, 1]
      = !![75, -27; -27, 10] := by
  ext i j
  fin_cases i <;> fin_cases j <;>
    simp [Matrix.mul_apply, Fin.sum_univ_succ, denseOfFlat] <;> norm_num

theorem adfSeriesA_lag0_normal : ((denseOfFlat 10 2
      [-3, 1, -2, 1, -3, 1, -3, 1, -3, 1, -3, 1, -3, 1, -3, 1, -2, 1, -2, 1]).transpose *
      denseOfFlat 10 2
      [-3, 1, -2, 1, -3, 1, -3, 1, -3, 1, -3, 1, -3, 1, -3, 1, -2, 1, -2, 1]).mulVec ![0, 0]
    = (denseOfFlat 10 2
      [-3, 1, -2, 1, -3, 1, -3, 1, -3, 1, -3, 1, -3, 1, -3, 1, -2, 1, -2, 1]).transpose.mulVec
      (toVecDense 10 (List.drop 1 [1, -1, 0, 0, 0, 0, 0, 1, 0, 5, -5])) := by
  rw [adfSeriesA_lag0_gram]
  ext i
  fin_cases i <;>
    simp [Matrix.mulVec, Matrix.dotProduct, Fin.sum_univ_succ, denseOfFlat, toVecDense,
      Matrix.vecHead, Matrix.vecTail]

theorem adfSeriesA_lag0_rss : Matrix.dotProduct
    ((toVecDense 10 (List.drop 1 [1, -1, 0, 0, 0, 0, 0, 1, 0, 5, -5])) -
      (denseOfFlat 10 2
      [-3, 1, -2, 1, -3, 1, -3, 1, -3, 1, -3, 1, -3, 1, -3, 1, -2, 1, -2, 1]).mulVec ![0, 0])
    ((toVecDense 10 (List.drop 1 [1, -1, 0, 0, 0, 0, 0, 1, 0, 5, -5])) -
      (denseOfFlat 10 2
      [-3, 1, -2, 1, -3, 1, -3, 1, -3, 1, -3, 1, -3, 1, -3, 1, -2, 1, -2, 1]).mulVec ![0, 0])
    = 52 := by
  simp [Matrix.mulVec, Matrix.dotProduct, Fin.sum_univ_succ, denseOfFlat, toVecDense,
      Matrix.vecHead, Matrix.vecTail]
  norm_num

/-- The candidate of `AdfTest` at lag 0 on `adfSeriesA` with trend `"c"` and `maxLag = 1`. -/
theorem adfSeriesA_lag0 (lib : NumLib) :
    ∃ m : MultiLinearModel,
      adfOLS lib [1, -1, 0, 0, 0, 0, 0, 1, 0, 5, -5]
        (adfSeriesA.take (adfSeriesA.length - 1)) "c" 1 0 = some (some (m, 10)) ∧
      m.Coeffs.getD 0 0 = 0 ∧
      m.TStats.getD 0 0 = 0 / lib.Sqrt (65 / 21) ∧
      m.AIC = -2 * (-(1 / 2) * 10 * (1 + lib.Log (2 * lib.Pi * 52 / 10))) + 2 * 2 := by
  have hdet : ((denseOfFlat 10 2
      [-3, 1, -2, 1, -3, 1, -3, 1, -3, 1, -3, 1, -3, 1, -3, 1, -2, 1, -2, 1]).transpose *
      denseOfFlat 10 2
      [-3, 1, -2, 1, -3, 1, -3, 1, -3, 1, -3, 1, -3, 1, -3, 1, -2, 1, -2, 1]).det ≠ 0 := by
    rw [adfSeriesA_lag0_gram, Matrix.det_fin_two]
    simp
    norm_num
  have hv : exactInv ((denseOfFlat 10 2
      [-3, 1, -2, 1, -3, 1, -3, 1, -3, 1, -3, 1, -3, 1, -3, 1, -2, 1, -2, 1]).transpose *
      denseOfFlat 10 2
      [-3, 1, -2, 1, -3, 1, -3, 1, -3, 1, -3, 1, -3, 1, -3, 1, -2, 1, -2, 1]) 0 0 = 10 / 21 := by
    rw [adfSeriesA_lag0_gram, exactInv, Matrix.det_fin_two, Matrix.adjugate_fin_two]
    simp
    norm_num
  obtain ⟨m, hm, h1, h2, h3⟩ := adfOLS_summary lib [1, -1, 0, 0, 0, 0, 0, 1, 0, 5, -5]
    (adfSeriesA.take (adfSeriesA.length - 1)) "c" 1 0 10 1
    [-3, 1, -2, 1, -3, 1, -3, 1, -3, 1, -3, 1, -3, 1, -3, 1, -2, 1, -2, 1]
    ![0, 0] (52) (10 / 21) rfl (by decide) (by decide) (by decide) (by decide) rfl
    hdet adfSeriesA_lag0_normal adfSeriesA_lag0_rss hv
  refine ⟨m, hm, ?_, ?_, ?_⟩
  · rw [h1]
    simp
  · rw [h2]
    norm_num
  · rw [h3]
    norm_num

theorem adfSeriesA_lag1_gram : (denseOfFlat 10 3
      [-3, 1, 1, -2, 1, -1, -3, 1, 0, -3, 1, 0, -3, 1, 0, -3, 1, 0, -3, 1, 0, -3, 1, 1, -2, 1, 0, -2, 1, 5]).transpose *
      denseOfFlat 10 3
      [-3, 1, 1, -2, 1, -1, -3, 1, 0, -3, 1, 0, -3, 1, 0, -3, 1, 0, -3, 1, 0, -3, 1, 1, -2, 1, 0, -2, 1, 5]
      = !![75, -27, -14; -27, 10, 6; -14, 6, 28] := by
  ext i j
  fin_cases i <;> fin_cases j <;>
    simp [Matrix.mul_apply, Fin.sum_univ_succ, denseOfFlat] <;> norm_num

theorem adfSeriesA_lag1_normal : ((denseOfFlat 10 3
      [-3, 1, 1, -2, 1, -1, -3, 1, 0, -3, 1, 0, -3, 1, 0, -3, 1, 0, -3, 1, 0, -3, 1, 1, -2, 1, 0, -2, 1, 5]).transpose *
      denseOfFlat 10 3
      [-3, 1, 1, -2, 1, -1, -3, 1, 0, -3, 1, 0, -3, 1, 0, -3, 1, 0, -3, 1, 0, -3, 1, 1, -2, 1, 0, -2, 1, 5]).mulVec ![143 / 116, 117 / 29, -273 / 232]
    = (denseOfFlat 10 3
      [-3, 1, 1, -2, 1, -1, -3, 1, 0, -3, 1, 0, -3, 1, 0, -3, 1, 0, -3, 1, 0, -3, 1, 1, -2, 1, 0, -2, 1, 5]).transpose.mulVec
      (toVecDense 10 (List.drop 1 [1, -1, 0, 0, 0, 0, 0, 1, 0, 5, -5])) := by
  rw [adfSeriesA_lag1_gram]
  ext i
  fin_cases i <;>
    simp [Matrix.mulVec, Matrix.dotProduct, Fin.sum_univ_succ, denseOfFlat, toVecDense,
      Matrix.vecHead, Matrix.vecTail] <;> norm_num

theorem adfSeriesA_lag1_rss : Matrix.dotProduct
    ((toVecDense 10 (List.drop 1 [1, -1, 0, 0, 0, 0, 0, 1, 0, 5, -5])) -
      (denseOfFlat 10 3
      [-3, 1, 1, -2, 1, -1, -3, 1, 0, -3, 1, 0, -3, 1, 0, -3, 1, 0, -3, 1, 0, -3, 1, 1, -2, 1, 0, -2, 1, 5]).mulVec ![143 / 116, 117 / 29, -273 / 232])
    ((toVecDense 10 (List.drop 1 [1, -1, 0, 0, 0, 0, 0, 1, 0, 5, -5])) -
      (denseOfFlat 10 3
      [-3, 1, 1, -2, 1, -1, -3, 1, 0, -3, 1, 0, -3, 1, 0, -3, 1, 0, -3, 1, 0, -3, 1, 1, -2, 1, 0, -2, 1, 5]).mulVec ![143 / 116, 117 / 29, -273 / 232])
    = 2483 / 116 := by
  simp [Matrix.mulVec, Matrix.dotProduct, Fin.sum_univ_succ, denseOfFlat, toVecDense,
      Matrix.vecHead, Matrix.vecTail]
  norm_num

/-- The candidate of `AdfTest` at lag 1 on `adfSeriesA` with trend `"c"` and `maxLag = 1`. -/
theorem adfSeriesA_lag1 (lib : NumLib) :
    ∃ m : MultiLinearModel,
      adfOLS lib [1, -1, 0, 0, 0, 0, 0, 1, 0, 5, -5]
        (adfSeriesA.take (adfSeriesA.length - 1)) "c" 1 1 = some (some (m, 10)) ∧
      m.Coeffs.getD 0 0 = 143 / 116 ∧
      m.TStats.getD 0 0 = 143 / 116 / lib.Sqrt (151463 / 94192) ∧
      m.AIC = -2 * (-(1 / 2) * 10 * (1 + lib.Log (2 * lib.Pi * (2483 / 116) / 10))) + 2 * 3 := by
  have hdet : ((denseOfFlat 10 3
      [-3, 1, 1, -2, 1, -1, -3, 1, 0, -3, 1, 0, -3, 1, 0, -3, 1, 0, -3, 1, 0, -3, 1, 1, -2, 1, 0, -2, 1, 5]).transpose *
      denseOfFlat 10 3
      [-3, 1, 1, -2, 1, -1, -3, 1, 0, -3, 1, 0, -3, 1, 0, -3, 1, 0, -3, 1, 0, -3, 1, 1, -2, 1, 0, -2, 1, 5]).det ≠ 0 := by
    rw [adfSeriesA_lag1_gram, Matrix.det_fin_three]
    simp
    norm_num
  have hv : exactInv ((denseOfFlat 10 3
      [-3, 1, 1, -2, 1, -1, -3, 1, 0, -3, 1, 0, -3, 1, 0, -3, 1, 0, -3, 1, 0, -3, 1, 1, -2, 1, 0, -2, 1, 5]).transpose *
      denseOfFlat 10 3
      [-3, 1, 1, -2, 1, -1, -3, 1, 0, -3, 1, 0, -3, 1, 0, -3, 1, 0, -3, 1, 0, -3, 1, 1, -2, 1, 0, -2, 1, 5]) 0 0 = 61 / 116 := by
    rw [adfSeriesA_lag1_gram, exactInv, Matrix.det_fin_three, Matrix.adjugate_fin_three]
    simp
    norm_num
  obtain ⟨m, hm, h1, h2, h3⟩ := adfOLS_summary lib [1, -1, 0, 0, 0, 0, 0, 1, 0, 5, -5]
    (adfSeriesA.take (adfSeriesA.length - 1)) "c" 1 1 10 2
    [-3, 1, 1, -2, 1, -1, -3, 1, 0, -3, 1, 0, -3, 1, 0, -3, 1, 0, -3, 1, 0, -3, 1, 1, -2, 1, 0, -2, 1, 5]
    ![143 / 116, 117 / 29, -273 / 232] (2483 / 116) (61 / 116) rfl (by decide) (by decide) (by decide) (by decide) rfl
    hdet adfSeriesA_lag1_normal adfSeriesA_lag1_rss hv
  refine ⟨m, hm, ?_, ?_, ?_⟩
  · rw [h1]
    simp
  · rw [h2]
    norm_num
  · rw [h3]
    norm_num

theorem adfSeriesB_diff : diff adfSeriesB
    = some [-1, 0, -1, 0, 0, 0, 0, 1, 1, 0, 1] := by
  simp [diff, adfSeriesB, List.range, List.range.loop]
  norm_num

theorem adfSeriesB_lag0_gram : (denseOfFlat 10 2
      [1, 1, 0, 1, 0, 1, -1, 1, -1, 1, -1, 1, -1, 1, -1, 1, 0, 1, 1, 1]).transpose *
      denseOfFlat 10 2
      [1, 1, 0, 1, 0, 1, -1, 1, -1, 1, -1, 1, -1, 1, -1, 1, 0, 1, 1, 1]
      = !![7, -3; -3, 10] := by
  ext i j
  fin_cases i <;> fin_cases j <;>
    simp [Matrix.mul_apply, Fin.sum_univ_succ, denseOfFlat] <;> norm_num

theorem adfSeriesB_lag0_normal : ((denseOfFlat 10 2
      [1, 1, 0, 1, 0, 1, -1, 1, -1, 1, -1, 1, -1, 1, -1, 1, 0, 1, 1, 1]).transpose *
      denseOfFlat 10 2
      [1, 1, 0, 1, 0, 1, -1, 1, -1, 1, -1, 1, -1, 1, -1, 1, 0, 1, 1, 1]).mulVec ![-4 / 61, 11 / 61]
    = (denseOfFlat 10 2
      [1, 1, 0, 1, 0, 1, -1, 1, -1, 1, -1, 1, -1, 1, -1, 1, 0, 1, 1, 1]).transpose.mulVec
      (toVecDense 10 (List.drop 1 [-1, 0, -1, 0, 0, 0, 0, 1, 1, 0, 1])) := by
  rw [adfSeriesB_lag0_gram]
  ext i
  fin_cases i <;>
    simp [Matrix.mulVec, Matrix.dotProduct, Fin.sum_univ_succ, denseOfFlat, toVecDense,
      Matrix.vecHead, Matrix.vecTail] <;> norm_num

theorem adfSeriesB_lag0_rss : Matrix.dotProduct
    ((toVecDense 10 (List.drop 1 [-1, 0, -1, 0, 0, 0, 0, 1, 1, 0, 1])) -
      (denseOfFlat 10 2
      [1, 1, 0, 1, 0, 1, -1, 1, -1, 1, -1, 1, -1, 1, -1, 1, 0, 1, 1, 1]).mulVec ![-4 / 61, 11 / 61])
    ((toVecDense 10 (List.drop 1 [-1, 0, -1, 0, 0, 0, 0, 1, 1, 0, 1])) -
      (denseOfFlat 10 2
      [1, 1, 0, 1, 0, 1, -1, 1, -1, 1, -1, 1, -1, 1, -1, 1, 0, 1, 1, 1]).mulVec ![-4 / 61, 11 / 61])
    = 218 / 61 := by
  simp [Matrix.mulVec, Matrix.dotProduct, Fin.sum_univ_succ, denseOfFlat, toVecDense,
      Matrix.vecHead, Matrix.vecTail]
  norm_num

/-- The candidate of `AdfTest` at lag 0 on `adfSeriesB` with trend `"c"` and `maxLag = 1`. -/
theorem adfSeriesB_lag0 (lib : NumLib) :
    ∃ m : MultiLinearModel,
      adfOLS lib [-1, 0, -1, 0, 0, 0, 0, 1, 1, 0, 1]
        (adfSeriesB.take (adfSeriesB.length - 1)) "c" 1 0 = some (some (m, 10)) ∧
      m.Coeffs.getD 0 0 = -4 / 61 ∧
      m.TStats.getD 0 0 = -4 / 61 / lib.Sqrt (545 / 7442) ∧
      m.AIC = -2 * (-(1 / 2) * 10 * (1 + lib.Log (2 * lib.Pi * (218 / 61) / 10))) + 2 * 2 := by
  have hdet : ((denseOfFlat 10 2
      [1, 1, 0, 1, 0, 1, -1, 1, -1, 1, -1, 1, -1, 1, -1, 1, 0, 1, 1, 1]).transpose *
      denseOfFlat 10 2
      [1, 1, 0, 1, 0, 1, -1, 1, -1, 1, -1, 1, -1, 1, -1, 1, 0, 1, 1, 1]).det ≠ 0 := by
    rw [adfSeriesB_lag0_gram, Matrix.det_fin_two]
    simp
    norm_num
  have hv : exactInv ((denseOfFlat 10 2
      [1, 1, 0, 1, 0, 1, -1, 1, -1, 1, -1, 1, -1, 1, -1, 1, 0, 1, 1, 1]).transpose *
      denseOfFlat 10 2
      [1, 1, 0, 1, 0, 1, -1, 1, -1, 1, -1, 1, -1, 1, -1, 1, 0, 1, 1, 1]) 0 0 = 10 / 61 := by
    rw [adfSeriesB_lag0_gram, exactInv, Matrix.det_fin_two, Matrix.adjugate_fin_two]
    simp
    norm_num
  obtain ⟨m, hm, h1, h2, h3⟩ := adfOLS_summary lib [-1, 0, -1, 0, 0, 0, 0, 1, 1, 0, 1]
    (adfSeriesB.take (adfSeriesB.length - 1)) "c" 1 0 10 1
    [1, 1, 0, 1, 0, 1, -1, 1, -1, 1, -1, 1, -1, 1, -1, 1, 0, 1, 1, 1]
    ![-4 / 61, 11 / 61] (218 / 61) (10 / 61) rfl (by decide) (by decide) (by decide) (by decide) rfl
    hdet adfSeriesB_lag0_normal adfSeriesB_lag0_rss hv
  refine ⟨m, hm, ?_, ?_, ?_⟩
  · rw [h1]
    simp
  · rw [h2]
    norm_num
  · rw [h3]
    norm_num

theorem adfSeriesB_lag1_gram : (denseOfFlat 10 3
      [1, 1, -1, 0, 1, 0, 0, 1, -1, -1, 1, 0, -1, 1, 0, -1, 1, 0, -1, 1, 0, -1, 1, 1, 0, 1, 1, 1, 1, 0]).transpose *
      denseOfFlat 10 3
      [1, 1, -1, 0, 1, 0, 0, 1, -1, -1, 1, 0, -1, 1, 0, -1, 1, 0, -1, 1, 0, -1, 1, 1, 0, 1, 1, 1, 1, 0]
      = !![7, -3, -2; -3, 10, 0; -2, 0, 4] := by
  ext i j
  fin_cases i <;> fin_cases j <;>
    simp [Matrix.mul_apply, Fin.sum_univ_succ, denseOfFlat] <;> norm_num

theorem adfSeriesB_lag1_normal : ((denseOfFlat 10 3
      [1, 1, -1, 0, 1, 0, 0, 1, -1, -1, 1, 0, -1, 1, 0, -1, 1, 0, -1, 1, 0, -1, 1, 1, 0, 1, 1, 1, 1, 0]).transpose *
      denseOfFlat 10 3
      [1, 1, -1, 0, 1, 0, 0, 1, -1, -1, 1, 0, -1, 1, 0, -1, 1, 0, -1, 1, 0, -1, 1, 1, 0, 1, 1, 1, 1, 0]).mulVec ![1 / 51, 7 / 34, 53 / 204]
    = (denseOfFlat 10 3
      [1, 1, -1, 0, 1, 0, 0, 1, -1, -1, 1, 0, -1, 1, 0, -1, 1, 0, -1, 1, 0, -1, 1, 1, 0, 1, 1, 1, 1, 0]).transpose.mulVec
      (toVecDense 10 (List.drop 1 [-1, 0, -1, 0, 0, 0, 0, 1, 1, 0, 1])) := by
  rw [adfSeriesB_lag1_gram]
  ext i
  fin_cases i <;>
    simp [Matrix.mulVec, Matrix.dotProduct, Fin.sum_univ_succ, denseOfFlat, toVecDense,
      Matrix.vecHead, Matrix.vecTail] <;> norm_num

theorem adfSeriesB_lag1_rss : Matrix.dotProduct
    ((toVecDense 10 (List.drop 1 [-1, 0, -1, 0, 0, 0, 0, 1, 1, 0, 1])) -
      (denseOfFlat 10 3
      [1, 1, -1, 0, 1, 0, 0, 1, -1, -1, 1, 0, -1, 1, 0, -1, 1, 0, -1, 1, 0, -1, 1, 1, 0, 1, 1, 1, 1, 0]).mulVec ![1 / 51, 7 / 34, 53 / 204])
    ((toVecDense 10 (List.drop 1 [-1, 0, -1, 0, 0, 0, 0, 1, 1, 0, 1])) -
      (denseOfFlat 10 3
      [1, 1, -1, 0, 1, 0, 0, 1, -1, -1, 1, 0, -1, 1, 0, -1, 1, 0, -1, 1, 0, -1, 1, 1, 0, 1, 1, 1, 1, 0]).mulVec ![1 / 51, 7 / 34, 53 / 204])
    = 683 / 204 := by
  simp [Matrix.mulVec, Matrix.dotProduct, Fin.sum_univ_succ, denseOfFlat, toVecDense,
      Matrix.vecHead, Matrix.vecTail]
  norm_num

/-- The candidate of `AdfTest` at lag 1 on `adfSeriesB` with trend `"c"` and `maxLag = 1`. -/
theorem adfSeriesB_lag1 (lib : NumLib) :
    ∃ m : MultiLinearModel,
      adfOLS lib [-1, 0, -1, 0, 0, 0, 0, 1, 1, 0, 1]
        (adfSeriesB.take (adfSeriesB.length - 1)) "c" 1 1 = some (some (m, 10)) ∧
      m.Coeffs.getD 0 0 = 1 / 51 ∧
      m.TStats.getD 0 0 = 1 / 51 / lib.Sqrt (3415 / 36414) ∧
      m.AIC = -2 * (-(1 / 2) * 10 * (1 + lib.Log (2 * lib.Pi * (683 / 204) / 10))) + 2 * 3 := by
  have hdet : ((denseOfFlat 10 3
      [1, 1, -1, 0, 1, 0, 0, 1, -1, -1, 1, 0, -1, 1, 0, -1, 1, 0, -1, 1, 0, -1, 1, 1, 0, 1, 1, 1, 1, 0]).transpose *
      denseOfFlat 10 3
      [1, 1, -1, 0, 1, 0, 0, 1, -1, -1, 1, 0, -1, 1, 0, -1, 1, 0, -1, 1, 0, -1, 1, 1, 0, 1, 1, 1, 1, 0]).det ≠ 0 := by
    rw [adfSeriesB_lag1_gram, Matrix.det_fin_three]
    simp
    norm_num
  have hv : exactInv ((denseOfFlat 10 3
      [1, 1, -1, 0, 1, 0, 0, 1, -1, -1, 1, 0, -1, 1, 0, -1, 1, 0, -1, 1, 0, -1, 1, 1, 0, 1, 1, 1, 1, 0]).transpose *
      denseOfFlat 10 3
      [1, 1, -1, 0, 1, 0, 0, 1, -1, -1, 1, 0, -1, 1, 0, -1, 1, 0, -1, 1, 0, -1, 1, 1, 0, 1, 1, 1, 1, 0]) 0 0 = 10 / 51 := by
    rw [adfSeriesB_lag1_gram, exactInv, Matrix.det_fin_three, Matrix.adjugate_fin_three]
    simp
    norm_num
  obtain ⟨m, hm, h1, h2, h3⟩ := adfOLS_summary lib [-1, 0, -1, 0, 0, 0, 0, 1, 1, 0, 1]
    (adfSeriesB.take (adfSeriesB.length - 1)) "c" 1 1 10 2
    [1, 1, -1, 0, 1, 0, 0, 1, -1, -1, 1, 0, -1, 1, 0, -1, 1, 0, -1, 1, 0, -1, 1, 1, 0, 1, 1, 1, 1, 0]
    ![1 / 51, 7 / 34, 53 / 204] (683 / 204) (10 / 51) rfl (by decide) (by decide) (by decide) (by decide) rfl
    hdet adfSeriesB_lag1_normal adfSeriesB_lag1_rss hv
  refine ⟨m, hm, ?_, ?_, ?_⟩
  · rw [h1]
    simp
  · rw [h2]
    norm_num
  · rw [h3]
    norm_num

theorem adfSeriesB_spec_gram : (specAdfDesign adfSeriesB 1 0 10).transpose * specAdfDesign adfSeriesB 1 0 10
      = !![7, -3; -3, 10] := by
  ext i j
  fin_cases i <;> fin_cases j <;>
    simp [Matrix.mul_apply, Fin.sum_univ_succ, specAdfDesign, adfSeriesB] <;> norm_num

theorem adfSeriesB_spec_normal :
    ((specAdfDesign adfSeriesB 1 0 10).transpose * specAdfDesign adfSeriesB 1 0 10).mulVec ![6 / 61, 14 / 61]
      = (specAdfDesign adfSeriesB 1 0 10).transpose.mulVec (specAdfResponse adfSeriesB 1 10) := by
  rw [adfSeriesB_spec_gram]
  ext i
  fin_cases i <;>
    simp [Matrix.mulVec, Matrix.dotProduct, Fin.sum_univ_succ, specAdfDesign, specAdfResponse,
      adfSeriesB, Matrix.vecHead, Matrix.vecTail] <;> norm_num

theorem adfSeriesB_spec_rss : Matrix.dotProduct
    ((specAdfResponse adfSeriesB 1 10) - (specAdfDesign adfSeriesB 1 0 10).mulVec ![6 / 61, 14 / 61])
    ((specAdfResponse adfSeriesB 1 10) - (specAdfDesign adfSeriesB 1 0 10).mulVec ![6 / 61, 14 / 61])
    = 216 / 61 := by
  simp [Matrix.mulVec, Matrix.dotProduct, Fin.sum_univ_succ, specAdfDesign, specAdfResponse,
      adfSeriesB, Matrix.vecHead, Matrix.vecTail]
  norm_num

/-- The standalone fit at lag 0 on `adfSeriesB` with the level that precedes each response. -/
theorem adfSeriesB_spec_lag0 (lib : NumLib) :
    ∃ m : MultiLinearModel,
      MultiRegressionMat lib (specAdfDesign adfSeriesB 1 0 10) (specAdfResponse adfSeriesB 1 10) = (m, none) ∧
      m.Coeffs.getD 0 0 = 6 / 61 ∧
      m.TStats.getD 0 0 = 6 / 61 / lib.Sqrt (270 / 3721) ∧
      m.AIC = -2 * (-(1 / 2) * 10 * (1 + lib.Log (2 * lib.Pi * (216 / 61) / 10))) + 2 * 2 := by
  have hdet : ((specAdfDesign adfSeriesB 1 0 10).transpose * specAdfDesign adfSeriesB 1 0 10).det ≠ 0 := by
    rw [adfSeriesB_spec_gram, Matrix.det_fin_two]
    simp
    norm_num
  have hv : exactInv ((specAdfDesign adfSeriesB 1 0 10).transpose * specAdfDesign adfSeriesB 1 0 10) 0 0 = 10 / 61 := by
    rw [adfSeriesB_spec_gram, exactInv, Matrix.det_fin_two, Matrix.adjugate_fin_two]
    simp
    norm_num
  obtain ⟨m, hm, h1, h2, h3⟩ := MultiRegressionMat_summary lib (specAdfDesign adfSeriesB 1 0 10)
    (specAdfResponse adfSeriesB 1 10) ![6 / 61, 14 / 61] (216 / 61) (10 / 61) (by decide)
    hdet adfSeriesB_spec_normal adfSeriesB_spec_rss hv
  refine ⟨m, hm, ?_, ?_, ?_⟩
  · rw [h1]
    simp
  · rw [h2]
    norm_num
  · rw [h3]
    norm_num

theorem adfCandidate_eq (lib : NumLib) (y dy : List ℚ) (regr : String) (maxLag : ℤ)
    (lag : ℕ) (m : MultiLinearModel) (n : ℕ) (hd : diff y = some dy)
    (h : adfOLS lib dy (y.take (y.length - 1)) regr maxLag.toNat lag = some (some (m, n))) :
    adfCandidate lib y regr maxLag lag = some (m, n) := by
  rw [adfCandidate_of_diff lib y dy regr maxLag lag hd, h]
  rfl

theorem adfFit_eq (lib : NumLib) (y : List ℚ) (regr : String) (maxLag : ℤ)
    (lag : ℕ) (m : MultiLinearModel) (n : ℕ)
    (h : adfCandidate lib y regr maxLag lag = some (m, n)) :
    adfFit lib y regr maxLag lag = m := by
  unfold adfFit
  rw [h]

/-- The final check of `AdfTest` passes on a record that was updated with a non-zero
t-statistic. -/
theorem adfFinal_update (r : ADFResult) (lag : ℕ) (m : MultiLinearModel) (nobs : ℕ)
    (ht : m.TStats.getD 0 0 ≠ 0) :
    (fun r : ADFResult =>
        if r.AIC = F64.posInf ∨ r.BIC = F64.posInf ∨ r.TStat = 0 then
          some (r, some (GoError.errorx errCode.INVALID_VALUE))
        else some (r, none)) (adfUpdate r lag m nobs)
      = some (adfUpdate r lag m nobs, none) := by
  have h1 : (adfUpdate r lag m nobs).AIC ≠ F64.posInf := by
    intro h
    exact F64.noConfusion h
  have h2 : (adfUpdate r lag m nobs).BIC ≠ F64.posInf := by
    intro h
    exact F64.noConfusion h
  have h3 : (adfUpdate r lag m nobs).TStat ≠ 0 := ht
  simp only []
  rw [if_neg (not_or.mpr ⟨h1, not_or.mpr ⟨h2, h3⟩⟩)]

/-- The run of `AdfTest` on `adfSeriesB` in t-stat mode: lag 0 is kept, whatever positive
value the square root takes. -/
theorem adfSeriesB_tstat (lib : NumLib) (hs : ∀ q : ℚ, 0 < q → 0 < lib.Sqrt q) :
    ∃ m0 m1 : MultiLinearModel,
      adfCandidate lib adfSeriesB "c" 1 0 = some (m0, 10) ∧
      adfCandidate lib adfSeriesB "c" 1 1 = some (m1, 10) ∧
      m0.Coeffs.getD 0 0 = -4 / 61 ∧ m0.TStats.getD 0 0 < 0 ∧ 0 < m1.TStats.getD 0 0 ∧
      AdfTest lib adfSeriesB "c" 1 LAG_MODE_TSTAT LEFT_TAIL
        = some (adfUpdate (adfStart "c" LAG_MODE_TSTAT LEFT_TAIL (adfLeftTailCriticalValues "c"))
            0 m0 10, none) := by
  obtain ⟨m0, hm0, hg0, ht0, -⟩ := adfSeriesB_lag0 lib
  obtain ⟨m1, hm1, -, ht1, -⟩ := adfSeriesB_lag1 lib
  have hneg : m0.TStats.getD 0 0 < 0 := by
    rw [ht0]
    exact div_neg_of_neg_of_pos (by norm_num) (hs _ (by norm_num))
  have hpos : 0 < m1.TStats.getD 0 0 := by
    rw [ht1]
    exact div_pos (by norm_num) (hs _ (by norm_num))
  refine ⟨m0, m1, adfCandidate_eq lib _ _ "c" 1 0 m0 10 adfSeriesB_diff hm0,
    adfCandidate_eq lib _ _ "c" 1 1 m1 10 adfSeriesB_diff hm1, hg0, hneg, hpos, ?_⟩
  rw [AdfTest_maxLag_one lib adfSeriesB _ "c" LAG_MODE_TSTAT m0 m1 10 10 adfSeriesB_diff hm0 hm1,
    adfSelect_tstat_start _ 0 m0 10 rfl,
    adfSelect_tstat_keep
      (adfUpdate (adfStart "c" LAG_MODE_TSTAT LEFT_TAIL (adfLeftTailCriticalValues "c")) 0 m0 10)
      1 m1 10 (not_lt.mpr (le_of_lt (lt_trans hneg hpos))) (ne_of_lt hneg)]
  exact adfFinal_update _ 0 m0 10 (ne_of_lt hneg)

/-- The run of `AdfTest` on `adfSeriesA` in t-stat mode: lag 0 has the t-statistic `0`, so
lag 1 replaces it although its t-statistic is larger. -/
theorem adfSeriesA_tstat (lib : NumLib) (hs : ∀ q : ℚ, 0 < q → 0 < lib.Sqrt q) :
    ∃ m0 m1 : MultiLinearModel,
      adfCandidate lib adfSeriesA "c" 1 0 = some (m0, 10) ∧
      adfCandidate lib adfSeriesA "c" 1 1 = some (m1, 10) ∧
      m0.TStats.getD 0 0 = 0 ∧ 0 < m1.TStats.getD 0 0 ∧
      AdfTest lib adfSeriesA "c" 1 LAG_MODE_TSTAT LEFT_TAIL
        = some (adfUpdate (adfStart "c" LAG_MODE_TSTAT LEFT_TAIL (adfLeftTailCriticalValues "c"))
            1 m1 10, none) := by
  obtain ⟨m0, hm0, -, ht0, -⟩ := adfSeriesA_lag0 lib
  obtain ⟨m1, hm1, -, ht1, -⟩ := adfSeriesA_lag1 lib
  have hzero : m0.TStats.getD 0 0 = 0 := by
    rw [ht0]
    exact zero_div _
  have hpos : 0 < m1.TStats.getD 0 0 := by
    rw [ht1]
    exact div_pos (by norm_num) (hs _ (by norm_num))
  refine ⟨m0, m1, adfCandidate_eq lib _ _ "c" 1 0 m0 10 adfSeriesA_diff hm0,
    adfCandidate_eq lib _ _ "c" 1 1 m1 10 adfSeriesA_diff hm1, hzero, hpos, ?_⟩
  rw [AdfTest_maxLag_one lib adfSeriesA _ "c" LAG_MODE_TSTAT m0 m1 10 10 adfSeriesA_diff hm0 hm1,
    adfSelect_tstat_start _ 0 m0 10 rfl, adfSelect_tstat_start _ 1 m1 10 hzero,
    adfUpdate_adfUpdate]
  exact adfFinal_update _ 1 m1 10 (ne_of_gt hpos)

theorem ratLib_Sqrt_pos (q : ℚ) (hq : 0 < q) : 0 < ratLib.Sqrt q := ratSqrt_pos q hq

/-- The run of `AdfTest` on `adfSeriesB` in AIC mode with the rational routines. -/
theorem adfSeriesB_aic :
    ∃ m0 : MultiLinearModel,
      adfCandidate ratLib adfSeriesB "c" 1 0 = some (m0, 10) ∧
      AdfTest ratLib adfSeriesB "c" 1 LAG_MODE_AIC LEFT_TAIL
        = some (adfUpdate (adfStart "c" LAG_MODE_AIC LEFT_TAIL (adfLeftTailCriticalValues "c"))
            0 m0 10, none) := by
  obtain ⟨m0, hm0, -, ht0, ha0⟩ := adfSeriesB_lag0 ratLib
  obtain ⟨m1, hm1, -, -, ha1⟩ := adfSeriesB_lag1 ratLib
  have hneg : m0.TStats.getD 0 0 < 0 := by
    rw [ht0]
    exact div_neg_of_neg_of_pos (by norm_num) (ratLib_Sqrt_pos _ (by norm_num))
  have hkeep : ¬ m1.AIC < m0.AIC := by
    rw [ha0, ha1]
    simp only [ratLib]
    norm_num
  refine ⟨m0, adfCandidate_eq ratLib _ _ "c" 1 0 m0 10 adfSeriesB_diff hm0, ?_⟩
  rw [AdfTest_maxLag_one ratLib adfSeriesB _ "c" LAG_MODE_AIC m0 m1 10 10 adfSeriesB_diff hm0 hm1,
    adfSelect_aic_start _ 0 m0 10 rfl,
    adfSelect_aic_keep
      (adfUpdate (adfStart "c" LAG_MODE_AIC LEFT_TAIL (adfLeftTailCriticalValues "c")) 0 m0 10)
      1 m1 10 m0.AIC rfl hkeep]
  exact adfFinal_update _ 0 m0 10 (ne_of_lt hneg)

/-! ### Claims about `timeSeries/adfuller` -/

/-- C11 (failing input): on the series `[1, 0, 0, -1, -1, -1, -1, -1, 0, 1, 1, 2]` with
trend `"c"`, `maxLag = 1` and t-stat selection `AdfTest` succeeds with selected lag `0`, a
negative t-statistic and `Gamma = -4/61`, while the standalone regression of `Δy_t` on
`[y_{t−1}, 1]` over the same ten responses, each paired with the level that immediately
precedes it, has the coefficient `6/61` and a positive t-statistic: the level column that
`AdfTest` stores is `y[i]`, one step (`maxLag` steps) behind the level `y[maxLag + i]` of
the response `Δy[maxLag + i]`. -/
theorem C11_level_column_out_of_step :
    (AdfTest ratLib adfSeriesB "c" 1 LAG_MODE_TSTAT LEFT_TAIL).map
        (fun r => (r.1.UsedLag, r.1.Gamma, decide (r.1.TStat < 0), r.2))
      = some (0, -4 / 61, true, none) ∧
    (specAdfFit ratLib adfSeriesB 1 0 10).Coeffs.getD 0 0 = 6 / 61 ∧
    0 < (specAdfFit ratLib adfSeriesB 1 0 10).TStats.getD 0 0 := by
  obtain ⟨m0, m1, -, -, hg, hneg, -, hrun⟩ := adfSeriesB_tstat ratLib ratLib_Sqrt_pos
  obtain ⟨m, hm, h1, h2, -⟩ := adfSeriesB_spec_lag0 ratLib
  refine ⟨?_, ?_, ?_⟩
  · rw [hrun]
    have hG : (adfUpdate (adfStart "c" LAG_MODE_TSTAT LEFT_TAIL (adfLeftTailCriticalValues "c"))
        0 m0 10).Gamma = -4 / 61 := hg
    have hT : (adfUpdate (adfStart "c" LAG_MODE_TSTAT LEFT_TAIL (adfLeftTailCriticalValues "c"))
        0 m0 10).TStat < 0 := hneg
    simp only [Option.map_some', hG, hT, decide_True]
    rfl
  · unfold specAdfFit
    rw [hm]
    exact h1
  · unfold specAdfFit
    rw [hm, h2]
    exact div_pos (by norm_num) (ratLib_Sqrt_pos _ (by norm_num))

/-- C12 (failing input): for trend `"n"` the matrix handed to the solver at lag `L` is
declared with `L + 2` columns although each row writes only `L + 1` entries, so the rows of
the matrix are not the rows that were written.  On the series
`[1, 2, 4, 7, 11, 16, 22, 29, 37, 46, 56]` with `maxLag = 0` and lag `0` the solver receives
the 10 × 2 matrix with rows `[1, 2], [4, 7], [11, 16], [22, 29], [37, 46]` followed by five
zero rows, not the 10 × 1 column of levels `1, 2, 4, …, 46`. -/
theorem C12_trend_n_design (lib : NumLib) :
    diff [1, 2, 4, 7, 11, 16, 22, 29, 37, 46, 56] = some [1, 2, 3, 4, 5, 6, 7, 8, 9, 10] ∧
    (∀ L : ℕ, adfNCol "n" L = L + 2) ∧
    (∀ (dy ylag1 : List ℚ) (maxLag L i : ℕ), (adfRow dy ylag1 "n" maxLag L i).length = L + 1) ∧
    adfOLS lib [1, 2, 3, 4, 5, 6, 7, 8, 9, 10] [1, 2, 4, 7, 11, 16, 22, 29, 37, 46] "n" 0 0
      = (match (MultiRegressionMat lib
            (denseOfFlat 10 2 [1, 2, 4, 7, 11, 16, 22, 29, 37, 46, 0, 0, 0, 0, 0, 0, 0, 0, 0, 0])
            (toVecDense 10 [1, 2, 3, 4, 5, 6, 7, 8, 9, 10])).2 with
        | some _ => some none
        | none => some (some ((MultiRegressionMat lib
            (denseOfFlat 10 2 [1, 2, 4, 7, 11, 16, 22, 29, 37, 46, 0, 0, 0, 0, 0, 0, 0, 0, 0, 0])
            (toVecDense 10 [1, 2, 3, 4, 5, 6, 7, 8, 9, 10])).1, 10))) ∧
    (List.ofFn fun i : Fin 10 => List.ofFn fun j : Fin 2 =>
        denseOfFlat 10 2 [1, 2, 4, 7, 11, 16, 22, 29, 37, 46, 0, 0, 0, 0, 0, 0, 0, 0, 0, 0] i j)
      = [[1, 2], [4, 7], [11, 16], [22, 29], [37, 46], [0, 0], [0, 0], [0, 0], [0, 0], [0, 0]] := by
  refine ⟨?_, ?_, ?_, ?_, ?_⟩
  · simp [diff, List.range, List.range.loop]
    norm_num
  · intro L
    simp [adfNCol]
  · intro dy ylag1 maxLag L i
    simp [adfRow]
  · exact adfOLS_eq lib _ _ "n" 0 0 10 2 _ rfl (by decide) (by decide) (by decide) (by decide) rfl
  · simp [List.ofFn_succ, denseOfFlat]

/-- C15 (failing input): `AdfTest` panics on the empty series (`diff` makes a slice of
length `-1`) and on a series shorter than `maxLag + 1` (the slice `dy[maxLag:]` is out of
range), whatever the trend and the lag mode; it returns no `INVALID_VALUE` error there. -/
theorem C15_short_series_panics (lib : NumLib) (regr : String) (autolag : LagMode)
    (tail : String) :
    AdfTest lib [] regr 0 autolag tail = none ∧
    AdfTest lib [1, 2, 3] regr 5 autolag LEFT_TAIL = none := by
  refine ⟨rfl, ?_⟩
  have hd : diff [1, 2, 3] = some [2 - 1, 3 - 2] := rfl
  rw [AdfTest_of_diff lib _ _ regr 5 autolag LEFT_TAIL hd, if_pos rfl]
  rfl

/-- C16 (failing input): with the unknown trend tag `"x"`, a series with ten usable
observations and the left tail, `AdfTest` panics (the buffer `X` has length `nRow * 0` and
the first write `X[pos]` is out of range), whatever the lag mode; it returns no
`INVALID_VALUE` error. -/
theorem C16_unknown_trend_panics (lib : NumLib) (autolag : LagMode) :
    AdfTest lib adfSeriesB "x" 1 autolag LEFT_TAIL = none := by
  rw [AdfTest_of_diff lib _ _ "x" 1 autolag LEFT_TAIL adfSeriesB_diff, if_pos rfl]
  rfl

/-- C17 (failing input): on the residuals `[1, -1, 1, -1]` with one lag `LjungBoxTest`
returns `Q = 0` without error, whatever the chi-square distribution function, because its
correlation loop starts at lag 10 and leaves `ρ_1` at zero; the formula
`n(n+2)·Σ_{k=1}^{L} ρ_k²/(n−k)` gives `9/2`. -/
theorem C17_ljung_box_skips_lags (chi2CDF : ℚ → ℚ → ℚ) :
    (LjungBoxTest chi2CDF [1, -1, 1, -1] 1 (1 / 20)).map (fun r => (r.1.2.1, r.2))
      = some (0, none) ∧
    specLjungBoxQ [1, -1, 1, -1] 1 = 9 / 2 := by
  constructor
  · simp [LjungBoxTest, List.range, List.range.loop]
  · simp [specLjungBoxQ, specLjungBoxRho, Finset.sum_range_succ, Finset.sum_Ico_eq_sum_range]
    norm_num

/-- C13: when `AdfTest` succeeds in AIC mode (respectively BIC mode), the returned record
carries the lag, the row count, `Gamma`, `TStat`, `PValue`, `AIC`, `BIC`, `Resid` and `Coeffs`
of one successfully fitted candidate lag `L ≤ maxLag`, whose AIC (respectively BIC) is less
than or equal to that of every successfully fitted candidate and strictly less than that of
every such candidate at a smaller lag. -/
theorem C13_aic_bic_selection (lib : NumLib) (y : List ℚ) (regr : String) (maxLag : ℤ)
    (autolag : LagMode) (tail : String) (res : ADFResult)
    (hmode : autolag = LAG_MODE_AIC ∨ autolag = LAG_MODE_BIC)
    (h : AdfTest lib y regr maxLag autolag tail = some (res, none)) :
    ∃ (L : ℕ) (m : MultiLinearModel) (nobs : ℕ),
      (L : ℤ) ≤ maxLag ∧ adfCandidate lib y regr maxLag L = some (m, nobs) ∧
      res.UsedLag = (L : ℤ) ∧ res.NObs = (nobs : ℤ) ∧
      res.Gamma = m.Coeffs.getD 0 0 ∧ res.TStat = m.TStats.getD 0 0 ∧
      res.PValue = m.PValues.getD 0 0 ∧ res.AIC = F64.fin m.AIC ∧ res.BIC = F64.fin m.BIC ∧
      res.Resid = m.Resids ∧ res.Coeffs = m.Coeffs ∧
      ∀ (L2 : ℕ) (m2 : MultiLinearModel) (n2 : ℕ), (L2 : ℤ) ≤ maxLag →
        adfCandidate lib y regr maxLag L2 = some (m2, n2) →
        adfCrit autolag m ≤ adfCrit autolag m2 ∧
          (L2 < L → adfCrit autolag m < adfCrit autolag m2) := by
  obtain ⟨L, m, nobs, r0, hL, hc, hres, hmin⟩ :=
    AdfTest_selected lib y regr maxLag autolag tail res h
      (hmode.elim Or.inl fun h2 => Or.inr (Or.inl h2))
  subst hres
  exact ⟨L, m, nobs, hL, hc, rfl, rfl, rfl, rfl, rfl, rfl, rfl, rfl, rfl, hmin⟩

/-- Witness of C13: the run on `adfSeriesB` with trend `"c"`, `maxLag = 1` and AIC mode. -/
theorem C13_aic_bic_selection_witness :
    AdfTest ratLib adfSeriesB "c" 1 LAG_MODE_AIC LEFT_TAIL
      = some (adfUpdate (adfStart "c" LAG_MODE_AIC LEFT_TAIL (adfLeftTailCriticalValues "c"))
          0 (adfFit ratLib adfSeriesB "c" 1 0) 10, none) ∧
    ∃ (L : ℕ) (m : MultiLinearModel) (nobs : ℕ),
      (L : ℤ) ≤ 1 ∧ adfCandidate ratLib adfSeriesB "c" 1 L = some (m, nobs) ∧
      (adfUpdate (adfStart "c" LAG_MODE_AIC LEFT_TAIL (adfLeftTailCriticalValues "c"))
          0 (adfFit ratLib adfSeriesB "c" 1 0) 10).UsedLag = (L : ℤ) ∧
      ∀ (L2 : ℕ) (m2 : MultiLinearModel) (n2 : ℕ), (L2 : ℤ) ≤ 1 →
        adfCandidate ratLib adfSeriesB "c" 1 L2 = some (m2, n2) →
        adfCrit LAG_MODE_AIC m ≤ adfCrit LAG_MODE_AIC m2 ∧
          (L2 < L → adfCrit LAG_MODE_AIC m < adfCrit LAG_MODE_AIC m2) := by
  have hrun : AdfTest ratLib adfSeriesB "c" 1 LAG_MODE_AIC LEFT_TAIL
      = some (adfUpdate (adfStart "c" LAG_MODE_AIC LEFT_TAIL (adfLeftTailCriticalValues "c"))
          0 (adfFit ratLib adfSeriesB "c" 1 0) 10, none) := by
    obtain ⟨m0, hc, hr⟩ := adfSeriesB_aic
    rw [adfFit_eq ratLib adfSeriesB "c" 1 0 m0 10 hc]
    exact hr
  obtain ⟨L, m, nobs, hL, hc, hU, -, -, -, -, -, -, -, -, hmin⟩ :=
    C13_aic_bic_selection ratLib adfSeriesB "c" 1 LAG_MODE_AIC LEFT_TAIL _ (Or.inl rfl) hrun
  exact ⟨hrun, L, m, nobs, hL, hc, hU, hmin⟩

/-- C14 (counterexample): on the series `[-3, -2, -3, -3, -3, -3, -3, -3, -2, -2, 3, -2]`
with trend `"c"`, `maxLag = 1` and t-stat mode `AdfTest` succeeds with lag `1` and a positive
`TStat`, although the candidate at lag `0` was fitted successfully with the smaller
t-statistic `0`: a stored `0` counts as "nothing stored yet" and is replaced by the next
candidate. -/
theorem C14_counterexample :
    (AdfTest ratLib adfSeriesA "c" 1 LAG_MODE_TSTAT LEFT_TAIL).map
        (fun r => (r.1.UsedLag, decide (0 < r.1.TStat), r.2)) = some (1, true, none) ∧
    (adfCandidate ratLib adfSeriesA "c" 1 0).map (fun c => c.1.TStats.getD 0 0) = some 0 := by
  obtain ⟨m0, m1, hc0, -, hz, hpos, hrun⟩ := adfSeriesA_tstat ratLib ratLib_Sqrt_pos
  constructor
  · rw [hrun]
    have hT : 0 < (adfUpdate (adfStart "c" LAG_MODE_TSTAT LEFT_TAIL
        (adfLeftTailCriticalValues "c")) 1 m1 10).TStat := hpos
    simp only [Option.map_some', hT, decide_True]
    rfl
  · rw [hc0]
    simp only [Option.map_some', hz]

/-- C14 (amended): when `AdfTest` succeeds in t-stat mode and no successfully fitted
candidate lag has a t-statistic of the lagged level equal to `0`, the returned record carries
the lag, the row count, `Gamma`, `TStat`, `PValue`, `AIC`, `BIC`, `Resid` and `Coeffs` of one
successfully fitted candidate lag `L ≤ maxLag`, whose t-statistic is less than or equal to
that of every successfully fitted candidate and strictly less than that of every such
candidate at a smaller lag. -/
theorem C14_tstat_selection (lib : NumLib) (y : List ℚ) (regr : String) (maxLag : ℤ)
    (tail : String) (res : ADFResult)
    (h : AdfTest lib y regr maxLag LAG_MODE_TSTAT tail = some (res, none))
    (hne : ∀ (L : ℕ) (m : MultiLinearModel) (n : ℕ), (L : ℤ) ≤ maxLag →
      adfCandidate lib y regr maxLag L = some (m, n) → m.TStats.getD 0 0 ≠ 0) :
    ∃ (L : ℕ) (m : MultiLinearModel) (nobs : ℕ),
      (L : ℤ) ≤ maxLag ∧ adfCandidate lib y regr maxLag L = some (m, nobs) ∧
      res.UsedLag = (L : ℤ) ∧ res.NObs = (nobs : ℤ) ∧
      res.Gamma = m.Coeffs.getD 0 0 ∧ res.TStat = m.TStats.getD 0 0 ∧
      res.PValue = m.PValues.getD 0 0 ∧ res.AIC = F64.fin m.AIC ∧ res.BIC = F64.fin m.BIC ∧
      res.Resid = m.Resids ∧ res.Coeffs = m.Coeffs ∧
      ∀ (L2 : ℕ) (m2 : MultiLinearModel) (n2 : ℕ), (L2 : ℤ) ≤ maxLag →
        adfCandidate lib y regr maxLag L2 = some (m2, n2) →
        m.TStats.getD 0 0 ≤ m2.TStats.getD 0 0 ∧
          (L2 < L → m.TStats.getD 0 0 < m2.TStats.getD 0 0) := by
  obtain ⟨L, m, nobs, r0, hL, hc, hres, hmin⟩ :=
    AdfTest_selected lib y regr maxLag LAG_MODE_TSTAT tail res h (Or.inr (Or.inr ⟨rfl, hne⟩))
  subst hres
  refine ⟨L, m, nobs, hL, hc, rfl, rfl, rfl, rfl, rfl, rfl, rfl, rfl, rfl, ?_⟩
  intro L2 m2 n2 hL2 hc2
  have := hmin L2 m2 n2 hL2 hc2
  rwa [adfCrit_tstat, adfCrit_tstat] at this

/-- Witness of C14 (amended): the run on `adfSeriesB` with trend `"c"`, `maxLag = 1` and
t-stat mode, where the two candidates have a negative and a positive t-statistic. -/
theorem C14_tstat_selection_witness :
    AdfTest ratLib adfSeriesB "c" 1 LAG_MODE_TSTAT LEFT_TAIL
      = some (adfUpdate (adfStart "c" LAG_MODE_TSTAT LEFT_TAIL (adfLeftTailCriticalValues "c"))
          0 (adfFit ratLib adfSeriesB "c" 1 0) 10, none) ∧
    (∀ (L : ℕ) (m : MultiLinearModel) (n : ℕ), (L : ℤ) ≤ 1 →
      adfCandidate ratLib adfSeriesB "c" 1 L = some (m, n) → m.TStats.getD 0 0 ≠ 0) ∧
    ∃ (L : ℕ) (m : MultiLinearModel) (nobs : ℕ),
      (L : ℤ) ≤ 1 ∧ adfCandidate ratLib adfSeriesB "c" 1 L = some (m, nobs) ∧
      (adfUpdate (adfStart "c" LAG_MODE_TSTAT LEFT_TAIL (adfLeftTailCriticalValues "c"))
          0 (adfFit ratLib adfSeriesB "c" 1 0) 10).TStat = m.TStats.getD 0 0 ∧
      ∀ (L2 : ℕ) (m2 : MultiLinearModel) (n2 : ℕ), (L2 : ℤ) ≤ 1 →
        adfCandidate ratLib adfSeriesB "c" 1 L2 = some (m2, n2) →
        m.TStats.getD 0 0 ≤ m2.TStats.getD 0 0 ∧
          (L2 < L → m.TStats.getD 0 0 < m2.TStats.getD 0 0) := by
  obtain ⟨m0, m1, hc0, hc1, -, hneg, hpos, hr⟩ := adfSeriesB_tstat ratLib ratLib_Sqrt_pos
  have hrun : AdfTest ratLib adfSeriesB "c" 1 LAG_MODE_TSTAT LEFT_TAIL
      = some (adfUpdate (adfStart "c" LAG_MODE_TSTAT LEFT_TAIL (adfLeftTailCriticalValues "c"))
          0 (adfFit ratLib adfSeriesB "c" 1 0) 10, none) := by
    rw [adfFit_eq ratLib adfSeriesB "c" 1 0 m0 10 hc0]
    exact hr
  have hne : ∀ (L : ℕ) (m : MultiLinearModel) (n : ℕ), (L : ℤ) ≤ 1 →
      adfCandidate ratLib adfSeriesB "c" 1 L = some (m, n) → m.TStats.getD 0 0 ≠ 0 := by
    intro L m n hL hc
    have hL2 : L = 0 ∨ L = 1 := by omega
    rcases hL2 with rfl | rfl
    · rw [hc0] at hc
      have he : m0 = m := (Prod.mk.inj (Option.some.inj hc)).1
      rw [← he]
      exact ne_of_lt hneg
    · rw [hc1] at hc
      have he : m1 = m := (Prod.mk.inj (Option.some.inj hc)).1
      rw [← he]
      exact ne_of_gt hpos
  obtain ⟨L, m, nobs, hL, hc, -, -, -, hT, -, -, -, -, -, hmin⟩ :=
    C14_tstat_selection ratLib adfSeriesB "c" 1 LEFT_TAIL _ hrun hne
  exact ⟨hrun, hne, L, m, nobs, hL, hc, hT, hmin⟩

/-! ## Statements about `ml/ols/lasso_regr.go` -/

theorem softThreshold_of_abs_le (z a : ℚ) (h : |z| ≤ a) : softThreshold z a = 0 := by
  have h1 := abs_le.mp h
  unfold softThreshold
  rw [if_neg (not_lt.mpr h1.2), if_neg (not_lt.mpr h1.1)]

theorem softThreshold_zero_right (z : ℚ) : softThreshold z 0 = z := by
  unfold softThreshold
  by_cases h1 : z > 0
  · rw [if_pos h1, sub_zero]
  · rw [if_neg h1]
    by_cases h2 : z < -0
    · rw [if_pos h2, add_zero]
    · rw [if_neg h2]
      have h3 : ¬ z < 0 := by simpa using h2
      exact le_antisymm (not_lt.mp h3) (not_lt.mp h1)

theorem cdCoord_fst {n p : ℕ} (X : Matrix (Fin n) (Fin p) ℚ) (Y : Fin n → ℚ) (alpha : ℚ)
    (start : ℕ) (st : (ℕ → ℚ) × ℚ) (j : Fin p) :
    (cdCoord X Y alpha start st j).1
      = Function.update st.1 j.val (softThreshold ((∑ i, X i j *
          (Y i - (st.1 0 + ∑ k : Fin p, if start ≤ k.val then X i k * st.1 k.val else 0)
            + X i j * st.1 j.val)) / (n : ℚ)) alpha / gj X j) := rfl

theorem cdIntercept_fst {n p : ℕ} (X : Matrix (Fin n) (Fin p) ℚ) (Y : Fin n → ℚ)
    (st : (ℕ → ℚ) × ℚ) :
    (cdIntercept X Y st).1 = Function.update st.1 0
      ((∑ i, (Y i - ∑ j : Fin p, if 1 ≤ j.val then X i j * st.1 j.val else 0)) / (n : ℚ)) :=
  rfl

/-- A property of `beta` kept by the intercept update and by every coordinate update is
kept by a pass of the loop. -/
theorem cdSweep_invariant {n p : ℕ} (P : (ℕ → ℚ) → Prop) (X : Matrix (Fin n) (Fin p) ℚ)
    (Y : Fin n → ℚ) (alpha : ℚ) (withIntercept : Bool)
    (hI : withIntercept = true → ∀ st : (ℕ → ℚ) × ℚ, P st.1 → P (cdIntercept X Y st).1)
    (hC : ∀ (st : (ℕ → ℚ) × ℚ) (j : Fin p), (if withIntercept then 1 else 0) ≤ j.val →
      P st.1 → P (cdCoord X Y alpha (if withIntercept then 1 else 0) st j).1)
    (beta : ℕ → ℚ) (hβ : P beta) : P (cdSweep X Y alpha withIntercept beta).1 := by
  unfold cdSweep
  have h1 : P (if withIntercept = true then cdIntercept X Y (beta, 0) else (beta, 0)).1 := by
    by_cases hw : withIntercept = true
    · rw [if_pos hw]
      exact hI hw (beta, 0) hβ
    · rw [if_neg hw]
      exact hβ
  revert h1
  generalize (if withIntercept = true then cdIntercept X Y (beta, 0) else (beta, 0)) = st1
  generalize List.finRange p = l
  intro h1
  induction l generalizing st1 with
  | nil => exact h1
  | cons a l ih =>
    rw [List.foldl_cons]
    apply ih
    by_cases ha : (if withIntercept = true then 1 else 0) ≤ a.val
    · rw [if_pos ha]
      exact hC st1 a ha h1
    · rw [if_neg ha]
      exact h1

/-- A property of `beta` kept by the intercept update and by every coordinate update holds
when the loop stops. -/
theorem cdLoop_invariant {n p : ℕ} (P : (ℕ → ℚ) → Prop) (X : Matrix (Fin n) (Fin p) ℚ)
    (Y : Fin n → ℚ) (alpha : ℚ) (withIntercept : Bool) (tol : ℚ)
    (hI : withIntercept = true → ∀ st : (ℕ → ℚ) × ℚ, P st.1 → P (cdIntercept X Y st).1)
    (hC : ∀ (st : (ℕ → ℚ) × ℚ) (j : Fin p), (if withIntercept then 1 else 0) ≤ j.val →
      P st.1 → P (cdCoord X Y alpha (if withIntercept then 1 else 0) st j).1)
    (fuel : ℕ) (beta : ℕ → ℚ) (hβ : P beta) :
    P (cdLoop X Y alpha withIntercept tol fuel beta) := by
  induction fuel generalizing beta with
  | zero => exact hβ
  | succ it ih =>
    have hs := cdSweep_invariant P X Y alpha withIntercept hI hC beta hβ
    unfold cdLoop
    simp only []
    by_cases hb : (cdSweep X Y alpha withIntercept beta).2 < tol
    · rw [if_pos hb]
      exact hs
    · rw [if_neg hb]
      exact ih _ hs

section Standardize

variable {n p : ℕ}

theorem std_fst_apply (lib : NumLib) (X : Matrix (Fin n) (Fin p) ℚ) (withIntercept : Bool)
    (i : Fin n) (j : Fin p) :
    (standardizeExceptIntercept lib X withIntercept).1 i j
      = if (if withIntercept then 1 else 0) ≤ j.val then
          (X i j - (standardizeExceptIntercept lib X withIntercept).2.1 j)
            / (standardizeExceptIntercept lib X withIntercept).2.2 j
        else X i j := by
  unfold standardizeExceptIntercept
  by_cases h : (if withIntercept then 1 else 0) ≤ j.val
  · simp [h]
  · simp [h]

theorem std_means_apply (lib : NumLib) (X : Matrix (Fin n) (Fin p) ℚ) (withIntercept : Bool)
    (j : Fin p) (h : (if withIntercept then 1 else 0) ≤ j.val) :
    (standardizeExceptIntercept lib X withIntercept).2.1 j = (∑ i, X i j) / (n : ℚ) := by
  unfold standardizeExceptIntercept
  simp [h]

/-- The recorded standard deviations are never `0`. -/
theorem std_stds_ne_zero (lib : NumLib) (X : Matrix (Fin n) (Fin p) ℚ) (withIntercept : Bool)
    (j : Fin p) : (standardizeExceptIntercept lib X withIntercept).2.2 j ≠ 0 := by
  unfold standardizeExceptIntercept
  simp only []
  by_cases h : (if withIntercept then 1 else 0) ≤ j.val
  · rw [if_pos h]
    by_cases h2 : lib.Sqrt ((∑ i, (X i j - (∑ i, X i j) / (n : ℚ))
        * (X i j - (∑ i, X i j) / (n : ℚ))) / (n : ℚ)) = 0
    · rw [if_pos h2]
      exact one_ne_zero
    · rw [if_neg h2]
      exact h2
  · rw [if_neg h]
    exact one_ne_zero

/-- A standardised column sums to `0`. -/
theorem std_col_sum (lib : NumLib) (X : Matrix (Fin n) (Fin p) ℚ) (withIntercept : Bool)
    (hn : 0 < n) (j : Fin p) (h : (if withIntercept then 1 else 0) ≤ j.val) :
    ∑ i, (standardizeExceptIntercept lib X withIntercept).1 i j = 0 := by
  have hn0 : (n : ℚ) ≠ 0 := by exact_mod_cast (Nat.pos_iff_ne_zero.mp hn)
  simp only [std_fst_apply, if_pos h, std_means_apply lib X withIntercept j h]
  rw [← Finset.sum_div, Finset.sum_sub_distrib, Finset.sum_const, Finset.card_univ,
    Fintype.card_fin, nsmul_eq_mul, mul_div_cancel₀ _ hn0, sub_self, zero_div]

end Standardize

theorem destandardizeBeta_getD (p : ℕ) (beta : ℕ → ℚ) (means stds : Fin p → ℚ)
    (withIntercept : Bool) (j : Fin p) (hj : (if withIntercept then 1 else 0) ≤ j.val) :
    (destandardizeBeta p beta means stds withIntercept).getD j.val 0 = beta j.val / stds j := by
  unfold destandardizeBeta
  simp only []
  rw [ofFn_getD]
  have h1 : ¬ (withIntercept = true ∧ j.val = 0) := by
    rintro ⟨hw, h0⟩
    rw [if_pos hw] at hj
    omega
  rw [if_neg h1, if_pos hj]

/-- With the threshold at least `|X̃_jᵀ y| / n` for every penalised column of the
standardised design, every penalised coefficient stays `0` in `lassoLinearCD`. -/
theorem lassoLinearCDOn_large_alpha (lib : NumLib) {n p : ℕ} (X : Matrix (Fin n) (Fin p) ℚ)
    (Y : Fin n → ℚ) (alpha : ℚ) (withIntercept : Bool) (tol : ℚ) (maxIter : ℤ) (hn : 0 < n)
    (hα : ∀ j : Fin p, (if withIntercept then 1 else 0) ≤ j.val →
      |(∑ i, (standardizeExceptIntercept lib X withIntercept).1 i j * Y i) / (n : ℚ)| ≤ alpha)
    (j : Fin p) (hj : (if withIntercept then 1 else 0) ≤ j.val) :
    (lassoLinearCDOn lib X Y alpha withIntercept tol maxIter).getD j.val 0 = 0 := by
  unfold lassoLinearCDOn
  simp only []
  rw [destandardizeBeta_getD _ _ _ _ _ j hj]
  have hinv : ∀ k : Fin p, (if withIntercept then 1 else 0) ≤ k.val →
      cdLoop (standardizeExceptIntercept lib X withIntercept).1 Y alpha withIntercept
        tol maxIter.toNat (fun _ => 0) k.val = 0 := by
    refine cdLoop_invariant
      (fun β => ∀ k : Fin p, (if withIntercept then 1 else 0) ≤ k.val → β k.val = 0)
      _ Y alpha withIntercept tol ?_ ?_ _ _ (fun _ _ => rfl)
    · intro hw st hst k hk
      rw [cdIntercept_fst]
      have h0 : k.val ≠ 0 := by
        rw [if_pos hw] at hk
        omega
      rw [Function.update_noteq h0]
      exact hst k hk
    · intro st k hk hst k2 hk2
      rw [cdCoord_fst]
      have hin : ∀ i : Fin n, (∑ k3 : Fin p, if (if withIntercept then 1 else 0) ≤ k3.val then
          (standardizeExceptIntercept lib X withIntercept).1 i k3 * st.1 k3.val else 0) = 0 := by
        intro i
        apply Finset.sum_eq_zero
        intro k3 _
        by_cases h3 : (if withIntercept then 1 else 0) ≤ k3.val
        · rw [if_pos h3, hst k3 h3, mul_zero]
        · rw [if_neg h3]
      have h0 : st.1 0 * ∑ i, (standardizeExceptIntercept lib X withIntercept).1 i k = 0 := by
        by_cases hw : withIntercept = true
        · rw [std_col_sum lib X withIntercept hn k hk, mul_zero]
        · have hz := hst ⟨0, k.pos⟩ (by simp [hw])
          simp only [] at hz
          rw [hz, zero_mul]
      have hrho : (∑ i, (standardizeExceptIntercept lib X withIntercept).1 i k *
          (Y i - (st.1 0 + ∑ k3 : Fin p, if (if withIntercept then 1 else 0) ≤ k3.val then
            (standardizeExceptIntercept lib X withIntercept).1 i k3 * st.1 k3.val else 0)
            + (standardizeExceptIntercept lib X withIntercept).1 i k * st.1 k.val))
          = ∑ i, (standardizeExceptIntercept lib X withIntercept).1 i k * Y i := by
        have e : ∀ i : Fin n, (standardizeExceptIntercept lib X withIntercept).1 i k *
            (Y i - (st.1 0 + ∑ k3 : Fin p, if (if withIntercept then 1 else 0) ≤ k3.val then
              (standardizeExceptIntercept lib X withIntercept).1 i k3 * st.1 k3.val else 0)
              + (standardizeExceptIntercept lib X withIntercept).1 i k * st.1 k.val)
            = (standardizeExceptIntercept lib X withIntercept).1 i k * Y i
              - st.1 0 * (standardizeExceptIntercept lib X withIntercept).1 i k := by
          intro i
          rw [hin i, hst k hk]
          ring
        simp only [e]
        rw [Finset.sum_sub_distrib, ← Finset.mul_sum, h0, sub_zero]
      rw [hrho, softThreshold_of_abs_le _ alpha (hα k hk), zero_div]
      by_cases h : k2.val = k.val
      · rw [h, Function.update_same]
      · rw [Function.update_noteq h]
        exact hst k2 hk2
  rw [hinv j hj, zero_div]

/-- The linear branch of `MultiRegressionLasso` returns the coefficients of
`lassoLinearCD` without error. -/
theorem MultiRegressionLasso_linear (lib : NumLib) (elib : LogitLib) {n p : ℕ}
    (matX : Matrix (Fin n) (Fin p) ℚ) (matY : List ℚ) (alpha : ℚ) (withIntercept : Bool)
    (hY : matY.length = n) :
    (MultiRegressionLasso lib elib matX matY alpha false withIntercept).2 = none ∧
    (MultiRegressionLasso lib elib matX matY alpha false withIntercept).1.Coeffs
      = (lassoLinearCD lib matX (toVecDense n matY) (alpha / (n : ℚ)) withIntercept
          (1 / 10 ^ 5) 10000).1 := by
  unfold MultiRegressionLasso
  rw [if_neg (by simpa using hY)]
  cases withIntercept <;> simp [lassoLinearCD]

theorem addInterceptColumnDense_succ {n p : ℕ} (X : Matrix (Fin n) (Fin p) ℚ) (i : Fin n)
    (j : Fin p) : addInterceptColumnDense X i ⟨j.val + 1, by omega⟩ = X i j := by
  simp [addInterceptColumnDense]

theorem addInterceptColumnDense_zero {n p : ℕ} (X : Matrix (Fin n) (Fin p) ℚ) (i : Fin n) :
    addInterceptColumnDense X i ⟨0, by omega⟩ = 1 := by
  simp [addInterceptColumnDense]

/-- Standardising the design with its intercept column standardises the input columns as
standardising the input alone does. -/
theorem std_addIntercept (lib : NumLib) {n p : ℕ} (X : Matrix (Fin n) (Fin p) ℚ)
    (j : Fin p) :
    (∀ i, (standardizeExceptIntercept lib (addInterceptColumnDense X) true).1 i
        ⟨j.val + 1, by omega⟩ = (standardizeExceptIntercept lib X false).1 i j) ∧
    (standardizeExceptIntercept lib (addInterceptColumnDense X) true).2.1 ⟨j.val + 1, by omega⟩
      = (standardizeExceptIntercept lib X false).2.1 j ∧
    (standardizeExceptIntercept lib (addInterceptColumnDense X) true).2.2 ⟨j.val + 1, by omega⟩
      = (standardizeExceptIntercept lib X false).2.2 j := by
  unfold standardizeExceptIntercept
  simp [addInterceptColumnDense_succ]

section FixedPoint

variable {n p : ℕ}

/-- The coordinate updates of a pass leave the entries of the other indices alone. -/
theorem cdFold_untouched (X : Matrix (Fin n) (Fin p) ℚ) (Y : Fin n → ℚ) (alpha : ℚ)
    (start : ℕ) (l : List (Fin p)) (st : (ℕ → ℚ) × ℚ) (k : ℕ)
    (hk : ∀ j ∈ l, start ≤ j.val → j.val ≠ k) :
    (l.foldl (fun st j => if start ≤ j.val then cdCoord X Y alpha start st j else st) st).1 k
      = st.1 k := by
  induction l generalizing st with
  | nil => rfl
  | cons a l ih =>
    rw [List.foldl_cons, ih _ (fun j hj => hk j (List.mem_cons_of_mem a hj))]
    by_cases ha : start ≤ a.val
    · rw [if_pos ha, cdCoord_fst,
        Function.update_noteq (Ne.symm (hk a (List.mem_cons_self a l) ha))]
    · rw [if_neg ha]

end FixedPoint

/-- The design with a constant column built by `MultiRegression` is the design with an
intercept column built by `MultiRegressionLasso` on the dense copy of the same rows. -/
theorem toDense_addConstantColumn (X : List (List ℚ)) (n p : ℕ) (hn : X.length = n)
    (hk : ∀ row ∈ X, row.length = p) :
    toDense n (p + 1) (addConstantColumn X) = addInterceptColumnDense (toDense n p X) := by
  ext i j
  have hi : i.val < X.length := by
    rw [hn]
    exact i.isLt
  have hX : X ≠ [] := by
    intro h
    rw [h] at hi
    exact absurd hi (Nat.not_lt_zero _)
  have hp : (X.headD []).length = p := headD_length_of_rect X p hX hk
  refine Fin.cases ?_ (fun k => ?_) j
  · rw [show addInterceptColumnDense (toDense n p X) i 0 = 1 from
      addInterceptColumnDense_zero _ i]
    exact addConstantColumn_getD_zero X i.val hi
  · rw [show addInterceptColumnDense (toDense n p X) i k.succ = toDense n p X i k from
      addInterceptColumnDense_succ _ i k]
    simp only [toDense, Matrix.of_apply, addConstantColumn, hp, Fin.val_succ]
    simp [List.getD_eq_getElem?_getD, List.getElem?_eq_getElem hi, k.isLt]

/-- The coefficients of `MultiRegression` on a non-singular design, from a solution of the
normal equations. -/
theorem MultiRegression_coeffs (lib : NumLib) (X : List (List ℚ)) (Y : List ℚ)
    (withConst : Bool) (n k : ℕ) (b : Fin k → ℚ) (hn : X.length = n) (hY : Y.length = n)
    (hk : ((design X withConst).headD []).length = k) (hk0 : 0 < k) (hnk : k < n)
    (hdet : ((toDense n k (design X withConst)).transpose
      * toDense n k (design X withConst)).det ≠ 0)
    (hb : ((toDense n k (design X withConst)).transpose
        * toDense n k (design X withConst)).mulVec b
      = (toDense n k (design X withConst)).transpose.mulVec (toVecDense n Y)) :
    (MultiRegression lib X Y withConst).map (fun r => (r.1.Coeffs, r.2))
      = some (List.ofFn b, none) := by
  rw [MultiRegression_eq_Mat lib X Y withConst n k hn hY (by omega) hk hk0,
    MultiRegressionMat_of_inv lib _ _ hnk hdet]
  simp only [Option.map_some', olsModel_Coeffs]
  rw [olsBeta_unique _ _ b hdet hb]

theorem lassoLinearCDOn_length (lib : NumLib) {n p : ℕ} (X : Matrix (Fin n) (Fin p) ℚ)
    (Y : Fin n → ℚ) (alpha : ℚ) (withIntercept : Bool) (tol : ℚ) (maxIter : ℤ) :
    (lassoLinearCDOn lib X Y alpha withIntercept tol maxIter).length = p := by
  unfold lassoLinearCDOn destandardizeBeta
  simp

/-! ### Worked runs of `MultiRegressionLasso` -/

theorem cdLoop_succ {n p : ℕ} (X : Matrix (Fin n) (Fin p) ℚ) (Y : Fin n → ℚ) (alpha : ℚ)
    (withIntercept : Bool) (tol : ℚ) (it : ℕ) (beta : ℕ → ℚ) :
    cdLoop X Y alpha withIntercept tol (it + 1) beta
      = if (cdSweep X Y alpha withIntercept beta).2 < tol then
          (cdSweep X Y alpha withIntercept beta).1
        else cdLoop X Y alpha withIntercept tol it (cdSweep X Y alpha withIntercept beta).1 :=
  rfl

theorem ratSqrt_sq (q : ℚ) : ratLib.Sqrt (q * q) = |q| := Rat.sqrt_eq q

theorem ratSqrt_zero : ratLib.Sqrt 0 = 0 := by
  have h := ratSqrt_sq 0
  simpa using h

theorem ratSqrt_one : ratLib.Sqrt 1 = 1 := by
  have h := ratSqrt_sq 1
  simpa using h

theorem ratSqrt_small : ratLib.Sqrt (1 / 10000) = 1 / 100 := by
  have h := ratSqrt_sq (1 / 100)
  rw [abs_of_pos (by norm_num)] at h
  rw [← h]
  norm_num

theorem lassoA_std : standardizeExceptIntercept ratLib
    (addInterceptColumnDense (toDense 2 1 [[1], [3]])) true
    = (toDense 2 2 [[1, -1], [1, 1]],
        ![0, 2], ![1, 1]) := by
  unfold standardizeExceptIntercept
  refine Prod.ext ?_ (Prod.ext ?_ ?_)
  · ext i j
    revert i j
    simp [Fin.forall_fin_succ, addInterceptColumnDense, toDense, Fin.sum_univ_succ]
    norm_num [ratSqrt_one]
  · ext j
    revert j
    simp [Fin.forall_fin_succ, addInterceptColumnDense, toDense, Fin.sum_univ_succ]
    norm_num
  · ext j
    revert j
    simp [Fin.forall_fin_succ, addInterceptColumnDense, toDense, Fin.sum_univ_succ]
    norm_num [ratSqrt_one]

theorem lassoA_sweep1 : cdSweep (toDense 2 2 [[1, -1], [1, 1]])
    (toVecDense 2 [2, -1]) (1 / 2) true (fun _ => 0)
    = ((Function.update (Function.update (fun _ => 0) 0 (1 / 2)) 1 (-1)), 1) := by
  simp [cdSweep, cdIntercept, cdCoord, gj, softThreshold, List.finRange, List.ofFn,
    Fin.sum_univ_succ, toVecDense, toDense, Fin.foldr_succ]
  norm_num [abs_le, abs_of_pos, max_def]

theorem lassoA_sweep2 : cdSweep (toDense 2 2 [[1, -1], [1, 1]])
    (toVecDense 2 [2, -1]) (1 / 2) true (Function.update (Function.update (fun _ => 0) 0 (1 / 2)) 1 (-1))
    = ((Function.update (Function.update (fun _ => 0) 0 (1 / 2)) 1 (-1)), 0) := by
  simp [cdSweep, cdIntercept, cdCoord, gj, softThreshold, List.finRange, List.ofFn,
    Fin.sum_univ_succ, toVecDense, toDense, Fin.foldr_succ]
  norm_num [abs_le, abs_of_pos, max_def]
  funext k
  simp only [Function.update_apply]
  split_ifs <;> rfl

theorem lassoA_loop : cdLoop (toDense 2 2 [[1, -1], [1, 1]])
    (toVecDense 2 [2, -1]) (1 / 2) true (1 / 10 ^ 5) 10000 (fun _ => 0)
    = (Function.update (Function.update (fun _ => 0) 0 (1 / 2)) 1 (-1)) := by
  rw [show (10000 : ℕ) = 9998 + 1 + 1 from rfl, cdLoop_succ, lassoA_sweep1, if_neg (by norm_num), cdLoop_succ, lassoA_sweep2, if_pos (by norm_num)]

/-- The coefficients of `MultiRegressionLasso` on `X = [[1], [3]]`,
`y = [2, -1]`, `α = 1`, linear, `withIntercept = true`. -/
theorem lassoA_coeffs :
    (MultiRegressionLasso ratLib ratLogit (toDense 2 1 [[1], [3]])
      [2, -1] 1 false true).1.Coeffs = [5 / 2, -1] := by
  rw [(MultiRegressionLasso_linear ratLib ratLogit (toDense 2 1 [[1], [3]])
    [2, -1] 1 true rfl).2]
  have ha : (1 : ℚ) / ((2 : ℕ) : ℚ) = (1 / 2) := by norm_num
  show lassoLinearCDOn ratLib (addInterceptColumnDense (toDense 2 1 [[1], [3]])) _ _ true _ _ = _
  unfold lassoLinearCDOn
  simp only []
  rw [ha, lassoA_std]
  simp only []
  rw [show ((10000 : ℤ)).toNat = 10000 from rfl, lassoA_loop]
  simp [destandardizeBeta, Fin.sum_univ_succ, List.ofFn_succ]
  norm_num

theorem lassoB_std : standardizeExceptIntercept ratLib
    (toDense 2 1 [[1], [3]]) false
    = (toDense 2 1 [[-1], [1]],
        ![2], ![1]) := by
  unfold standardizeExceptIntercept
  refine Prod.ext ?_ (Prod.ext ?_ ?_)
  · ext i j
    revert i j
    simp [Fin.forall_fin_succ, addInterceptColumnDense, toDense, Fin.sum_univ_succ]
    norm_num [ratSqrt_one]
  · ext j
    revert j
    simp [Fin.forall_fin_succ, addInterceptColumnDense, toDense, Fin.sum_univ_succ]
    norm_num
  · ext j
    revert j
    simp [Fin.forall_fin_succ, addInterceptColumnDense, toDense, Fin.sum_univ_succ]
    norm_num [ratSqrt_one]

theorem lassoB_sweep1 : cdSweep (toDense 2 1 [[-1], [1]])
    (toVecDense 2 [2, -1]) 0 false (fun _ => 0)
    = ((Function.update (fun _ => 0) 0 (-3 / 2)), 3 / 2) := by
  simp [cdSweep, cdIntercept, cdCoord, gj, softThreshold, List.finRange, List.ofFn,
    Fin.sum_univ_succ, toVecDense, toDense, Fin.foldr_succ]
  norm_num [abs_le, abs_of_pos, max_def]

theorem lassoB_sweep2 : cdSweep (toDense 2 1 [[-1], [1]])
    (toVecDense 2 [2, -1]) 0 false (Function.update (fun _ => 0) 0 (-3 / 2))
    = ((Function.update (fun _ => 0) 0 (-3 / 2)), 0) := by
  simp [cdSweep, cdIntercept, cdCoord, gj, softThreshold, List.finRange, List.ofFn,
    Fin.sum_univ_succ, toVecDense, toDense, Fin.foldr_succ]
  norm_num [abs_le, abs_of_pos, max_def]

theorem lassoB_loop : cdLoop (toDense 2 1 [[-1], [1]])
    (toVecDense 2 [2, -1]) 0 false (1 / 10 ^ 5) 10000 (fun _ => 0)
    = (Function.update (fun _ => 0) 0 (-3 / 2)) := by
  rw [show (10000 : ℕ) = 9998 + 1 + 1 from rfl, cdLoop_succ, lassoB_sweep1, if_neg (by norm_num), cdLoop_succ, lassoB_sweep2, if_pos (by norm_num)]

/-- The coefficients of `MultiRegressionLasso` on `X = [[1], [3]]`,
`y = [2, -1]`, `α = 0`, linear, `withIntercept = false`. -/
theorem lassoB_coeffs :
    (MultiRegressionLasso ratLib ratLogit (toDense 2 1 [[1], [3]])
      [2, -1] 0 false false).1.Coeffs = [-3 / 2] := by
  rw [(MultiRegressionLasso_linear ratLib ratLogit (toDense 2 1 [[1], [3]])
    [2, -1] 0 false rfl).2]
  have ha : (0 : ℚ) / ((2 : ℕ) : ℚ) = 0 := by norm_num
  show lassoLinearCDOn ratLib (toDense 2 1 [[1], [3]]) _ _ false _ _ = _
  unfold lassoLinearCDOn
  simp only []
  rw [ha, lassoB_std]
  simp only []
  rw [show ((10000 : ℤ)).toNat = 10000 from rfl, lassoB_loop]
  simp [destandardizeBeta, Fin.sum_univ_succ, List.ofFn_succ]

theorem lassoC_std : standardizeExceptIntercept ratLib
    (addInterceptColumnDense (toDense 4 2 [[-1 / 100, -7 / 5], [-1 / 100, -1 / 5], [1 / 100, 1 / 5], [1 / 100, 7 / 5]])) true
    = (toDense 4 3 [[1, -1, -7 / 5], [1, -1, -1 / 5], [1, 1, 1 / 5], [1, 1, 7 / 5]],
        ![0, 0, 0], ![1, 1 / 100, 1]) := by
  unfold standardizeExceptIntercept
  refine Prod.ext ?_ (Prod.ext ?_ ?_)
  · ext i j
    revert i j
    simp [Fin.forall_fin_succ, addInterceptColumnDense, toDense, Fin.sum_univ_succ]
    norm_num [ratSqrt_one, ratSqrt_small]
  · ext j
    revert j
    simp [Fin.forall_fin_succ, addInterceptColumnDense, toDense, Fin.sum_univ_succ]
    norm_num
  · ext j
    revert j
    simp [Fin.forall_fin_succ, addInterceptColumnDense, toDense, Fin.sum_univ_succ]
    norm_num [ratSqrt_one, ratSqrt_small]

theorem lassoC_sweep1 : cdSweep (toDense 4 3 [[1, -1, -7 / 5], [1, -1, -1 / 5], [1, 1, 1 / 5], [1, 1, 7 / 5]])
    (toVecDense 4 [-7 / 500000, -1 / 500000, 1 / 500000, 7 / 500000]) 0 true (fun _ => 0)
    = ((Function.update (Function.update (Function.update (fun _ => 0) 0 0) 1 (1 / 125000)) 2 (9 / 2500000)), 1 / 125000) := by
  simp [cdSweep, cdIntercept, cdCoord, gj, softThreshold, List.finRange, List.ofFn,
    Fin.sum_univ_succ, toVecDense, toDense, Fin.foldr_succ]
  norm_num [abs_le, abs_of_pos, max_def]

theorem lassoC_loop : cdLoop (toDense 4 3 [[1, -1, -7 / 5], [1, -1, -1 / 5], [1, 1, 1 / 5], [1, 1, 7 / 5]])
    (toVecDense 4 [-7 / 500000, -1 / 500000, 1 / 500000, 7 / 500000]) 0 true (1 / 10 ^ 5) 10000 (fun _ => 0)
    = (Function.update (Function.update (Function.update (fun _ => 0) 0 0) 1 (1 / 125000)) 2 (9 / 2500000)) := by
  rw [show (10000 : ℕ) = 9999 + 1 from rfl, cdLoop_succ, lassoC_sweep1, if_pos (by norm_num)]

/-- The coefficients of `MultiRegressionLasso` on `X = [[-1 / 100, -7 / 5], [-1 / 100, -1 / 5], [1 / 100, 1 / 5], [1 / 100, 7 / 5]]`,
`y = [-7 / 500000, -1 / 500000, 1 / 500000, 7 / 500000]`, `α = 0`, linear, `withIntercept = true`. -/
theorem lassoC_coeffs :
    (MultiRegressionLasso ratLib ratLogit (toDense 4 2 [[-1 / 100, -7 / 5], [-1 / 100, -1 / 5], [1 / 100, 1 / 5], [1 / 100, 7 / 5]])
      [-7 / 500000, -1 / 500000, 1 / 500000, 7 / 500000] 0 false true).1.Coeffs = [0, 1 / 1250, 9 / 2500000] := by
  rw [(MultiRegressionLasso_linear ratLib ratLogit (toDense 4 2 [[-1 / 100, -7 / 5], [-1 / 100, -1 / 5], [1 / 100, 1 / 5], [1 / 100, 7 / 5]])
    [-7 / 500000, -1 / 500000, 1 / 500000, 7 / 500000] 0 true rfl).2]
  have ha : (0 : ℚ) / ((4 : ℕ) : ℚ) = 0 := by norm_num
  show lassoLinearCDOn ratLib (addInterceptColumnDense (toDense 4 2 [[-1 / 100, -7 / 5], [-1 / 100, -1 / 5], [1 / 100, 1 / 5], [1 / 100, 7 / 5]])) _ _ true _ _ = _
  unfold lassoLinearCDOn
  simp only []
  rw [ha, lassoC_std]
  simp only []
  rw [show ((10000 : ℤ)).toNat = 10000 from rfl, lassoC_loop]
  simp [destandardizeBeta, Fin.sum_univ_succ, List.ofFn_succ]
  norm_num

/-! ### Claims about `ml/ols/lasso_regr.go` -/

/-- C18 (counterexample): for `X = [[1], [3]]`, `y = [2, -1]` and `α = 1 = ‖Xᵀy‖_∞`
(`Xᵀy = 1·2 + 3·(−1) = −1`), linear LASSO with intercept returns the coefficients
`[5/2, -1]`: the penalised coefficient is `-1`, not `0`.  The solver thresholds the
correlation with the standardised column `[-1, 1]`, which is `-3`. -/
theorem C18_counterexample :
    (∀ j : Fin 1, |∑ i : Fin 2, toDense 2 1 [[1], [3]] i j * toVecDense 2 [2, -1] i| ≤ 1) ∧
    (MultiRegressionLasso ratLib ratLogit (toDense 2 1 [[1], [3]]) [2, -1] 1 false true).2
      = none ∧
    (MultiRegressionLasso ratLib ratLogit (toDense 2 1 [[1], [3]]) [2, -1] 1 false true).1.Coeffs
      = [5 / 2, -1] := by
  refine ⟨?_, (MultiRegressionLasso_linear ratLib ratLogit _ _ _ true rfl).1, lassoA_coeffs⟩
  intro j
  revert j
  simp [Fin.forall_fin_succ, toDense, toVecDense, Fin.sum_univ_succ]
  norm_num [abs_le]

/-- C18 (amended): in exact arithmetic, for linear LASSO on a design with `n ≥ 1` rows and a
response of matching length, if `α ≥ |X̃_jᵀ y|` for every column `j` of the standardised
design `X̃` (each input column centred by its mean and divided by its population standard
deviation, `1` for a constant column, as `standardizeExceptIntercept` computes it), then
`MultiRegressionLasso` returns without error and every penalised (non-intercept) coefficient
is exactly `0`, with or without intercept.  (In `float64` the rounded correlation `ρ_j` can
exceed `α/n` when `α` is at the bound, which leaves a coefficient of the order of `1e-17`.) -/
theorem C18_large_alpha_standardized (lib : NumLib) (elib : LogitLib) {n p : ℕ}
    (matX : Matrix (Fin n) (Fin p) ℚ) (matY : List ℚ) (alpha : ℚ) (withIntercept : Bool)
    (hn : 0 < n) (hY : matY.length = n)
    (hα : ∀ j : Fin p,
      |∑ i, (standardizeExceptIntercept lib matX false).1 i j * toVecDense n matY i| ≤ alpha) :
    (MultiRegressionLasso lib elib matX matY alpha false withIntercept).2 = none ∧
    ∀ j : Fin p,
      (MultiRegressionLasso lib elib matX matY alpha false withIntercept).1.Coeffs.getD
        (j.val + (if withIntercept then 1 else 0)) 0 = 0 := by
  have hn0 : (0 : ℚ) < (n : ℚ) := by exact_mod_cast hn
  obtain ⟨he, hco⟩ := MultiRegressionLasso_linear lib elib matX matY alpha withIntercept hY
  refine ⟨he, ?_⟩
  intro j
  rw [hco]
  have hbound : ∀ s : ℚ, |s| ≤ alpha → |s / (n : ℚ)| ≤ alpha / (n : ℚ) := by
    intro s hs
    rw [abs_div, abs_of_pos hn0]
    exact div_le_div_of_nonneg_right hs (le_of_lt hn0)
  cases withIntercept with
  | false =>
    show (lassoLinearCDOn lib matX (toVecDense n matY) (alpha / (n : ℚ)) false
      (1 / 10 ^ 5) 10000).getD (j.val + 0) 0 = 0
    rw [add_zero]
    refine lassoLinearCDOn_large_alpha lib matX _ _ false _ _ hn ?_ j (by simp)
    intro k _
    exact hbound _ (hα k)
  | true =>
    show (lassoLinearCDOn lib (addInterceptColumnDense matX) (toVecDense n matY)
      (alpha / (n : ℚ)) true (1 / 10 ^ 5) 10000).getD (j.val + 1) 0 = 0
    refine lassoLinearCDOn_large_alpha lib (addInterceptColumnDense matX) _ _ true _ _ hn ?_
      ⟨j.val + 1, by omega⟩ (by simp)
    intro k hk
    have hk1 : 1 ≤ k.val := by simpa using hk
    obtain ⟨k2, rfl⟩ : ∃ k2 : Fin p, k = ⟨k2.val + 1, Nat.succ_lt_succ k2.isLt⟩ :=
      ⟨⟨k.val - 1, by omega⟩, Fin.ext (by simp; omega)⟩
    simp only [(std_addIntercept lib matX k2).1]
    exact hbound _ (hα k2)

/-- Witness of C18 (amended): `X = [[1], [3]]`, `y = [2, -1]`, `α = 3`, with intercept; the
standardised column is `[-1, 1]` and `|X̃ᵀy| = 3`. -/
theorem C18_large_alpha_standardized_witness :
    (∀ j : Fin 1, |∑ i : Fin 2, (standardizeExceptIntercept ratLib
        (toDense 2 1 [[1], [3]]) false).1 i j * toVecDense 2 [2, -1] i| ≤ 3) ∧
    (MultiRegressionLasso ratLib ratLogit (toDense 2 1 [[1], [3]]) [2, -1] 3 false true).2
      = none ∧
    ∀ j : Fin 1,
      (MultiRegressionLasso ratLib ratLogit (toDense 2 1 [[1], [3]]) [2, -1] 3 false
        true).1.Coeffs.getD (j.val + (if true then 1 else 0)) 0 = 0 := by
  have hα : ∀ j : Fin 1, |∑ i : Fin 2, (standardizeExceptIntercept ratLib
      (toDense 2 1 [[1], [3]]) false).1 i j * toVecDense 2 [2, -1] i| ≤ 3 := by
    rw [lassoB_std]
    intro j
    revert j
    simp [Fin.forall_fin_succ, toDense, toVecDense, Fin.sum_univ_succ]
    norm_num [abs_le]
  exact ⟨hα, C18_large_alpha_standardized ratLib ratLogit (toDense 2 1 [[1], [3]]) [2, -1] 3
    true (by decide) rfl hα⟩

theorem lassoB_ols :
    (MultiRegression ratLib [[1], [3]] [2, -1] false).map (fun r => (r.1.Coeffs, r.2))
      = some ([-1 / 10], none) := by
  have hg : (toDense 2 1 (design [[1], [3]] false)).transpose
      * toDense 2 1 (design [[1], [3]] false) = !![10] := by
    ext i j
    fin_cases i <;> fin_cases j <;>
      simp [Matrix.mul_apply, Fin.sum_univ_succ, toDense, design] <;> norm_num
  have h := MultiRegression_coeffs ratLib [[1], [3]] [2, -1] false 2 1 ![-1 / 10] rfl rfl rfl
    (by decide) (by decide)
    (by
      rw [hg, Matrix.det_fin_one]
      simp)
    (by
      rw [hg]
      ext i
      fin_cases i <;>
        simp [Matrix.mulVec, Matrix.dotProduct, Fin.sum_univ_succ, toDense, toVecDense,
          design] <;> norm_num)
  rw [h]
  simp

theorem lassoC_ols :
    (MultiRegression ratLib
        [[-1 / 100, -7 / 5], [-1 / 100, -1 / 5], [1 / 100, 1 / 5], [1 / 100, 7 / 5]]
        [-7 / 500000, -1 / 500000, 1 / 500000, 7 / 500000] true).map
        (fun r => (r.1.Coeffs, r.2))
      = some ([0, 0, 1 / 100000], none) := by
  have hg : (toDense 4 3 (design
        [[-1 / 100, -7 / 5], [-1 / 100, -1 / 5], [1 / 100, 1 / 5], [1 / 100, 7 / 5]]
        true)).transpose
      * toDense 4 3 (design
        [[-1 / 100, -7 / 5], [-1 / 100, -1 / 5], [1 / 100, 1 / 5], [1 / 100, 7 / 5]] true)
      = !![4, 0, 0; 0, 1 / 2500, 4 / 125; 0, 4 / 125, 4] := by
    ext i j
    fin_cases i <;> fin_cases j <;>
      simp [Matrix.mul_apply, Fin.sum_univ_succ, toDense, design, addConstantColumn,
        List.range, List.range.loop, Matrix.vecHead, Matrix.vecTail] <;> norm_num
  have h := MultiRegression_coeffs ratLib
    [[-1 / 100, -7 / 5], [-1 / 100, -1 / 5], [1 / 100, 1 / 5], [1 / 100, 7 / 5]]
    [-7 / 500000, -1 / 500000, 1 / 500000, 7 / 500000] true 4 3 ![0, 0, 1 / 100000] rfl rfl rfl
    (by decide) (by decide)
    (by
      rw [hg, Matrix.det_fin_three]
      simp
      norm_num)
    (by
      rw [hg]
      ext i
      fin_cases i <;>
        simp [Matrix.mulVec, Matrix.dotProduct, Fin.sum_univ_succ, toDense, toVecDense,
          design, addConstantColumn, List.range, List.range.loop, Matrix.vecHead,
          Matrix.vecTail] <;> norm_num)
  rw [h]
  simp [List.ofFn_succ]

/-- C19 (counterexample): with `α = 0` the coefficients of linear LASSO differ from those of
OLS by more than `1e-4` although `n > k` and `XᵀX` is invertible.  Without intercept, on
`X = [[1], [3]]`, `y = [2, -1]`: LASSO returns `[-3/2]` (the column is centred before the
fit), OLS returns `[-1/10]`.  With intercept, on the four rows
`[-1/100, -7/5], [-1/100, -1/5], [1/100, 1/5], [1/100, 7/5]` and `y = 1e-5 · X₂`: the first
pass changes every standardised coefficient by less than `1e-5`, the loop stops, and LASSO
returns `[0, 1/1250, 9/2500000]` where OLS returns `[0, 0, 1/100000]`. -/
theorem C19_counterexample :
    (MultiRegressionLasso ratLib ratLogit (toDense 2 1 [[1], [3]]) [2, -1] 0 false
      false).1.Coeffs = [-3 / 2] ∧
    (MultiRegression ratLib [[1], [3]] [2, -1] false).map (fun r => (r.1.Coeffs, r.2))
      = some ([-1 / 10], none) ∧
    (MultiRegressionLasso ratLib ratLogit
      (toDense 4 2 [[-1 / 100, -7 / 5], [-1 / 100, -1 / 5], [1 / 100, 1 / 5], [1 / 100, 7 / 5]])
      [-7 / 500000, -1 / 500000, 1 / 500000, 7 / 500000] 0 false true).1.Coeffs
      = [0, 1 / 1250, 9 / 2500000] ∧
    (MultiRegression ratLib
        [[-1 / 100, -7 / 5], [-1 / 100, -1 / 5], [1 / 100, 1 / 5], [1 / 100, 7 / 5]]
        [-7 / 500000, -1 / 500000, 1 / 500000, 7 / 500000] true).map
        (fun r => (r.1.Coeffs, r.2))
      = some ([0, 0, 1 / 100000], none) :=
  ⟨lassoB_coeffs, lassoB_ols, lassoC_coeffs, lassoC_ols⟩

/-! ### The distance to least squares when the coordinate descent stops -/

section CDError

variable {n p : ℕ}

theorem cdSweep_true (X : Matrix (Fin n) (Fin p) ℚ) (Y : Fin n → ℚ) (alpha : ℚ)
    (beta : ℕ → ℚ) :
    cdSweep X Y alpha true beta
      = (List.finRange p).foldl
          (fun st j => if 1 ≤ j.val then cdCoord X Y alpha 1 st j else st)
          (cdIntercept X Y (beta, 0)) := rfl

/-- The residual is affine in the coefficients. -/
theorem cdResid_sub (X : Matrix (Fin n) (Fin p) ℚ) (Y : Fin n → ℚ) (β β2 : ℕ → ℚ)
    (i : Fin n) :
    cdResid X Y β2 i = cdResid X Y β i - (β2 0 - β 0)
      - ∑ k : Fin p, if 1 ≤ k.val then X i k * (β2 k.val - β k.val) else 0 := by
  unfold cdResid
  have e : (∑ k : Fin p, if 1 ≤ k.val then X i k * β2 k.val else 0)
      = (∑ k : Fin p, if 1 ≤ k.val then X i k * β k.val else 0)
        + ∑ k : Fin p, if 1 ≤ k.val then X i k * (β2 k.val - β k.val) else 0 := by
    rw [← Finset.sum_add_distrib]
    apply Finset.sum_congr rfl
    intro k _
    split_ifs
    · ring
    · ring
  rw [e]
  ring

/-- With threshold `0` the update of coordinate `j ≥ 1` makes the residual orthogonal to
column `j`. -/
theorem cdCoord_zero_resid (X : Matrix (Fin n) (Fin p) ℚ) (Y : Fin n → ℚ)
    (st : (ℕ → ℚ) × ℚ) (j : Fin p) (hj : 1 ≤ j.val) (hn : 0 < n) :
    ∑ i, X i j * cdResid X Y (cdCoord X Y 0 1 st j).1 i = 0 := by
  have hn0 : (n : ℚ) ≠ 0 := by exact_mod_cast (Nat.pos_iff_ne_zero.mp hn)
  rw [cdCoord_fst, softThreshold_zero_right]
  generalize hv : (∑ i, X i j *
      (Y i - (st.1 0 + ∑ k : Fin p, if 1 ≤ k.val then X i k * st.1 k.val else 0)
        + X i j * st.1 j.val)) / (n : ℚ) / gj X j = v
  have hres : ∀ i, cdResid X Y (Function.update st.1 j.val v) i
      = cdResid X Y st.1 i - X i j * (v - st.1 j.val) := by
    intro i
    rw [cdResid_sub X Y st.1 (Function.update st.1 j.val v) i,
      Function.update_noteq (by omega : (0 : ℕ) ≠ j.val), sub_self, sub_zero]
    congr 1
    rw [Finset.sum_eq_single j]
    · rw [if_pos hj, Function.update_same]
    · intro k _ hk
      have hkv : k.val ≠ j.val := fun h => hk (Fin.ext h)
      rw [Function.update_noteq hkv, sub_self, mul_zero]
      simp
    · intro h
      exact absurd (Finset.mem_univ j) h
  simp only [hres]
  have hsplit : (∑ i, X i j * (cdResid X Y st.1 i - X i j * (v - st.1 j.val)))
      = (∑ i, X i j * cdResid X Y st.1 i) - (∑ i, X i j * X i j) * (v - st.1 j.val) := by
    rw [Finset.sum_mul, ← Finset.sum_sub_distrib]
    apply Finset.sum_congr rfl
    intro i _
    ring
  rw [hsplit]
  have hnum : (∑ i, X i j *
      (Y i - (st.1 0 + ∑ k : Fin p, if 1 ≤ k.val then X i k * st.1 k.val else 0)
        + X i j * st.1 j.val))
      = (∑ i, X i j * cdResid X Y st.1 i) + (∑ i, X i j * X i j) * st.1 j.val := by
    rw [Finset.sum_mul, ← Finset.sum_add_distrib]
    apply Finset.sum_congr rfl
    intro i _
    unfold cdResid
    ring
  rw [hnum] at hv
  unfold gj at hv
  simp only [] at hv
  by_cases hg : (∑ i, X i j * X i j) / (n : ℚ) = 0
  · have hG : (∑ i, X i j * X i j) = 0 := by
      rcases div_eq_zero_iff.mp hg with h | h
      · exact h
      · exact absurd h hn0
    have hz : ∀ i, X i j = 0 := by
      intro i
      have := (Finset.sum_eq_zero_iff_of_nonneg
        (fun i _ => mul_self_nonneg (X i j))).mp hG i (Finset.mem_univ i)
      exact mul_self_eq_zero.mp this
    simp [hz]
  · rw [if_neg hg] at hv
    have hG : (∑ i, X i j * X i j) ≠ 0 := by
      intro h
      exact hg (by rw [h, zero_div])
    rw [← hv]
    field_simp

/-- The list of the column indices splits at `j` into the smaller and the larger ones. -/
theorem finRange_split (j : Fin p) :
    ∃ l1 l2 : List (Fin p), List.finRange p = l1 ++ j :: l2 ∧
      (∀ x ∈ l1, x.val < j.val) ∧ (∀ x ∈ l2, j.val < x.val) := by
  obtain ⟨l1, l2, h⟩ := List.append_of_mem (List.mem_finRange j)
  have hs : (List.finRange p).Pairwise (· < ·) := List.pairwise_lt_finRange p
  rw [h, List.pairwise_append] at hs
  obtain ⟨-, h2, h12⟩ := hs
  rw [List.pairwise_cons] at h2
  refine ⟨l1, l2, h, ?_, ?_⟩
  · intro x hx
    exact h12 x hx j (List.mem_cons_self j l2)
  · intro x hx
    exact h2.1 x hx

/-- The running `maxChange` does not decrease along the coordinate updates. -/
theorem cdFold_snd_mono (X : Matrix (Fin n) (Fin p) ℚ) (Y : Fin n → ℚ) (alpha : ℚ)
    (start : ℕ) (l : List (Fin p)) (st : (ℕ → ℚ) × ℚ) :
    st.2 ≤ (l.foldl (fun st j => if start ≤ j.val then cdCoord X Y alpha start st j else st)
      st).2 := by
  induction l generalizing st with
  | nil => exact le_refl _
  | cons a l ih =>
    rw [List.foldl_cons]
    refine le_trans ?_ (ih _)
    by_cases ha : start ≤ a.val
    · rw [if_pos ha]
      exact le_max_left _ _
    · rw [if_neg ha]

/-- One pass with intercept and threshold `0`, seen from coordinate `j ≥ 1`: the change of
`β_j` is at most the `maxChange` of the pass, and afterwards the residual against column `j`
is what the later coordinates `k > j` moved, `−Σ_{k > j} (X_jᵀX_k)·(β'_k − β_k)`. -/
theorem cdSweep_coord (X : Matrix (Fin n) (Fin p) ℚ) (Y : Fin n → ℚ) (β : ℕ → ℚ)
    (hn : 0 < n) (j : Fin p) (hj : 1 ≤ j.val) :
    |(cdSweep X Y 0 true β).1 j.val - β j.val| ≤ (cdSweep X Y 0 true β).2 ∧
    ∑ i, X i j * cdResid X Y (cdSweep X Y 0 true β).1 i
      = -∑ k : Fin p, if j.val < k.val then
          (∑ i, X i j * X i k) * ((cdSweep X Y 0 true β).1 k.val - β k.val) else 0 := by
  obtain ⟨l1, l2, hl, h1, h2⟩ := finRange_split j
  rw [cdSweep_true, hl, List.foldl_append, List.foldl_cons, if_pos hj]
  generalize hsj : l1.foldl (fun st j => if 1 ≤ j.val then cdCoord X Y 0 1 st j else st)
    (cdIntercept X Y (β, 0)) = sj
  -- the state before the update of `j` still holds the old entries from `j` on
  have hsj_old : ∀ k : ℕ, j.val ≤ k → sj.1 k = β k := by
    intro k hk
    rw [← hsj, cdFold_untouched X Y 0 1 l1 _ k (fun x hx _ => by have := h1 x hx; omega),
      cdIntercept_fst, Function.update_noteq (by omega)]
  generalize hsp : cdCoord X Y 0 1 sj j = sp
  have hsp_old : ∀ k : ℕ, j.val < k → sp.1 k = β k := by
    intro k hk
    rw [← hsp, cdCoord_fst, Function.update_noteq (by omega), hsj_old k (by omega)]
  have hsp_snd : |sp.1 j.val - β j.val| ≤ sp.2 := by
    rw [← hsp, ← hsj_old j.val (le_refl _)]
    show |(cdCoord X Y 0 1 sj j).1 j.val - sj.1 j.val| ≤ (cdCoord X Y 0 1 sj j).2
    rw [cdCoord_fst, Function.update_same]
    exact le_max_right _ _
  have hzero : ∑ i, X i j * cdResid X Y sp.1 i = 0 := by
    rw [← hsp]
    exact cdCoord_zero_resid X Y sj j hj hn
  generalize hfin : l2.foldl (fun st j => if 1 ≤ j.val then cdCoord X Y 0 1 st j else st) sp
    = fin
  -- the later updates leave the entries up to `j` alone
  have hfin_keep : ∀ k : ℕ, k ≤ j.val → fin.1 k = sp.1 k := by
    intro k hk
    rw [← hfin]
    exact cdFold_untouched X Y 0 1 l2 sp k (fun x hx _ => by have := h2 x hx; omega)
  have hfin_snd : sp.2 ≤ fin.2 := by
    rw [← hfin]
    exact cdFold_snd_mono X Y 0 1 l2 sp
  constructor
  · rw [hfin_keep j.val (le_refl _)]
    exact le_trans hsp_snd hfin_snd
  · have hres : ∀ i, cdResid X Y fin.1 i = cdResid X Y sp.1 i
        - ∑ k : Fin p, if j.val < k.val then X i k * (fin.1 k.val - β k.val) else 0 := by
      intro i
      rw [cdResid_sub X Y sp.1 fin.1 i, hfin_keep 0 (by omega), sub_self, sub_zero]
      congr 1
      apply Finset.sum_congr rfl
      intro k _
      by_cases hk : j.val < k.val
      · rw [if_pos hk, if_pos (by omega), hsp_old k.val hk]
      · rw [if_neg hk, hfin_keep k.val (by omega), sub_self, mul_zero]
        simp
    have hstep : (∑ i, X i j * cdResid X Y fin.1 i)
        = (∑ i, X i j * cdResid X Y sp.1 i)
          - ∑ i, ∑ k : Fin p,
              if j.val < k.val then X i j * X i k * (fin.1 k.val - β k.val) else 0 := by
      rw [← Finset.sum_sub_distrib]
      apply Finset.sum_congr rfl
      intro i _
      rw [hres i, mul_sub, Finset.mul_sum]
      congr 1
      apply Finset.sum_congr rfl
      intro k _
      split_ifs
      · ring
      · ring
    rw [hstep, hzero, zero_sub, neg_inj, Finset.sum_comm]
    apply Finset.sum_congr rfl
    intro k _
    by_cases hk : j.val < k.val
    · simp only [if_pos hk]
      rw [Finset.sum_mul]
    · simp only [if_neg hk]
      exact Finset.sum_const_zero

/-- One pass with intercept, seen from the intercept: its change is at most the `maxChange`
of the pass, which is not negative, and on a design whose columns `k ≥ 1` sum to `0` the
residuals sum to `0` afterwards. -/
theorem cdSweep_intercept (X : Matrix (Fin n) (Fin p) ℚ) (Y : Fin n → ℚ) (alpha : ℚ)
    (β : ℕ → ℚ) (hn : 0 < n) (hcol : ∀ k : Fin p, 1 ≤ k.val → ∑ i, X i k = 0) :
    0 ≤ (cdSweep X Y alpha true β).2 ∧
    ∑ i, cdResid X Y (cdSweep X Y alpha true β).1 i = 0 := by
  have hn0 : (n : ℚ) ≠ 0 := by exact_mod_cast (Nat.pos_iff_ne_zero.mp hn)
  have hz : ∀ (b : ℕ → ℚ) (k : Fin p),
      (∑ i, if 1 ≤ k.val then X i k * b k.val else 0) = 0 := by
    intro b k
    by_cases hk : 1 ≤ k.val
    · simp only [if_pos hk]
      rw [← Finset.sum_mul, hcol k hk, zero_mul]
    · simp only [if_neg hk]
      exact Finset.sum_const_zero
  constructor
  · rw [cdSweep_true]
    refine le_trans ?_ (cdFold_snd_mono X Y alpha 1 (List.finRange p) _)
    exact le_max_left _ _
  · have h0 : (cdSweep X Y alpha true β).1 0 = (∑ i, Y i) / (n : ℚ) := by
      rw [cdSweep_true, cdFold_untouched X Y alpha 1 _ _ 0 (fun j _ hj => by omega),
        cdIntercept_fst, Function.update_same, Finset.sum_sub_distrib, Finset.sum_comm]
      simp only [hz]
      rw [Finset.sum_const_zero, sub_zero]
    unfold cdResid
    rw [Finset.sum_sub_distrib, Finset.sum_add_distrib, Finset.sum_comm]
    simp only [hz]
    rw [Finset.sum_const_zero, add_zero, h0, Finset.sum_const, Finset.card_univ,
      Fintype.card_fin, nsmul_eq_mul, mul_div_cancel₀ _ hn0, sub_self]

/-- After one pass with intercept and threshold `0`, the residual against column `j ≥ 1` is
at most `maxChange · Σ_{k > j} |X_jᵀX_k|` in absolute value. -/
theorem cdSweep_resid_le (X : Matrix (Fin n) (Fin p) ℚ) (Y : Fin n → ℚ) (β : ℕ → ℚ)
    (hn : 0 < n) (j : Fin p) (hj : 1 ≤ j.val) :
    |∑ i, X i j * cdResid X Y (cdSweep X Y 0 true β).1 i|
      ≤ (cdSweep X Y 0 true β).2
        * ∑ k : Fin p, if j.val < k.val then |∑ i, X i j * X i k| else 0 := by
  rw [(cdSweep_coord X Y β hn j hj).2, abs_neg, Finset.mul_sum]
  refine le_trans (Finset.abs_sum_le_sum_abs _ _) (Finset.sum_le_sum fun k _ => ?_)
  by_cases hk : j.val < k.val
  · rw [if_pos hk, if_pos hk, abs_mul, mul_comm]
    exact mul_le_mul_of_nonneg_right (cdSweep_coord X Y β hn k (by omega)).1 (abs_nonneg _)
  · rw [if_neg hk, if_neg hk, abs_zero, mul_zero]

end CDError

section CDErrorOLS

variable {n p : ℕ}

/-- The difference between the least-squares coefficients and any coefficient vector `c` is
the inverse of `AᵀA` applied to the normal-equation residual `Aᵀ(y − A·c)`. -/
theorem olsBeta_sub {k : ℕ} (M : Matrix (Fin n) (Fin k) ℚ) (y : Fin n → ℚ) (c : Fin k → ℚ)
    (hdet : (M.transpose * M).det ≠ 0) :
    olsBeta M y - c
      = (exactInv (M.transpose * M)).mulVec (M.transpose.mulVec (y - M.mulVec c)) := by
  unfold olsBeta
  rw [Matrix.mulVec_sub, Matrix.mulVec_sub, Matrix.mulVec_mulVec c M.transpose M,
    Matrix.mulVec_mulVec c (exactInv (M.transpose * M)) (M.transpose * M),
    exactInv_mul _ hdet, Matrix.one_mulVec]

/-- The coefficients returned after destandardisation, as a fit of the design with its
intercept column: the residual of observation `i` is the residual of the standardised fit,
and the normal-equation residual of column `j ≥ 1` is `σ_j` times the standardised one plus
`μ_j` times the sum of the residuals. -/
theorem destandardize_resid (lib : NumLib) (matX : Matrix (Fin n) (Fin p) ℚ) (Y : Fin n → ℚ)
    (β : ℕ → ℚ) :
    (∀ i, (Y - (addInterceptColumnDense matX).mulVec fun j : Fin (p + 1) =>
        (destandardizeBeta (p + 1) β
          (standardizeExceptIntercept lib (addInterceptColumnDense matX) true).2.1
          (standardizeExceptIntercept lib (addInterceptColumnDense matX) true).2.2
          true).getD j.val 0) i
      = cdResid (lassoStdDesign lib matX) Y β i) ∧
    ∀ j : Fin (p + 1),
      (addInterceptColumnDense matX).transpose.mulVec
        (Y - (addInterceptColumnDense matX).mulVec fun j : Fin (p + 1) =>
          (destandardizeBeta (p + 1) β
            (standardizeExceptIntercept lib (addInterceptColumnDense matX) true).2.1
            (standardizeExceptIntercept lib (addInterceptColumnDense matX) true).2.2
            true).getD j.val 0) j
        = if j.val = 0 then ∑ i, cdResid (lassoStdDesign lib matX) Y β i
          else
            (standardizeExceptIntercept lib (addInterceptColumnDense matX) true).2.2 j
              * (∑ i, lassoStdDesign lib matX i j * cdResid (lassoStdDesign lib matX) Y β i)
            + (standardizeExceptIntercept lib (addInterceptColumnDense matX) true).2.1 j
              * ∑ i, cdResid (lassoStdDesign lib matX) Y β i := by
  have hσ := std_stds_ne_zero lib (addInterceptColumnDense matX) true
  have hZ : ∀ (i : Fin n) (j : Fin (p + 1)), 1 ≤ j.val →
      addInterceptColumnDense matX i j
        = (standardizeExceptIntercept lib (addInterceptColumnDense matX) true).2.2 j
            * lassoStdDesign lib matX i j
          + (standardizeExceptIntercept lib (addInterceptColumnDense matX) true).2.1 j := by
    intro i j hj
    unfold lassoStdDesign
    rw [std_fst_apply, if_pos (by simpa using hj)]
    have := hσ j
    field_simp
  have hA0 : ∀ (i : Fin n) (j : Fin (p + 1)), j.val = 0 →
      addInterceptColumnDense matX i j = 1 := by
    intro i j hj
    simp [addInterceptColumnDense, hj]
  generalize (standardizeExceptIntercept lib (addInterceptColumnDense matX) true).2.1 = μ
    at hZ ⊢
  generalize (standardizeExceptIntercept lib (addInterceptColumnDense matX) true).2.2 = σ
    at hZ hσ ⊢
  generalize lassoStdDesign lib matX = Z at hZ ⊢
  have hD : ∀ j : Fin (p + 1),
      (destandardizeBeta (p + 1) β μ σ true).getD j.val 0
        = (if j.val = 0 then
            β 0 - ∑ k : Fin (p + 1), if 1 ≤ k.val then μ k / σ k * β k.val else 0
          else 0)
          + (if 1 ≤ j.val then β j.val / σ j else 0) := by
    intro j
    by_cases hj : 1 ≤ j.val
    · rw [destandardizeBeta_getD _ _ _ _ _ j (by simpa using hj), if_neg (by omega),
        if_pos hj, zero_add]
    · have hj0 : j.val = 0 := by omega
      unfold destandardizeBeta
      simp only []
      rw [ofFn_getD]
      simp [hj0]
  have hres : ∀ i, (Y - (addInterceptColumnDense matX).mulVec fun j : Fin (p + 1) =>
      (destandardizeBeta (p + 1) β μ σ true).getD j.val 0) i = cdResid Z Y β i := by
    intro i
    unfold cdResid
    rw [Pi.sub_apply]
    congr 1
    simp only [Matrix.mulVec, Matrix.dotProduct, hD]
    have hterm : ∀ j : Fin (p + 1),
        addInterceptColumnDense matX i j
            * ((if j.val = 0 then
                β 0 - ∑ k : Fin (p + 1), if 1 ≤ k.val then μ k / σ k * β k.val else 0
              else 0)
              + (if 1 ≤ j.val then β j.val / σ j else 0))
          = (if j = (0 : Fin (p + 1)) then
              β 0 - ∑ k : Fin (p + 1), if 1 ≤ k.val then μ k / σ k * β k.val else 0
            else 0)
            + ((if 1 ≤ j.val then Z i j * β j.val else 0)
              + (if 1 ≤ j.val then μ j / σ j * β j.val else 0)) := by
      intro j
      by_cases hj : 1 ≤ j.val
      · have hj0 : ¬ j.val = 0 := by omega
        have hj1 : ¬ j = (0 : Fin (p + 1)) := fun h => hj0 (by rw [h]; rfl)
        rw [if_neg hj0, if_pos hj, if_neg hj1, if_pos hj, if_pos hj, hZ i j hj]
        have := hσ j
        field_simp
        ring
      · have hj0 : j.val = 0 := by omega
        have hj1 : j = (0 : Fin (p + 1)) := Fin.ext hj0
        rw [if_pos hj0, if_neg hj, if_pos hj1, if_neg hj, if_neg hj, hA0 i j hj0]
        ring
    simp only [hterm]
    rw [Finset.sum_add_distrib, Finset.sum_add_distrib, Finset.sum_ite_eq',
      if_pos (Finset.mem_univ _)]
    ring
  refine ⟨hres, ?_⟩
  intro j
  have e : (addInterceptColumnDense matX).transpose.mulVec
      (Y - (addInterceptColumnDense matX).mulVec fun j : Fin (p + 1) =>
        (destandardizeBeta (p + 1) β μ σ true).getD j.val 0) j
      = ∑ i, addInterceptColumnDense matX i j
          * (Y - (addInterceptColumnDense matX).mulVec fun j : Fin (p + 1) =>
            (destandardizeBeta (p + 1) β μ σ true).getD j.val 0) i := rfl
  rw [e]
  simp only [hres]
  by_cases hj : j.val = 0
  · rw [if_pos hj]
    simp only [hA0 _ j hj, one_mul]
  · rw [if_neg hj, Finset.mul_sum, Finset.mul_sum, ← Finset.sum_add_distrib]
    apply Finset.sum_congr rfl
    intro i _
    rw [hZ i j (by omega)]
    ring

end CDErrorOLS

section CDErrorBound

variable {n p : ℕ}

/-- The gap to least squares after a pass: with intercept and threshold `0`, the
destandardised coefficients after a pass of the coordinate descent differ from the
least-squares coefficients of the design with its intercept column by at most the
`maxChange` of the pass times the conditioning constant. -/
theorem cdSweep_ols_gap (lib : NumLib) (matX : Matrix (Fin n) (Fin p) ℚ) (Y : Fin n → ℚ)
    (β : ℕ → ℚ) (hn : 0 < n)
    (hdet : ((addInterceptColumnDense matX).transpose * addInterceptColumnDense matX).det ≠ 0)
    (j : Fin (p + 1)) :
    |olsBeta (addInterceptColumnDense matX) Y j
        - (destandardizeBeta (p + 1) (cdSweep (lassoStdDesign lib matX) Y 0 true β).1
            (standardizeExceptIntercept lib (addInterceptColumnDense matX) true).2.1
            (standardizeExceptIntercept lib (addInterceptColumnDense matX) true).2.2
            true).getD j.val 0|
      ≤ (cdSweep (lassoStdDesign lib matX) Y 0 true β).2 * cdGap lib matX j := by
  have hcol : ∀ k : Fin (p + 1), 1 ≤ k.val → ∑ i, lassoStdDesign lib matX i k = 0 := by
    intro k hk
    unfold lassoStdDesign
    exact std_col_sum lib _ true hn k (by simpa using hk)
  obtain ⟨hc0, hR0⟩ := cdSweep_intercept (lassoStdDesign lib matX) Y 0 β hn hcol
  have hsub := congrFun (olsBeta_sub (addInterceptColumnDense matX) Y
    (fun j : Fin (p + 1) =>
      (destandardizeBeta (p + 1) (cdSweep (lassoStdDesign lib matX) Y 0 true β).1
        (standardizeExceptIntercept lib (addInterceptColumnDense matX) true).2.1
        (standardizeExceptIntercept lib (addInterceptColumnDense matX) true).2.2
        true).getD j.val 0) hdet) j
  rw [Pi.sub_apply] at hsub
  rw [hsub]
  have hρ := (destandardize_resid lib matX Y (cdSweep (lassoStdDesign lib matX) Y 0 true β).1).2
  have e : ((exactInv ((addInterceptColumnDense matX).transpose
        * addInterceptColumnDense matX)).mulVec
      ((addInterceptColumnDense matX).transpose.mulVec
        (Y - (addInterceptColumnDense matX).mulVec fun j : Fin (p + 1) =>
          (destandardizeBeta (p + 1) (cdSweep (lassoStdDesign lib matX) Y 0 true β).1
            (standardizeExceptIntercept lib (addInterceptColumnDense matX) true).2.1
            (standardizeExceptIntercept lib (addInterceptColumnDense matX) true).2.2
            true).getD j.val 0))) j
      = ∑ m : Fin (p + 1),
          exactInv ((addInterceptColumnDense matX).transpose
            * addInterceptColumnDense matX) j m
          * (addInterceptColumnDense matX).transpose.mulVec
            (Y - (addInterceptColumnDense matX).mulVec fun j : Fin (p + 1) =>
              (destandardizeBeta (p + 1) (cdSweep (lassoStdDesign lib matX) Y 0 true β).1
                (standardizeExceptIntercept lib (addInterceptColumnDense matX) true).2.1
                (standardizeExceptIntercept lib (addInterceptColumnDense matX) true).2.2
                true).getD j.val 0) m := rfl
  rw [e]
  simp only [hρ, hR0, mul_zero, add_zero]
  unfold cdGap
  rw [Finset.mul_sum]
  refine le_trans (Finset.abs_sum_le_sum_abs _ _) (Finset.sum_le_sum fun m _ => ?_)
  rw [abs_mul, mul_left_comm]
  refine mul_le_mul_of_nonneg_left ?_ (abs_nonneg _)
  by_cases hm : m.val = 0
  · rw [if_pos hm, abs_zero]
    refine mul_nonneg hc0 (mul_nonneg (abs_nonneg _) (Finset.sum_nonneg fun l _ => ?_))
    split_ifs
    · exact abs_nonneg _
    · exact le_refl _
  · rw [if_neg hm, abs_mul, mul_left_comm]
    refine mul_le_mul_of_nonneg_left ?_ (abs_nonneg _)
    exact cdSweep_resid_le (lassoStdDesign lib matX) Y β hn m (by omega)

/-- The loop of `lassoLinearCD` with at least one pass returns the result of a pass; that
pass met the tolerance test, or the loop ran all of its passes. -/
theorem cdLoop_last (X : Matrix (Fin n) (Fin p) ℚ) (Y : Fin n → ℚ) (alpha : ℚ)
    (withIntercept : Bool) (tol : ℚ) (fuel : ℕ) (β0 : ℕ → ℚ) :
    ∃ βprev : ℕ → ℚ,
      cdLoop X Y alpha withIntercept tol (fuel + 1) β0
        = (cdSweep X Y alpha withIntercept βprev).1 ∧
      ((cdSweep X Y alpha withIntercept βprev).2 < tol ∨
        cdLoop X Y alpha withIntercept tol (fuel + 1) β0
          = (fun b => (cdSweep X Y alpha withIntercept b).1)^[fuel + 1] β0) := by
  induction fuel generalizing β0 with
  | zero =>
    refine ⟨β0, ?_, Or.inr ?_⟩
    · rw [cdLoop_succ]
      split_ifs
      · rfl
      · rfl
    · rw [cdLoop_succ]
      split_ifs
      · rfl
      · rfl
  | succ k ih =>
    by_cases hs : (cdSweep X Y alpha withIntercept β0).2 < tol
    · refine ⟨β0, ?_, Or.inl hs⟩
      rw [cdLoop_succ, if_pos hs]
    · obtain ⟨βprev, h1, h2⟩ := ih (cdSweep X Y alpha withIntercept β0).1
      refine ⟨βprev, ?_, ?_⟩
      · rw [cdLoop_succ, if_neg hs]
        exact h1
      · rcases h2 with h2 | h2
        · exact Or.inl h2
        · right
          rw [cdLoop_succ, if_neg hs, h2, Function.iterate_succ_apply (f := fun b =>
            (cdSweep X Y alpha withIntercept b).1) (k + 1) β0]

end CDErrorBound

/-- C19 (amended): in exact arithmetic, for linear LASSO with intercept and `α = 0` on a
design with `n > k` rows (`k = p + 1` columns with the intercept) and invertible `XᵀX`,
`MultiRegressionLasso(X, y, 0, false, true)` and `MultiRegression(X, y, true)` both succeed
with `k` coefficients each, and coefficient `j` of the first differs from coefficient `j` of
the second by at most `c·K_j`: `c` is the `maxChange` of the last pass of the coordinate
descent, which is below `1e-5` unless the loop ran all of its `10000` passes, and `K_j` is
the conditioning constant `cdGap`.  So the coefficients agree to `1e-4` whenever the loop
stops by its tolerance test and `K_j ≤ 10`. -/
theorem C19_alpha_zero_error_bound (lib : NumLib) (elib : LogitLib) (X : List (List ℚ))
    (Y : List ℚ) (n p : ℕ) (hn : X.length = n) (hk : ∀ row ∈ X, row.length = p)
    (hY : Y.length = n) (hnk : p + 1 < n)
    (hdet : ((toDense n (p + 1) (addConstantColumn X)).transpose
      * toDense n (p + 1) (addConstantColumn X)).det ≠ 0) :
    ∃ (m : MultiLinearModel) (βprev : ℕ → ℚ),
      MultiRegression lib X Y true = some (m, none) ∧
      (MultiRegressionLasso lib elib (toDense n p X) Y 0 false true).2 = none ∧
      m.Coeffs.length = p + 1 ∧
      (MultiRegressionLasso lib elib (toDense n p X) Y 0 false true).1.Coeffs.length = p + 1 ∧
      lassoStdBeta lib (toDense n p X) (toVecDense n Y)
        = (cdSweep (lassoStdDesign lib (toDense n p X)) (toVecDense n Y) 0 true βprev).1 ∧
      ((cdSweep (lassoStdDesign lib (toDense n p X)) (toVecDense n Y) 0 true βprev).2
          < 1 / 10 ^ 5 ∨
        lassoStdBeta lib (toDense n p X) (toVecDense n Y)
          = (fun b => (cdSweep (lassoStdDesign lib (toDense n p X)) (toVecDense n Y) 0 true
              b).1)^[10000] (fun _ => 0)) ∧
      (∀ j : Fin (p + 1),
        |(MultiRegressionLasso lib elib (toDense n p X) Y 0 false true).1.Coeffs.getD j.val 0
            - m.Coeffs.getD j.val 0|
          ≤ (cdSweep (lassoStdDesign lib (toDense n p X)) (toVecDense n Y) 0 true βprev).2
            * cdGap lib (toDense n p X) j) ∧
      ((cdSweep (lassoStdDesign lib (toDense n p X)) (toVecDense n Y) 0 true βprev).2
          < 1 / 10 ^ 5 →
        ∀ j : Fin (p + 1), cdGap lib (toDense n p X) j ≤ 10 →
          |(MultiRegressionLasso lib elib (toDense n p X) Y 0 false true).1.Coeffs.getD j.val 0
              - m.Coeffs.getD j.val 0| ≤ 1 / 10 ^ 4) := by
  have hn0 : 0 < n := by omega
  have hX : X ≠ [] := by
    intro h
    rw [h] at hn
    simp at hn
    omega
  have hk1 : ((design X true).headD []).length = p + 1 := by
    have hp := headD_length_of_rect X p hX hk
    cases X with
    | nil => exact absurd rfl hX
    | cons r rs =>
      simp only [List.headD_cons] at hp
      simp [design, addConstantColumn, hp]
  have hD := toDense_addConstantColumn X n p hn hk
  obtain ⟨he, hco⟩ := MultiRegressionLasso_linear lib elib (toDense n p X) Y 0 true hY
  have hdet2 : ((addInterceptColumnDense (toDense n p X)).transpose
      * addInterceptColumnDense (toDense n p X)).det ≠ 0 := by
    rw [← hD]
    exact hdet
  obtain ⟨βprev, hlast, hstop⟩ := cdLoop_last (lassoStdDesign lib (toDense n p X))
    (toVecDense n Y) 0 true (1 / 10 ^ 5) 9999 (fun _ => 0)
  rw [show 9999 + 1 = 10000 from rfl] at hlast hstop
  have hstd : lassoStdBeta lib (toDense n p X) (toVecDense n Y)
      = (cdSweep (lassoStdDesign lib (toDense n p X)) (toVecDense n Y) 0 true βprev).1 := hlast
  have hcoef : (MultiRegressionLasso lib elib (toDense n p X) Y 0 false true).1.Coeffs
      = destandardizeBeta (p + 1)
          (cdSweep (lassoStdDesign lib (toDense n p X)) (toVecDense n Y) 0 true βprev).1
          (standardizeExceptIntercept lib (addInterceptColumnDense (toDense n p X)) true).2.1
          (standardizeExceptIntercept lib (addInterceptColumnDense (toDense n p X)) true).2.2
          true := by
    rw [hco, ← hlast]
    show lassoLinearCDOn lib (addInterceptColumnDense (toDense n p X)) (toVecDense n Y)
      (0 / (n : ℚ)) true (1 / 10 ^ 5) 10000 = _
    rw [zero_div]
    rfl
  have hgap : ∀ j : Fin (p + 1),
      |(MultiRegressionLasso lib elib (toDense n p X) Y 0 false true).1.Coeffs.getD j.val 0
          - (olsModel lib (toDense n (p + 1) (design X true)) (toVecDense n Y)
              (exactInv ((toDense n (p + 1) (design X true)).transpose
                * toDense n (p + 1) (design X true)))).Coeffs.getD j.val 0|
        ≤ (cdSweep (lassoStdDesign lib (toDense n p X)) (toVecDense n Y) 0 true βprev).2
          * cdGap lib (toDense n p X) j := by
    intro j
    rw [hcoef, olsModel_Coeffs, ofFn_getD, abs_sub_comm]
    show |olsBeta (toDense n (p + 1) (addConstantColumn X)) (toVecDense n Y) j - _| ≤ _
    rw [hD]
    exact cdSweep_ols_gap lib (toDense n p X) (toVecDense n Y) βprev hn0 hdet2 j
  refine ⟨olsModel lib (toDense n (p + 1) (design X true)) (toVecDense n Y)
    (exactInv ((toDense n (p + 1) (design X true)).transpose
      * toDense n (p + 1) (design X true))), βprev, ?_, he, ?_, ?_, hstd, ?_, hgap, ?_⟩
  · rw [MultiRegression_eq_Mat lib X Y true n (p + 1) hn hY hn0 hk1 (by omega)]
    exact congrArg some (MultiRegressionMat_of_inv lib _ _ hnk hdet)
  · rw [olsModel_Coeffs, List.length_ofFn]
  · rw [hco]
    exact lassoLinearCDOn_length lib (addInterceptColumnDense (toDense n p X)) (toVecDense n Y)
      (0 / (n : ℚ)) true (1 / 10 ^ 5) 10000
  · rcases hstop with h | h
    · exact Or.inl h
    · exact Or.inr h
  · intro hc j hK
    refine le_trans (hgap j) ?_
    have hK0 : 0 ≤ cdGap lib (toDense n p X) j := by
      unfold cdGap
      refine Finset.sum_nonneg fun m _ => mul_nonneg (abs_nonneg _)
        (mul_nonneg (abs_nonneg _) (Finset.sum_nonneg fun l _ => ?_))
      split_ifs
      · exact abs_nonneg _
      · exact le_refl _
    calc (cdSweep (lassoStdDesign lib (toDense n p X)) (toVecDense n Y) 0 true βprev).2
          * cdGap lib (toDense n p X) j
        ≤ 1 / 10 ^ 5 * 10 := mul_le_mul (le_of_lt hc) hK hK0 (by norm_num)
      _ = 1 / 10 ^ 4 := by norm_num

/-- Instance of C19 (amended) on a design with two correlated features: the rows
`[0, 0], [1, 1], [2, 1], [3, 3]` with the response `[1, 2, 3, 5]`; with the intercept column
`XᵀX` has determinant `14`. -/
theorem C19_alpha_zero_error_bound_witness :
    ∃ (m : MultiLinearModel) (c : ℚ),
      MultiRegression ratLib [[0, 0], [1, 1], [2, 1], [3, 3]] [1, 2, 3, 5] true
        = some (m, none) ∧
      (MultiRegressionLasso ratLib ratLogit (toDense 4 2 [[0, 0], [1, 1], [2, 1], [3, 3]])
        [1, 2, 3, 5] 0 false true).2 = none ∧
      ∀ j : Fin (2 + 1),
        |(MultiRegressionLasso ratLib ratLogit (toDense 4 2 [[0, 0], [1, 1], [2, 1], [3, 3]])
            [1, 2, 3, 5] 0 false true).1.Coeffs.getD j.val 0 - m.Coeffs.getD j.val 0|
          ≤ c * cdGap ratLib (toDense 4 2 [[0, 0], [1, 1], [2, 1], [3, 3]]) j := by
  have hdet : ((toDense 4 (2 + 1) (addConstantColumn [[0, 0], [1, 1], [2, 1], [3, 3]])).transpose
      * toDense 4 (2 + 1) (addConstantColumn [[0, 0], [1, 1], [2, 1], [3, 3]])).det ≠ 0 := by
    have hg : (toDense 4 (2 + 1) (addConstantColumn [[0, 0], [1, 1], [2, 1], [3, 3]])).transpose
        * toDense 4 (2 + 1) (addConstantColumn [[0, 0], [1, 1], [2, 1], [3, 3]])
        = !![4, 6, 5; 6, 14, 12; 5, 12, 11] := by
      ext i j
      fin_cases i <;> fin_cases j <;>
        simp [Matrix.mul_apply, Fin.sum_univ_succ, toDense, addConstantColumn,
          List.range, List.range.loop, Matrix.vecHead, Matrix.vecTail] <;> norm_num
    rw [hg, Matrix.det_fin_three]
    simp [Matrix.vecHead, Matrix.vecTail]
    norm_num
  obtain ⟨m, βprev, h1, h2, -, -, -, -, h3, -⟩ :=
    C19_alpha_zero_error_bound ratLib ratLogit [[0, 0], [1, 1], [2, 1], [3, 3]] [1, 2, 3, 5] 4 2
      rfl (by simp) rfl (by decide) hdet
  exact ⟨m, _, h1, h2, h3⟩

/-! ## Statements about the logistic branch of `MultiRegressionLasso` -/

/-- C21 (failing input): in the logistic branch `MultiRegressionLasso` takes the linear
predictor `yhat = X·β` itself, clamped into `[1e-12, 1 − 1e-12]`, as the probability of
the Bernoulli log-likelihood behind `AIC` and `BIC`; it never applies the logistic function.
On the 2 × 1 design of ones with `Y = [1, 1]`, `alpha = 1` and no intercept it returns the
coefficient `0`, whatever the numeric routines, and its AIC and BIC are built from the
log-likelihood `2·log(1e-12)` of the clamped predictor `x_iᵀβ = 0`, not from the
log-likelihood `2·log(σ(0))` of the clamped probabilities `σ(x_iᵀβ) = 1/(1 + e^0)`. -/
theorem C21_logistic_loglik_of_linear_predictor (lib : NumLib) (elib : LogitLib) :
    (∀ (n p : ℕ) (X : Matrix (Fin n) (Fin p) ℚ) (Y : List ℚ) (alpha : ℚ)
        (withIntercept : Bool), Y.length = n →
      (MultiRegressionLasso lib elib X Y alpha true withIntercept).1.AIC
        = -2 * specBernoulliLogLik lib (toVecDense n Y)
            (fun i => specClamp
              ((match withIntercept with
                | true => computePred (addInterceptColumnDense X)
                    (MultiRegressionLasso lib elib X Y alpha true withIntercept).1.Coeffs
                | false => computePred X
                    (MultiRegressionLasso lib elib X Y alpha true withIntercept).1.Coeffs) i))
          + 2 * ((MultiRegressionLasso lib elib X Y alpha true
              withIntercept).1.Coeffs.length : ℚ)) ∧
    ∃ m : MultiLinearModel,
      MultiRegressionLasso lib elib (toDense 2 1 [[1], [1]]) [1, 1] 1 true false
        = (m, none) ∧
      m.Coeffs = [0] ∧
      m.AIC = -2 * (2 * lib.Log (1 / 10 ^ 12)) + 2 * 1 ∧
      m.BIC = -2 * (2 * lib.Log (1 / 10 ^ 12)) + 1 * lib.Log 2 ∧
      m.RSquared = (if 2 * lib.Log (1 + 1 / 10 ^ 12) ≠ 0
        then 1 - 2 * lib.Log (1 / 10 ^ 12) / (2 * lib.Log (1 + 1 / 10 ^ 12)) else 0) ∧
      specBernoulliLogLik lib (toVecDense 2 [1, 1])
        (fun i => specClamp
          (specSigmoid elib (computePred (toDense 2 1 [[1], [1]]) m.Coeffs i)))
        = 2 * lib.Log (specClamp (1 / (1 + elib.Exp 0))) := by
  refine ⟨?_, ?_⟩
  · intro n p X Y alpha withIntercept hY
    unfold MultiRegressionLasso
    rw [if_neg (by simp [hY])]
    cases withIntercept
    · simp only [lassoLogisticISTA, if_true]
      rfl
    · simp only [lassoLogisticISTA, if_true]
      rfl
  have hstd : (standardizeExceptIntercept lib (toDense 2 1 [[1], [1]]) false).1 = 0 := by
    ext i j
    simp [standardizeExceptIntercept, toDense, Fin.sum_univ_succ]
    left
    fin_cases i <;> simp
  have hfit : lassoLogisticISTAOn lib elib (toDense 2 1 [[1], [1]]) (toVecDense 2 [1, 1])
      (1 / ((2 : ℕ) : ℚ)) false (1 / 10 ^ 5) 10000 = [0] := by
    unfold lassoLogisticISTAOn
    simp only [hstd]
    simp [destandardizeBeta, List.finRange, List.ofFn_succ]
    left
    have hsoft : softThreshold 0 (2 : ℚ)⁻¹ = 0 := by
      unfold softThreshold
      rw [if_neg (by norm_num), if_neg (by norm_num)]
    rw [show (10000 : ℕ) = 9999 + 1 from rfl, istaLoop]
    unfold istaPass
    simp [istaBacktrack, istaNewBeta, logisticL1Objective, hsoft, List.range_succ]
  unfold MultiRegressionLasso
  rw [if_neg (by simp)]
  simp only [lassoLogisticISTA, if_true, hfit]
  have hpred : ∀ i, computePred (toDense 2 1 [[1], [1]]) [0] i = 0 := by
    intro i
    simp [computePred]
  have hY : ∀ i, toVecDense 2 [1, 1] i = 1 := by
    intro i
    fin_cases i <;> rfl
  refine ⟨_, rfl, rfl, ?_, ?_, ?_, ?_⟩
  · simp only [hpred, hY, Fin.sum_univ_two]
    norm_num
    ring
  · simp only [hpred, hY, Fin.sum_univ_two]
    norm_num
    ring
  · simp only [hpred, hY, Fin.sum_univ_two]
    norm_num
    rw [two_mul (lib.Log (1 / 1000000000000))]
  · simp only [specBernoulliLogLik, specSigmoid, hpred, hY, Fin.sum_univ_two]
    norm_num
    ring

/-! ## Statements about `numpy/npCorr` -/

/-- The index list of `Correlate` (the range of the output, read as Go `int`s) has the
length of the range. -/
theorem Correlate_cast_length (k : ℕ) :
    (show List ℤ from do let a ← List.range k; pure (a : ℤ)).length = k := by
  simp [Function.comp_def]

/-- C22: for sequences `a` and `v` of lengths `n ≥ 3` and `m ≥ 3`, `Correlate a v FULL_MODE`
succeeds with exactly `n + m − 1` entries; `Correlate a v VALID_MODE` fails with
`INVALID_VALUE` when `m > n` and otherwise succeeds with exactly `n` entries. -/
theorem C22_full_valid_lengths (a v : List ℚ) (hn : 3 ≤ a.length) (hm : 3 ≤ v.length) :
    (∃ out, Correlate a v FULL_MODE = some (some out, none) ∧
      out.length = a.length + v.length - 1) ∧
    (a.length < v.length →
      Correlate a v VALID_MODE = some (some [], some (.errorx .INVALID_VALUE))) ∧
    (v.length ≤ a.length →
      ∃ out, Correlate a v VALID_MODE = some (some out, none) ∧ out.length = a.length) := by
  have e1 : ¬ ((a.length : ℤ) ≤ 2 ∨ (v.length : ℤ) ≤ 2) := by omega
  refine ⟨?_, ?_, ?_⟩
  · have e2 : ¬ ((a.length : ℤ) + (v.length : ℤ) - 1 < 0) := by omega
    unfold Correlate
    simp only [if_neg e1]
    simp only [FULL_MODE, VALID_MODE, SAME_MODE, ne_eq, not_true_eq_false, false_and,
      if_false, if_true, zero_ne_one, e2]
    refine ⟨_, rfl, ?_⟩
    rw [List.length_map, Correlate_cast_length]
    omega
  · intro h
    have e2 : (v.length : ℤ) > (a.length : ℤ) := by omega
    unfold Correlate
    simp only [if_neg e1]
    simp [FULL_MODE, VALID_MODE, SAME_MODE, e2]
  · intro h
    have e2 : ¬ ((v.length : ℤ) > (a.length : ℤ)) := by omega
    have e3 : ¬ ((a.length : ℤ) < 0) := by omega
    unfold Correlate
    simp only [if_neg e1]
    simp only [FULL_MODE, VALID_MODE, SAME_MODE, ne_eq, not_true_eq_false, false_and,
      and_false, true_and, if_false, if_true, one_ne_zero, e2, e3]
    refine ⟨_, rfl, ?_⟩
    rw [List.length_map, Correlate_cast_length]
    omega

/-- Instance of C22 on `a = [1, 2, 3, 4]`, `v = [1, 0, 2]` (and the two swapped for the
failing `valid` call). -/
theorem C22_full_valid_lengths_witness :
    (∃ out, Correlate [1, 2, 3, 4] [1, 0, 2] FULL_MODE = some (some out, none) ∧
      out.length = 6) ∧
    Correlate [1, 0, 2] [1, 2, 3, 4] VALID_MODE
      = some (some [], some (.errorx .INVALID_VALUE)) ∧
    (∃ out, Correlate [1, 2, 3, 4] [1, 0, 2] VALID_MODE = some (some out, none) ∧
      out.length = 4) :=
  ⟨(C22_full_valid_lengths [1, 2, 3, 4] [1, 0, 2] (by decide) (by decide)).1,
   (C22_full_valid_lengths [1, 0, 2] [1, 2, 3, 4] (by decide) (by decide)).2.1 (by decide),
   (C22_full_valid_lengths [1, 2, 3, 4] [1, 0, 2] (by decide) (by decide)).2.2 (by decide)⟩

/-- C23 (failing input): in `SAME_MODE` the output length is `n − m + 1`, and nothing guards
the case `m > n + 1`: on `a = [1, 2, 3]` and `v = [1, 2, 3, 4, 5]` the length is `-1` and
`make` panics, so `Correlate` returns neither a sequence nor an error.  For lengths
`n ≥ 3`, `m ≥ 3` the call panics exactly when `m > n + 1`, and otherwise returns `n − m + 1`
entries without error. -/
theorem C23_same_mode_panics :
    Correlate [1, 2, 3] [1, 2, 3, 4, 5] SAME_MODE = none ∧
    ∀ a v : List ℚ, 3 ≤ a.length → 3 ≤ v.length →
      (a.length + 1 < v.length → Correlate a v SAME_MODE = none) ∧
      (v.length ≤ a.length + 1 →
        ∃ out, Correlate a v SAME_MODE = some (some out, none) ∧
          (out.length : ℤ) = (a.length : ℤ) - (v.length : ℤ) + 1) := by
  refine ⟨by decide, ?_⟩
  intro a v hn hm
  have e1 : ¬ ((a.length : ℤ) ≤ 2 ∨ (v.length : ℤ) ≤ 2) := by omega
  constructor
  · intro h
    have e2 : (a.length : ℤ) - (v.length : ℤ) + 1 < 0 := by omega
    unfold Correlate
    simp only [if_neg e1]
    simp [FULL_MODE, VALID_MODE, SAME_MODE, e2]
  · intro h
    have e2 : ¬ ((a.length : ℤ) - (v.length : ℤ) + 1 < 0) := by omega
    unfold Correlate
    simp only [if_neg e1]
    simp only [FULL_MODE, VALID_MODE, SAME_MODE, ne_eq, not_true_eq_false, false_and,
      and_false, if_false, if_true, OfNat.ofNat_ne_zero, OfNat.ofNat_ne_one, e2]
    refine ⟨_, rfl, ?_⟩
    rw [List.length_map, Correlate_cast_length]
    omega

/-- C24: for all sequences `a`, `v` and every mode, `Convolve a v mode` returns what
`Correlate a (reverse v) mode` returns, sequence and error alike. -/
theorem C24_convolve_is_correlate_reversed (a v : List ℚ) (mode : CORRELATE_MODE) :
    Convolve a v mode = Correlate a v.reverse mode := by
  unfold Convolve ReverseSliceF64
  by_cases h : (a.length : ℤ) ≤ 2 ∨ (v.length : ℤ) ≤ 2
  · have h2 : (a.length : ℤ) ≤ 2 ∨ (v.reverse.length : ℤ) ≤ 2 := by simpa using h
    simp only [if_pos h]
    unfold Correlate
    simp only [if_pos h2]
  · simp only [if_neg h]

/-! ## Statements about `propagator/metaorder/hist` -/

/-- The counting loop of `Hist` on values whose bucket indices are inside the slice: it
does not panic, it keeps the buckets and their bounds, and it adds to the count of bucket
`i` the number of values with index `i`. -/
theorem histCount_spec (minV width : ℚ) (bins : ℤ) (data : List ℚ)
    (result : List HistogramBin)
    (h : ∀ v ∈ data, 0 ≤ histIndex minV width bins v ∧
      histIndex minV width bins v < result.length) :
    ∃ res, histCount minV width bins result data = some res ∧
      ∀ i : ℕ, res[i]? = (result[i]?).map fun b =>
        { b with Count := b.Count +
            (data.countP fun v => decide (histIndex minV width bins v = (i : ℤ)) : ℕ) } := by
  induction data generalizing result with
  | nil =>
    refine ⟨result, rfl, ?_⟩
    intro i
    cases result[i]? <;> simp
  | cons v rest ih =>
    have hv := h v (List.mem_cons_self v rest)
    have hrest : ∀ w ∈ rest, 0 ≤ histIndex minV width bins w ∧
        histIndex minV width bins w <
          ((List.modify (fun b : HistogramBin => { b with Count := b.Count + 1 })
            (histIndex minV width bins v).toNat result).length : ℤ) := by
      intro w hw
      rw [List.length_modify]
      exact h w (List.mem_cons_of_mem v hw)
    obtain ⟨res, hres, hget⟩ := ih _ hrest
    refine ⟨res, ?_, ?_⟩
    · rw [histCount]
      rw [if_pos hv]
      exact hres
    · intro i
      rw [hget i, List.getElem?_modify]
      cases hri : result[i]? with
      | none => rfl
      | some b =>
        simp only [Option.map_eq_map, Option.map_some']
        congr 1
        by_cases hi : (histIndex minV width bins v).toNat = i
        · have hi2 : histIndex minV width bins v = (i : ℤ) := by omega
          rw [if_pos hi]
          simp only [List.countP_cons, hi2, decide_True, if_true, Nat.cast_add, Nat.cast_one]
          congr 1
          ring
        · have hi2 : ¬ histIndex minV width bins v = (i : ℤ) := by omega
          rw [if_neg hi]
          simp only [List.countP_cons, hi2, decide_False, Bool.false_eq_true, if_false,
            add_zero]

/-- On a non-empty list and a positive number of buckets: `histMinMax` returns the least
and the greatest value, every bucket index lies in `0 .. bins − 1`, and `Hist` returns the
buckets `i < bins` with bounds `lo + i·w`, `lo + (i+1)·w` and the number of values of
index `i`. -/
theorem Hist_spec (data : List ℚ) (bins : ℤ) (hd : data ≠ []) (hb : 0 < bins) :
    (histMinMax data).1 ∈ data ∧ (∀ v ∈ data, (histMinMax data).1 ≤ v) ∧
    (histMinMax data).2 ∈ data ∧ (∀ v ∈ data, v ≤ (histMinMax data).2) ∧
    ∃ (res : List HistogramBin) (w : ℚ),
      w = ((if (histMinMax data).2 = (histMinMax data).1
          then (histMinMax data).1 + 1 / 10 ^ 9 else (histMinMax data).2)
        - (histMinMax data).1) / (bins : ℚ) ∧
      0 < w ∧ (histMinMax data).2 ≤ (histMinMax data).1 + (bins : ℚ) * w ∧
      (∀ v ∈ data, 0 ≤ histIndex (histMinMax data).1 w bins v ∧
        histIndex (histMinMax data).1 w bins v < bins) ∧
      Hist data bins = some (some res) ∧ res.length = bins.toNat ∧
      ∀ i : ℕ, res[i]? =
        if i < bins.toNat then
          some
            { From := (histMinMax data).1 + (i : ℚ) * w,
              To := (histMinMax data).1 + ((i + 1 : ℕ) : ℚ) * w,
              Count := (data.countP fun v =>
                decide (histIndex (histMinMax data).1 w bins v = (i : ℤ)) : ℕ) }
        else none := by
  -- the scan for the extremes
  have hfold : ∀ (l : List ℚ) (a b : ℚ),
      ((l.foldl (fun mm v => (if v < mm.1 then v else mm.1, if v > mm.2 then v else mm.2))
          (a, b)).1 = a ∨
        (l.foldl (fun mm v => (if v < mm.1 then v else mm.1, if v > mm.2 then v else mm.2))
          (a, b)).1 ∈ l) ∧
      (l.foldl (fun mm v => (if v < mm.1 then v else mm.1, if v > mm.2 then v else mm.2))
          (a, b)).1 ≤ a ∧
      (∀ v ∈ l, (l.foldl
          (fun mm v => (if v < mm.1 then v else mm.1, if v > mm.2 then v else mm.2))
          (a, b)).1 ≤ v) ∧
      ((l.foldl (fun mm v => (if v < mm.1 then v else mm.1, if v > mm.2 then v else mm.2))
          (a, b)).2 = b ∨
        (l.foldl (fun mm v => (if v < mm.1 then v else mm.1, if v > mm.2 then v else mm.2))
          (a, b)).2 ∈ l) ∧
      b ≤ (l.foldl (fun mm v => (if v < mm.1 then v else mm.1, if v > mm.2 then v else mm.2))
          (a, b)).2 ∧
      (∀ v ∈ l, v ≤ (l.foldl
          (fun mm v => (if v < mm.1 then v else mm.1, if v > mm.2 then v else mm.2))
          (a, b)).2) := by
    intro l
    induction l with
    | nil =>
      intro a b
      simp
    | cons x xs ih =>
      intro a b
      simp only [List.foldl_cons, List.mem_cons, forall_eq_or_imp]
      obtain ⟨h1, h2, h3, h4, h5, h6⟩ :=
        ih (if x < a then x else a) (if x > b then x else b)
      refine ⟨?_, ?_, ⟨?_, h3⟩, ?_, ?_, ⟨?_, h6⟩⟩
      · rcases h1 with h1 | h1
        · rw [h1]
          split_ifs
          · exact Or.inr (Or.inl rfl)
          · exact Or.inl rfl
        · exact Or.inr (Or.inr h1)
      · refine le_trans h2 ?_
        split_ifs with h
        · exact le_of_lt h
        · exact le_refl a
      · refine le_trans h2 ?_
        split_ifs with h
        · exact le_refl x
        · exact not_lt.mp h
      · rcases h4 with h4 | h4
        · rw [h4]
          split_ifs
          · exact Or.inr (Or.inl rfl)
          · exact Or.inl rfl
        · exact Or.inr (Or.inr h4)
      · refine le_trans ?_ h5
        split_ifs with h
        · exact le_of_lt h
        · exact le_refl b
      · refine le_trans ?_ h5
        split_ifs with h
        · exact le_refl x
        · exact not_lt.mp h
  have hmm : (histMinMax data).1 ∈ data ∧ (∀ v ∈ data, (histMinMax data).1 ≤ v) ∧
      (histMinMax data).2 ∈ data ∧ (∀ v ∈ data, v ≤ (histMinMax data).2) := by
    cases data with
    | nil => exact absurd rfl hd
    | cons d ds =>
      obtain ⟨h1, _, h3, h4, _, h6⟩ := hfold (d :: ds) d d
      refine ⟨?_, h3, ?_, h6⟩
      · rcases h1 with h1 | h1
        · unfold histMinMax
          rw [List.headD_cons, h1]
          exact List.mem_cons_self d ds
        · exact h1
      · rcases h4 with h4 | h4
        · unfold histMinMax
          rw [List.headD_cons, h4]
          exact List.mem_cons_self d ds
        · exact h4
  obtain ⟨hlo, hmin, hhi, hmax⟩ := hmm
  refine ⟨hlo, hmin, hhi, hmax, ?_⟩
  have hlohi : (histMinMax data).1 ≤ (histMinMax data).2 := hmin _ hhi
  have hbq : (0 : ℚ) < (bins : ℚ) := by exact_mod_cast hb
  generalize hW : ((if (histMinMax data).2 = (histMinMax data).1
      then (histMinMax data).1 + 1 / 10 ^ 9 else (histMinMax data).2)
        - (histMinMax data).1) / (bins : ℚ) = w
  have hmul : ∀ x : ℚ, (bins : ℚ) * (x / (bins : ℚ)) = x := by
    intro x
    field_simp
  have hspan : (histMinMax data).2 - (histMinMax data).1 ≤ (bins : ℚ) * w ∧ 0 < w := by
    rw [← hW, hmul]
    split_ifs with he
    · rw [he]
      constructor
      · norm_num
      · apply div_pos _ hbq
        norm_num
    · have hlt : (histMinMax data).1 < (histMinMax data).2 :=
        lt_of_le_of_ne hlohi (fun h => he h.symm)
      exact ⟨le_refl _, div_pos (by linarith) hbq⟩
  -- the bucket index of a value between the extremes
  have hrange : ∀ v ∈ data, 0 ≤ histIndex (histMinMax data).1 w bins v ∧
      histIndex (histMinMax data).1 w bins v < bins := by
    intro v hv
    have h1 := hmin v hv
    have h2 := hmax v hv
    have hx0 : 0 ≤ (v - (histMinMax data).1) / w :=
      div_nonneg (by linarith) (le_of_lt hspan.2)
    have hx1 : (v - (histMinMax data).1) / w ≤ (bins : ℚ) := by
      rw [div_le_iff₀ hspan.2]
      linarith [hspan.1]
    have hf0 : 0 ≤ Int.floor ((v - (histMinMax data).1) / w) := Int.floor_nonneg.mpr hx0
    have hf1 : Int.floor ((v - (histMinMax data).1) / w) ≤ bins := by
      have := Int.floor_le ((v - (histMinMax data).1) / w)
      exact_mod_cast (le_trans this hx1 :
        ((Int.floor ((v - (histMinMax data).1) / w) : ℤ) : ℚ) ≤ bins)
    unfold histIndex
    dsimp only
    split_ifs with h
    · omega
    · omega
  have hidx : ∀ v ∈ data, 0 ≤ histIndex (histMinMax data).1 w bins v ∧
      histIndex (histMinMax data).1 w bins v <
        (((List.range bins.toNat).map fun (i : ℕ) =>
          ({ From := (histMinMax data).1 + (i : ℚ) * w,
             To := (histMinMax data).1 + ((i + 1 : ℕ) : ℚ) * w,
             Count := 0 } : HistogramBin)).length : ℤ) := by
    intro v hv
    have := hrange v hv
    rw [List.length_map, List.length_range]
    omega
  obtain ⟨res, hres, hget⟩ := histCount_spec (histMinMax data).1 w bins data _ hidx
  have e1 : ¬ (data.length = 0 ∨ bins ≤ 0) := by
    have := List.length_pos.mpr hd
    omega
  have hall : ∀ i : ℕ, res[i]? =
      if i < bins.toNat then
        some
          { From := (histMinMax data).1 + (i : ℚ) * w,
            To := (histMinMax data).1 + ((i + 1 : ℕ) : ℚ) * w,
            Count := (data.countP fun v =>
              decide (histIndex (histMinMax data).1 w bins v = (i : ℤ)) : ℕ) }
      else none := by
    intro i
    rw [hget i]
    by_cases hi : i < bins.toNat
    · rw [if_pos hi, List.getElem?_map, List.getElem?_range hi]
      simp
    · rw [if_neg hi, List.getElem?_map, List.getElem?_eq_none (by simpa using hi)]
      rfl
  refine ⟨res, w, rfl, hspan.2, by linarith [hspan.1], hrange, ?_, ?_, hall⟩
  · unfold Hist
    rw [if_neg e1]
    dsimp only
    rw [hW, hres]
    rfl
  · apply le_antisymm
    · by_contra hlt
      have h1 := hall bins.toNat
      rw [if_neg (lt_irrefl _), List.getElem?_eq_none_iff] at h1
      omega
    · by_contra hlt
      have h1 := hall res.length
      rw [if_pos (by omega), List.getElem?_eq_none (le_refl _)] at h1
      exact Option.noConfusion h1

/-! ## Statements about `timeSeries/acf/acf_multi_fitrange.go` -/

/-- In a strictly increasing list of numbers the entry `d` places further on is larger by at
least `d`. -/
theorem pairwise_lt_getD_add (l : List ℕ) (hl : l.Pairwise (· < ·)) (i d : ℕ)
    (h : i + d < l.length) : l.getD i 0 + d ≤ l.getD (i + d) 0 := by
  induction d with
  | zero => simp
  | succ d ih =>
    have h1 := ih (by omega)
    have h2 : l[i + d] < l[i + d + 1] :=
      List.pairwise_iff_getElem.mp hl (i + d) (i + d + 1) (by omega) h (by omega)
    rw [List.getD_eq_getElem _ _ (by omega : i + d < l.length)] at h1
    show l.getD i 0 + d + 1 ≤ l.getD (i + d + 1) 0
    rw [List.getD_eq_getElem _ _ (by omega : i + d + 1 < l.length)]
    omega

/-- The slice `valid` of `AutoFitRange` is strictly increasing and holds exactly the lags
`2 ≤ k < len(acf)` with a positive entry; with fewer than 20 of them the function returns
`(2, ⌊0.3·n⌋)`, and otherwise the entries of `valid` at `⌊0.2·m⌋ = m / 5` and
`⌊0.8·m⌋ = 4·m / 5`, which lie at least 12 apart, so that no clamp applies. -/
theorem AutoFitRange_spec (acf : List (F64 ℚ)) :
    (validLags acf).Pairwise (· < ·) ∧
    (∀ k : ℕ, k ∈ validLags acf ↔
      (2 ≤ k ∧ k < acf.length ∧ acfPos (acf.getD k .nan) = true)) ∧
    ((validLags acf).length < 20 →
      AutoFitRange acf = (2, Int.floor ((acf.length : ℚ) * (3 / 10)))) ∧
    (20 ≤ (validLags acf).length →
      ∃ s e : ℕ,
        (validLags acf)[(Int.floor (((validLags acf).length : ℚ) * (2 / 10))).toNat]? = some s ∧
        (validLags acf)[(Int.floor (((validLags acf).length : ℚ) * (8 / 10))).toNat]? = some e ∧
        s ∈ validLags acf ∧ e ∈ validLags acf ∧ s + 12 ≤ e ∧
        AutoFitRange acf = ((s : ℤ), (e : ℤ))) := by
  have hpw : (validLags acf).Pairwise (· < ·) :=
    List.Pairwise.filter _ (List.pairwise_lt_range' 2 (acf.length - 2))
  have hmem : ∀ k : ℕ, k ∈ validLags acf ↔
      (2 ≤ k ∧ k < acf.length ∧ acfPos (acf.getD k .nan) = true) := by
    intro k
    unfold validLags
    rw [List.mem_filter, List.mem_range'_1]
    constructor
    · rintro ⟨⟨h1, h2⟩, h3⟩
      exact ⟨h1, by omega, h3⟩
    · rintro ⟨h1, h2, h3⟩
      exact ⟨⟨h1, by omega⟩, h3⟩
  have hfloor : ∀ m : ℕ, Int.floor ((m : ℚ) * (2 / 10)) = ((m / 5 : ℕ) : ℤ) ∧
      Int.floor ((m : ℚ) * (8 / 10)) = ((4 * m / 5 : ℕ) : ℤ) := by
    intro m
    have h1 := Nat.div_add_mod m 5
    have h2 := Nat.mod_lt m (by decide : 5 > 0)
    have h3 := Nat.div_add_mod (4 * m) 5
    have h4 := Nat.mod_lt (4 * m) (by decide : 5 > 0)
    have e1 : (m : ℚ) = 5 * ((m / 5 : ℕ) : ℚ) + ((m % 5 : ℕ) : ℚ) := by
      exact_mod_cast h1.symm
    have e2 : ((m % 5 : ℕ) : ℚ) < 5 := by exact_mod_cast h2
    have e3 : 4 * (m : ℚ) = 5 * ((4 * m / 5 : ℕ) : ℚ) + ((4 * m % 5 : ℕ) : ℚ) := by
      exact_mod_cast h3.symm
    have e4 : ((4 * m % 5 : ℕ) : ℚ) < 5 := by exact_mod_cast h4
    have e5 : (0 : ℚ) ≤ ((m % 5 : ℕ) : ℚ) := Nat.cast_nonneg _
    have e6 : (0 : ℚ) ≤ ((4 * m % 5 : ℕ) : ℚ) := Nat.cast_nonneg _
    constructor
    · rw [Int.floor_eq_iff, Int.cast_natCast]
      constructor <;> linarith
    · rw [Int.floor_eq_iff, Int.cast_natCast]
      constructor <;> linarith
  refine ⟨hpw, hmem, ?_, ?_⟩
  · intro hm
    unfold AutoFitRange
    simp only [if_pos hm, Int.cast_natCast]
  · intro hm20
    have hm : ¬ (validLags acf).length < 20 := by omega
    obtain ⟨f1, f2⟩ := hfloor (validLags acf).length
    rw [f1, f2]
    simp only [Int.toNat_ofNat]
    have h1 : (validLags acf).length / 5 < (validLags acf).length := by omega
    have h2 : 4 * (validLags acf).length / 5 < (validLags acf).length := by omega
    have h3 : (validLags acf).length / 5 + (4 * (validLags acf).length / 5
        - (validLags acf).length / 5) = 4 * (validLags acf).length / 5 := by omega
    have h4 := pairwise_lt_getD_add (validLags acf) hpw ((validLags acf).length / 5)
      (4 * (validLags acf).length / 5 - (validLags acf).length / 5) (by omega)
    rw [h3] at h4
    have m1 : (validLags acf).getD ((validLags acf).length / 5) 0 ∈ validLags acf := by
      rw [List.getD_eq_getElem _ _ h1]
      exact List.getElem_mem _
    have m2 : (validLags acf).getD (4 * (validLags acf).length / 5) 0 ∈ validLags acf := by
      rw [List.getD_eq_getElem _ _ h2]
      exact List.getElem_mem _
    have h5 := ((hmem _).mp m2).2.1
    refine ⟨(validLags acf).getD ((validLags acf).length / 5) 0,
      (validLags acf).getD (4 * (validLags acf).length / 5) 0, ?_, ?_, m1, m2, by omega, ?_⟩
    · rw [List.getD_eq_getElem _ _ h1, List.getElem?_eq_getElem h1]
    · rw [List.getD_eq_getElem _ _ h2, List.getElem?_eq_getElem h2]
    · have c1 : ¬ (((validLags acf).getD (4 * (validLags acf).length / 5) 0 : ℕ) : ℤ)
          ≤ (((validLags acf).getD ((validLags acf).length / 5) 0 : ℕ) : ℤ) + 5 := by omega
      have c2 : ¬ (((validLags acf).getD (4 * (validLags acf).length / 5) 0 : ℕ) : ℤ)
          ≥ (acf.length : ℤ) := by omega
      unfold AutoFitRange
      simp only [if_neg hm, f1, f2, Int.toNat_ofNat, if_neg c1, if_neg c2]

/-- C26: with `P` the increasing list of the lags `k ≥ 2` with `acf[k] > 0` and `m` its
length, `AutoFitRange acf` is `(2, ⌊0.3·n⌋)` when `m < 20` and `(P[⌊0.2·m⌋], P[⌊0.8·m⌋])`
when `m ≥ 20`: the two clamps of the function never change the result. -/
theorem C26_auto_fit_range (acf : List (F64 ℚ)) :
    (validLags acf).Pairwise (· < ·) ∧
    (∀ k : ℕ, k ∈ validLags acf ↔
      (2 ≤ k ∧ k < acf.length ∧ acfPos (acf.getD k .nan) = true)) ∧
    if (validLags acf).length < 20 then
      AutoFitRange acf = (2, Int.floor ((acf.length : ℚ) * (3 / 10)))
    else
      ∃ s e : ℕ,
        (validLags acf)[(Int.floor (((validLags acf).length : ℚ) * (2 / 10))).toNat]? = some s ∧
        (validLags acf)[(Int.floor (((validLags acf).length : ℚ) * (8 / 10))).toNat]? = some e ∧
        AutoFitRange acf = ((s : ℤ), (e : ℤ)) := by
  obtain ⟨hpw, hmem, hlt, hge⟩ := AutoFitRange_spec acf
  refine ⟨hpw, hmem, ?_⟩
  split_ifs with hm
  · exact hlt hm
  · obtain ⟨s, e, hs, he, _, _, _, hfit⟩ := hge (by omega)
    exact ⟨s, e, hs, he, hfit⟩

/-- Instance of C26: on a sequence of 22 ones the positive lags are `2..21`, and the range is
`(P[4], P[16]) = (6, 18)`. -/
theorem C26_auto_fit_range_witness :
    AutoFitRange (List.replicate 22 (.fin 1)) = (6, 18) := by
  have hP : validLags (List.replicate 22 (.fin 1)) = List.range' 2 20 := by
    unfold validLags
    rw [show (List.replicate 22 (F64.fin (1 : ℚ))).length - 2 = 20 by simp,
      List.filter_eq_self]
    intro k hk
    rw [List.mem_range'_1] at hk
    rw [List.getD_eq_getElem _ _ (by simp; omega), List.getElem_replicate]
    simp [acfPos]
  have h := (C26_auto_fit_range (List.replicate 22 (.fin 1))).2.2
  rw [hP, if_neg (by simp)] at h
  obtain ⟨s, e, hs, he, hfit⟩ := h
  norm_num [List.length_range'] at hs he
  rw [hfit, ← hs, ← he]
  rfl

/-! ## Statements about `timeSeries/acf/acf_multi_regr.go` -/

/-- The first index of a range at which a test holds is what `find?` returns. -/
theorem find?_range'_first (p : ℕ → Bool) (len s k : ℕ) (hk1 : s ≤ k) (hk2 : k < s + len)
    (hp : p k = true) (hfirst : ∀ j, s ≤ j → j < k → p j = false) :
    (List.range' s len).find? p = some k := by
  induction len generalizing s with
  | zero => omega
  | succ len ih =>
    rw [List.range'_succ]
    by_cases hs : s = k
    · subst hs
      rw [List.find?_cons_of_pos _ hp]
    · have hps : ¬ (p s = true) := by
        rw [hfirst s (le_refl s) (by omega)]
        exact Bool.false_ne_true
      rw [List.find?_cons_of_neg _ hps]
      exact ih (s + 1) (by omega) (by omega) (fun j h1 h2 => hfirst j (by omega) h2)

/-- The length of the longest prefix on which a test holds. -/
theorem takeWhile_length_eq {α : Type} (p : α → Bool) (d : α) (l : List α) (k : ℕ)
    (hk : k ≤ l.length) (hrun : ∀ j, j < k → p (l.getD j d) = true)
    (hend : k = l.length ∨ p (l.getD k d) = false) :
    (l.takeWhile p).length = k := by
  induction l generalizing k with
  | nil =>
    simp at hk
    subst hk
    rfl
  | cons x xs ih =>
    cases k with
    | zero =>
      rcases hend with h | h
      · simp at h
      · have hx : p x = false := by simpa using h
        rw [List.takeWhile_cons, hx]
        rfl
    | succ k =>
      have hx : p x = true := by simpa using hrun 0 (by omega)
      rw [List.takeWhile_cons, hx]
      simp only [if_true, List.length_cons, Nat.add_left_inj]
      refine ih k (by simpa using hk) (fun j hj => ?_) ?_
      · simpa using hrun (j + 1) (by omega)
      · rcases hend with h | h
        · exact Or.inl (by simpa using h)
        · exact Or.inr (by simpa using h)

/-- The body of `FitLogACF` once the run is known: `start ≥ 1` is the first index with a
positive entry and `[start, stop)` the longest stretch of positive entries from there. -/
theorem FitLogACF_eq (lib : NumLib) (acf : List (F64 ℚ)) (minPoints : ℤ) (start stop : ℕ)
    (hn : 3 ≤ acf.length) (h1 : 1 ≤ start) (hlt : start < stop) (hstop : stop ≤ acf.length)
    (hfirst : ∀ j, 1 ≤ j → j < start → acfPos (acf.getD j .nan) = false)
    (hrun : ∀ j, start ≤ j → j < stop → acfPos (acf.getD j .nan) = true)
    (hend : stop = acf.length ∨ acfPos (acf.getD stop .nan) = false) :
    FitLogACF lib acf minPoints =
      if (stop : ℤ) - (start : ℤ) < minPoints then
        some (.nan, .nan, .nan, MultiLinearModel.zero, some (.errorx .INVALID_VALUE))
      else
        match MultiRegression lib
            ((List.range' start (stop - start)).map fun (lag : ℕ) => [lib.Log (lag : ℚ)])
            ((List.range' start (stop - start)).map fun lag =>
              acfLog lib (acf.getD lag .nan)) true with
        | none => none
        | some (_, some _) =>
          some (.nan, .nan, .nan, MultiLinearModel.zero, some (.errorx .INVALID_VALUE))
        | some (model, none) =>
          if model.Coeffs.length < 2 then
            some (.nan, .nan, .nan, MultiLinearModel.zero, some (.errorx .INVALID_VALUE))
          else
            some (.fin (-(model.Coeffs.getD 1 0)), .fin (model.Coeffs.getD 0 0),
              .fin model.RSquared, model, none) := by
  have hfind : (List.range' 1 (acf.length - 1)).find? (fun i => acfPos (acf.getD i .nan))
      = some start :=
    find?_range'_first _ _ 1 start h1 (by omega) (hrun start (le_refl _) hlt) hfirst
  have htw : ((acf.drop start).takeWhile acfPos).length = stop - start := by
    apply takeWhile_length_eq acfPos .nan
    · rw [List.length_drop]
      omega
    · intro j hj
      rw [List.getD_eq_getElem?_getD, List.getElem?_drop, ← List.getD_eq_getElem?_getD]
      exact hrun (start + j) (by omega) (by omega)
    · rcases hend with h | h
      · left
        rw [List.length_drop, h]
      · right
        rw [List.getD_eq_getElem?_getD, List.getElem?_drop, ← List.getD_eq_getElem?_getD,
          show start + (stop - start) = stop by omega]
        exact h
  have hfil : (List.range' start (stop - start)).filter
      (fun lag => acfPos (acf.getD lag .nan)) = List.range' start (stop - start) := by
    rw [List.filter_eq_self]
    intro j hj
    rw [List.mem_range'_1] at hj
    exact hrun j hj.1 (by omega)
  unfold FitLogACF
  simp only [if_neg (not_lt.mpr hn), hfind, htw, show start + (stop - start) = stop by omega,
    hfil, List.length_map, List.length_range']
  have hcast : ((stop - start : ℕ) : ℤ) = (stop : ℤ) - (start : ℤ) := by omega
  rw [hcast]
  by_cases hm : (stop : ℤ) - (start : ℤ) < minPoints
  · simp only [if_pos hm]
  · simp only [if_neg hm]

/-- C27: `FitLogACF acf minPoints` fails with `INVALID_VALUE`, returning `NaN` for `γ`, the
intercept and `R²` and the zero record, when `len(acf) < 3`, when no index `i ≥ 1` has a
positive entry, or when the run `[start, stop)` of positive entries that starts at the first
such index has fewer than `minPoints` entries. -/
theorem C27_fit_log_acf_fails (lib : NumLib) (acf : List (F64 ℚ)) (minPoints : ℤ)
    (h : acf.length < 3 ∨
      (∀ i, 1 ≤ i → i < acf.length → acfPos (acf.getD i .nan) = false) ∨
      ∃ start stop : ℕ, 1 ≤ start ∧ start < stop ∧ stop ≤ acf.length ∧
        (∀ j, 1 ≤ j → j < start → acfPos (acf.getD j .nan) = false) ∧
        (∀ j, start ≤ j → j < stop → acfPos (acf.getD j .nan) = true) ∧
        (stop = acf.length ∨ acfPos (acf.getD stop .nan) = false) ∧
        (stop : ℤ) - (start : ℤ) < minPoints) :
    FitLogACF lib acf minPoints
      = some (.nan, .nan, .nan, MultiLinearModel.zero, some (.errorx .INVALID_VALUE)) := by
  by_cases hn : acf.length < 3
  · unfold FitLogACF
    simp only [if_pos hn]
  · rcases h with h | h | ⟨start, stop, h1, hlt, hstop, hfirst, hrun, hend, hshort⟩
    · exact absurd h hn
    · have hfind : (List.range' 1 (acf.length - 1)).find?
          (fun i => acfPos (acf.getD i .nan)) = none := by
        rw [List.find?_eq_none]
        intro i hi
        rw [List.mem_range'_1] at hi
        rw [h i hi.1 (by omega)]
        exact Bool.false_ne_true
      unfold FitLogACF
      simp only [if_neg hn, hfind]
    · rw [FitLogACF_eq lib acf minPoints start stop (by omega) h1 hlt hstop hfirst hrun hend,
        if_pos hshort]

/-- Instance of C27: on `[1, 1/2, -1, 1/4]` the run of positive entries from lag `1` is the
single lag `1`, fewer than `minPoints = 2`. -/
theorem C27_fit_log_acf_fails_witness :
    FitLogACF ratLib [.fin 1, .fin (1 / 2), .fin (-1), .fin (1 / 4)] 2
      = some (.nan, .nan, .nan, MultiLinearModel.zero, some (.errorx .INVALID_VALUE)) :=
  C27_fit_log_acf_fails ratLib [.fin 1, .fin (1 / 2), .fin (-1), .fin (1 / 4)] 2
    (Or.inr (Or.inr ⟨1, 2, le_refl 1, by decide, by decide,
      fun j h1 h2 => absurd h2 (not_lt.mpr h1),
      fun j h1 h2 => by
        have hj : j = 1 := by omega
        subst hj
        simp [acfPos],
      Or.inr (by simp [acfPos]), by decide⟩))

/-- C29: `SimulateWhiteNoise` succeeds only for the non-parametric method: for a non-empty
`resid` and `length ≥ 0` it returns exactly `length` values, each an element of `resid`,
whatever the random draws; for the parametric method, the wild method and every other tag
it returns no sequence and an `INVALID_VALUE` error. -/
theorem C29_white_noise_resampling (draw : ℕ → ℕ) (resid : List ℚ) (length : ℤ)
    (method : whiteNoiseSampleMethod) (hres : resid ≠ []) (hlen : 0 ≤ length) :
    (method = NONPARAMETIC_BOOTSTRAP →
      ∃ out, SimulateWhiteNoise draw resid length method = some (some out, none) ∧
        (out.length : ℤ) = length ∧ ∀ x ∈ out, x ∈ resid) ∧
    (method ≠ NONPARAMETIC_BOOTSTRAP →
      SimulateWhiteNoise draw resid length method
        = some (none, some (.errorx .INVALID_VALUE))) := by
  have hpos : 0 < resid.length := List.length_pos.mpr hres
  refine ⟨?_, ?_⟩
  · intro hm
    subst hm
    have e1 : ¬ (length < 0) := by omega
    have e2 : ¬ (0 < length ∧ resid.length = 0) := by omega
    unfold SimulateWhiteNoise
    rw [if_neg (by decide), if_pos rfl, if_neg e1, if_neg e2]
    refine ⟨_, rfl, ?_, ?_⟩
    · simp only [List.length_map, List.length_range]
      omega
    · intro x hx
      obtain ⟨i, _, rfl⟩ := List.mem_map.mp hx
      have hlt : draw i % resid.length < resid.length := Nat.mod_lt _ hpos
      rw [List.getD_eq_getElem _ _ hlt]
      exact List.getElem_mem _
  · intro hm
    unfold SimulateWhiteNoise
    rw [if_neg hm]
    split_ifs <;> rfl

/-- Instance of C29: three draws from `[5, 7]` with the random numbers `i ↦ i + 1`, and the
wild method on the same input. -/
theorem C29_white_noise_resampling_witness :
    (∃ out, SimulateWhiteNoise (fun i => i + 1) [5, 7] 3 NONPARAMETIC_BOOTSTRAP
        = some (some out, none) ∧
      (out.length : ℤ) = 3 ∧ ∀ x ∈ out, x ∈ ([5, 7] : List ℚ)) ∧
    SimulateWhiteNoise (fun i => i + 1) [5, 7] 3 WILD_BOOTSTRAP
      = some (none, some (.errorx .INVALID_VALUE)) :=
  ⟨(C29_white_noise_resampling (fun i => i + 1) [5, 7] 3 NONPARAMETIC_BOOTSTRAP
      (by simp) (by decide)).1 rfl,
   (C29_white_noise_resampling (fun i => i + 1) [5, 7] 3 WILD_BOOTSTRAP
      (by simp) (by decide)).2 (by decide)⟩

/-! ## Statements about `fastinv` -/

/-- C30: for `C ≠ 0`, `imn ≠ 0` and `imn − B + D·C ≠ 0` the four impact-price formulas
`OriginalFormula`, `Simplified`, `YourVersion` and `FastInverse` return the same value in
exact arithmetic, and `newtonInv x = 1/x` for `x ≠ 0`. -/
theorem C30_formulas_agree {K : Type} [Field K] (imn B C D : K) (hC : C ≠ 0)
    (himn : imn ≠ 0) (hden : imn - B + D * C ≠ 0) :
    OriginalFormula imn B C D = Simplified imn B C D ∧
    YourVersion imn B C D = Simplified imn B C D ∧
    FastInverse imn B C D = Simplified imn B C D ∧
    ∀ x : K, x ≠ 0 → newtonInv x = 1 / x := by
  have hnewton : ∀ x : K, x ≠ 0 → newtonInv x = 1 / x := by
    intro x hx
    unfold newtonInv
    field_simp
    ring
  refine ⟨?_, ?_, ?_, hnewton⟩
  · unfold OriginalFormula Simplified
    have h1 : (imn - B) / C + D = (imn - B + D * C) / C := by
      field_simp
    show imn / ((imn - B) / C + D) = imn * C / (imn - B + D * C)
    rw [h1, div_div_eq_mul_div]
  · unfold YourVersion Simplified
    have h1 : 1 / C + (D - B * (1 / C)) / imn = (imn - B + D * C) / (imn * C) := by
      field_simp
      ring
    show 1 / (1 / C + (D - B * (1 / C)) / imn) = imn * C / (imn - B + D * C)
    rw [h1, one_div, inv_div]
  · show imn * C * newtonInv (imn - B + D * C) = imn * C / (imn - B + D * C)
    rw [hnewton _ hden]
    ring

/-- Instance of C30 at the values of `TestAccuracy`: `imn = 25000`, `B = 22704.65`,
`C = 279.71`, `D = 81.18`. -/
theorem C30_formulas_agree_witness :
    OriginalFormula (25000 : ℚ) (2270465 / 100) (27971 / 100) (8118 / 100)
      = Simplified 25000 (2270465 / 100) (27971 / 100) (8118 / 100) ∧
    YourVersion (25000 : ℚ) (2270465 / 100) (27971 / 100) (8118 / 100)
      = Simplified 25000 (2270465 / 100) (27971 / 100) (8118 / 100) ∧
    FastInverse (25000 : ℚ) (2270465 / 100) (27971 / 100) (8118 / 100)
      = Simplified 25000 (2270465 / 100) (27971 / 100) (8118 / 100) ∧
    ∀ x : ℚ, x ≠ 0 → newtonInv x = 1 / x :=
  C30_formulas_agree (25000 : ℚ) (2270465 / 100) (27971 / 100) (8118 / 100)
    (by norm_num) (by norm_num) (by norm_num)

/-! ## Statements about the design matrix of `AdfTest` -/

/-- For the trends `"c"` and `"ct"` every row written by the row loop has `nCol` entries, the
buffer is filled exactly, and entry `(i, j)` of the design is entry `j` of row `i`: the
level, the constant, the trend for `"ct"`, and then, in column `d + t` (`d = 2` or `3`,
`t < lag`), the difference `dy[maxLag − (lag − t) + i]`. -/
theorem adfBuffer_entries (dy ylag1 : List ℚ) (regr : String) (maxLag lag nRow : ℕ)
    (hr : regr = "c" ∨ regr = "ct") :
    ∃ X : List ℚ,
      adfBuffer dy ylag1 regr maxLag lag nRow (adfNCol regr lag) = some X ∧
      ∀ (i : Fin nRow) (j : Fin (adfNCol regr lag)),
        (j.val = 0 → denseOfFlat nRow (adfNCol regr lag) X i j = ylag1.getD i.val 0) ∧
        (j.val = 1 → denseOfFlat nRow (adfNCol regr lag) X i j = 1) ∧
        (regr = "ct" → j.val = 2 →
          denseOfFlat nRow (adfNCol regr lag) X i j = ((i.val + 1 : ℕ) : ℚ)) ∧
        ∀ t : ℕ, t < lag → j.val = (if regr = "ct" then 3 else 2) + t →
          denseOfFlat nRow (adfNCol regr lag) X i j
            = dy.getD (maxLag - (lag - t) + i.val) 0 := by
  have hflat : ∀ (f : ℕ → List ℚ) (c : ℕ), (∀ i, (f i).length = c) → ∀ m : ℕ,
      ((List.range m).flatMap f).length = m * c ∧
      ∀ i k : ℕ, i < m → k < c →
        ((List.range m).flatMap f).getD (i * c + k) 0 = (f i).getD k 0 := by
    intro f c hlen m
    induction m with
    | zero => exact ⟨by simp, fun i k hi => absurd hi (Nat.not_lt_zero i)⟩
    | succ m ih =>
      have hl : ((List.range (m + 1)).flatMap f).length = (m + 1) * c := by
        rw [List.range_succ, List.flatMap_append, List.length_append, ih.1]
        simp [hlen, Nat.succ_mul]
      refine ⟨hl, ?_⟩
      intro i k hi hk
      rw [List.range_succ, List.flatMap_append]
      by_cases him : i < m
      · have hidx : i * c + k < ((List.range m).flatMap f).length := by
          rw [ih.1]
          calc i * c + k < i * c + c := by omega
            _ = (i + 1) * c := by rw [Nat.succ_mul]
            _ ≤ m * c := Nat.mul_le_mul_right c him
        rw [List.getD_append _ _ _ _ hidx]
        exact ih.2 i k him hk
      · have hi2 : i = m := by omega
        subst hi2
        rw [List.getD_append_right _ _ _ _ (by rw [ih.1]; omega), ih.1]
        simp
  have hlen : ∀ i, (adfRow dy ylag1 regr maxLag lag i).length = adfNCol regr lag := by
    intro i
    rcases hr with rfl | rfl
    · simp [adfRow, adfNCol]
    · simp [adfRow, adfNCol]
  obtain ⟨h1, h2⟩ := hflat (fun i => adfRow dy ylag1 regr maxLag lag i) (adfNCol regr lag)
    hlen nRow
  unfold adfBuffer
  simp only []
  rw [if_neg (by rw [h1]; omega)]
  refine ⟨_, rfl, ?_⟩
  · intro i j
    have hX : denseOfFlat nRow (adfNCol regr lag)
        (((List.range nRow).flatMap fun i => adfRow dy ylag1 regr maxLag lag i)
          ++ List.replicate (nRow * adfNCol regr lag
            - ((List.range nRow).flatMap fun i => adfRow dy ylag1 regr maxLag lag i).length) 0)
          i j
        = (adfRow dy ylag1 regr maxLag lag i.val).getD j.val 0 := by
      unfold denseOfFlat
      rw [Matrix.of_apply, h1, Nat.sub_self, List.replicate_zero, List.append_nil]
      exact h2 i.val j.val i.isLt j.isLt
    rw [hX]
    rcases hr with rfl | rfl
    · refine ⟨?_, ?_, ?_, ?_⟩
      · intro h0
        simp [adfRow, h0]
      · intro h0
        simp [adfRow, h0]
      · intro hct
        exact absurd hct (by decide)
      · intro t ht hj
        rw [if_neg (by decide)] at hj
        have hj2 : j.val = t + 2 := by omega
        simp [adfRow, hj2, ht, List.getD_eq_getElem?_getD]
    · refine ⟨?_, ?_, ?_, ?_⟩
      · intro h0
        simp [adfRow, h0]
      · intro h0
        simp [adfRow, h0]
      · intro _ h0
        simp [adfRow, h0]
      · intro t ht hj
        rw [if_pos rfl] at hj
        have hj2 : j.val = t + 3 := by omega
        simp [adfRow, hj2, ht, List.getD_eq_getElem?_getD]
/-- C31 (counterexample): on the series `0, 1, 3, 6, .., 78` (differences `1, 2, .., 12`)
with trend `"c"`, `maxLag = 2` and the candidate lag `L = 2`, the design has 10 rows and 4
columns, and in row `0` the first lagged-difference column (column `2`) holds
`Δy[maxLag + 0 − L] = Δy[0] = 1`, not `Δy[maxLag + 0 − 1] = Δy[1] = 2`, which is in the
last column. -/
theorem C31_counterexample :
    diff [0, 1, 3, 6, 10, 15, 21, 28, 36, 45, 55, 66, 78]
      = some [1, 2, 3, 4, 5, 6, 7, 8, 9, 10, 11, 12] ∧
    adfNCol "c" 2 = 4 ∧
    ∃ X : List ℚ,
      adfBuffer [1, 2, 3, 4, 5, 6, 7, 8, 9, 10, 11, 12] [0, 1, 3, 6, 10, 15, 21, 28, 36, 45]
        "c" 2 2 10 4 = some X ∧
      denseOfFlat 10 4 X 0 2 = 1 ∧ denseOfFlat 10 4 X 0 3 = 2 ∧
      denseOfFlat 10 4 X 0 2
        ≠ ([1, 2, 3, 4, 5, 6, 7, 8, 9, 10, 11, 12] : List ℚ).getD (2 + 0 - 1) 0 := by
  have h4 : adfNCol "c" 2 = 4 := by decide
  refine ⟨?_, h4, ?_⟩
  · simp [diff, List.range, List.range.loop]
    norm_num
  · have h := adfBuffer_entries [1, 2, 3, 4, 5, 6, 7, 8, 9, 10, 11, 12]
      [0, 1, 3, 6, 10, 15, 21, 28, 36, 45] "c" 2 2 10 (Or.inl rfl)
    rw [h4] at h
    obtain ⟨X, hX, hcol⟩ := h
    have h2 := (hcol 0 2).2.2.2 0 (by decide) (by decide)
    have h3 := (hcol 0 3).2.2.2 1 (by decide) (by decide)
    refine ⟨X, hX, ?_, ?_, ?_⟩
    · rw [h2]
      simp
    · rw [h3]
      simp
    · rw [h2]
      simp

/-- C31 (amended): for trend `"c"` or `"ct"` and every candidate lag `1 ≤ L ≤ maxLag`, the
lagged-difference columns of the ADF design come after the deterministic columns in the
order `Δy_{t−L}, .., Δy_{t−2}, Δy_{t−1}`: in design row `i` (response `Δy[maxLag + i]`)
column `d + t` (`d = 2` for `"c"`, `3` for `"ct"`, `t < L`) holds `Δy[maxLag + i − (L − t)]`,
so the first lagged-difference column holds `Δy[maxLag + i − L]` and the last holds
`Δy[maxLag + i − 1]`; with at least 10 rows this design is the one the candidate regression
is fitted on, so `Coeffs` lists the lag coefficients from lag `L` down to lag `1`. -/
theorem C31_lag_columns_oldest_first (lib : NumLib) (dy ylag : List ℚ) (regr : String)
    (maxLag L : ℕ) (hr : regr = "c" ∨ regr = "ct") (hL1 : 1 ≤ L) (hLm : L ≤ maxLag) :
    ∃ X : List ℚ,
      adfBuffer dy (ylag.take (ylag.length - maxLag)) regr maxLag L (dy.length - maxLag)
        (adfNCol regr L) = some X ∧
      (maxLag + 10 ≤ dy.length →
        adfOLS lib dy ylag regr maxLag L =
          match (MultiRegressionMat lib (denseOfFlat (dy.length - maxLag) (adfNCol regr L) X)
              (toVecDense (dy.length - maxLag) (dy.drop maxLag))).2 with
          | some _ => some none
          | none => some (some
              ((MultiRegressionMat lib (denseOfFlat (dy.length - maxLag) (adfNCol regr L) X)
                (toVecDense (dy.length - maxLag) (dy.drop maxLag))).1,
                dy.length - maxLag))) ∧
      ∀ (i : Fin (dy.length - maxLag)) (j : Fin (adfNCol regr L)),
        (∀ t : ℕ, t < L → j.val = (if regr = "ct" then 3 else 2) + t →
          maxLag + i.val - (L - t) < dy.length ∧
          denseOfFlat (dy.length - maxLag) (adfNCol regr L) X i j
            = dy.getD (maxLag + i.val - (L - t)) 0) ∧
        (j.val = (if regr = "ct" then 3 else 2) →
          denseOfFlat (dy.length - maxLag) (adfNCol regr L) X i j
            = dy.getD (maxLag + i.val - L) 0) ∧
        (j.val = (if regr = "ct" then 3 else 2) + (L - 1) →
          denseOfFlat (dy.length - maxLag) (adfNCol regr L) X i j
            = dy.getD (maxLag + i.val - 1) 0) := by
  obtain ⟨X, hX, hcol⟩ := adfBuffer_entries dy (ylag.take (ylag.length - maxLag)) regr maxLag
    L (dy.length - maxLag) hr
  refine ⟨X, hX, ?_, ?_⟩
  · intro h10
    have hc0 : adfNCol regr L ≠ 0 := by
      rcases hr with rfl | rfl
      · simp [adfNCol]
      · simp [adfNCol]
    exact adfOLS_eq lib dy ylag regr maxLag L (dy.length - maxLag) (adfNCol regr L) X
      (by simp) (by omega) (by omega) rfl hc0 hX
  · intro i j
    have hi := i.isLt
    refine ⟨?_, ?_, ?_⟩
    · intro t ht hj
      refine ⟨by omega, ?_⟩
      rw [(hcol i j).2.2.2 t ht hj]
      congr 1
      omega
    · intro hj
      rw [(hcol i j).2.2.2 0 (by omega) (by omega)]
      congr 1
      omega
    · intro hj
      rw [(hcol i j).2.2.2 (L - 1) (by omega) hj]
      congr 1
      omega

/-- Instance of C31 (amended) on the differences `1, 2, .., 12` with trend `"c"`,
`maxLag = 2` and `L = 2`. -/
theorem C31_lag_columns_oldest_first_witness :
    ∃ X : List ℚ,
      adfBuffer [1, 2, 3, 4, 5, 6, 7, 8, 9, 10, 11, 12]
        (([0, 1, 3, 6, 10, 15, 21, 28, 36, 45, 55, 66] : List ℚ).take
          (([0, 1, 3, 6, 10, 15, 21, 28, 36, 45, 55, 66] : List ℚ).length - 2))
        "c" 2 2 (([1, 2, 3, 4, 5, 6, 7, 8, 9, 10, 11, 12] : List ℚ).length - 2)
        (adfNCol "c" 2) = some X :=
  let ⟨X, hX, _⟩ := C31_lag_columns_oldest_first ratLib [1, 2, 3, 4, 5, 6, 7, 8, 9, 10, 11, 12]
    [0, 1, 3, 6, 10, 15, 21, 28, 36, 45, 55, 66] "c" 2 2 (Or.inl rfl) (by decide) (by decide)
  ⟨X, hX⟩

/-! ## Statements about the helpers of `ml/ols/lasso_regr.go` -/

/-- C32 (counterexample): `float64` values are rational numbers, and the column `1, 2, 3`
has the population variance `2/3`, which is not the square of a rational number.  So
whatever value the square-root routine returns, the recorded standard deviation of the
column is not its population standard deviation, and the standardised column does not have
the population variance `1` (its mean is `0`). -/
theorem C32_counterexample :
    (∑ i : Fin 3, (toDense 3 1 [[1], [2], [3]] i 0
        - (∑ i : Fin 3, toDense 3 1 [[1], [2], [3]] i 0) / ((3 : ℕ) : ℚ))
      * (toDense 3 1 [[1], [2], [3]] i 0
        - (∑ i : Fin 3, toDense 3 1 [[1], [2], [3]] i 0) / ((3 : ℕ) : ℚ))) / ((3 : ℕ) : ℚ)
      = 2 / 3 ∧
    (¬ ∃ lib : NumLib,
      (standardizeExceptIntercept lib (toDense 3 1 [[1], [2], [3]]) false).2.2 0
        * (standardizeExceptIntercept lib (toDense 3 1 [[1], [2], [3]]) false).2.2 0
        = 2 / 3) ∧
    ¬ ∃ lib : NumLib,
      (∑ i : Fin 3, (standardizeExceptIntercept lib (toDense 3 1 [[1], [2], [3]]) false).1 i 0
        * (standardizeExceptIntercept lib (toDense 3 1 [[1], [2], [3]]) false).1 i 0)
        / ((3 : ℕ) : ℚ) = 1 := by
  have hsq : ∀ q : ℚ, q * q ≠ 2 / 3 := by
    intro q hq
    have h6 : ¬ IsSquare (6 : ℕ) := by
      rintro ⟨r, hr⟩
      have hr3 : r < 3 := by nlinarith
      interval_cases r <;> omega
    have hirr : Irrational (Real.sqrt ((6 : ℕ) : ℝ)) := irrational_sqrt_natCast_iff.mpr h6
    apply hirr
    refine ⟨|3 * q|, ?_⟩
    have hq2 : ((3 * q : ℚ) : ℝ) * ((3 * q : ℚ) : ℝ) = ((6 : ℕ) : ℝ) := by
      have : (3 * q) * (3 * q) = (6 : ℚ) := by linear_combination 9 * hq
      exact_mod_cast this
    rw [← hq2, Real.sqrt_mul_self_eq_abs]
    push_cast
    rfl
  have hvar : (∑ i : Fin 3, (toDense 3 1 [[1], [2], [3]] i 0
        - (∑ i : Fin 3, toDense 3 1 [[1], [2], [3]] i 0) / ((3 : ℕ) : ℚ))
      * (toDense 3 1 [[1], [2], [3]] i 0
        - (∑ i : Fin 3, toDense 3 1 [[1], [2], [3]] i 0) / ((3 : ℕ) : ℚ))) / ((3 : ℕ) : ℚ)
      = 2 / 3 := by
    simp [toDense, Fin.sum_univ_succ]
    norm_num
  refine ⟨hvar, ?_, ?_⟩
  · rintro ⟨lib, h⟩
    exact hsq _ h
  · rintro ⟨lib, h⟩
    have hσ := std_stds_ne_zero lib (toDense 3 1 [[1], [2], [3]]) false 0
    have hμ := std_means_apply lib (toDense 3 1 [[1], [2], [3]]) false 0 (by simp)
    simp only [std_fst_apply] at h
    rw [hμ] at h
    generalize (standardizeExceptIntercept lib (toDense 3 1 [[1], [2], [3]]) false).2.2 0 = s
      at h hσ
    simp [toDense, Fin.sum_univ_succ] at h
    apply hsq s
    field_simp at h
    linarith

/-- The translation over `ℚ` is the instance of the translation over a field. -/
theorem standardizeExceptIntercept_eq_over (lib : NumLib) {n p : ℕ}
    (X : Matrix (Fin n) (Fin p) ℚ) (withIntercept : Bool) :
    standardizeExceptIntercept lib X withIntercept
      = standardizeExceptInterceptOver lib.Sqrt X withIntercept := rfl

/-- C32: in exact real arithmetic (`math.Sqrt` read as the real square root), for every
matrix with `n ≥ 1` rows, after `standardizeExceptIntercept` a non-intercept column `j`
whose values are not all equal has mean `0` and population standard deviation `1`, and the
returned `means[j]`, `stds[j]` are the original mean and population standard deviation of
the column; with `withIntercept` set, column `0` is unchanged with recorded mean `0` and
standard deviation `1`. -/
theorem C32_standardize_columns {n p : ℕ} (X : Matrix (Fin n) (Fin p) ℝ)
    (withIntercept : Bool) (hn : 0 < n) (j : Fin p) :
    ((if withIntercept then 1 else 0) ≤ j.val → (∃ i1 i2, X i1 j ≠ X i2 j) →
      (standardizeExceptInterceptOver Real.sqrt X withIntercept).2.1 j
        = (∑ i, X i j) / (n : ℝ) ∧
      (standardizeExceptInterceptOver Real.sqrt X withIntercept).2.2 j
        = Real.sqrt ((∑ i, (X i j - (∑ i, X i j) / (n : ℝ))
            * (X i j - (∑ i, X i j) / (n : ℝ))) / (n : ℝ)) ∧
      (∑ i, (standardizeExceptInterceptOver Real.sqrt X withIntercept).1 i j) / (n : ℝ) = 0 ∧
      Real.sqrt ((∑ i, ((standardizeExceptInterceptOver Real.sqrt X withIntercept).1 i j
            - (∑ i, (standardizeExceptInterceptOver Real.sqrt X withIntercept).1 i j)
              / (n : ℝ))
          * ((standardizeExceptInterceptOver Real.sqrt X withIntercept).1 i j
            - (∑ i, (standardizeExceptInterceptOver Real.sqrt X withIntercept).1 i j)
              / (n : ℝ)))
        / (n : ℝ)) = 1) ∧
    (withIntercept = true → j.val = 0 →
      (∀ i, (standardizeExceptInterceptOver Real.sqrt X withIntercept).1 i j = X i j) ∧
      (standardizeExceptInterceptOver Real.sqrt X withIntercept).2.1 j = 0 ∧
      (standardizeExceptInterceptOver Real.sqrt X withIntercept).2.2 j = 1) := by
  have hn0 : (n : ℝ) ≠ 0 := by exact_mod_cast (Nat.pos_iff_ne_zero.mp hn)
  have hnpos : (0 : ℝ) < (n : ℝ) := by exact_mod_cast hn
  constructor
  · intro hj hne
    generalize hv : (∑ i, (X i j - (∑ i, X i j) / (n : ℝ))
      * (X i j - (∑ i, X i j) / (n : ℝ))) / (n : ℝ) = v
    -- the variance of a column that is not constant is positive
    have hvpos : 0 < v := by
      rw [← hv]
      apply div_pos _ hnpos
      obtain ⟨i1, i2, h12⟩ := hne
      have hex : ∃ i, X i j - (∑ i, X i j) / (n : ℝ) ≠ 0 := by
        by_contra hall
        push_neg at hall
        apply h12
        have e1 := hall i1
        have e2 := hall i2
        linarith
      obtain ⟨i0, hi0⟩ := hex
      have hterm : 0 < (X i0 j - (∑ i, X i j) / (n : ℝ))
          * (X i0 j - (∑ i, X i j) / (n : ℝ)) := mul_self_pos.mpr hi0
      exact lt_of_lt_of_le hterm
        (Finset.single_le_sum (f := fun i => (X i j - (∑ i, X i j) / (n : ℝ))
            * (X i j - (∑ i, X i j) / (n : ℝ)))
          (fun i _ => mul_self_nonneg _) (Finset.mem_univ i0))
    have hs0 : Real.sqrt v ≠ 0 := ne_of_gt (Real.sqrt_pos.mpr hvpos)
    have hsq : Real.sqrt v * Real.sqrt v = v := Real.mul_self_sqrt (le_of_lt hvpos)
    have hmean : (standardizeExceptInterceptOver Real.sqrt X withIntercept).2.1 j
        = (∑ i, X i j) / (n : ℝ) := by
      unfold standardizeExceptInterceptOver
      simp only []
      rw [if_pos hj]
    have hstd : (standardizeExceptInterceptOver Real.sqrt X withIntercept).2.2 j
        = Real.sqrt v := by
      unfold standardizeExceptInterceptOver
      simp only []
      rw [if_pos hj, hv, if_neg hs0]
    have hcol : ∀ i, (standardizeExceptInterceptOver Real.sqrt X withIntercept).1 i j
        = (X i j - (∑ i, X i j) / (n : ℝ)) / Real.sqrt v := by
      intro i
      unfold standardizeExceptInterceptOver
      simp only [Matrix.of_apply]
      rw [if_pos hj, hv, if_neg hs0]
    have hsum : ∑ i, (standardizeExceptInterceptOver Real.sqrt X withIntercept).1 i j = 0 := by
      simp only [hcol]
      rw [← Finset.sum_div, Finset.sum_sub_distrib, Finset.sum_const, Finset.card_univ,
        Fintype.card_fin, nsmul_eq_mul, mul_div_cancel₀ _ hn0, sub_self, zero_div]
    refine ⟨hmean, hstd, by rw [hsum, zero_div], ?_⟩
    rw [hsum, zero_div]
    simp only [hcol, sub_zero]
    have e : ∀ i : Fin n, (X i j - (∑ i, X i j) / (n : ℝ)) / Real.sqrt v
        * ((X i j - (∑ i, X i j) / (n : ℝ)) / Real.sqrt v)
        = (X i j - (∑ i, X i j) / (n : ℝ)) * (X i j - (∑ i, X i j) / (n : ℝ))
          / (Real.sqrt v * Real.sqrt v) := by
      intro i
      rw [div_mul_div_comm]
    simp only [e]
    rw [← Finset.sum_div, div_div, mul_comm (Real.sqrt v * Real.sqrt v), ← div_div, hv, hsq,
      div_self (ne_of_gt hvpos), Real.sqrt_one]
  · intro hw h0
    subst hw
    have hj : ¬ ((if true = true then 1 else 0) ≤ j.val) := by
      rw [if_pos rfl]
      omega
    refine ⟨fun i => ?_, ?_, ?_⟩
    · unfold standardizeExceptInterceptOver
      simp only [Matrix.of_apply]
      exact if_neg hj
    · unfold standardizeExceptInterceptOver
      simp only []
      exact if_neg hj
    · unfold standardizeExceptInterceptOver
      simp only []
      exact if_neg hj

/-- Instance of C32 on the 3 × 2 matrix with rows `[1, 1]`, `[1, 2]`, `[1, 3]` and the
intercept in column `0`: column `1` has mean `2` and variance `2/3`, which is not the
square of a rational number. -/
theorem C32_standardize_columns_witness :
    ((standardizeExceptInterceptOver Real.sqrt
        (Matrix.of fun (i : Fin 3) (j : Fin 2) => if j.val = 0 then (1 : ℝ) else (i.val : ℝ) + 1)
        true).2.1 1
      = (∑ i : Fin 3, (Matrix.of fun (i : Fin 3) (j : Fin 2) =>
          if j.val = 0 then (1 : ℝ) else (i.val : ℝ) + 1) i 1) / ((3 : ℕ) : ℝ)) ∧
    (∑ i : Fin 3, (standardizeExceptInterceptOver Real.sqrt
        (Matrix.of fun (i : Fin 3) (j : Fin 2) => if j.val = 0 then (1 : ℝ) else (i.val : ℝ) + 1)
        true).1 i 1) / ((3 : ℕ) : ℝ) = 0 ∧
    (standardizeExceptInterceptOver Real.sqrt
        (Matrix.of fun (i : Fin 3) (j : Fin 2) => if j.val = 0 then (1 : ℝ) else (i.val : ℝ) + 1)
        true).2.2 0 = 1 :=
  ⟨((C32_standardize_columns
        (Matrix.of fun (i : Fin 3) (j : Fin 2) => if j.val = 0 then (1 : ℝ) else (i.val : ℝ) + 1)
        true (by decide) 1).1 (by simp) ⟨0, 1, by simp⟩).1,
   ((C32_standardize_columns
        (Matrix.of fun (i : Fin 3) (j : Fin 2) => if j.val = 0 then (1 : ℝ) else (i.val : ℝ) + 1)
        true (by decide) 1).1 (by simp) ⟨0, 1, by simp⟩).2.2.1,
   ((C32_standardize_columns
        (Matrix.of fun (i : Fin 3) (j : Fin 2) => if j.val = 0 then (1 : ℝ) else (i.val : ℝ) + 1)
        true (by decide) 0).2 rfl rfl).2.2⟩

/-- C33 (failing input): `logisticL1Objective` does not receive the intercept flag; it takes
column 0 for the intercept whenever `|X[0][0] − 1| ≤ 1e-12`.  On a design whose column 0 is
the intercept (all ones) it is the mean logistic loss plus `α·Σ_{j≥1} |β_j|`, and on a
design with `|X[0][0] − 1| > 1e-12` it is the loss plus `α·Σ_{j≥0} |β_j|`.  But the design
`[[3], [1]]` without intercept is standardised to `[[1], [-1]]`, and there the objective
is the loss alone: the coefficient `β_0` of a penalised column is left out of the penalty,
which at `β_0 = 1`, `α = 1` is `1` less than the loss plus `α·Σ_{j≥0} |β_j|`. -/
theorem C33_objective_guesses_intercept (elib : LogitLib) :
    (∀ (n p : ℕ) (X : Matrix (Fin n) (Fin p) ℚ) (Y : Fin n → ℚ) (beta : ℕ → ℚ) (alpha : ℚ)
        (hn : 0 < n) (hp : 0 < p),
      ((∀ i, X i ⟨0, hp⟩ = 1) →
        logisticL1Objective elib X Y beta alpha
          = specLogisticObjective elib X Y beta alpha true) ∧
      (|X ⟨0, hn⟩ ⟨0, hp⟩ - 1| > 1 / 10 ^ 12 →
        logisticL1Objective elib X Y beta alpha
          = specLogisticObjective elib X Y beta alpha false)) ∧
    (standardizeExceptIntercept ratLib (toDense 2 1 [[3], [1]]) false).1
      = toDense 2 1 [[1], [-1]] ∧
    (∀ (Y : Fin 2 → ℚ) (beta : ℕ → ℚ) (alpha : ℚ),
      logisticL1Objective elib (toDense 2 1 [[1], [-1]]) Y beta alpha
        = specLogisticLoss elib (toDense 2 1 [[1], [-1]]) Y beta ∧
      specLogisticObjective elib (toDense 2 1 [[1], [-1]]) Y beta alpha false
        = specLogisticLoss elib (toDense 2 1 [[1], [-1]]) Y beta + alpha * |beta 0|) ∧
    logisticL1Objective elib (toDense 2 1 [[1], [-1]]) ![1, 0] (fun _ => 1) 1 + 1
      = specLogisticObjective elib (toDense 2 1 [[1], [-1]]) ![1, 0] (fun _ => 1) 1 false := by
  have hcode : ∀ (Y : Fin 2 → ℚ) (beta : ℕ → ℚ) (alpha : ℚ),
      logisticL1Objective elib (toDense 2 1 [[1], [-1]]) Y beta alpha
        = specLogisticLoss elib (toDense 2 1 [[1], [-1]]) Y beta := by
    intro Y beta alpha
    unfold logisticL1Objective specLogisticLoss
    simp [toDense]
  have hspec : ∀ (Y : Fin 2 → ℚ) (beta : ℕ → ℚ) (alpha : ℚ),
      specLogisticObjective elib (toDense 2 1 [[1], [-1]]) Y beta alpha false
        = specLogisticLoss elib (toDense 2 1 [[1], [-1]]) Y beta + alpha * |beta 0| := by
    intro Y beta alpha
    unfold specLogisticObjective
    simp
  refine ⟨?_, ?_, fun Y beta alpha => ⟨hcode Y beta alpha, hspec Y beta alpha⟩, ?_⟩
  · intro n p X Y beta alpha hn hp
    constructor
    · intro hone
      have h0 : ¬ (|X ⟨0, hn⟩ ⟨0, hp⟩ - 1| > 1 / 10 ^ 12) := by
        rw [hone]
        norm_num
      unfold logisticL1Objective specLogisticObjective specLogisticLoss
      simp only [dif_pos (And.intro hn hp), if_neg h0, if_true]
    · intro hfar
      unfold logisticL1Objective specLogisticObjective specLogisticLoss
      simp only [dif_pos (And.intro hn hp), if_pos hfar, Bool.false_eq_true, if_false]
  · ext i j
    revert i j
    simp [Fin.forall_fin_succ, standardizeExceptIntercept, toDense, Fin.sum_univ_succ]
    norm_num [ratSqrt_one]
  · rw [hcode, hspec]
    norm_num

/-- C34: for every `z` and every threshold `a ≥ 0`,
`softThreshold z a = sign(z)·max(|z| − a, 0)`; it is `0` exactly when `|z| ≤ a`, and
otherwise it is `z` moved towards `0` by `a`. -/
theorem C34_soft_threshold (z a : ℚ) (ha : 0 ≤ a) :
    softThreshold z a = (SignType.sign z : ℚ) * max (|z| - a) 0 ∧
    (softThreshold z a = 0 ↔ |z| ≤ a) ∧
    (a < z → softThreshold z a = z - a) ∧ (z < -a → softThreshold z a = z + a) := by
  unfold softThreshold
  by_cases h1 : z > a
  · have hz : 0 < z := lt_of_le_of_lt ha h1
    have habs : |z| = z := abs_of_pos hz
    rw [if_pos h1, habs, sign_pos hz, max_eq_left (by linarith)]
    refine ⟨by simp, ?_, fun _ => rfl, fun h => ?_⟩
    · constructor
      · intro h
        linarith
      · intro h
        linarith
    · linarith
  · rw [if_neg h1]
    by_cases h2 : z < -a
    · have hz : z < 0 := by linarith
      have habs : |z| = -z := abs_of_neg hz
      rw [if_pos h2, habs, sign_neg hz, max_eq_left (by linarith)]
      refine ⟨by simp [add_comm], ?_, fun h => absurd h h1, fun _ => rfl⟩
      constructor
      · intro h
        linarith
      · intro h
        linarith
    · rw [if_neg h2]
      have hle : |z| ≤ a := abs_le.mpr ⟨by linarith, by linarith⟩
      rw [max_eq_right (by linarith)]
      exact ⟨by simp, ⟨fun _ => hle, fun _ => rfl⟩, fun h => absurd h h1, fun h => absurd h h2⟩

/-- Instance of C34: `softThreshold 3 1 = 2`, `softThreshold (-3) 1 = -2` and
`softThreshold (1/2) 1 = 0`. -/
theorem C34_soft_threshold_witness :
    softThreshold 3 1 = 2 ∧ softThreshold (-3) 1 = -2 ∧ softThreshold (1 / 2) 1 = 0 :=
  ⟨by
    have h := (C34_soft_threshold 3 1 (by norm_num)).2.2.1 (by norm_num)
    rw [h]
    norm_num,
   by
    have h := (C34_soft_threshold (-3) 1 (by norm_num)).2.2.2 (by norm_num)
    rw [h]
    norm_num,
   (C34_soft_threshold (1 / 2) 1 (by norm_num)).2.1.mpr (by
    rw [abs_of_pos (by norm_num)]
    norm_num)⟩

/-- C35: for linear LASSO with `withIntercept = true`, every `α` and every design with
`n ≥ 1` rows and a response of length `n`, `MultiRegressionLasso` returns no error and
residuals that sum to `0`.  Every pass of the coordinate descent over the standardised
design leaves the intercept at `mean(y)`, whatever the coefficients it starts from, so the
intercept at which the loop stops is `mean(y)`; the destandardisation keeps the sum of the
fitted values at `n·mean(y)`. -/
theorem C35_residuals_sum_zero (lib : NumLib) (elib : LogitLib) {n p : ℕ}
    (matX : Matrix (Fin n) (Fin p) ℚ) (matY : List ℚ) (alpha : ℚ) (hn : 0 < n)
    (hY : matY.length = n) :
    (MultiRegressionLasso lib elib matX matY alpha false true).2 = none ∧
    (MultiRegressionLasso lib elib matX matY alpha false true).1.Resids.sum = 0 ∧
    (∀ beta : ℕ → ℚ,
      (cdSweep (lassoStdDesign lib matX) (toVecDense n matY) (alpha / (n : ℚ)) true beta).1 0
        = (∑ i, toVecDense n matY i) / (n : ℚ)) ∧
    cdLoop (lassoStdDesign lib matX) (toVecDense n matY) (alpha / (n : ℚ)) true (1 / 10 ^ 5)
        10000 (fun _ => 0) 0
      = (∑ i, toVecDense n matY i) / (n : ℚ) := by
  have hn0 : (n : ℚ) ≠ 0 := by exact_mod_cast (Nat.pos_iff_ne_zero.mp hn)
  generalize hYv : toVecDense n matY = Y
  generalize ha : alpha / (n : ℚ) = a
  -- every pass sets the intercept to the mean of the response
  have hsweep : ∀ beta : ℕ → ℚ,
      (cdSweep (lassoStdDesign lib matX) Y a true beta).1 0 = (∑ i, Y i) / (n : ℚ) := by
    intro beta
    unfold cdSweep
    simp only [if_true]
    rw [cdFold_untouched _ _ _ _ _ _ 0 (fun j _ hj => by omega), cdIntercept_fst,
      Function.update_same, Finset.sum_sub_distrib, Finset.sum_comm]
    have hz : ∀ j : Fin (p + 1),
        (∑ i, if 1 ≤ j.val then lassoStdDesign lib matX i j * beta j.val else 0) = 0 := by
      intro j
      by_cases hj : 1 ≤ j.val
      · simp only [if_pos hj]
        rw [← Finset.sum_mul]
        unfold lassoStdDesign
        rw [std_col_sum lib _ true hn j (by simpa using hj), zero_mul]
      · simp only [if_neg hj]
        exact Finset.sum_const_zero
    simp only [hz]
    rw [Finset.sum_const_zero, sub_zero]
  have hloop : ∀ (fuel : ℕ) (beta : ℕ → ℚ),
      cdLoop (lassoStdDesign lib matX) Y a true (1 / 10 ^ 5) (fuel + 1) beta 0
        = (∑ i, Y i) / (n : ℚ) := by
    intro fuel
    induction fuel with
    | zero =>
      intro beta
      rw [cdLoop_succ]
      split_ifs
      · exact hsweep beta
      · exact hsweep beta
    | succ k ih =>
      intro beta
      rw [cdLoop_succ]
      split_ifs
      · exact hsweep beta
      · exact ih _
  have hstop := hloop 9999 (fun _ => 0)
  rw [show 9999 + 1 = 10000 from rfl] at hstop
  refine ⟨(MultiRegressionLasso_linear lib elib matX matY alpha true hY).1, ?_, hsweep, hstop⟩
  -- the residuals
  unfold MultiRegressionLasso
  rw [if_neg (by simpa using hY)]
  simp only [lassoLinearCD, Bool.false_eq_true, if_false, List.sum_ofFn, hYv, ha]
  unfold lassoLinearCDOn computePred
  simp only [show (10000 : ℤ).toNat = 10000 from rfl]
  generalize hβ : cdLoop (standardizeExceptIntercept lib (addInterceptColumnDense matX) true).1
    Y a true (1 / 10 ^ 5) 10000 (fun _ => 0) = β
  have hβ0 : β 0 = (∑ i, Y i) / (n : ℚ) := by
    rw [← hβ]
    exact hstop
  generalize hs : standardizeExceptIntercept lib (addInterceptColumnDense matX) true = s
  have hmean : ∀ j : Fin (p + 1), 1 ≤ j.val →
      s.2.1 j = (∑ i, addInterceptColumnDense matX i j) / (n : ℚ) := by
    intro j hj
    rw [← hs]
    exact std_means_apply lib _ true j (by simpa using hj)
  have hD : ∀ j : Fin (p + 1),
      (destandardizeBeta (p + 1) β s.2.1 s.2.2 true).getD j.val 0
        = (if j.val = 0 then
            β 0 - ∑ k : Fin (p + 1), if 1 ≤ k.val then s.2.1 k / s.2.2 k * β k.val else 0
          else 0)
          + (if 1 ≤ j.val then β j.val / s.2.2 j else 0) := by
    intro j
    by_cases hj : 1 ≤ j.val
    · rw [destandardizeBeta_getD _ _ _ _ _ j (by simpa using hj), if_neg (by omega),
        if_pos hj, zero_add]
    · have hj0 : j.val = 0 := by omega
      unfold destandardizeBeta
      simp only []
      rw [ofFn_getD]
      simp [hj0]
  have hcol0 : ∀ (i : Fin n) (j : Fin (p + 1)), j.val = 0 →
      addInterceptColumnDense matX i j = 1 := by
    intro i j hj
    simp [addInterceptColumnDense, hj]
  rw [Finset.sum_sub_distrib, Finset.sum_comm]
  simp only [← Finset.sum_mul, hD]
  have hterm : ∀ j : Fin (p + 1),
      (∑ i, addInterceptColumnDense matX i j)
          * ((if j.val = 0 then
              β 0 - ∑ k : Fin (p + 1), if 1 ≤ k.val then s.2.1 k / s.2.2 k * β k.val else 0
            else 0)
            + (if 1 ≤ j.val then β j.val / s.2.2 j else 0))
        = (if j = (0 : Fin (p + 1)) then
            (n : ℚ) * (β 0
              - ∑ k : Fin (p + 1), if 1 ≤ k.val then s.2.1 k / s.2.2 k * β k.val else 0)
          else 0)
          + (n : ℚ) * (if 1 ≤ j.val then s.2.1 j / s.2.2 j * β j.val else 0) := by
    intro j
    by_cases hj : 1 ≤ j.val
    · have hj0 : ¬ j.val = 0 := by omega
      have hj1 : ¬ j = (0 : Fin (p + 1)) := fun h => hj0 (by rw [h]; rfl)
      rw [if_neg hj0, if_pos hj, if_neg hj1, if_pos hj, hmean j hj]
      generalize (∑ i, addInterceptColumnDense matX i j) = S
      by_cases hσ : s.2.2 j = 0
      · simp [hσ]
      · field_simp
        ring
    · have hj0 : j.val = 0 := by omega
      have hj1 : j = (0 : Fin (p + 1)) := Fin.ext hj0
      rw [if_pos hj0, if_neg hj, if_pos hj1, if_neg hj]
      simp only [hcol0 _ j hj0]
      simp
  simp only [hterm]
  rw [Finset.sum_add_distrib, Finset.sum_ite_eq', if_pos (Finset.mem_univ _),
    ← Finset.mul_sum, hβ0]
  have hnm : (n : ℚ) * ((∑ i, Y i) / (n : ℚ)) = ∑ i, Y i := by field_simp
  rw [mul_sub, sub_add_cancel, hnm, sub_self]

/-- Instance of C35 on the rows `[1]`, `[3]` with the response `[2, -1]` and `α = 1`. -/
theorem C35_residuals_sum_zero_witness :
    (MultiRegressionLasso ratLib ratLogit (toDense 2 1 [[1], [3]]) [2, -1] 1 false true).2
      = none ∧
    (MultiRegressionLasso ratLib ratLogit (toDense 2 1 [[1], [3]]) [2, -1] 1 false
      true).1.Resids.sum = 0 :=
  ⟨(C35_residuals_sum_zero ratLib ratLogit (toDense 2 1 [[1], [3]]) [2, -1] 1 (by decide)
      rfl).1,
   (C35_residuals_sum_zero ratLib ratLogit (toDense 2 1 [[1], [3]]) [2, -1] 1 (by decide)
      rfl).2.1⟩

/-! ## Statements about lag 0 of `AutoCorrSegments` -/

/-- C36: for a `MultiSegments` value built successfully by `NewMultiSeg` and `maxLag ≥ 1`,
entry `0` of `AutoCorrSegments(maxLag)` is `1`: the lag-0 numerator is `N·σ²` for the mean
and the population variance stored at construction, and the lag-0 pair count is `N`. -/
theorem C36_lag_zero_is_one (eps : List (List ℚ)) (s : MultiSegments) (maxLag : ℤ)
    (hs : NewMultiSeg eps = (some s, none)) (hl : 1 ≤ maxLag) :
    numK s.mean s.eps 0 = (s.totalN : ℚ) * s.variance ∧
    (pairsK s.eps 0 : ℤ) = s.totalN ∧
    ∃ out : List (F64 ℚ),
      AutoCorrSegments s maxLag = (some out, none) ∧ out[0]? = some (F64.fin 1) := by
  have hcat : ∀ (l : List (List ℚ)) (init : List ℚ),
      l.foldl (fun all seg => all ++ seg) init = init ++ l.flatten := by
    intro l
    induction l with
    | nil => intro init; simp
    | cons a t ih => intro init; simp [ih]
  have hlen : ∀ (l : List (List ℚ)) (init : ℤ),
      l.foldl (fun N seg => N + (seg.length : ℤ)) init = init + (l.flatten.length : ℤ) := by
    intro l
    induction l with
    | nil => intro init; simp
    | cons a t ih => intro init; simp [ih, add_assoc]
  have hseg : ∀ (mean : ℚ) (seg : List ℚ),
      ((List.range (seg.length - 0)).map fun t =>
        (seg.getD t 0 - mean) * (seg.getD (t + 0) 0 - mean)).sum
        = (seg.map fun v => (v - mean) * (v - mean)).sum := by
    intro mean seg
    congr 1
    apply List.ext_getElem
    · simp
    · intro i h1 h2
      have hi : i < seg.length := by simpa using h2
      simp [List.getElem?_eq_getElem hi]
  have hnum : ∀ (mean : ℚ) (l : List (List ℚ)),
      numK mean l 0 = (l.flatten.map fun v => (v - mean) * (v - mean)).sum := by
    intro mean l
    induction l with
    | nil => simp [numK]
    | cons a t ih =>
      have e : numK mean (a :: t) 0
          = ((List.range (a.length - 0)).map fun t =>
              (a.getD t 0 - mean) * (a.getD (t + 0) 0 - mean)).sum + numK mean t 0 := by
        simp [numK]
      rw [e, hseg, ih]
      simp
  have hpairs : ∀ l : List (List ℚ), pairsK l 0 = l.flatten.length := by
    intro l
    induction l with
    | nil => simp [pairsK]
    | cons a t ih =>
      have e : pairsK (a :: t) 0 = a.length + pairsK t 0 := by simp [pairsK]
      rw [e, ih]
      simp
  unfold NewMultiSeg at hs
  simp only [hcat, hlen, List.nil_append, zero_add] at hs
  split_ifs at hs with h1 h2 h3
  · simp at hs
  · simp at hs
  · simp at hs
  have hs2 := (Prod.mk.inj hs).1
  simp only [Option.some.injEq] at hs2
  subst hs2
  simp only []
  have hN : (eps.flatten.length : ℚ) ≠ 0 := by
    intro h0
    apply h2
    exact_mod_cast h0
  have hnumeq : numK (ArrMean eps.flatten) eps 0
      = (eps.flatten.length : ℚ) * WelfordVariancePopulation eps.flatten := by
    rw [hnum]
    unfold WelfordVariancePopulation
    generalize (eps.flatten.map fun v =>
      (v - ArrMean eps.flatten) * (v - ArrMean eps.flatten)).sum = S
    generalize (eps.flatten.length : ℚ) = L at hN
    field_simp
  refine ⟨by rw [hnumeq, Int.cast_natCast], by rw [hpairs], ?_⟩
  have hm : maxLag.toNat = (maxLag.toNat - 1) + 1 := by omega
  unfold AutoCorrSegments
  rw [if_neg (by omega)]
  refine ⟨_, rfl, ?_⟩
  · rw [hm]
    unfold acfLoop
    simp only [lagAccum_eq, hpairs, hnumeq]
    rw [if_neg (by exact_mod_cast h2)]
    rw [fdiv_of_ne_zero _ _ (by
      simp only [Int.cast_natCast]
      exact mul_ne_zero h3 hN)]
    simp only [Int.cast_natCast, List.getElem?_cons_zero, Option.some.injEq, F64.fin.injEq]
    rw [mul_comm]
    exact div_self (mul_ne_zero h3 hN)

/-- Instance of C36 on the two segments `[1, 3]` and `[2]`: mean `2`, variance `2/3`,
`N = 3`. -/
theorem C36_lag_zero_is_one_witness :
    NewMultiSeg [[1, 3], [2]]
      = (some { eps := [[1, 3], [2]], totalN := 3, mean := 2, variance := 2 / 3 }, none) ∧
    numK 2 [[1, 3], [2]] 0 = ((3 : ℤ) : ℚ) * (2 / 3) ∧
    (pairsK [[1, 3], [2]] 0 : ℤ) = 3 ∧
    ∃ out : List (F64 ℚ),
      AutoCorrSegments { eps := [[1, 3], [2]], totalN := 3, mean := 2, variance := 2 / 3 } 5
        = (some out, none) ∧ out[0]? = some (F64.fin 1) := by
  have h : NewMultiSeg [[1, 3], [2]]
      = (some { eps := [[1, 3], [2]], totalN := 3, mean := 2, variance := 2 / 3 }, none) := by
    simp [NewMultiSeg, ArrMean, WelfordVariancePopulation]
    norm_num
  exact ⟨h, C36_lag_zero_is_one [[1, 3], [2]] _ 5 h (by decide)⟩

/-! ## Invariants of `AutoFitRange` -/

/-- C37: when at least 20 indices `2 ≤ k < len(acf)` have `acf[k] > 0`, the pair
`(start, end)` returned by `AutoFitRange` satisfies `2 ≤ start`, `start + 12 ≤ end`,
`end ≤ len(acf) − 1`, `acf[start] > 0` and `acf[end] > 0`, and it is the pair of entries of
`valid` read before the clamps, neither of whose conditions (`end ≤ start + 5`, `end ≥ n`)
holds. -/
theorem C37_fit_range_invariants (acf : List (F64 ℚ))
    (h20 : 20 ≤ ((Finset.range acf.length).filter fun k =>
      2 ≤ k ∧ acfPos (acf.getD k .nan) = true).card) :
    2 ≤ (AutoFitRange acf).1 ∧
    (AutoFitRange acf).1 + 12 ≤ (AutoFitRange acf).2 ∧
    (AutoFitRange acf).2 ≤ (acf.length : ℤ) - 1 ∧
    acfPos (acf.getD (AutoFitRange acf).1.toNat .nan) = true ∧
    acfPos (acf.getD (AutoFitRange acf).2.toNat .nan) = true ∧
    AutoFitRange acf
      = ((((validLags acf).getD
            (Int.floor (((validLags acf).length : ℚ) * (2 / 10))).toNat 0 : ℕ) : ℤ),
          (((validLags acf).getD
            (Int.floor (((validLags acf).length : ℚ) * (8 / 10))).toNat 0 : ℕ) : ℤ)) ∧
    ¬ ((((validLags acf).getD
            (Int.floor (((validLags acf).length : ℚ) * (8 / 10))).toNat 0 : ℕ) : ℤ)
        ≤ (((validLags acf).getD
            (Int.floor (((validLags acf).length : ℚ) * (2 / 10))).toNat 0 : ℕ) : ℤ) + 5) ∧
    ¬ ((((validLags acf).getD
            (Int.floor (((validLags acf).length : ℚ) * (8 / 10))).toNat 0 : ℕ) : ℤ)
        ≥ (acf.length : ℤ)) := by
  obtain ⟨hpw, hmem, -, hge⟩ := AutoFitRange_spec acf
  have hcard : (validLags acf).length
      = ((Finset.range acf.length).filter fun k =>
          2 ≤ k ∧ acfPos (acf.getD k .nan) = true).card := by
    rw [← List.toFinset_card_of_nodup (hpw.imp (fun h => ne_of_lt h))]
    congr 1
    ext k
    rw [List.mem_toFinset, hmem, Finset.mem_filter, Finset.mem_range]
    tauto
  obtain ⟨s, e, hs, he, hsm, hem, hse, hfit⟩ := hge (by omega)
  have hs2 := (hmem s).1 hsm
  have he2 := (hmem e).1 hem
  have hsD : (validLags acf).getD
      (Int.floor (((validLags acf).length : ℚ) * (2 / 10))).toNat 0 = s := by
    rw [List.getD_eq_getElem?_getD, hs]
    rfl
  have heD : (validLags acf).getD
      (Int.floor (((validLags acf).length : ℚ) * (8 / 10))).toNat 0 = e := by
    rw [List.getD_eq_getElem?_getD, he]
    rfl
  rw [hsD, heD, hfit]
  simp only [Int.toNat_ofNat]
  refine ⟨by omega, by omega, by omega, hs2.2.2, he2.2.2, trivial, by omega, by omega⟩

/-- Instance of C37: on a sequence of 30 ones the 28 lags `2..29` are positive, and the
range is `(7, 24)`. -/
theorem C37_fit_range_invariants_witness :
    20 ≤ ((Finset.range (List.replicate 30 (F64.fin (1 : ℚ))).length).filter fun k =>
      2 ≤ k ∧ acfPos ((List.replicate 30 (F64.fin (1 : ℚ))).getD k .nan) = true).card ∧
    2 ≤ (AutoFitRange (List.replicate 30 (F64.fin (1 : ℚ)))).1 ∧
    (AutoFitRange (List.replicate 30 (F64.fin (1 : ℚ)))).1 + 12
      ≤ (AutoFitRange (List.replicate 30 (F64.fin (1 : ℚ)))).2 ∧
    (AutoFitRange (List.replicate 30 (F64.fin (1 : ℚ)))).2
      ≤ ((List.replicate 30 (F64.fin (1 : ℚ))).length : ℤ) - 1 := by
  have hf : ((Finset.range (List.replicate 30 (F64.fin (1 : ℚ))).length).filter fun k =>
      2 ≤ k ∧ acfPos ((List.replicate 30 (F64.fin (1 : ℚ))).getD k .nan) = true)
      = (Finset.range 30).filter fun k => 2 ≤ k := by
    rw [List.length_replicate]
    apply Finset.filter_congr
    intro k hk
    rw [Finset.mem_range] at hk
    rw [List.getD_eq_getElem _ _ (by simpa using hk), List.getElem_replicate]
    simp [acfPos]
  have h20 : 20 ≤ ((Finset.range (List.replicate 30 (F64.fin (1 : ℚ))).length).filter fun k =>
      2 ≤ k ∧ acfPos ((List.replicate 30 (F64.fin (1 : ℚ))).getD k .nan) = true).card := by
    rw [hf]
    decide
  have h := C37_fit_range_invariants (List.replicate 30 (F64.fin (1 : ℚ))) h20
  exact ⟨h20, h.1, h.2.1, h.2.2.1⟩

/-! ## Counts of `Hist` -/

/-- C38 (counterexample): on `data = [5, 5]` with `bins = 2` both values equal the maximum
`5`, yet `Hist` counts them in bucket `0` and the last bucket stays empty: the range is
widened to `[5, 5 + 1e-9]`, so the values sit at its lower end. -/
theorem C38_counterexample :
    (histMinMax [5, 5]).2 = 5 ∧
    ∃ res : List HistogramBin, Hist [5, 5] 2 = some (some res) ∧
      res.map (fun b => (b.From, b.To, b.Count))
        = [(5, 5 + 1 / 2000000000, 2), (5 + 1 / 2000000000, 5 + 1 / 1000000000, 0)] := by
  refine ⟨by simp [histMinMax], ?_⟩
  simp [Hist, histMinMax, histCount, histIndex, List.range, List.range.loop, List.modify,
    List.modifyTailIdx]
  norm_num

/-- C38 (amended): in exact arithmetic, for non-empty data and `bins ≥ 1`, with `lo`, `mx`
the least and the greatest value, `Hist` returns `bins` buckets whose counts sum to
`len(data)`; the count of bucket `i` is the number of values `v` with `From_i ≤ v < To_i`,
except that, when the values are not all equal, the values equal to the maximum are counted
in the last bucket (when all values are equal they lie at the lower end of the widened
range, in bucket `0`); the bucket index of every value lies in `0 .. bins − 1`.  (In
`float64` the rounded quotient `(v − lo)/w` can fall below an integer it equals in exact
arithmetic, which moves a value on a bucket boundary into the bucket below.) -/
theorem C38_hist_counts (data : List ℚ) (bins : ℤ) (hd : data ≠ []) (hb : 1 ≤ bins) :
    (histMinMax data).1 ∈ data ∧ (∀ v ∈ data, (histMinMax data).1 ≤ v) ∧
    (histMinMax data).2 ∈ data ∧ (∀ v ∈ data, v ≤ (histMinMax data).2) ∧
    (∀ v ∈ data,
      0 ≤ histIndex (histMinMax data).1
          (((if (histMinMax data).2 = (histMinMax data).1
              then (histMinMax data).1 + 1 / 10 ^ 9 else (histMinMax data).2)
            - (histMinMax data).1) / (bins : ℚ)) bins v ∧
      histIndex (histMinMax data).1
          (((if (histMinMax data).2 = (histMinMax data).1
              then (histMinMax data).1 + 1 / 10 ^ 9 else (histMinMax data).2)
            - (histMinMax data).1) / (bins : ℚ)) bins v < bins) ∧
    ∃ res : List HistogramBin,
      Hist data bins = some (some res) ∧ res.length = bins.toNat ∧
      (res.map fun b => b.Count).sum = (data.length : ℤ) ∧
      ∀ (i : ℕ) (b : HistogramBin), res[i]? = some b →
        b.Count = (data.countP fun v => decide
          ((v = (histMinMax data).2 ∧ (histMinMax data).2 ≠ (histMinMax data).1
              ∧ i + 1 = bins.toNat) ∨
            (¬ (v = (histMinMax data).2 ∧ (histMinMax data).2 ≠ (histMinMax data).1)
              ∧ b.From ≤ v ∧ v < b.To)) : ℕ) := by
  obtain ⟨hlom, hlo, hmxm, hmx, res, w, hw, hwpos, hmxle, hidx, hH, hlen, hres⟩ :=
    Hist_spec data bins hd (by omega)
  rw [← hw]
  generalize (histMinMax data).1 = lo at *
  generalize (histMinMax data).2 = mx at *
  have hbq : (0 : ℚ) < (bins : ℚ) := by exact_mod_cast (by omega : 0 < bins)
  have hB : ((bins.toNat : ℕ) : ℤ) = bins := Int.toNat_of_nonneg (by omega)
  have htop : mx ≠ lo → lo + (bins : ℚ) * w = mx := by
    intro hne
    rw [hw, if_neg hne]
    field_simp
  -- the bucket of a value
  have hrule : ∀ u ∈ data, ∀ i : ℕ,
      (histIndex lo w bins u = (i : ℤ) ↔
        ((u = mx ∧ mx ≠ lo ∧ i + 1 = bins.toNat) ∨
          (¬ (u = mx ∧ mx ≠ lo)
            ∧ lo + (i : ℚ) * w ≤ u ∧ u < lo + ((i + 1 : ℕ) : ℚ) * w))) := by
    intro u hu i
    have hfl : ∀ z : ℤ, Int.floor ((u - lo) / w) = z ↔
        (lo + (z : ℚ) * w ≤ u ∧ u < lo + ((z : ℚ) + 1) * w) := by
      intro z
      rw [Int.floor_eq_iff, le_div_iff₀ hwpos, div_lt_iff₀ hwpos]
      constructor
      · rintro ⟨h1, h2⟩
        exact ⟨by linarith, by linarith⟩
      · rintro ⟨h1, h2⟩
        exact ⟨by linarith, by linarith⟩
    unfold histIndex
    simp only []
    by_cases hex : u = mx ∧ mx ≠ lo
    · have ht := htop hex.2
      have hf : Int.floor ((u - lo) / w) = bins := by
        rw [hfl]
        rw [hex.1]
        exact ⟨by linarith, by nlinarith⟩
      rw [if_pos hf]
      constructor
      · intro h
        exact Or.inl ⟨hex.1, hex.2, by omega⟩
      · rintro (⟨-, -, h⟩ | ⟨h, -⟩)
        · omega
        · exact absurd hex h
    · have hf : Int.floor ((u - lo) / w) ≠ bins := by
        intro hf
        rw [hfl] at hf
        have h1 := hmx u hu
        have hu2 : u = mx := le_antisymm h1 (by linarith [hf.1])
        apply hex
        refine ⟨hu2, ?_⟩
        intro hml
        have : (0 : ℚ) < (bins : ℚ) * w := mul_pos hbq hwpos
        linarith [hf.1]
      rw [if_neg hf, hfl]
      push_cast
      constructor
      · rintro ⟨h1, h2⟩
        exact Or.inr ⟨hex, h1, h2⟩
      · rintro (⟨h1, h2, -⟩ | ⟨-, h1, h2⟩)
        · exact absurd ⟨h1, h2⟩ hex
        · exact ⟨h1, h2⟩
  -- the counts add up
  have hsum : ∀ l : List ℚ, (∀ v ∈ l, 0 ≤ histIndex lo w bins v ∧ histIndex lo w bins v < bins) →
      ((List.range bins.toNat).map fun (i : ℕ) =>
        ((l.countP fun v => decide (histIndex lo w bins v = (i : ℤ)) : ℕ) : ℤ)).sum
        = (l.length : ℤ) := by
    intro l
    induction l with
    | nil => intro _; simp
    | cons a t ih =>
      intro hat
      have ha := hat a (List.mem_cons_self a t)
      have e : ∀ i : ℕ,
          (((a :: t).countP fun v => decide (histIndex lo w bins v = (i : ℤ)) : ℕ) : ℤ)
          = ((t.countP fun v => decide (histIndex lo w bins v = (i : ℤ)) : ℕ) : ℤ)
            + (if i = (histIndex lo w bins a).toNat then 1 else 0) := by
        intro i
        rw [List.countP_cons]
        have : (histIndex lo w bins a = (i : ℤ)) ↔ i = (histIndex lo w bins a).toNat := by
          omega
        by_cases hc : i = (histIndex lo w bins a).toNat
        · rw [if_pos hc, if_pos (decide_eq_true (this.2 hc))]
          push_cast
          rfl
        · have hn : ¬ histIndex lo w bins a = (i : ℤ) := fun h => hc (this.1 h)
          rw [if_neg hc, if_neg (by rw [decide_eq_true_eq]; exact hn)]
          push_cast
          rfl
      simp only [e]
      rw [List.sum_map_add, ih (fun v hv => hat v (List.mem_cons_of_mem a hv))]
      have hone : ((List.range bins.toNat).map fun (i : ℕ) =>
          (if i = (histIndex lo w bins a).toNat then (1 : ℤ) else 0)).sum = 1 := by
        rw [List.sum_map_ite_eq]
        have hm : (histIndex lo w bins a).toNat ∈ List.range bins.toNat := by
          rw [List.mem_range]
          omega
        rw [List.count_eq_one_of_mem (List.nodup_range _) hm]
        have z : ∀ l : List ℕ, (l.map fun _ => (0 : ℤ)).sum = 0 := by
          intro l
          induction l with
          | nil => rfl
          | cons _ _ ihl => rw [List.map_cons, List.sum_cons, ihl, add_zero]
        rw [z]
        norm_num
      rw [hone]
      simp
  have hreseq : res = (List.range bins.toNat).map fun (i : ℕ) =>
      ({ From := lo + (i : ℚ) * w, To := lo + ((i + 1 : ℕ) : ℚ) * w,
         Count := (data.countP fun v => decide (histIndex lo w bins v = (i : ℤ)) : ℕ) }
        : HistogramBin) := by
    apply List.ext_getElem?
    intro i
    rw [hres i, List.getElem?_map]
    by_cases hi : i < bins.toNat
    · rw [if_pos hi, List.getElem?_range hi]
      rfl
    · rw [if_neg hi, List.getElem?_eq_none (by simpa using hi)]
      rfl
  refine ⟨hlom, hlo, hmxm, hmx, hidx, res, hH, hlen, ?_, ?_⟩
  · rw [hreseq, List.map_map]
    exact hsum data hidx
  · intro i b hib
    rw [hres i] at hib
    split_ifs at hib with hi
    have hb2 := Option.some.inj hib
    subst hb2
    simp only [Nat.cast_inj]
    apply List.countP_congr
    intro u hu
    simp only [decide_eq_true_eq]
    exact hrule u hu i

/-- Instance of C38 (amended) on `data = [1, 2, 4]` with three buckets. -/
theorem C38_hist_counts_witness :
    ∃ res : List HistogramBin,
      Hist [1, 2, 4] 3 = some (some res) ∧ res.length = (3 : ℤ).toNat ∧
      (res.map fun b => b.Count).sum = (([1, 2, 4] : List ℚ).length : ℤ) :=
  let ⟨res, h1, h2, h3, _⟩ :=
    (C38_hist_counts [1, 2, 4] 3 (by simp) (by decide)).2.2.2.2.2
  ⟨res, h1, h2, h3⟩

/-! ## The tail argument of `AdfTest` -/

/-- C39: the tail argument of `AdfTest` influences only the `Tail` tag and the `Criticals`
table.  For every series, trend, `maxLag` and lag mode the calls with `left_tail` and
`right_tail` either both panic, or both return, with the same error value and with records
that agree in every field but `Tail` and `Criticals`: the right-tail record is the left-tail
record with `Tail` and `Criticals` replaced. -/
theorem C39_tail_changes_tag_and_table (lib : NumLib) (logPrice : List ℚ) (regr : String)
    (maxLag : ℤ) (autolag : LagMode) :
    (AdfTest lib logPrice regr maxLag autolag LEFT_TAIL = none ∧
      AdfTest lib logPrice regr maxLag autolag RIGHT_TAIL = none) ∨
    ∃ (rL rR : ADFResult) (err : Option GoError),
      AdfTest lib logPrice regr maxLag autolag LEFT_TAIL = some (rL, err) ∧
      AdfTest lib logPrice regr maxLag autolag RIGHT_TAIL = some (rR, err) ∧
      rR = { rL with Tail := RIGHT_TAIL, Criticals := adfRightTailCriticalValues regr } ∧
      rL.Gamma = rR.Gamma ∧ rL.TStat = rR.TStat ∧ rL.PValue = rR.PValue ∧
      rL.UsedLag = rR.UsedLag ∧ rL.NObs = rR.NObs ∧ rL.AIC = rR.AIC ∧ rL.BIC = rR.BIC ∧
      rL.Resid = rR.Resid ∧ rL.Coeffs = rR.Coeffs ∧ rL.Method = rR.Method ∧
      rL.Trend = rR.Trend := by
  have hsel : ∀ (r : ADFResult) (lag : ℕ) (m : MultiLinearModel) (nobs : ℕ),
      adfSelect autolag
          { r with Tail := RIGHT_TAIL, Criticals := adfRightTailCriticalValues regr } lag m nobs
        = { adfSelect autolag r lag m nobs with
            Tail := RIGHT_TAIL, Criticals := adfRightTailCriticalValues regr } := by
    intro r lag m nobs
    unfold adfSelect
    simp only []
    split_ifs <;> rfl
  have hstep : ∀ (dy ylag : List ℚ) (r : ADFResult) (lag : ℕ),
      adfStep lib dy ylag regr maxLag.toNat autolag
          { r with Tail := RIGHT_TAIL, Criticals := adfRightTailCriticalValues regr } lag
        = (adfStep lib dy ylag regr maxLag.toNat autolag r lag).map fun r2 =>
            { r2 with Tail := RIGHT_TAIL, Criticals := adfRightTailCriticalValues regr } := by
    intro dy ylag r lag
    unfold adfStep
    rcases adfOLS lib dy ylag regr maxLag.toNat lag with _ | _ | ⟨m, nobs⟩
    · rfl
    · rfl
    · simp only [hsel, Option.map_some']
  have hloop : ∀ (dy ylag : List ℚ) (lags : List ℕ) (r : ADFResult),
      adfLoop (adfStep lib dy ylag regr maxLag.toNat autolag) lags
          { r with Tail := RIGHT_TAIL, Criticals := adfRightTailCriticalValues regr }
        = (adfLoop (adfStep lib dy ylag regr maxLag.toNat autolag) lags r).map fun r2 =>
            { r2 with Tail := RIGHT_TAIL, Criticals := adfRightTailCriticalValues regr } := by
    intro dy ylag lags
    induction lags with
    | nil => intro r; rfl
    | cons lag rest ih =>
      intro r
      unfold adfLoop
      rw [hstep]
      rcases adfStep lib dy ylag regr maxLag.toNat autolag r lag with _ | r2
      · rfl
      · simp only [Option.map_some']
        exact ih r2
  have hne : ¬ (RIGHT_TAIL = LEFT_TAIL) := by decide
  unfold AdfTest
  rcases diff logPrice with _ | dy
  · exact Or.inl ⟨rfl, rfl⟩
  · simp only [if_pos, if_neg hne]
    have h := hloop dy (logPrice.take (logPrice.length - 1)) (List.range (maxLag + 1).toNat)
      { Gamma := 0, TStat := 0, PValue := 0, UsedLag := 0, NObs := 0, AIC := F64.posInf,
        BIC := F64.posInf, Method := autolag, Trend := regr,
        Criticals := adfLeftTailCriticalValues regr, Tail := LEFT_TAIL,
        Resid := [], Coeffs := [] }
    simp only [] at h
    rw [h]
    rcases adfLoop (adfStep lib dy (logPrice.take (logPrice.length - 1)) regr maxLag.toNat
        autolag) (List.range (maxLag + 1).toNat)
      { Gamma := 0, TStat := 0, PValue := 0, UsedLag := 0, NObs := 0, AIC := F64.posInf,
        BIC := F64.posInf, Method := autolag, Trend := regr,
        Criticals := adfLeftTailCriticalValues regr, Tail := LEFT_TAIL,
        Resid := [], Coeffs := [] } with _ | r
    · exact Or.inl ⟨rfl, rfl⟩
    · right
      simp only [Option.map_some']
      by_cases hc : r.AIC = F64.posInf ∨ r.BIC = F64.posInf ∨ r.TStat = 0
      · rw [if_pos hc, if_pos hc]
        exact ⟨_, _, _, rfl, rfl, rfl, rfl, rfl, rfl, rfl, rfl, rfl, rfl, rfl, rfl, rfl, rfl⟩
      · rw [if_neg hc, if_neg hc]
        exact ⟨_, _, _, rfl, rfl, rfl, rfl, rfl, rfl, rfl, rfl, rfl, rfl, rfl, rfl, rfl, rfl⟩

/-! ## Full mode of `Correlate` -/

/-- Entry `i` of the full-mode output of `Correlate` is the sum of `a[i − j]·v[j]` over the
`j < m` with `0 ≤ i − j < n`, which is the sum over all `j ≤ i` when the entries outside
the sequences are read as `0`. -/
theorem Correlate_full_entries (a v : List ℚ) (hn : 3 ≤ a.length) (hm : 3 ≤ v.length) :
    Correlate a v FULL_MODE
      = some (some ((List.range (a.length + v.length - 1)).map fun (i : ℕ) =>
          ∑ j ∈ (Finset.range v.length).filter (fun j => j ≤ i ∧ i - j < a.length),
            a.getD (i - j) 0 * v.getD j 0), none) ∧
    ∀ i : ℕ,
      (∑ j ∈ (Finset.range v.length).filter (fun j => j ≤ i ∧ i - j < a.length),
          a.getD (i - j) 0 * v.getD j 0)
        = ∑ j ∈ Finset.range (i + 1), a.getD (i - j) 0 * v.getD j 0 := by
  have e1 : ¬ ((a.length : ℤ) ≤ 2 ∨ (v.length : ℤ) ≤ 2) := by omega
  have e2 : ¬ ((a.length : ℤ) + (v.length : ℤ) - 1 < 0) := by omega
  have hfold : ∀ (c : ℕ → Prop) [DecidablePred c] (f : ℕ → ℚ) (k : ℕ),
      (List.range k).foldl (fun (sum : ℚ) (j : ℕ) => if c j then sum + f j else sum) 0
        = ∑ j ∈ (Finset.range k).filter c, f j := by
    intro c _ f k
    have e : (fun (sum : ℚ) (j : ℕ) => if c j then sum + f j else sum)
        = fun sum j => sum + (if c j then f j else 0) := by
      funext sum j
      split_ifs <;> simp
    rw [e, foldl_add_eq_sum, zero_add, Finset.sum_filter]
    induction k with
    | zero => simp
    | succ k ih => rw [List.range_succ, List.map_append, List.sum_append, ih,
        Finset.sum_range_succ]; simp
  constructor
  · unfold Correlate
    simp only [if_neg e1]
    simp only [FULL_MODE, VALID_MODE, SAME_MODE, ne_eq, not_true_eq_false, false_and,
      if_false, if_true, zero_ne_one, e2]
    have hk : ((a.length : ℤ) + (v.length : ℤ) - 1).toNat = a.length + v.length - 1 := by
      omega
    rw [hk]
    have hcast : ∀ l : List ℕ, ((do let a ← l; pure (a : ℤ)) : List ℤ)
        = l.map fun (i : ℕ) => (i : ℤ) := by
      intro l
      induction l with
      | nil => rfl
      | cons x t ih =>
        rw [List.map_cons, ← ih]
        rfl
    rw [hcast, List.map_map]
    simp only [show ¬ ((0 : ℕ) = 2) by decide, if_false]
    congr 3
    apply List.map_congr_left
    intro i _
    simp only [Function.comp]
    rw [← hfold]
    congr 1
    funext sum j
    have hc : (0 ≤ ((i : ℕ) : ℤ) + 0 - (j : ℤ) ∧ ((i : ℕ) : ℤ) + 0 - (j : ℤ) < (a.length : ℤ))
        ↔ (j ≤ i ∧ i - j < a.length) := by omega
    have ht : (((i : ℕ) : ℤ) + 0 - (j : ℤ)).toNat = i - j := by omega
    simp only [hc, ht]
  · intro i
    apply Finset.sum_subset
    · intro j hj
      rw [Finset.mem_filter] at hj
      rw [Finset.mem_range]
      omega
    · intro j hj hnj
      rw [Finset.mem_range] at hj
      rw [Finset.mem_filter, Finset.mem_range] at hnj
      by_cases hjm : j < v.length
      · have : a.length ≤ i - j := by
          by_contra hcon
          exact hnj ⟨hjm, by omega, by omega⟩
        rw [List.getD_eq_default _ _ this, zero_mul]
      · rw [List.getD_eq_default v _ (by omega), mul_zero]

/-- C40: for sequences `a` and `v` of lengths `n ≥ 3` and `m ≥ 3`, `Correlate(a, v, full)`
returns `n + m − 1` entries, entry `i` being the sum of `a[i − j]·v[j]` over the indices
with `0 ≤ j < m` and `0 ≤ i − j < n`, and `Correlate(a, v, full) = Correlate(v, a, full)`. -/
theorem C40_full_mode_symmetric (a v : List ℚ) (hn : 3 ≤ a.length) (hm : 3 ≤ v.length) :
    (∃ out : List ℚ, Correlate a v FULL_MODE = some (some out, none) ∧
      out.length = a.length + v.length - 1 ∧
      ∀ i : ℕ, i < a.length + v.length - 1 →
        out[i]? = some (∑ j ∈ (Finset.range v.length).filter
          (fun j => j ≤ i ∧ i - j < a.length), a.getD (i - j) 0 * v.getD j 0)) ∧
    Correlate a v FULL_MODE = Correlate v a FULL_MODE := by
  obtain ⟨h1, h2⟩ := Correlate_full_entries a v hn hm
  obtain ⟨h3, h4⟩ := Correlate_full_entries v a hm hn
  constructor
  · refine ⟨_, h1, by simp, ?_⟩
    intro i hi
    rw [List.getElem?_map, List.getElem?_range hi]
    rfl
  · rw [h1, h3, add_comm v.length a.length]
    congr 3
    apply List.map_congr_left
    intro i _
    rw [h2, h4, ← Finset.sum_range_reflect]
    apply Finset.sum_congr rfl
    intro j hj
    rw [Finset.mem_range] at hj
    rw [show i - (i + 1 - 1 - j) = j by omega, show i + 1 - 1 - j = i - j by omega, mul_comm]

/-- Instance of C40 on `a = [1, 2, 3, 4]`, `v = [1, 0, 2]`. -/
theorem C40_full_mode_symmetric_witness :
    Correlate [1, 2, 3, 4] [1, 0, 2] FULL_MODE = Correlate [1, 0, 2] [1, 2, 3, 4] FULL_MODE :=
  (C40_full_mode_symmetric [1, 2, 3, 4] [1, 0, 2] (by decide) (by decide)).2

end Method
